import Mathlib

/-! PWCoCo conditional-analysis engine (`conditional.cpp`)

A shallow embedding of `cond_analysis` and of the parts of `reference` and
`phenotype` that it reads.

Modelling conventions.

* A C++ `double` is an exact rational.  Rounding, NaN, signed zero and
  infinities are not represented; the single place where the program relies on
  an IEEE infinity (the condition-number guard dividing by a zero pivot) is
  modelled explicitly in `condGuard`.
* `std::vector` is a `List` read with `getD`; an Eigen sparse matrix is its
  dimensions together with its coefficient function (`coeff` of an entry that
  was never inserted is `0`, as in Eigen).
* Library routines that are not part of `conditional.cpp` (`sqrt`, `pchisq`,
  `isFloatEqual`, `v_calc_median`, Eigen's `SimplicialLDLT`) are fields of
  `Numerics`.
* `ShowError` aborts the analysis: a function that may call it returns `Except`.
-/

namespace PWCoCo

/-! ## Matrices and vectors -/

/-- Dense matrix in row-major order (the result of an Eigen solve). -/
abbrev Dense := List (List ℚ)

/-- Entry `(i, j)` of a dense matrix. -/
def Dense.coeff (M : Dense) (i j : Nat) : ℚ := (M.getD i []).getD j 0

/-- Eigen `SparseMatrix<double>`: dimensions and coefficient function. -/
structure SpMat where
  rows : Nat
  cols : Nat
  coeff : Nat → Nat → ℚ

namespace SpMat

/-- Default-constructed sparse matrix (`0 × 0`). -/
def empty : SpMat := ⟨0, 0, fun _ _ => 0⟩

/-- `M.resize(r, c)`: an `r × c` matrix with no stored entry. -/
def resize (r c : Nat) : SpMat := ⟨r, c, fun _ _ => 0⟩

/-- `M.insertBack(i, j) = v`. -/
def insertBack (M : SpMat) (i j : Nat) (v : ℚ) : SpMat :=
  { M with coeff := fun a b => if a = i ∧ b = j then v else M.coeff a b }

/-- The stored entries, as the dense table a factorisation reads. -/
def toDense (M : SpMat) : Dense :=
  (List.range M.rows).map fun i => (List.range M.cols).map fun j => M.coeff i j

/-- Same dimensions and the same entry at every position. -/
def same (A B : SpMat) : Prop :=
  A.rows = B.rows ∧ A.cols = B.cols ∧
    ∀ i j, i < A.rows → j < A.cols → A.coeff i j = B.coeff i j

end SpMat

/-- Eigen `VectorXd`: size and coefficient function. -/
structure EVec where
  size : Nat
  coeff : Nat → ℚ

namespace EVec

/-- Default-constructed vector. -/
def empty : EVec := ⟨0, fun _ => 0⟩

/-- `v.resize(n)`. -/
def resize (n : Nat) : EVec := ⟨n, fun _ => 0⟩

/-- `v[i] = x`. -/
def set (v : EVec) (i : Nat) (x : ℚ) : EVec :=
  { v with coeff := fun a => if a = i then x else v.coeff a }

/-- The entries as a list. -/
def toList (v : EVec) : List ℚ := (List.range v.size).map v.coeff

/-- Same size and the same entry at every position. -/
def same (u v : EVec) : Prop :=
  u.size = v.size ∧ ∀ i, i < u.size → u.coeff i = v.coeff i

end EVec

/-- `x.dot(y)`. -/
def dot (x y : List ℚ) : ℚ := (List.zipWith (fun a b => a * b) x y).sum

/-- `v.maxCoeff()` (on an empty vector the source asserts; the model gives 0). -/
def maxCoeff : List ℚ → ℚ
  | [] => 0
  | x :: xs => xs.foldl max x

/-- `v.minCoeff()`.  On an empty vector the source fails an Eigen assertion; the
model gives a negative value there, so that the test `minCoeff() < 0` with which
`init_b` and `insert_B_Z` open their rejection fails the call: `init_b` on an
empty selection does not succeed, and no caller goes on past it. -/
def minCoeff : List ℚ → ℚ
  | [] => -1
  | x :: xs => xs.foldl min x

/-! ## Library routines -/

/-- Routines called by `conditional.cpp` whose code is outside it. -/
structure Numerics where
  /-- `sqrt` of `<cmath>`. -/
  sqrt : ℚ → ℚ
  /-- `pchisq(x, df)` of `helper_funcs.h`: chi-square survival function. -/
  pchisq : ℚ → ℚ → ℚ
  /-- `isFloatEqual(lhs, rhs)` of `helper_funcs.h`. -/
  isFloatEqual : ℚ → ℚ → Bool
  /-- `v_calc_median` of `helper_funcs.h`. -/
  v_calc_median : List ℚ → ℚ
  /-- `SimplicialLDLT<eigenSparseMat>(M).vectorD()` as a function of the stored entries. -/
  ldlt_vectorD : Dense → List ℚ
  /-- `SimplicialLDLT<eigenSparseMat>(M).solve(Identity)` as a function of the stored entries. -/
  ldlt_solve : Dense → Dense

/-! ## Program state -/

/-- The fields of `reference` that `cond_analysis` reads or writes. -/
structure Reference where
  bim_snp_name : List String
  bim_chr : List Nat
  bim_bp : List Int
  bim_allele1 : List String
  bim_allele2 : List String
  ref_A : List String
  mu : List ℚ
  bed_snp_1 : List (List Bool)
  bed_snp_2 : List (List Bool)
  snp_map : List (String × Nat)
  to_include : List Nat
  fam_ids_inc : List Nat

/-- The fields of `phenotype` that `cond_analysis` reads. -/
structure Phenotype where
  snp_name : List String
  allele1 : List String
  allele2 : List String
  freq : List ℚ
  beta : List ℚ
  se : List ℚ
  pval : List ℚ
  n : List ℚ
  variance : ℚ

/-- The data members of `cond_analysis`. -/
structure CondAnalysis where
  a_p_cutoff : ℚ
  a_collinear : ℚ
  a_ld_window : ℚ
  a_top_snp : ℚ
  a_freq_threshold : ℚ
  to_include : List Nat
  fam_ids_inc : List Nat
  mu : List ℚ
  msx : List ℚ
  msx_b : List ℚ
  nD : List ℚ
  ja_snp_name : List String
  ja_freq : List ℚ
  ja_beta : List ℚ
  ja_beta_se : List ℚ
  ja_pval : List ℚ
  ja_chisq : List ℚ
  ja_N_outcome : List ℚ
  jma_Vp : ℚ
  jma_Ve : ℚ
  jma_snpnum_backward : Nat
  jma_snpnum_collinear : Nat
  B : SpMat
  B_N : SpMat
  Z : SpMat
  Z_N : SpMat
  B_i : Dense
  B_N_i : Dense
  D_N : EVec

/-! ## Genotype vectors and the LD-window gate -/

/-- `cond_analysis::makex_eigenVector(j, x, resize, ref)`: the vector written to `x`. -/
def makex_eigenVector (ca : CondAnalysis) (ref : Reference) (j : Nat) : List ℚ :=
  ca.fam_ids_inc.map fun k =>
    let t := ca.to_include.getD j 0
    let b1 := (ref.bed_snp_1.getD t []).getD k false
    let b2 := (ref.bed_snp_2.getD t []).getD k false
    let x : ℚ :=
      if !b1 || b2 then
        let snp1 : ℚ := if b1 then 1 else 0
        let snp2 : ℚ := if b2 then 1 else 0
        if ref.bim_allele1.getD t "" == ref.ref_A.getD t "" then snp1 + snp2
        else 2 - (snp1 + snp2)
      else ca.mu.getD t 0
    x - ca.mu.getD t 0

/-- The test `bim_chr[to_include[a]] == bim_chr[to_include[b]] &&
abs(bim_bp[to_include[a]] - bim_bp[to_include[b]]) < a_ld_window`. -/
def ldGate (ca : CondAnalysis) (ref : Reference) (a b : Nat) : Bool :=
  (ref.bim_chr.getD (ca.to_include.getD a 0) 0 == ref.bim_chr.getD (ca.to_include.getD b 0) 0)
    && decide ((((ref.bim_bp.getD (ca.to_include.getD a 0) 0
          - ref.bim_bp.getD (ca.to_include.getD b 0) 0).natAbs : ℤ) : ℚ) < ca.a_ld_window)

/-- The value `d_temp = x_a.dot(x_b) / (double)n` for harmonised SNPs `a`, `b`. -/
def xdot (ca : CondAnalysis) (ref : Reference) (a b : Nat) : ℚ :=
  dot (makex_eigenVector ca ref a) (makex_eigenVector ca ref b) / (ca.fam_ids_inc.length : ℚ)

/-- The factor `min(nD[a], nD[b]) * sqrt(msx[a] * msx[b] / (msx_b[a] * msx_b[b]))`. -/
def nFactor (nm : Numerics) (ca : CondAnalysis) (a b : Nat) : ℚ :=
  min (ca.nD.getD a 0) (ca.nD.getD b 0)
    * nm.sqrt (ca.msx.getD a 0 * ca.msx.getD b 0 / (ca.msx_b.getD a 0 * ca.msx_b.getD b 0))

/-- The test `sqrt(maxD / minD) > 30` on the pivots of a factorisation.  A zero
`minD` divides by zero: in IEEE arithmetic a positive `maxD` gives `+inf`, whose
square root exceeds 30, and `0 / 0` is NaN, for which the comparison is false. -/
def condGuard (nm : Numerics) (maxD minD : ℚ) : Bool :=
  if minD = 0 then decide (0 < maxD) else decide (30 < nm.sqrt (maxD / minD))

/-- The vector `1 - 1 / (diagB * B_i.diagonal())` over `size` entries. -/
def collinVec (diagB : Nat → ℚ) (B_i : Dense) (size : Nat) : List ℚ :=
  (List.range size).map fun j => 1 - 1 / (diagB j * B_i.coeff j j)

/-! ## Building the moment matrices from scratch -/

/-- Loop state of the matrix-filling loops. -/
structure BLoop where
  B : SpMat
  B_N : SpMat
  D_N : EVec
  diagB : Nat → ℚ
  get_ins_col : Bool
  get_ins_row : Bool

/-- Body of the inner loop of `init_b` (`for (j = i + 1; j < i_size; j++)`). -/
def init_b_inner (nm : Numerics) (ca : CondAnalysis) (ref : Reference) (idx : List Nat)
    (i : Nat) (s : BLoop) (j : Nat) : BLoop :=
  if ldGate ca ref (idx.getD i 0) (idx.getD j 0) then
    let d_temp := xdot ca ref (idx.getD i 0) (idx.getD j 0)
    { s with
      B := s.B.insertBack j i d_temp
      B_N := s.B_N.insertBack j i (d_temp * nFactor nm ca (idx.getD i 0) (idx.getD j 0)) }
  else s

/-- Body of the outer loop of `init_b` (`for (i = 0; i < i_size; i++)`). -/
def init_b_outer (nm : Numerics) (ca : CondAnalysis) (ref : Reference) (idx : List Nat)
    (s : BLoop) (i : Nat) : BLoop :=
  let D_N := s.D_N.set i (ca.msx.getD (idx.getD i 0) 0 * ca.nD.getD (idx.getD i 0) 0)
  let s1 : BLoop :=
    { s with
      D_N := D_N
      B := s.B.insertBack i i (ca.msx_b.getD (idx.getD i 0) 0)
      B_N := s.B_N.insertBack i i (D_N.coeff i)
      diagB := fun a => if a = i then ca.msx_b.getD (idx.getD i 0) 0 else s.diagB a }
  (List.range' (i + 1) (idx.length - (i + 1))).foldl (init_b_inner nm ca ref idx i) s1

/-- The loops of `init_b`, up to `B.finalize(); B_N.finalize();`. -/
def init_b_loops (nm : Numerics) (ca : CondAnalysis) (ref : Reference) (idx : List Nat) : BLoop :=
  (List.range idx.length).foldl (init_b_outer nm ca ref idx)
    { B := SpMat.resize idx.length idx.length
      B_N := SpMat.resize idx.length idx.length
      D_N := EVec.resize idx.length
      diagB := fun _ => 0
      get_ins_col := false
      get_ins_row := false }

/-- `cond_analysis::init_b(idx, ref)`: the returned flag and the state it leaves. -/
def init_b (nm : Numerics) (ca : CondAnalysis) (ref : Reference) (idx : List Nat) :
    Bool × CondAnalysis :=
  let s := init_b_loops nm ca ref idx
  let ca1 := { ca with B := s.B, B_N := s.B_N, D_N := s.D_N }
  let D := nm.ldlt_vectorD s.B.toDense
  if minCoeff D < 0 || condGuard nm (maxCoeff D) (minCoeff D) then (false, ca1)
  else
    let B_i := nm.ldlt_solve s.B.toDense
    let ca2 := { ca1 with B_i := B_i }
    if ca.a_collinear < maxCoeff (collinVec s.diagB B_i idx.length) then (false, ca2)
    else (true, { ca2 with B_N_i := nm.ldlt_solve s.B_N.toDense })

/-- Loop state of the loops filling `Z` and `Z_N`. -/
structure ZLoop where
  Z : SpMat
  Z_N : SpMat
  get_ins_row : Bool

/-- Body of the inner loop of `init_z` (`for (i = 0; i < i_size; i++)`). -/
def init_z_inner (nm : Numerics) (ca : CondAnalysis) (ref : Reference) (idx : List Nat)
    (j : Nat) (s : ZLoop) (i : Nat) : ZLoop :=
  if idx.getD i 0 != j && ldGate ca ref (idx.getD i 0) j then
    let d_temp := xdot ca ref j (idx.getD i 0)
    { s with
      Z := s.Z.insertBack i j d_temp
      Z_N := s.Z_N.insertBack i j (d_temp * nFactor nm ca (idx.getD i 0) j) }
  else s

/-- Body of the outer loop of `init_z` (`for (j = 0; j < m; j++)`). -/
def init_z_outer (nm : Numerics) (ca : CondAnalysis) (ref : Reference) (idx : List Nat)
    (s : ZLoop) (j : Nat) : ZLoop :=
  (List.range idx.length).foldl (init_z_inner nm ca ref idx j) s

/-- `cond_analysis::init_z(idx, ref)`. -/
def init_z (nm : Numerics) (ca : CondAnalysis) (ref : Reference) (idx : List Nat) : CondAnalysis :=
  let m := ca.to_include.length
  let s := (List.range m).foldl (init_z_outer nm ca ref idx)
    { Z := SpMat.resize idx.length m, Z_N := SpMat.resize idx.length m, get_ins_row := false }
  { ca with Z := s.Z, Z_N := s.Z_N }

/-! ## Incremental insertion -/

/-- Body of the inner loop of the `B` part of `insert_B_Z`
(`for (i = j + 1; i < ix.size(); i++)`). -/
def insert_B_inner (nm : Numerics) (ca : CondAnalysis) (ref : Reference) (ix : List Nat)
    (pos : Nat) (B_temp B_N_temp : SpMat) (j : Nat) (s : BLoop) (i : Nat) : BLoop :=
  let s := if pos == ix.getD i 0 then { s with get_ins_row := true } else s
  if pos == ix.getD j 0 || pos == ix.getD i 0 then
    if ldGate ca ref (ix.getD i 0) (ix.getD j 0) then
      let d_temp := xdot ca ref (ix.getD i 0) (ix.getD j 0)
      { s with
        B := s.B.insertBack i j d_temp
        B_N := s.B_N.insertBack i j (d_temp * nFactor nm ca (ix.getD i 0) (ix.getD j 0)) }
    else s
  else
    let ins_row_val := if s.get_ins_row then 1 else 0
    let ins_col_val := if s.get_ins_col then 1 else 0
    if B_temp.coeff (i - ins_row_val) (j - ins_col_val) ≠ 0 then
      { s with
        B := s.B.insertBack i j (B_temp.coeff (i - ins_row_val) (j - ins_col_val))
        B_N := s.B_N.insertBack i j (B_N_temp.coeff (i - ins_row_val) (j - ins_col_val)) }
    else s

/-- Body of the outer loop of the `B` part of `insert_B_Z`
(`for (j = 0; j < ix.size(); j++)`). -/
def insert_B_outer (nm : Numerics) (ca : CondAnalysis) (ref : Reference) (ix : List Nat)
    (pos : Nat) (B_temp B_N_temp : SpMat) (s : BLoop) (j : Nat) : BLoop :=
  let s1 : BLoop :=
    { s with
      B := s.B.insertBack j j (ca.msx_b.getD (ix.getD j 0) 0)
      B_N := s.B_N.insertBack j j (ca.msx.getD (ix.getD j 0) 0 * ca.nD.getD (ix.getD j 0) 0)
      diagB := fun a => if a = j then ca.msx_b.getD (ix.getD j 0) 0 else s.diagB a }
  let s2 := if pos == ix.getD j 0 then { s1 with get_ins_col := true } else s1
  let s3 := { s2 with get_ins_row := s2.get_ins_col }
  (List.range' (j + 1) (ix.length - (j + 1))).foldl
    (insert_B_inner nm ca ref ix pos B_temp B_N_temp j) s3

/-- The `B` loops of `insert_B_Z`, up to `B.finalize(); B_N.finalize();`. -/
def insert_B_loops (nm : Numerics) (ca : CondAnalysis) (ref : Reference) (ix : List Nat)
    (pos : Nat) : BLoop :=
  (List.range ix.length).foldl (insert_B_outer nm ca ref ix pos ca.B ca.B_N)
    { B := SpMat.resize ix.length ix.length
      B_N := SpMat.resize ix.length ix.length
      D_N := ca.D_N
      diagB := fun _ => 0
      get_ins_col := false
      get_ins_row := false }

/-- Body of the inner loop of the `Z` part of `insert_B_Z`
(`for (i = 0; i < ix.size(); i++)`). -/
def insert_Z_inner (nm : Numerics) (ca : CondAnalysis) (ref : Reference) (ix : List Nat)
    (pos : Nat) (Z_temp Z_N_temp : SpMat) (j : Nat) (s : ZLoop) (i : Nat) : ZLoop :=
  if pos == ix.getD i 0 then
    let s1 :=
      if ix.getD i 0 != j && ldGate ca ref (ix.getD i 0) j then
        let d_temp := xdot ca ref j (ix.getD i 0)
        { s with
          Z := s.Z.insertBack i j d_temp
          Z_N := s.Z_N.insertBack i j (d_temp * nFactor nm ca (ix.getD i 0) j) }
      else s
    { s1 with get_ins_row := true }
  else
    let ins_row_val := if s.get_ins_row then 1 else 0
    if Z_temp.coeff (i - ins_row_val) j ≠ 0 then
      { s with
        Z := s.Z.insertBack i j (Z_temp.coeff (i - ins_row_val) j)
        Z_N := s.Z_N.insertBack i j (Z_N_temp.coeff (i - ins_row_val) j) }
    else s

/-- Body of the outer loop of the `Z` part of `insert_B_Z` (`for (j = 0; j < m; j++)`). -/
def insert_Z_outer (nm : Numerics) (ca : CondAnalysis) (ref : Reference) (ix : List Nat)
    (pos : Nat) (Z_temp Z_N_temp : SpMat) (s : ZLoop) (j : Nat) : ZLoop :=
  (List.range ix.length).foldl (insert_Z_inner nm ca ref ix pos Z_temp Z_N_temp j)
    { s with get_ins_row := false }

/-- The `Z` loops of `insert_B_Z`. -/
def insert_Z_loops (nm : Numerics) (ca : CondAnalysis) (ref : Reference) (ix : List Nat)
    (pos : Nat) : ZLoop :=
  let m := ca.to_include.length
  (List.range m).foldl (insert_Z_outer nm ca ref ix pos ca.Z ca.Z_N)
    { Z := SpMat.resize ix.length m, Z_N := SpMat.resize ix.length m, get_ins_row := false }

/-- The sorted index list `ix` of `insert_B_Z` (`push_back(pos)` then `stable_sort`). -/
def insert_ix (idx : List Nat) (pos : Nat) : List Nat :=
  (idx ++ [pos]).insertionSort (fun a b => a ≤ b)

/-- The rejection test of `insert_B_Z` on the pivots `D`, the diagonal `diagB`
and the inverse `B_i` of the new `B`. -/
def insert_rejects (nm : Numerics) (ca : CondAnalysis) (D : List ℚ) (diagB : Nat → ℚ)
    (B_i : Dense) (size : Nat) : Bool :=
  minCoeff D < 0 || condGuard nm (maxCoeff D) (minCoeff D)
    || ca.a_collinear < maxCoeff (collinVec diagB B_i size)

/-- `cond_analysis::insert_B_Z(idx, pos, ref)`: the returned flag and the state it leaves. -/
def insert_B_Z (nm : Numerics) (ca : CondAnalysis) (ref : Reference) (idx : List Nat)
    (pos : Nat) : Bool × CondAnalysis :=
  let ix := insert_ix idx pos
  let s := insert_B_loops nm ca ref ix pos
  let B_i := nm.ldlt_solve s.B.toDense
  if insert_rejects nm ca (nm.ldlt_vectorD s.B.toDense) s.diagB B_i ix.length then
    (false, { ca with
      jma_snpnum_collinear := ca.jma_snpnum_collinear + 1
      B := ca.B
      B_N := ca.B_N
      B_i := B_i })
  else
    let B_N_i := nm.ldlt_solve s.B_N.toDense
    let D_N := (List.range ix.length).foldl
      (fun (v : EVec) j => v.set j (ca.msx.getD (ix.getD j 0) 0 * ca.nD.getD (ix.getD j 0) 0))
      (EVec.resize ix.length)
    let ca1 := { ca with B := s.B, B_N := s.B_N, B_i := B_i, B_N_i := B_N_i, D_N := D_N }
    if ca.Z_N.cols < 1 then (true, ca1)
    else
      let z := insert_Z_loops nm ca ref ix pos
      (true, { ca1 with Z := z.Z, Z_N := z.Z_N })

/-! ## Incremental removal -/

/-- Body of the inner loop of the `B` part of `erase_B_and_Z`
(`for (i = j; i < i_size; i++)`). -/
def erase_B_inner (idx : List Nat) (erase : Nat) (B_dense B_N_dense : SpMat) (j : Nat)
    (s : BLoop) (i : Nat) : BLoop :=
  if erase == idx.getD i 0 then { s with get_ins_row := true }
  else if B_dense.coeff i j ≠ 0 then
    let ins_row_val := if s.get_ins_row then 1 else 0
    let ins_col_val := if s.get_ins_col then 1 else 0
    { s with
      B := s.B.insertBack (i - ins_row_val) (j - ins_col_val) (B_dense.coeff i j)
      B_N := s.B_N.insertBack (i - ins_row_val) (j - ins_col_val) (B_N_dense.coeff i j) }
  else s

/-- Body of the outer loop of the `B` part of `erase_B_and_Z`
(`for (j = 0; j < i_size; j++)`). -/
def erase_B_outer (ca : CondAnalysis) (idx : List Nat) (erase : Nat)
    (B_dense B_N_dense : SpMat) (s : BLoop) (j : Nat) : BLoop :=
  if erase == idx.getD j 0 then { s with get_ins_col := true }
  else
    let s1 : BLoop :=
      { s with
        D_N := s.D_N.set (j - (if s.get_ins_col then 1 else 0))
          (ca.msx.getD (idx.getD j 0) 0 * ca.nD.getD (idx.getD j 0) 0)
        get_ins_row := s.get_ins_col }
    (List.range' j (idx.length - j)).foldl (erase_B_inner idx erase B_dense B_N_dense j) s1

/-- The `B` loops of `erase_B_and_Z`, up to `B.finalize(); B_N.finalize();`. -/
def erase_B_loops (ca : CondAnalysis) (idx : List Nat) (erase : Nat) : BLoop :=
  (List.range idx.length).foldl (erase_B_outer ca idx erase ca.B ca.B_N)
    { B := SpMat.resize (idx.length - 1) (idx.length - 1)
      B_N := SpMat.resize (idx.length - 1) (idx.length - 1)
      D_N := EVec.resize (idx.length - 1)
      diagB := fun _ => 0
      get_ins_col := false
      get_ins_row := false }

/-- Body of the inner loop of the `Z` part of `erase_B_and_Z`
(`for (i = 0; i < i_size; i++)`). -/
def erase_Z_inner (idx : List Nat) (erase : Nat) (Z_temp Z_N_temp : SpMat) (j : Nat)
    (s : ZLoop) (i : Nat) : ZLoop :=
  if erase == idx.getD i 0 then { s with get_ins_row := true }
  else if Z_temp.coeff i j ≠ 0 then
    let ins_row_val := if s.get_ins_row then 1 else 0
    { s with
      Z := s.Z.insertBack (i - ins_row_val) j (Z_temp.coeff i j)
      Z_N := s.Z_N.insertBack (i - ins_row_val) j (Z_N_temp.coeff i j) }
  else s

/-- Body of the outer loop of the `Z` part of `erase_B_and_Z` (`for (j = 0; j < m; j++)`). -/
def erase_Z_outer (idx : List Nat) (erase : Nat) (Z_temp Z_N_temp : SpMat)
    (s : ZLoop) (j : Nat) : ZLoop :=
  (List.range idx.length).foldl (erase_Z_inner idx erase Z_temp Z_N_temp j)
    { s with get_ins_row := false }

/-- The `Z` loops of `erase_B_and_Z`. -/
def erase_Z_loops (ca : CondAnalysis) (idx : List Nat) (erase : Nat) : ZLoop :=
  let m := ca.to_include.length
  (List.range m).foldl (erase_Z_outer idx erase ca.Z ca.Z_N)
    { Z := SpMat.resize (idx.length - 1) m
      Z_N := SpMat.resize (idx.length - 1) m
      get_ins_row := false }

/-- `cond_analysis::erase_B_and_Z(idx, erase)`. -/
def erase_B_and_Z (nm : Numerics) (ca : CondAnalysis) (idx : List Nat) (erase : Nat) :
    CondAnalysis :=
  let s := erase_B_loops ca idx erase
  let ca1 := { ca with B := s.B, B_N := s.B_N, D_N := s.D_N }
  if ca.Z_N.cols < 1 then ca1
  else
    let z := erase_Z_loops ca idx erase
    { ca1 with
      B_i := nm.ldlt_solve s.B.toDense
      B_N_i := nm.ldlt_solve s.B_N.toDense
      Z := z.Z
      Z_N := z.Z_N }

/-! ## Joint and conditional estimators -/

/-- The three output vectors of `massoc_joint` and `massoc_conditional`. -/
structure Assoc where
  b : List ℚ
  se : List ℚ
  p : List ℚ

/-- The vector `b` of marginal effects of the selected SNPs (`b[i] = ja_beta[selected[i]]`). -/
def selected_beta (ca : CondAnalysis) (selected : List Nat) : Nat → ℚ :=
  fun k => ca.ja_beta.getD (selected.getD k 0) 0

/-- Row vector times matrix, `v.transpose() * M`, over `n` rows and columns. -/
def rowTimes (v : Nat → ℚ) (M : Dense) (n : Nat) : Nat → ℚ :=
  fun l => ((List.range n).map fun k => v k * M.coeff k l).sum

/-- Entry `k` of `B_N_i * D_N.asDiagonal() * b`. -/
def jointEffect (ca : CondAnalysis) (selected : List Nat) (k : Nat) : ℚ :=
  ((List.range selected.length).map fun l =>
    ca.B_N_i.coeff k l * ca.D_N.coeff l * selected_beta ca selected l).sum

/-- The lazy initialisation `if (B_N.cols() < 1) { if (!init_b(idx, ref)) ShowError(..) }`. -/
def ensure_b (nm : Numerics) (ca : CondAnalysis) (ref : Reference) (idx : List Nat)
    (msg : String) : Except String CondAnalysis :=
  if ca.B_N.cols < 1 then
    match init_b nm ca ref idx with
    | (true, ca1) => .ok ca1
    | (false, _) => .error msg
  else .ok ca

/-- The test `stat / msx_b[j] < a_collinear` of `massoc_conditional`, as it
comes out on doubles.  A zero `msx_b[j]` divides by zero: `0 / 0` is NaN and a
positive `stat` gives `+inf`, for both of which the comparison is false; a
negative `stat` gives `-inf`, which is below the threshold. -/
def collinPass (stat d c : ℚ) : Bool :=
  if d = 0 then decide (stat < 0) else decide (stat / d < c)

/-- First half of iteration `i` of the loop of `massoc_conditional`, for
`j = remain[i]`: the values of `bC[i]` and `bC_se[i]` before `bC_se[i] *= jma_Ve`. -/
def massoc_conditional_raw (nm : Numerics) (ca : CondAnalysis) (selected : List Nat)
    (j : Nat) : ℚ × ℚ :=
  let n := selected.length
  let B2 := ca.msx.getD j 0 * ca.nD.getD j 0
  if !nm.isFloatEqual B2 0 then
    let Z_Bi := rowTimes (fun k => ca.Z_N.coeff k j) ca.B_N_i n
    let Z_Bi_temp := rowTimes (fun k => ca.Z.coeff k j) ca.B_i n
    if collinPass ((List.range n).map fun k => ca.Z.coeff k j * Z_Bi_temp k).sum
        (ca.msx_b.getD j 0) ca.a_collinear then
      (ca.ja_beta.getD j 0
          - ((List.range n).map fun k =>
              Z_Bi k * ca.D_N.coeff k * selected_beta ca selected k).sum / B2,
        1 / B2)
    else (0, 0)
  else (0, 0)

/-- One iteration `i` of the loop of `massoc_conditional`, for `j = remain[i]`:
the values left in `bC[i]`, `bC_se[i]`, `pC[i]`. -/
def massoc_conditional_entry (nm : Numerics) (ca : CondAnalysis) (selected : List Nat)
    (j : Nat) : ℚ × ℚ × ℚ :=
  let bc0 := massoc_conditional_raw nm ca selected j
  let se1 := bc0.2 * ca.jma_Ve
  if 1 / 10 ^ 10 * ca.jma_Vp < se1 then
    let se2 := nm.sqrt se1
    let chisq := bc0.1 / se2
    (bc0.1, se2, nm.pchisq (chisq * chisq) 1)
  else (bc0.1, se1, 2)

/-- `cond_analysis::massoc_conditional(selected, remain, bC, bC_se, pC, ref)`. -/
def massoc_conditional (nm : Numerics) (ca : CondAnalysis) (ref : Reference)
    (selected remain : List Nat) : Except String (CondAnalysis × Assoc) :=
  match ensure_b nm ca ref selected
      "Conditional Error: There is a collinearity problem with the SNPs given." with
  | .error e => .error e
  | .ok ca1 =>
    let ca2 := if ca1.Z_N.cols < 1 then init_z nm ca1 ref selected else ca1
    let out := remain.map (massoc_conditional_entry nm ca2 selected)
    .ok (ca2, { b := out.map fun t => t.1, se := out.map fun t => t.2.1, p := out.map fun t => t.2.2 })

/-- One iteration `i` of the loop of `massoc_joint`: the values left in
`bJ[i]`, `bJ_se[i]`, `pJ[i]`. -/
def massoc_joint_entry (nm : Numerics) (ca : CondAnalysis) (idx : List Nat) (i : Nat) :
    ℚ × ℚ × ℚ :=
  let bJ := jointEffect ca idx i
  let v := ca.B_N_i.coeff i i * ca.jma_Ve
  if 1 / 10 ^ 30 < v then
    let se := nm.sqrt v
    let chisq := bJ / se
    (bJ, se, nm.pchisq (chisq * chisq) 1)
  else (0, 0, 1)

/-- `cond_analysis::massoc_joint(idx, bJ, bJ_se, pJ, ref)`. -/
def massoc_joint (nm : Numerics) (ca : CondAnalysis) (ref : Reference) (idx : List Nat) :
    Except String (CondAnalysis × Assoc) :=
  match ensure_b nm ca ref idx
      "massoc_joint: There is a collinearity problem with the given list of SNPs." with
  | .error e => .error e
  | .ok ca1 =>
    let out := (List.range idx.length).map (massoc_joint_entry nm ca1 idx)
    .ok (ca1, { b := out.map fun t => t.1, se := out.map fun t => t.2.1, p := out.map fun t => t.2.2 })

/-! ## Harmoniser -/

/-- Modelled from the spec: `reference::includes_clear()` is declared outside
`conditional.cpp`; it empties the inclusion set of the reference. -/
def includes_clear (ref : Reference) : Reference :=
  { ref with to_include := [] }

/-- Modelled from the spec: `reference::update_inclusion(idx, snps)` is declared
outside `conditional.cpp`; the inclusion set `to_include` becomes the indices
into the reference SNPs, in reference order, of the SNPs named in `snps`. -/
def update_inclusion (ref : Reference) (_idx : List Nat) (snps : List String) : Reference :=
  { ref with
    to_include := (List.range ref.bim_snp_name.length).filter fun r =>
      snps.any fun name => ref.snp_map.lookup name == some r }

/-- `std::map::insert`: the pair is added unless the key is already present. -/
def map_insert (m : List (String × Nat)) (k : String) (v : Nat) : List (String × Nat) :=
  if (m.lookup k).isSome then m else m ++ [(k, v)]

/-- Loop state of the first loop of `match_gwas_phenotype`. -/
structure MatchLoop1 where
  pheno_idx : List Nat
  id_map : List (String × Nat)
  snps : List String
  idx : List Nat

/-- Body of the first loop of `match_gwas_phenotype` (over the phenotype SNPs). -/
def match_loop1 (pheno : Phenotype) (ref : Reference) (s : MatchLoop1) (i : Nat) : MatchLoop1 :=
  match ref.snp_map.lookup (pheno.snp_name.getD i "") with
  | none => s
  | some r =>
    if pheno.allele1.getD i "" != ref.bim_allele1.getD r ""
        && pheno.allele1.getD i "" != ref.bim_allele2.getD r "" then s
    else
      { pheno_idx := s.pheno_idx ++ [i]
        id_map := map_insert s.id_map (pheno.snp_name.getD i "") i
        snps := s.snps ++ [pheno.snp_name.getD i ""]
        idx := s.idx ++ [r] }

/-- Loop state of the second loop of `match_gwas_phenotype`. -/
structure MatchLoop2 where
  ref_A : List String
  mu : List ℚ
  snps : List String
  idx : List Nat
  unmatched : Nat

/-- Body of the second loop of `match_gwas_phenotype`, for `r = ref->to_include[i]`. -/
def match_loop2 (ca : CondAnalysis) (pheno : Phenotype) (ref : Reference)
    (id_map : List (String × Nat)) (s : MatchLoop2) (r : Nat) : MatchLoop2 :=
  match id_map.lookup (ref.bim_snp_name.getD r "") with
  | none => s
  | some k =>
    let ref_A := s.ref_A.set r (pheno.allele1.getD k "")
    let mu :=
      if !ref.mu.isEmpty && pheno.allele1.getD k "" == ref.bim_allele2.getD r "" then
        s.mu.set r (2 - ref.mu.getD r 0)
      else s.mu.set r (ref.mu.getD r 0)
    let cur_freq := mu.getD r 0 / 2
    let freq_diff := |cur_freq - pheno.freq.getD k 0|
    if freq_diff < ca.a_freq_threshold then
      { ref_A := ref_A, mu := mu, snps := s.snps ++ [ref.bim_snp_name.getD r ""]
        idx := s.idx ++ [k], unmatched := s.unmatched }
    else
      { ref_A := ref_A, mu := mu, snps := s.snps, idx := s.idx, unmatched := s.unmatched + 1 }

/-- What `match_gwas_phenotype` leaves behind. -/
structure MatchResult where
  ca : CondAnalysis
  ref : Reference
  /-- The vector `idx` after the second loop: phenotype positions of the kept SNPs. -/
  idx : List Nat
  /-- The vector `snps` after the second loop: names of the kept SNPs. -/
  snps : List String
  /-- The counter `unmatched`. -/
  unmatched : Nat

/-- `cond_analysis::match_gwas_phenotype(pheno, ref)`, up to the final check for
an empty inclusion list and the filling of the `ja_*` vectors. -/
def match_alleles (ca : CondAnalysis) (pheno : Phenotype) (ref : Reference) : MatchResult :=
  let ref0 := includes_clear ref
  let l1 := (List.range pheno.snp_name.length).foldl (match_loop1 pheno ref0)
    { pheno_idx := [], id_map := [], snps := [], idx := [] }
  let ref1 := update_inclusion ref0 l1.idx l1.snps
  let l2 := ref1.to_include.foldl (match_loop2 ca pheno ref1 l1.id_map)
    { ref_A := ref1.ref_A, mu := ref1.mu, snps := [], idx := [], unmatched := 0 }
  let ref2 := update_inclusion { ref1 with ref_A := l2.ref_A } l2.idx l2.snps
  { ca := { ca with to_include := ref2.to_include, fam_ids_inc := ref2.fam_ids_inc, mu := l2.mu }
    ref := ref2
    idx := l2.idx
    snps := l2.snps
    unmatched := l2.unmatched }

/-- `cond_analysis::match_gwas_phenotype(pheno, ref)`. -/
def match_gwas_phenotype (nm : Numerics) (ca : CondAnalysis) (pheno : Phenotype)
    (ref : Reference) : Except String MatchResult :=
  let res := match_alleles ca pheno ref
  if res.ca.to_include.isEmpty then
    .error "Included list of SNPs is empty - could not match SNPs from phenotype file with reference SNPs."
  else
    let n := res.ca.to_include.length
    let ja_beta := (List.range n).map fun i => pheno.beta.getD (res.idx.getD i 0) 0
    let ja_beta_se := (List.range n).map fun i => pheno.se.getD (res.idx.getD i 0) 0
    let ja_chisq := (List.range n).map fun i =>
      (ja_beta.getD i 0 / ja_beta_se.getD i 0) * (ja_beta.getD i 0 / ja_beta_se.getD i 0)
    .ok { res with
      ca := { res.ca with
        ja_snp_name := (List.range n).map fun i => pheno.snp_name.getD (res.idx.getD i 0) ""
        ja_freq := (List.range n).map fun i => pheno.freq.getD (res.idx.getD i 0) 0
        ja_beta := ja_beta
        ja_beta_se := ja_beta_se
        ja_chisq := ja_chisq
        ja_pval := ja_chisq.map fun c => nm.pchisq c 1
        ja_N_outcome := (List.range n).map fun i => pheno.n.getD (res.idx.getD i 0) 0 } }

/-- The moment tables computed by `cond_analysis::init_conditional` after matching:
`jma_Vp = jma_Ve = pheno->get_variance()`, `msx_b`, `msx` and `nD`. -/
def init_moments (ca : CondAnalysis) (pheno : Phenotype) (ref : Reference) : CondAnalysis :=
  let n := ca.to_include.length
  let m := ca.fam_ids_inc.length
  let Vp := pheno.variance
  let msx_b := (List.range n).map fun i =>
    dot (makex_eigenVector ca ref i) (makex_eigenVector ca ref i) / (m : ℚ)
  let msx := ca.ja_freq.map fun f => 2 * f * (1 - f)
  let nD := (List.range n).map fun i =>
    (Vp - msx.getD i 0 * ca.ja_beta.getD i 0 * ca.ja_beta.getD i 0)
      / (msx.getD i 0 * ca.ja_beta_se.getD i 0 * ca.ja_beta_se.getD i 0) + 1
  { ca with jma_Vp := Vp, jma_Ve := Vp, msx_b := msx_b, msx := msx, nD := nD }

/-- `cond_analysis::init_conditional(pheno, ref)`. -/
def init_conditional (nm : Numerics) (ca : CondAnalysis) (pheno : Phenotype)
    (ref : Reference) : Except String MatchResult :=
  match match_gwas_phenotype nm ca pheno ref with
  | .error e => .error e
  | .ok res => .ok { res with ca := init_moments res.ca pheno res.ref }

/-! ## A worked instance

An exact instance of the library routines and a four-SNP, four-individual data
set on which the definitions above can be evaluated. -/

/-- The symmetric matrix whose lower triangle is stored in `M`. -/
def symLower (n : Nat) (M : Dense) : Dense :=
  (List.range n).map fun i => (List.range n).map fun j =>
    if j ≤ i then M.coeff i j else M.coeff j i

/-- Schur complement of the leading entry of a `(k + 1) × (k + 1)` matrix. -/
def schur (k : Nat) (A : Dense) : Dense :=
  (List.range k).map fun i => (List.range k).map fun j =>
    A.coeff (i + 1) (j + 1) - A.coeff (i + 1) 0 * A.coeff 0 (j + 1) / A.coeff 0 0

/-- Pivots of the `LDLᵀ` factorisation in the natural order. -/
def ldltPivots : Nat → Dense → List ℚ
  | 0, _ => []
  | k + 1, A => A.coeff 0 0 :: ldltPivots k (schur k A)

/-- Inverse of a symmetric matrix by block elimination on the leading entry. -/
def ldltInverse : Nat → Dense → Dense
  | 0, _ => []
  | k + 1, A =>
    let d := A.coeff 0 0
    let T := ldltInverse k (schur k A)
    let Tc : List ℚ := (List.range k).map fun i =>
      ((List.range k).map fun l => T.coeff i l * A.coeff (l + 1) 0).sum
    let cTc : ℚ := ((List.range k).map fun i => A.coeff (i + 1) 0 * Tc.getD i 0).sum
    ((1 / d + cTc / (d * d)) :: Tc.map fun x => -x / d)
      :: (List.range k).map fun i => (-(Tc.getD i 0) / d) :: T.getD i []

/-- Newton iteration for the integer square root, with `fuel` steps at most. -/
def isqrtAux : Nat → Nat → Nat → Nat
  | 0, _, g => g
  | fuel + 1, n, g =>
    let g1 := (g + n / g) / 2
    if g1 < g then isqrtAux fuel n g1 else g

/-- Square root rounded down to six decimal places (0 on negative numbers). -/
def sqrtFixed (x : ℚ) : ℚ :=
  let n := (x * 10 ^ 12).floor.toNat
  (if n = 0 then 0 else (isqrtAux 200 n n : ℚ)) / 10 ^ 6

/-- Median of a list: middle element of the sorted list, or mean of the two middle ones. -/
def medianSorted (l : List ℚ) : ℚ :=
  let b := l.insertionSort (fun a b => a ≤ b)
  if b.length % 2 = 1 then b.getD ((b.length - 1) / 2) 0
  else (b.getD (b.length / 2) 0 + b.getD (b.length / 2 - 1) 0) / 2

/-- An exact instance of the library routines: unpivoted `LDLᵀ` over the
rationals, square roots to six decimal places, and, in place of the chi-square
survival function, the reciprocal of `exp(x/2)` truncated to four terms.  That
value lies above the survival function `erfc(sqrt(x/2))` of one degree of
freedom (`3/379`, about `0.0079`, against `6.3e-5` at `x = 16`), so a p-value
that is below a cutoff here is below it in the program, while one that is above
a cutoff here need not be.  The runs on `exPhenoB`, `exPhenoD` and `exPhenoE`
below are chosen so that every comparison of a p-value with `p_cutoff`, and every
choice of a smallest or largest p-value, comes out as it does with the survival
function. -/
def exactNumerics : Numerics where
  sqrt := sqrtFixed
  pchisq := fun x _ => 1 / (1 + x / 2 + x * x / 8 + x * x * x / 48)
  isFloatEqual := fun a b => decide (|a - b| < 1 / 2 ^ 52)
  v_calc_median := medianSorted
  ldlt_vectorD := fun M => ldltPivots M.length (symLower M.length M)
  ldlt_solve := fun M => ldltInverse M.length (symLower M.length M)

/-- Reference panel with four SNPs on chromosome 1 and four individuals.
`rs4` has the genotypes of `rs1`; `rs3` lies outside the LD window of the others. -/
def exRef : Reference where
  bim_snp_name := ["rs1", "rs2", "rs3", "rs4"]
  bim_chr := [1, 1, 1, 1]
  bim_bp := [100, 200, 50000000, 150]
  bim_allele1 := ["A", "C", "G", "A"]
  bim_allele2 := ["G", "T", "A", "G"]
  ref_A := ["A", "C", "G", "A"]
  mu := [1, 5 / 4, 1, 1]
  bed_snp_1 := [[false, false, true, false], [false, false, true, true],
    [true, false, false, true], [false, false, true, false]]
  bed_snp_2 := [[false, true, true, true], [false, true, true, true],
    [true, false, false, true], [false, true, true, true]]
  snp_map := [("rs1", 0), ("rs2", 1), ("rs3", 2), ("rs4", 3)]
  to_include := [0, 1, 2, 3]
  fam_ids_inc := [0, 1, 2, 3]

/-- Summary statistics for the four SNPs of `exRef`, trait variance 1. -/
def exPheno : Phenotype where
  snp_name := ["rs1", "rs2", "rs3", "rs4"]
  allele1 := ["A", "C", "G", "A"]
  allele2 := ["G", "T", "A", "G"]
  freq := [1 / 2, 5 / 8, 1 / 2, 1 / 2]
  beta := [1 / 2, 1 / 4, 2, 1 / 2]
  se := [1 / 20, 1 / 20, 1, 1 / 20]
  pval := [0, 0, 0, 0]
  n := [1000, 1000, 1000, 1000]
  variance := 1

/-- A freshly constructed `cond_analysis` with the default options. -/
def exCa0 : CondAnalysis where
  a_p_cutoff := 5 / 10 ^ 8
  a_collinear := 9 / 10
  a_ld_window := 10 ^ 7
  a_top_snp := 10 ^ 10
  a_freq_threshold := 2 / 10
  to_include := []
  fam_ids_inc := []
  mu := []
  msx := []
  msx_b := []
  nD := []
  ja_snp_name := []
  ja_freq := []
  ja_beta := []
  ja_beta_se := []
  ja_pval := []
  ja_chisq := []
  ja_N_outcome := []
  jma_Vp := 0
  jma_Ve := 0
  jma_snpnum_backward := 0
  jma_snpnum_collinear := 0
  B := SpMat.empty
  B_N := SpMat.empty
  Z := SpMat.empty
  Z_N := SpMat.empty
  B_i := []
  B_N_i := []
  D_N := EVec.empty

/-- The state after `init_conditional(exPheno, exRef)`. -/
def exCa : CondAnalysis :=
  match init_conditional exactNumerics exCa0 exPheno exRef with
  | .ok res => res.ca
  | .error _ => exCa0

/-- The state of `exCa` after `init_b` and `init_z` on the selected set `idx`. -/
def exInit (idx : List Nat) : CondAnalysis :=
  init_z exactNumerics (init_b exactNumerics exCa exRef idx).2 exRef idx

/-! ## The moment matrices of a selected set, entry by entry

The matrices the data model prescribes for a selected set `S`: the stored
(lower) triangle of `B` and `B_N`, and the cross tables `Z` and `Z_N`. -/

/-- Entry `(a, b)` of `B` for the selected set `S`: `msx_b` on the diagonal, and
below it `x_k · x_l / m` for SNP pairs passing the LD-window gate; every other
entry is absent. -/
def B_entry (ca : CondAnalysis) (ref : Reference) (S : List Nat) (a b : Nat) : ℚ :=
  if a < S.length ∧ b < S.length then
    if a = b then ca.msx_b.getD (S.getD b 0) 0
    else if b < a then
      if ldGate ca ref (S.getD b 0) (S.getD a 0) then xdot ca ref (S.getD b 0) (S.getD a 0)
      else 0
    else 0
  else 0

/-- Entry `(a, b)` of `B_N` for the selected set `S`: `msx * nD` on the diagonal,
and below it the entry of `B` scaled by `nFactor`. -/
def B_N_entry (nm : Numerics) (ca : CondAnalysis) (ref : Reference) (S : List Nat)
    (a b : Nat) : ℚ :=
  if a < S.length ∧ b < S.length then
    if a = b then ca.msx.getD (S.getD b 0) 0 * ca.nD.getD (S.getD b 0) 0
    else if b < a then
      if ldGate ca ref (S.getD b 0) (S.getD a 0) then
        xdot ca ref (S.getD b 0) (S.getD a 0) * nFactor nm ca (S.getD b 0) (S.getD a 0)
      else 0
    else 0
  else 0

/-- Entry `(a, j)` of `Z` for the selected set `S`: the cross moment of the
selected SNP `S[a]` and the harmonised SNP `j`, for pairs of distinct SNPs
passing the LD-window gate. -/
def Z_entry (ca : CondAnalysis) (ref : Reference) (S : List Nat) (a j : Nat) : ℚ :=
  if a < S.length ∧ j < ca.to_include.length then
    if S.getD a 0 ≠ j ∧ ldGate ca ref (S.getD a 0) j = true then xdot ca ref j (S.getD a 0)
    else 0
  else 0

/-- Entry `(a, j)` of `Z_N` for the selected set `S`. -/
def Z_N_entry (nm : Numerics) (ca : CondAnalysis) (ref : Reference) (S : List Nat)
    (a j : Nat) : ℚ :=
  if a < S.length ∧ j < ca.to_include.length then
    if S.getD a 0 ≠ j ∧ ldGate ca ref (S.getD a 0) j = true then
      xdot ca ref j (S.getD a 0) * nFactor nm ca (S.getD a 0) j
    else 0
  else 0

/-- Entry `k` of `D_N` for the selected set `S`. -/
def D_N_entry (ca : CondAnalysis) (S : List Nat) (k : Nat) : ℚ :=
  ca.msx.getD (S.getD k 0) 0 * ca.nD.getD (S.getD k 0) 0

/-- The list `ix` is `S` with `pos` inserted at position `p`, and `pos` occurs nowhere else. -/
structure InsertAt (S : List Nat) (pos : Nat) (ix : List Nat) (p : Nat) : Prop where
  len : ix.length = S.length + 1
  le : p ≤ S.length
  at_p : ix.getD p 0 = pos
  below : ∀ i, i < p → ix.getD i 0 = S.getD i 0
  above : ∀ i, p < i → i ≤ S.length → ix.getD i 0 = S.getD (i - 1) 0
  ne : ∀ i, i < ix.length → i ≠ p → ix.getD i 0 ≠ pos

/-- The state `ca1` has the tables and options of `ca` that the matrix routines read. -/
structure SameTables (ca ca1 : CondAnalysis) : Prop where
  to_include : ca1.to_include = ca.to_include
  fam_ids_inc : ca1.fam_ids_inc = ca.fam_ids_inc
  mu : ca1.mu = ca.mu
  msx : ca1.msx = ca.msx
  msx_b : ca1.msx_b = ca.msx_b
  nD : ca1.nD = ca.nD
  a_ld_window : ca1.a_ld_window = ca.a_ld_window
  a_collinear : ca1.a_collinear = ca.a_collinear

/-- The state `ca` holds the moment matrices of the selected set `S`: the
dimensions, `D_N`, the off-diagonal entries of `B` and `B_N`, and `Z`, `Z_N`. -/
structure Holds (nm : Numerics) (ca : CondAnalysis) (ref : Reference) (S : List Nat) : Prop where
  B_rows : ca.B.rows = S.length
  B_cols : ca.B.cols = S.length
  B_N_rows : ca.B_N.rows = S.length
  B_N_cols : ca.B_N.cols = S.length
  Z_rows : ca.Z.rows = S.length
  Z_cols : ca.Z.cols = ca.to_include.length
  Z_N_rows : ca.Z_N.rows = S.length
  Z_N_cols : ca.Z_N.cols = ca.to_include.length
  D_N_size : ca.D_N.size = S.length
  D_N : ∀ a, ca.D_N.coeff a = if a < S.length then D_N_entry ca S a else 0
  B_off : ∀ a b, a ≠ b → ca.B.coeff a b = B_entry ca ref S a b ∧
    ca.B_N.coeff a b = B_N_entry nm ca ref S a b
  Z : ∀ a b, ca.Z.coeff a b = Z_entry ca ref S a b ∧
    ca.Z_N.coeff a b = Z_N_entry nm ca ref S a b

/-- The diagonals of `B` and `B_N` in the state `ca` are those of the selected set `S`. -/
def HoldsDiag (nm : Numerics) (ca : CondAnalysis) (ref : Reference) (S : List Nat) : Prop :=
  ∀ a, ca.B.coeff a a = B_entry ca ref S a a ∧ ca.B_N.coeff a a = B_N_entry nm ca ref S a a

/-- The states reached from the tables of `ca0` by `init_b(S)` and `init_z(S)` on a
strictly ascending set of harmonised SNPs, followed by any number of successful
`insert_B_Z` calls (of a SNP not yet selected) and `erase_B_and_Z` calls (of a
selected SNP), together with the selected set they belong to. -/
inductive Reach (nm : Numerics) (ref : Reference) (ca0 : CondAnalysis) :
    List Nat → CondAnalysis → Prop
  | init (S : List Nat) (hS : S.Sorted (fun a b => a < b))
      (hb : ∀ s ∈ S, s < ca0.to_include.length) :
      Reach nm ref ca0 S (init_z nm (init_b nm ca0 ref S).2 ref S)
  | insert (S : List Nat) (ca : CondAnalysis) (pos : Nat) (h : Reach nm ref ca0 S ca)
      (hpos : pos ∉ S) (hm : pos < ca0.to_include.length)
      (hok : (insert_B_Z nm ca ref S pos).1 = true) :
      Reach nm ref ca0 (insert_ix S pos) (insert_B_Z nm ca ref S pos).2
  | erase (S : List Nat) (ca : CondAnalysis) (k : Nat) (h : Reach nm ref ca0 S ca)
      (hk : k < S.length) :
      Reach nm ref ca0 (S.eraseIdx k) (erase_B_and_Z nm ca S (S.getD k 0))

/-- The harmonised SNPs `a` and `b` are outside the LD window of each other:
different chromosome, or base-pair distance at least `ld_window`. -/
def outsideWindow (ca : CondAnalysis) (ref : Reference) (a b : Nat) : Prop :=
  ref.bim_chr.getD (ca.to_include.getD a 0) 0 ≠ ref.bim_chr.getD (ca.to_include.getD b 0) 0 ∨
  ca.a_ld_window ≤ (((ref.bim_bp.getD (ca.to_include.getD a 0) 0
      - ref.bim_bp.getD (ca.to_include.getD b 0) 0).natAbs : ℤ) : ℚ)

/-- The working mean dosage `mu'` of the phenotype SNP `i` matched to the reference
SNP `r`: `2 - mu` when the phenotype A1 equals the reference A2, `mu` otherwise. -/
def flipped_mu (pheno : Phenotype) (ref : Reference) (i r : Nat) : ℚ :=
  if pheno.allele1.getD i "" = ref.bim_allele2.getD r "" then 2 - ref.mu.getD r 0
  else ref.mu.getD r 0

/-- The phenotype SNP `i` is a candidate matched to the reference SNP `r`: its
identifier is found in the reference at `r` and its A1 is one of the two reference
alleles. -/
def candidate (pheno : Phenotype) (ref : Reference) (i r : Nat) : Prop :=
  ref.snp_map.lookup (pheno.snp_name.getD i "") = some r ∧
    (pheno.allele1.getD i "" = ref.bim_allele1.getD r "" ∨
      pheno.allele1.getD i "" = ref.bim_allele2.getD r "")

/-- The frequency test `|mu' / 2 - freq| < freq_threshold` for the phenotype SNP `i`
matched to the reference SNP `r`. -/
def freq_ok (ca : CondAnalysis) (pheno : Phenotype) (ref : Reference) (i r : Nat) : Prop :=
  |flipped_mu pheno ref i r / 2 - pheno.freq.getD i 0| < ca.a_freq_threshold

/-- The reference is well formed: every entry of `snp_map` pairs a name with a
position that bears it, and `mu` and `ref_A` have one entry per SNP. -/
structure RefWF (ref : Reference) : Prop where
  snp_map : ∀ p ∈ ref.snp_map,
    p.2 < ref.bim_snp_name.length ∧ ref.bim_snp_name.getD p.2 "" = p.1
  mu_len : ref.mu.length = ref.bim_snp_name.length
  ref_A_len : ref.ref_A.length = ref.bim_snp_name.length

/-- The second loop of the harmoniser counts the reference SNP `r` as unmatched:
`id_map` knows its name and the frequency test fails. -/
def counted (ca : CondAnalysis) (pheno : Phenotype) (ref : Reference)
    (id_map : List (String × Nat)) (r : Nat) : Bool :=
  match id_map.lookup (ref.bim_snp_name.getD r "") with
  | some k => decide (ca.a_freq_threshold ≤ |flipped_mu pheno ref k r / 2 - pheno.freq.getD k 0|)
  | none => false

/-- The phenotype SNP `i` is a candidate whose frequency test fails. -/
def freq_rejected (ca : CondAnalysis) (pheno : Phenotype) (ref : Reference) (i : Nat) : Bool :=
  match ref.snp_map.lookup (pheno.snp_name.getD i "") with
  | some r =>
    (pheno.allele1.getD i "" == ref.bim_allele1.getD r ""
        || pheno.allele1.getD i "" == ref.bim_allele2.getD r "")
      && decide (ca.a_freq_threshold ≤ |flipped_mu pheno ref i r / 2 - pheno.freq.getD i 0|)
  | none => false

/-- State of the second loop of the harmoniser after the reference SNPs `pre` have
been visited. -/
structure Loop2Inv (ca : CondAnalysis) (pheno : Phenotype) (ref : Reference)
    (id_map : List (String × Nat)) (pre : List Nat) (st : MatchLoop2) : Prop where
  mu_len : st.mu.length = ref.mu.length
  ref_A_len : st.ref_A.length = ref.ref_A.length
  done : ∀ r ∈ pre, ∀ k, id_map.lookup (ref.bim_snp_name.getD r "") = some k →
    st.mu.getD r 0 = flipped_mu pheno ref k r ∧ st.ref_A.getD r "" = pheno.allele1.getD k ""
  rest : ∀ r, r ∉ pre →
    st.mu.getD r 0 = ref.mu.getD r 0 ∧ st.ref_A.getD r "" = ref.ref_A.getD r ""
  idx : ∀ k, k ∈ st.idx ↔ ∃ r ∈ pre,
    id_map.lookup (ref.bim_snp_name.getD r "") = some k ∧ freq_ok ca pheno ref k r
  snps : ∀ s, s ∈ st.snps ↔ ∃ r ∈ pre, ∃ k,
    id_map.lookup (ref.bim_snp_name.getD r "") = some k ∧ freq_ok ca pheno ref k r ∧
      ref.bim_snp_name.getD r "" = s
  unmatched : st.unmatched = (pre.filter (counted ca pheno ref id_map)).length

/-- The containers after the first loop of `match_gwas_phenotype`. -/
def first_loop (pheno : Phenotype) (ref : Reference) : MatchLoop1 :=
  (List.range pheno.snp_name.length).foldl (match_loop1 pheno (includes_clear ref))
    { pheno_idx := [], id_map := [], snps := [], idx := [] }

/-- The reference after the first `update_inclusion` of `match_gwas_phenotype`. -/
def first_inclusion (pheno : Phenotype) (ref : Reference) : Reference :=
  update_inclusion (includes_clear ref) (first_loop pheno ref).idx (first_loop pheno ref).snps

/-- The containers after the second loop of `match_gwas_phenotype`. -/
def second_loop (ca : CondAnalysis) (pheno : Phenotype) (ref : Reference) : MatchLoop2 :=
  (first_inclusion pheno ref).to_include.foldl
    (match_loop2 ca pheno (first_inclusion pheno ref) (first_loop pheno ref).id_map)
    { ref_A := (first_inclusion pheno ref).ref_A, mu := (first_inclusion pheno ref).mu
      snps := [], idx := [], unmatched := 0 }

/-- What the harmoniser leaves behind, in terms of the phenotype SNPs `i` and the
reference SNPs `r` they are matched to. -/
structure Harmonised (ca : CondAnalysis) (pheno : Phenotype) (ref : Reference)
    (res : MatchResult) : Prop where
  idx : ∀ i, i ∈ res.idx ↔ i < pheno.snp_name.length ∧
    ∃ r, candidate pheno ref i r ∧ freq_ok ca pheno ref i r
  snps : ∀ s, s ∈ res.snps ↔ ∃ i, i < pheno.snp_name.length ∧
    (∃ r, candidate pheno ref i r ∧ freq_ok ca pheno ref i r) ∧ pheno.snp_name.getD i "" = s
  to_include : ∀ r, r ∈ res.ca.to_include ↔ ∃ i, i < pheno.snp_name.length ∧
    candidate pheno ref i r ∧ freq_ok ca pheno ref i r
  same_inclusion : res.ref.to_include = res.ca.to_include
  mu : ∀ i r, i < pheno.snp_name.length → candidate pheno ref i r →
    res.ca.mu.getD r 0 = flipped_mu pheno ref i r
  ref_A : ∀ i r, i < pheno.snp_name.length → candidate pheno ref i r →
    res.ref.ref_A.getD r "" = pheno.allele1.getD i ""
  unmatched : res.unmatched =
    ((List.range pheno.snp_name.length).filter (freq_rejected ca pheno ref)).length

/-- Summary statistics for five SNPs: `rs2` is reported on the other allele and with
a second allele the reference does not have, the frequency of `rs3` is far from the
reference, the first allele of `rs4` is not a reference allele, and `rs9` is not in
the reference. -/
def exPheno2 : Phenotype where
  snp_name := ["rs1", "rs2", "rs3", "rs4", "rs9"]
  allele1 := ["A", "T", "G", "T", "A"]
  allele2 := ["G", "G", "A", "G", "G"]
  freq := [1 / 2, 3 / 8, 9 / 10, 1 / 2, 1 / 2]
  beta := [1 / 2, 1 / 4, 2, 1 / 2, 1]
  se := [1 / 20, 1 / 20, 1, 1 / 20, 1]
  pval := [0, 0, 0, 0, 0]
  n := [1000, 1000, 1000, 1000, 1000]
  variance := 1

/-- The allele pair of the phenotype SNP `i` is the allele pair of the reference
SNP `r`, in either order. -/
def same_allele_pair (pheno : Phenotype) (ref : Reference) (i r : Nat) : Prop :=
  (pheno.allele1.getD i "" = ref.bim_allele1.getD r "" ∧
      pheno.allele2.getD i "" = ref.bim_allele2.getD r "") ∨
    (pheno.allele1.getD i "" = ref.bim_allele2.getD r "" ∧
      pheno.allele2.getD i "" = ref.bim_allele1.getD r "")

/-! ## Residual variance -/

/-- `cond_analysis::massoc_calcu_Ve(selected, bJ, b)`. -/
def massoc_calcu_Ve (nm : Numerics) (ca : CondAnalysis) (selected : List Nat)
    (bJ b : List ℚ) : Except String ℚ :=
  let n := bJ.length
  let nD_temp := (List.range n).map fun k => ca.nD.getD (selected.getD k 0) 0
  let Ve0 := ((List.range n).map fun k => ca.D_N.coeff k * bJ.getD k 0 * b.getD k 0).sum
  let d_temp := nm.v_calc_median nD_temp
  if d_temp - (n : ℚ) < 1 then
    .error "DoF Error: Model is over-fitting due to lack of degree of freedom. Provide a more stringent P-value cutoff."
  else
    let Ve := ((d_temp - 1) * ca.jma_Vp - Ve0) / (d_temp - (n : ℚ))
    if Ve ≤ 0 then
      .error "Residual Error: Residual variance is out of bounds meaning the model is over-fitting. Provide a more stringent P-value cutoff."
    else .ok Ve

/-! ## Stepwise selector -/

/-- `std::max_element(v.begin(), v.end()) - v.begin()`: position of the first
largest entry (`0` on an empty vector). -/
def max_element (v : List ℚ) : Nat :=
  (List.range v.length).foldl (fun best i => if v.getD best 0 < v.getD i 0 then i else best) 0

/-- `std::min_element(v.begin(), v.end()) - v.begin()`: position of the first
smallest entry (`0` on an empty vector). -/
def min_element (v : List ℚ) : Nat :=
  (List.range v.length).foldl (fun best i => if v.getD i 0 < v.getD best 0 then i else best) 0

/-- What the selector threads through its calls: the analysis, the vectors
`selected` and `remain`, and the three output vectors (`bC`, `bC_se`, `pC`). -/
structure Selection where
  ca : CondAnalysis
  selected : List Nat
  remain : List Nat
  out : Assoc

/-- The `while (true)` loop of `select_entry`, with `fuel` the size of `pC_temp`.
With no candidate left the source reads `pC_temp[0]` of an empty vector; the
model stops with an error there. -/
def select_entry_loop (nm : Numerics) (ref : Reference) :
    Nat → Selection → List ℚ → Except String (Bool × Selection)
  | 0, _, _ => .error "select_entry: pC_temp is empty"
  | fuel + 1, s, pC_temp =>
    let m := min_element pC_temp
    if s.ca.a_p_cutoff ≤ pC_temp.getD m 0 then .ok (false, s)
    else
      match insert_B_Z nm s.ca ref s.selected (s.remain.getD m 0) with
      | (true, ca1) =>
        .ok (true, { s with
          ca := ca1
          selected := insert_ix s.selected (s.remain.getD m 0)
          remain := s.remain.eraseIdx m })
      | (false, ca1) =>
        select_entry_loop nm ref fuel { s with ca := ca1, remain := s.remain.eraseIdx m }
          (pC_temp.eraseIdx m)

/-- `cond_analysis::select_entry(selected, remain, bC, bC_se, pC, ref)`. -/
def select_entry (nm : Numerics) (ref : Reference) (s : Selection) :
    Except String (Bool × Selection) :=
  match massoc_conditional nm s.ca ref s.selected s.remain with
  | .error e => .error e
  | .ok (ca1, out) => select_entry_loop nm ref out.p.length { s with ca := ca1, out := out } out.p

/-- The `while (!select.empty())` loop of `selected_stay`, with `fuel` the size of
`select`: every pass that does not leave the loop erases one SNP. -/
def selected_stay_loop (nm : Numerics) (ref : Reference) : Nat → Selection → Except String Selection
  | 0, s => .ok s
  | fuel + 1, s =>
    match massoc_joint nm s.ca ref s.selected with
    | .error e => .error e
    | .ok (ca1, out) =>
      let m := max_element out.p
      if ca1.a_p_cutoff < out.p.getD m 0 then
        selected_stay_loop nm ref fuel
          { s with
            ca := erase_B_and_Z nm { ca1 with jma_snpnum_backward := ca1.jma_snpnum_backward + 1 }
              s.selected (s.selected.getD m 0)
            selected := s.selected.eraseIdx m
            out := out }
      else .ok { s with ca := ca1, out := out }

/-- `cond_analysis::selected_stay(select, bJ, bJ_se, pJ, ref)`. -/
def selected_stay (nm : Numerics) (ref : Reference) (s : Selection) : Except String Selection :=
  match ensure_b nm s.ca ref s.selected
      "Stepwise Selection Error: There is a collinearity problem with the given list of SNPs." with
  | .error e => .error e
  | .ok ca1 => selected_stay_loop nm ref s.selected.length { s with ca := ca1 }

/-- The `while (!remain.empty())` loop of `stepwise_select`, with `fuel` the size
of `remain`: every pass that does not leave the loop removes a SNP from `remain`. -/
def stepwise_loop (nm : Numerics) (ref : Reference) : Nat → Selection → Except String Selection
  | 0, s => .ok s
  | fuel + 1, s =>
    if s.remain.isEmpty then .ok s
    else
      match select_entry nm ref s with
      | .error e => .error e
      | .ok (false, s1) => .ok s1
      | .ok (true, s1) =>
        match selected_stay nm ref s1 with
        | .error e => .error e
        | .ok s2 =>
          if s2.ca.a_top_snp ≤ (s2.selected.length : ℚ) then .ok s2
          else stepwise_loop nm ref fuel s2

/-- `cond_analysis::stepwise_select(selected, remain, bC, bC_se, pC, ref)`. -/
def stepwise_select (nm : Numerics) (ref : Reference) (s : Selection) : Except String Selection :=
  let m := max_element s.ca.ja_chisq
  if s.ca.a_p_cutoff ≤ s.ca.ja_pval.getD m 0 then .ok s
  else
    let s1 : Selection :=
      { s with
        selected := s.selected ++ [m]
        remain := s.remain ++ (List.range s.ca.to_include.length).filter fun i => i != m }
    match stepwise_loop nm ref s1.remain.length s1 with
    | .error e => .error e
    | .ok s2 =>
      if 1 / 1000 < s2.ca.a_p_cutoff then selected_stay nm ref s2 else .ok s2

/-! ## Pairwise driver -/

/-- The data members of `cond_analysis` written by `find_independent_snps` and
`pw_conditional`. -/
structure Pairwise where
  num_ind_snps : Nat
  ind_snps : List Nat
  remain_snps : List Nat
  B_master : SpMat
  B_i_master : Dense
  B_N_master : SpMat
  B_N_i_master : Dense
  D_N_master : EVec
  Z_master : SpMat
  Z_N_master : SpMat
  snps_cond : List String
  b_cond : List ℚ
  se_cond : List ℚ
  maf_cond : List ℚ
  p_cond : List ℚ
  n_cond : List ℚ
  cond_passed : Bool

/-- `std::vector<string>::resize(n)`. -/
def resize_names (v : List String) (n : Nat) : List String :=
  v.take n ++ List.replicate (n - v.length) ""

/-- `cond_analysis::find_independent_snps(ref)`.  Of `sanitise_output` only the
effect on the data members is kept (`snps_cond.resize`); the report file is
taken to open, and what is written to it (which reads `bJ[i]`, `bJ_se[i]`,
`pJ[i]` for `i < selected.size()`) is not part of the model. -/
def find_independent_snps (nm : Numerics) (ca : CondAnalysis) (pw : Pairwise)
    (ref : Reference) : Except String (CondAnalysis × Pairwise) :=
  let ca0 := if ca.a_top_snp ≤ 0 then { ca with a_top_snp := 10 ^ 10 } else ca
  match stepwise_select nm ref
      { ca := ca0, selected := [], remain := [], out := { b := [], se := [], p := [] } } with
  | .error e => .error e
  | .ok s =>
    if s.selected.isEmpty then
      .error "Conditional Error: No SNPs have been selected by the step-wise selection algorithm."
    else if s.ca.fam_ids_inc.length ≤ s.selected.length then
      .error "Conditional Error: Too many SNPs. The number of SNPs should not be larger than the sample size."
    else
      .ok (s.ca, { pw with
        snps_cond := resize_names pw.snps_cond s.selected.length
        num_ind_snps := s.selected.length
        ind_snps := s.selected
        remain_snps := s.remain
        B_master := s.ca.B
        B_i_master := s.ca.B_i
        B_N_master := s.ca.B_N
        B_N_i_master := s.ca.B_N_i
        D_N_master := s.ca.D_N
        Z_master := s.ca.Z
        Z_N_master := s.ca.Z_N })

/-- The vectors `selected` and `remain` of `pw_conditional(pos, ref)` and the
state after the snapshot is restored and the SNP at `pos` is taken out. -/
def pw_exclude (nm : Numerics) (ca : CondAnalysis) (pw : Pairwise) (pos : Int) :
    CondAnalysis × List Nat × List Nat :=
  let ca1 := { ca with
    B := pw.B_master, B_i := pw.B_i_master, B_N := pw.B_N_master, B_N_i := pw.B_N_i_master
    D_N := pw.D_N_master, Z := pw.Z_master, Z_N := pw.Z_N_master }
  if 0 ≤ pos then
    (erase_B_and_Z nm ca1 pw.ind_snps (pw.ind_snps.getD pos.toNat 0),
      pw.ind_snps.eraseIdx pos.toNat, pw.remain_snps ++ [pw.ind_snps.getD pos.toNat 0])
  else (ca1, pw.ind_snps, pw.remain_snps)

/-- `cond_analysis::pw_conditional(pos, ref)`. -/
def pw_conditional (nm : Numerics) (ca : CondAnalysis) (pw : Pairwise) (ref : Reference)
    (pos : Int) : Except String (CondAnalysis × Pairwise) :=
  let ex := pw_exclude nm ca pw pos
  match massoc_conditional nm ex.1 ref ex.2.1 ex.2.2 with
  | .error e => .error e
  | .ok (ca3, out) =>
    let js := ex.2.1 ++ ex.2.2
    .ok (ca3, { pw with
      snps_cond := js.map fun j => ref.bim_snp_name.getD (ca3.to_include.getD j 0) ""
      b_cond := js.map fun j => ca3.ja_beta.getD j 0
      se_cond := js.map fun j => ca3.ja_beta_se.getD j 0
      maf_cond := js.map fun j => ca3.ja_freq.getD j 0
      p_cond := js.map fun j => ca3.ja_pval.getD j 0
      n_cond := js.map fun j => ca3.nD.getD j 0
      cond_passed := decide (0 < out.b.length) })

/-! ## Paired data set -/

/-- The data members of `mdata`. -/
structure MData where
  snp_map : List (Nat × Nat)
  snps1 : List String
  betas1 : List ℚ
  ses1 : List ℚ
  pvals1 : List ℚ
  mafs1 : List ℚ
  ns1 : List ℚ
  snps2 : List String
  betas2 : List ℚ
  ses2 : List ℚ
  pvals2 : List ℚ
  mafs2 : List ℚ
  ns2 : List ℚ

/-- The map filled by the first loop of `mdata::mdata`: each position of
`ca1->snps_cond` whose name `std::find` locates in `ca2->snps_cond`, with the
position found, in ascending order of the key. -/
def mdata_snp_map (s1 s2 : List String) : List (Nat × Nat) :=
  (List.range s1.length).filterMap fun i =>
    if s2.indexOf (s1.getD i "") < s2.length then some (i, s2.indexOf (s1.getD i "")) else none

/-- `mdata::mdata(ca1, ca2)`; `ready1` and `ready2` are the values of
`coloc_ready()`, which is declared outside `conditional.cpp`. -/
def mdata (ready1 ready2 : Bool) (ca1 ca2 : Pairwise) : MData :=
  if !ready1 || !ready2 then
    { snp_map := [], snps1 := [], betas1 := [], ses1 := [], pvals1 := [], mafs1 := [], ns1 := []
      snps2 := [], betas2 := [], ses2 := [], pvals2 := [], mafs2 := [], ns2 := [] }
  else
    let sm := mdata_snp_map ca1.snps_cond ca2.snps_cond
    { snp_map := sm
      snps1 := sm.map fun p => ca1.snps_cond.getD p.1 ""
      betas1 := sm.map fun p => ca1.b_cond.getD p.1 0
      ses1 := sm.map fun p => ca1.se_cond.getD p.1 0
      pvals1 := sm.map fun p => ca1.p_cond.getD p.1 0
      mafs1 := sm.map fun p => ca1.maf_cond.getD p.1 0
      ns1 := sm.map fun p => ca1.n_cond.getD p.1 0
      snps2 := sm.map fun p => ca2.snps_cond.getD p.2 ""
      betas2 := sm.map fun p => ca2.b_cond.getD p.2 0
      ses2 := sm.map fun p => ca2.se_cond.getD p.2 0
      pvals2 := sm.map fun p => ca2.p_cond.getD p.2 0
      mafs2 := sm.map fun p => ca2.maf_cond.getD p.2 0
      ns2 := sm.map fun p => ca2.n_cond.getD p.2 0 }

/-- The centred genotype entry for the bit pair `(b1, b2)` when the pair `missing`
encodes a missing genotype: `0` for a missing genotype, and otherwise `d - mu`
with the dosage `d = b1 + b2` when the reference A1 is the effect allele (`same`)
and `d = 2 - (b1 + b2)` when it is not. -/
def dosage_entry (missing : Bool × Bool) (b1 b2 same : Bool) (mu : ℚ) : ℚ :=
  if (b1, b2) = missing then 0
  else
    (if same then (if b1 then 1 else 0) + (if b2 then 1 else 0)
      else 2 - ((if b1 then 1 else 0) + (if b2 then 1 else 0))) - mu

/-- The output of a conditional pass with the given six vectors (the snapshot
members are left empty). -/
def pairwiseOf (snps : List String) (b se maf p n : List ℚ) : Pairwise where
  num_ind_snps := 0
  ind_snps := []
  remain_snps := []
  B_master := SpMat.empty
  B_i_master := []
  B_N_master := SpMat.empty
  B_N_i_master := []
  D_N_master := EVec.empty
  Z_master := SpMat.empty
  Z_N_master := SpMat.empty
  snps_cond := snps
  b_cond := b
  se_cond := se
  maf_cond := maf
  p_cond := p
  n_cond := n
  cond_passed := true

/-- The phenotype with every SNP in its swapped form: A1 and A2 exchanged, `beta`
negated, `freq` replaced by `1 - freq`. -/
def swap_alleles (pheno : Phenotype) : Phenotype :=
  { pheno with
    allele1 := pheno.allele2
    allele2 := pheno.allele1
    beta := pheno.beta.map fun b => -b
    freq := pheno.freq.map fun f => 1 - f }

/-- Every phenotype SNP found in the reference either has the two distinct
reference alleles as its allele pair, or has neither of its alleles among them. -/
def PairsAgree (pheno : Phenotype) (ref : Reference) : Prop :=
  ∀ i, i < pheno.snp_name.length → ∀ r ∈ ref.snp_map.lookup (pheno.snp_name.getD i ""),
    (same_allele_pair pheno ref i r ∧ ref.bim_allele1.getD r "" ≠ ref.bim_allele2.getD r "") ∨
    (pheno.allele1.getD i "" ≠ ref.bim_allele1.getD r "" ∧
      pheno.allele1.getD i "" ≠ ref.bim_allele2.getD r "" ∧
      pheno.allele2.getD i "" ≠ ref.bim_allele1.getD r "" ∧
      pheno.allele2.getD i "" ≠ ref.bim_allele2.getD r "")

/-- The phenotype position the second loop of the harmoniser keeps for the
reference SNP `r`, if it keeps one. -/
def kept_at (ca : CondAnalysis) (pheno : Phenotype) (ref : Reference)
    (id_map : List (String × Nat)) (r : Nat) : Option Nat :=
  match id_map.lookup (ref.bim_snp_name.getD r "") with
  | some k =>
    if ca.a_freq_threshold ≤ |flipped_mu pheno ref k r / 2 - pheno.freq.getD k 0| then none
    else some k
  | none => none

/-- The phenotype SNP `i` is a candidate that passes the frequency test. -/
def survives (ca : CondAnalysis) (pheno : Phenotype) (ref : Reference) (i : Nat) : Bool :=
  match ref.snp_map.lookup (pheno.snp_name.getD i "") with
  | some r =>
    (pheno.allele1.getD i "" == ref.bim_allele1.getD r ""
        || pheno.allele1.getD i "" == ref.bim_allele2.getD r "")
      && decide (|flipped_mu pheno ref i r / 2 - pheno.freq.getD i 0| < ca.a_freq_threshold)
  | none => false

/-- The state with the moment matrices and the two counters blanked: what is
left are the options, the harmonised vectors, the moment tables and `Vp`, `Ve`. -/
def scalars (ca : CondAnalysis) : CondAnalysis :=
  { ca with
    B := SpMat.empty, B_N := SpMat.empty, Z := SpMat.empty, Z_N := SpMat.empty
    B_i := [], B_N_i := [], D_N := EVec.empty
    jma_snpnum_backward := 0, jma_snpnum_collinear := 0 }

/-- The selector state at the start of `find_independent_snps`. -/
def selection0 (ca : CondAnalysis) : Selection :=
  { ca := ca, selected := [], remain := [], out := { b := [], se := [], p := [] } }

/-- The state after `init_conditional` of the phenotype `pheno` against `exRef`,
for an analysis constructed with the options `p_cutoff` and `top_snp`.  (For the
phenotypes used below the call leaves `ref_A` and `to_include` of `exRef` as
they are.) -/
def exCaWith (pheno : Phenotype) (p_cutoff top_snp : ℚ) : CondAnalysis :=
  match init_conditional exactNumerics
      { exCa0 with a_p_cutoff := p_cutoff, a_top_snp := top_snp } pheno exRef with
  | .ok res => res.ca
  | .error _ => exCa0

/-- Summary statistics for the four SNPs of `exRef` with two strong signals of
small effect at `rs3` and `rs4`. -/
def exPhenoS : Phenotype :=
  { exPheno with
    beta := [1 / 2, 1 / 4, 199 / 20000, 198 / 20000]
    se := [1 / 20, 1 / 20, 1 / 1000, 1 / 1000] }

/-- Summary statistics for the four SNPs of `exRef` for a lax cutoff: a top
signal at `rs1` that explains an eighth of the variance, and two signals of
small effect at `rs3` and `rs4`. -/
def exPhenoL : Phenotype :=
  { exPheno with
    beta := [1 / 2, 1 / 4, 394 / 100000, 39 / 10000]
    se := [1 / 8, 1 / 8, 1 / 1000, 1 / 1000] }

/-- Summary statistics for the four SNPs of `exRef` with weak signals. -/
def exPhenoW : Phenotype := { exPheno with se := [1 / 8, 1 / 8, 1, 1 / 8] }

/-- Summary statistics for the four SNPs of `exRef` with one moderate signal,
shared by `rs1` and `rs4` (`chisq = 16`), and nothing at `rs2`, `rs3`. -/
def exPhenoB : Phenotype :=
  { exPheno with
    beta := [6 / 5, 3 / 10, 0, 6 / 5]
    se := [3 / 10, 3 / 10, 1, 3 / 10] }

/-- Summary statistics for the four SNPs of `exRef` with strong signals at
`rs2`, `rs3`, `rs4` (`chisq = 2704/25, 36, 100`) and a weak one at `rs1`. -/
def exPhenoE : Phenotype :=
  { exPheno with
    beta := [7 / 10, -13 / 10, -3 / 10, -1]
    se := [1 / 2, 1 / 8, 1 / 20, 1 / 10] }

/-- The pairwise members of a freshly constructed `cond_analysis`. -/
def pairwise0 : Pairwise := pairwiseOf [] [] [] [] [] []

/-- The error message of a failed call. -/
def errorOf {α : Type} (r : Except String α) : Option String :=
  match r with
  | .error e => some e
  | .ok _ => none

/-- The state left by `find_independent_snps` on the summary statistics `exPhenoL`
with `p_cutoff = 0.01`. -/
def exIndep : Except String (CondAnalysis × Pairwise) :=
  find_independent_snps exactNumerics (exCaWith exPhenoL (1 / 100) (10 ^ 10)) pairwise0 exRef

/-- The pass `pw_conditional(pos)` from the state `exIndep`. -/
def exPass (pos : Int) : Except String (CondAnalysis × Pairwise) :=
  match exIndep with
  | .ok (ca, pw) => pw_conditional exactNumerics ca pw exRef pos
  | .error e => .error e

/-- The call of `massoc_conditional` made by the pass `pw_conditional(pos)` from
the state `exIndep`. -/
def exPassCond (pos : Int) : Except String (CondAnalysis × Assoc) :=
  match exIndep with
  | .ok (ca, pw) =>
    massoc_conditional exactNumerics (pw_exclude exactNumerics ca pw pos).1 exRef
      (pw_exclude exactNumerics ca pw pos).2.1 (pw_exclude exactNumerics ca pw pos).2.2
  | .error e => .error e

/-- The summary statistics `exPheno` reported for the other allele of `rs2`: its
A1 is `T`, the second reference allele, with the frequency of that allele. -/
def exPhenoT : Phenotype :=
  { exPheno with
    allele1 := ["A", "T", "G", "A"]
    allele2 := ["G", "C", "A", "G"]
    freq := [1 / 2, 3 / 8, 1 / 2, 1 / 2] }

/-- A first analysis harmonised with `exPheno` against the reference `exRef`. -/
def exFirst : Except String MatchResult :=
  match_gwas_phenotype exactNumerics exCa0 exPheno exRef

/-- A second analysis harmonised with `exPhenoT` against the reference the first
one left behind. -/
def exSecond : Except String MatchResult :=
  match exFirst with
  | .error e => .error e
  | .ok first => match_gwas_phenotype exactNumerics exCa0 exPhenoT first.ref

/-- The genotype vector of the harmonised SNP `j` of the first analysis, read
through the reference as the second harmonisation left it. -/
def exFirstAfter (j : Nat) : Except String (List ℚ) :=
  match exFirst, exSecond with
  | .ok first, .ok second => .ok (makex_eigenVector first.ca second.ref j)
  | .error e, _ => .error e
  | _, .error e => .error e

/-- Reference panel with three SNPs inside one LD window and six individuals
(dosages `0 2 1 0 1 0`, `0 2 2 1 2 0` and `2 2 1 0 1 1`). -/
def exRefC : Reference where
  bim_snp_name := ["rs1", "rs2", "rs3"]
  bim_chr := [1, 1, 1]
  bim_bp := [100, 200, 300]
  bim_allele1 := ["A", "C", "G"]
  bim_allele2 := ["G", "T", "A"]
  ref_A := ["A", "C", "G"]
  mu := [2 / 3, 7 / 6, 7 / 6]
  bed_snp_1 := [[false, true, false, false, false, false],
    [false, true, true, false, true, false],
    [true, true, false, false, false, false]]
  bed_snp_2 := [[false, true, true, false, true, false],
    [false, true, true, true, true, false],
    [true, true, true, false, true, true]]
  snp_map := [("rs1", 0), ("rs2", 1), ("rs3", 2)]
  to_include := [0, 1, 2]
  fam_ids_inc := [0, 1, 2, 3, 4, 5]

/-- Summary statistics for the three SNPs of `exRefC`, trait variance 1. -/
def exPhenoC : Phenotype where
  snp_name := ["rs1", "rs2", "rs3"]
  allele1 := ["A", "C", "G"]
  allele2 := ["G", "T", "A"]
  freq := [1 / 3, 7 / 12, 7 / 12]
  beta := [1 / 2, -2 / 5, 1 / 4]
  se := [1 / 100, 1 / 100, 1 / 100]
  pval := [0, 0, 0]
  n := [1000, 1000, 1000]
  variance := 1

/-- The state after `init_conditional(exPhenoC, exRefC)` of an analysis with the
default options (`p_cutoff = 5e-8`, `collinear = 0.9`). -/
def exCaC : CondAnalysis :=
  match init_conditional exactNumerics exCa0 exPhenoC exRefC with
  | .ok res => res.ca
  | .error _ => exCa0

/-- Reference panel with four SNPs on chromosome 1 and six individuals (dosages
`0 2 1 0 1 0`, `0 2 2 1 2 0`, `2 2 1 0 1 1`, `0 1 2 0 1 2`); `rs4` lies outside
the LD window of the others. -/
def exRefD : Reference where
  bim_snp_name := ["rs1", "rs2", "rs3", "rs4"]
  bim_chr := [1, 1, 1, 1]
  bim_bp := [100, 200, 300, 50000000]
  bim_allele1 := ["A", "C", "G", "A"]
  bim_allele2 := ["G", "T", "A", "C"]
  ref_A := ["A", "C", "G", "A"]
  mu := [2 / 3, 7 / 6, 7 / 6, 1]
  bed_snp_1 := [[false, true, false, false, false, false],
    [false, true, true, false, true, false],
    [true, true, false, false, false, false],
    [false, false, true, false, false, true]]
  bed_snp_2 := [[false, true, true, false, true, false],
    [false, true, true, true, true, false],
    [true, true, true, false, true, true],
    [false, true, true, false, true, true]]
  snp_map := [("rs1", 0), ("rs2", 1), ("rs3", 2), ("rs4", 3)]
  to_include := [0, 1, 2, 3]
  fam_ids_inc := [0, 1, 2, 3, 4, 5]

/-- Summary statistics for the four SNPs of `exRefD`: strong signals at `rs1`,
`rs2`, `rs3` (`chisq = 2500, 1600, 625`) and none at `rs4` (`chisq = 1`). -/
def exPhenoD : Phenotype where
  snp_name := ["rs1", "rs2", "rs3", "rs4"]
  allele1 := ["A", "C", "G", "A"]
  allele2 := ["G", "T", "A", "C"]
  freq := [1 / 3, 7 / 12, 7 / 12, 1 / 2]
  beta := [1 / 2, -2 / 5, 1 / 4, 1 / 100]
  se := [1 / 100, 1 / 100, 1 / 100, 1 / 100]
  pval := [0, 0, 0, 0]
  n := [1000, 1000, 1000, 1000]
  variance := 1

/-- The state after `init_conditional(exPhenoD, exRefD)`, default options. -/
def exCaD : CondAnalysis :=
  match init_conditional exactNumerics exCa0 exPhenoD exRefD with
  | .ok res => res.ca
  | .error _ => exCa0

/-- The state left by `find_independent_snps` on `exCaD`. -/
def exIndepD : Except String (CondAnalysis × Pairwise) :=
  find_independent_snps exactNumerics exCaD pairwise0 exRefD

/-- The pass `pw_conditional(pos)` from the state `exIndepD`. -/
def exPassD (pos : Int) : Except String (CondAnalysis × Pairwise) :=
  match exIndepD with
  | .ok (ca, pw) => pw_conditional exactNumerics ca pw exRefD pos
  | .error e => .error e

/-- One pass of the body of the `while (!select.empty())` loop of
`selected_stay`.  The flag tells whether the pass erased a SNP, after which the
loop goes round again, or left through `break`. -/
def selected_stay_pass (nm : Numerics) (ref : Reference) (s : Selection) :
    Except String (Bool × Selection) :=
  match massoc_joint nm s.ca ref s.selected with
  | .error e => .error e
  | .ok (ca1, out) =>
    let m := max_element out.p
    if ca1.a_p_cutoff < out.p.getD m 0 then
      .ok (true,
        { s with
          ca := erase_B_and_Z nm { ca1 with jma_snpnum_backward := ca1.jma_snpnum_backward + 1 }
            s.selected (s.selected.getD m 0)
          selected := s.selected.eraseIdx m
          out := out })
    else .ok (false, { s with ca := ca1, out := out })

/-- The `while (!select.empty())` loop of `selected_stay` as the source runs it,
without a bound on the number of passes: `StayRuns nm ref k s r` says that from
the state `s` the loop ends with the result `r` after erasing `k` SNPs. -/
inductive StayRuns (nm : Numerics) (ref : Reference) :
    Nat → Selection → Except String Selection → Prop
  | empty (s : Selection) (h : s.selected = []) : StayRuns nm ref 0 s (.ok s)
  | stop (s u : Selection) (h : s.selected ≠ [])
      (hp : selected_stay_pass nm ref s = .ok (false, u)) : StayRuns nm ref 0 s (.ok u)
  | fail (s : Selection) (e : String) (h : s.selected ≠ [])
      (hp : selected_stay_pass nm ref s = .error e) : StayRuns nm ref 0 s (.error e)
  | erase (s u : Selection) (k : Nat) (r : Except String Selection) (h : s.selected ≠ [])
      (hp : selected_stay_pass nm ref s = .ok (true, u)) (hr : StayRuns nm ref k u r) :
      StayRuns nm ref (k + 1) s r

/-- The selector state of `exPhenoE` (`p_cutoff = 0.01`) in which `stepwise_select`
makes its second call of `selected_stay`: the top SNP `rs2` is selected, the
first `select_entry` has entered `rs3`, `selected_stay` has kept both, and the
second `select_entry` has entered `rs4`. -/
def exThree : Selection :=
  match select_entry exactNumerics exRef
      { selection0 (exCaWith exPhenoE (1 / 100) (10 ^ 10)) with
        selected := [1], remain := [0, 2, 3] } with
  | .error _ => selection0 exCa0
  | .ok (_, s) =>
    match selected_stay exactNumerics exRef s with
    | .error _ => selection0 exCa0
    | .ok s2 =>
      match select_entry exactNumerics exRef s2 with
      | .error _ => selection0 exCa0
      | .ok (_, s3) => s3

/-- One pass of the body of the `while (!remain.empty())` loop of
`stepwise_select`.  The flag tells whether the loop goes round again or is left
through one of its two `break`s. -/
def stepwise_pass (nm : Numerics) (ref : Reference) (s : Selection) :
    Except String (Bool × Selection) :=
  match select_entry nm ref s with
  | .error e => .error e
  | .ok (false, s1) => .ok (false, s1)
  | .ok (true, s1) =>
    match selected_stay nm ref s1 with
    | .error e => .error e
    | .ok s2 =>
      if s2.ca.a_top_snp ≤ (s2.selected.length : ℚ) then .ok (false, s2) else .ok (true, s2)

/-- The `while (!remain.empty())` loop of `stepwise_select` as the source runs
it, without a bound on the number of passes: `StepwiseRuns nm ref k s r` says
that from the state `s` the loop ends with the result `r` after `k` passes of
its body. -/
inductive StepwiseRuns (nm : Numerics) (ref : Reference) :
    Nat → Selection → Except String Selection → Prop
  | empty (s : Selection) (h : s.remain = []) : StepwiseRuns nm ref 0 s (.ok s)
  | stop (s u : Selection) (h : s.remain ≠ [])
      (hp : stepwise_pass nm ref s = .ok (false, u)) : StepwiseRuns nm ref 1 s (.ok u)
  | fail (s : Selection) (e : String) (h : s.remain ≠ [])
      (hp : stepwise_pass nm ref s = .error e) : StepwiseRuns nm ref 1 s (.error e)
  | next (s u : Selection) (k : Nat) (r : Except String Selection) (h : s.remain ≠ [])
      (hp : stepwise_pass nm ref s = .ok (true, u)) (hr : StepwiseRuns nm ref k u r) :
      StepwiseRuns nm ref (k + 1) s r

/-- The moment matrices have not been built yet: `B_N` and `Z_N` have no column
(the state in which `cond_analysis` is constructed). -/
def Fresh (ca : CondAnalysis) : Prop := ca.B_N.cols = 0 ∧ ca.Z_N.cols = 0

/-- Every harmonised SNP varies in the reference sample: `msx_b[j] ≠ 0`. -/
def Polymorphic (ca : CondAnalysis) : Prop :=
  ∀ j, j < ca.to_include.length → ca.msx_b.getD j 0 ≠ 0

/-- The vectors of the selector: `selected` is strictly ascending, no SNP occurs
twice in `selected` and `remain` together, and all are positions of harmonised
SNPs. -/
structure SelVectors (s : Selection) : Prop where
  sorted : s.selected.Sorted (· < ·)
  nodup : (s.selected ++ s.remain).Nodup
  bound : ∀ j ∈ s.selected ++ s.remain, j < s.ca.to_include.length

/-- The selector invariant: the vectors are as in `SelVectors`, and the state
holds the moment matrices of `selected` (dimensions, `D_N`, and every entry of
`B`, `B_N`, `Z`, `Z_N`). -/
structure SelInv (nm : Numerics) (ref : Reference) (s : Selection) : Prop where
  vectors : SelVectors s
  holds : Holds nm s.ca ref s.selected
  diag : HoldsDiag nm s.ca ref s.selected

/-- Summary statistics for the single SNP `rs1`, trait variance 1. -/
def exPheno1 : Phenotype where
  snp_name := ["rs1"]
  allele1 := ["A"]
  allele2 := ["G"]
  freq := [1 / 2]
  beta := [1 / 2]
  se := [1 / 8]
  pval := [0]
  n := [1000]
  variance := 1

/-! ## General lemmas -/

theorem getD_map_of_lt {α β : Type} (f : α → β) (l : List α) (i : Nat) (d : β) (d1 : α)
    (h : i < l.length) : (l.map f).getD i d = f (l.getD i d1) := by
  simp [List.getD_eq_getElem?_getD, List.getElem?_map, List.getElem?_eq_getElem h]

theorem getD_range_of_lt (n i d : Nat) (h : i < n) : (List.range n).getD i d = i := by
  simp [List.getD_eq_getElem?_getD, List.getElem?_range h]

/-- Loop invariant rule for a counting loop `for (k = s; k < s + n; k++)`. -/
theorem foldl_range'_inv {σ : Type} (f : σ → Nat → σ) (P : Nat → σ → Prop) (s n : Nat)
    (init : σ) (h0 : P s init)
    (hstep : ∀ k st, s ≤ k → k < s + n → P k st → P (k + 1) (f st k)) :
    P (s + n) ((List.range' s n).foldl f init) := by
  induction n with
  | zero => simpa using h0
  | succ n ih =>
    rw [List.range'_concat, List.foldl_append]
    simp only [List.foldl_cons, List.foldl_nil]
    have h1 := ih (fun k st hk hk2 hP => hstep k st hk (by omega) hP)
    have h2 := hstep (s + n) _ (by omega) (by omega) h1
    simpa [Nat.add_assoc] using h2

/-- Loop invariant rule for a counting loop `for (k = 0; k < n; k++)`. -/
theorem foldl_range_inv {σ : Type} (f : σ → Nat → σ) (P : Nat → σ → Prop) (n : Nat)
    (init : σ) (h0 : P 0 init)
    (hstep : ∀ k st, k < n → P k st → P (k + 1) (f st k)) :
    P n ((List.range n).foldl f init) := by
  have h := foldl_range'_inv f P 0 n init h0
    (fun k st _ hk hP => hstep k st (by omega) hP)
  rw [List.range_eq_range']
  simpa using h

/-! ## The sorted index list of an insertion -/

theorem insert_ix_eq_orderedInsert (S : List Nat) (pos : Nat) (hS : S.Sorted (· < ·)) :
    insert_ix S pos = S.orderedInsert (fun a b => a ≤ b) pos := by
  unfold insert_ix
  have hS' : S.Sorted (fun a b => a ≤ b) := hS.imp (fun h => Nat.le_of_lt h)
  apply List.eq_of_perm_of_sorted (r := fun a b : Nat => a ≤ b)
  · refine (List.perm_insertionSort _ _).trans ?_
    refine List.perm_append_comm.trans ?_
    exact (List.perm_orderedInsert _ _ _).symm
  · exact List.sorted_insertionSort _ _
  · exact hS'.orderedInsert _ _

theorem getD_mem_of_lt (l : List Nat) (i : Nat) (h : i < l.length) : l.getD i 0 ∈ l := by
  rw [List.getD_eq_getElem _ _ h]
  exact List.getElem_mem h

theorem orderedInsert_at (S : List Nat) (pos : Nat) (hS : S.Sorted (· < ·)) (hpos : pos ∉ S) :
    ∃ p, InsertAt S pos (S.orderedInsert (fun a b => a ≤ b) pos) p := by
  induction S with
  | nil =>
    refine ⟨0, ⟨rfl, le_refl _, rfl, fun i hi => by omega, fun i h1 h2 => ?_, fun i h1 h2 => ?_⟩⟩
    · simp at h2; omega
    · simp at h1; omega
  | cons b l ih =>
    have hbl : ∀ x ∈ l, b < x := (List.sorted_cons.mp hS).1
    have hpb : pos ≠ b := fun h => hpos (by simp [h])
    by_cases hle : pos ≤ b
    · have hlt : pos < b := lt_of_le_of_ne hle hpb
      refine ⟨0, ⟨?_, Nat.zero_le _, ?_, fun i hi => by omega, ?_, ?_⟩⟩
      · simp [List.orderedInsert, hle]
      · simp [List.orderedInsert, hle]
      · intro i h1 h2
        simp only [List.orderedInsert, hle, if_true]
        obtain ⟨i', rfl⟩ : ∃ i', i = i' + 1 := ⟨i - 1, by omega⟩
        simp
      · intro i h1 h2
        simp only [List.orderedInsert, hle, if_true] at h1 ⊢
        obtain ⟨i', rfl⟩ : ∃ i', i = i' + 1 := ⟨i - 1, by omega⟩
        simp only [List.getD_cons_succ]
        have hmem := getD_mem_of_lt (b :: l) i' (by simpa using h1)
        rcases List.mem_cons.mp hmem with h | h
        · omega
        · have := hbl _ h; omega
    · have hlt : b < pos := by omega
      obtain ⟨p, hp⟩ := ih (List.sorted_cons.mp hS).2 (fun h => hpos (List.mem_cons_of_mem _ h))
      refine ⟨p + 1, ⟨?_, ?_, ?_, ?_, ?_, ?_⟩⟩
      · simp [List.orderedInsert, hle, hp.len]
      · simp; exact hp.le
      · simp only [List.orderedInsert, hle, if_false, List.getD_cons_succ]
        exact hp.at_p
      · intro i hi
        simp only [List.orderedInsert, hle, if_false]
        cases i with
        | zero => rfl
        | succ i => simp only [List.getD_cons_succ]; exact hp.below i (by omega)
      · intro i h1 h2
        simp only [List.orderedInsert, hle, if_false]
        obtain ⟨i', rfl⟩ : ∃ i', i = i' + 1 := ⟨i - 1, by omega⟩
        simp only [List.getD_cons_succ, Nat.add_sub_cancel]
        have := hp.above i' (by omega) (by simpa using h2)
        rw [this]
        obtain ⟨i'', rfl⟩ : ∃ i'', i' = i'' + 1 := ⟨i' - 1, by omega⟩
        simp
      · intro i h1 h2
        simp only [List.orderedInsert, hle, if_false] at h1 ⊢
        cases i with
        | zero => simp; omega
        | succ i =>
          simp only [List.getD_cons_succ]
          exact hp.ne i (by simpa using h1) (by omega)

theorem insert_ix_at (S : List Nat) (pos : Nat) (hS : S.Sorted (· < ·)) (hpos : pos ∉ S) :
    ∃ p, InsertAt S pos (insert_ix S pos) p := by
  rw [insert_ix_eq_orderedInsert S pos hS]
  exact orderedInsert_at S pos hS hpos

theorem insert_ix_sorted (S : List Nat) (pos : Nat) (hS : S.Sorted (· < ·)) (hpos : pos ∉ S) :
    (insert_ix S pos).Sorted (· < ·) := by
  have hS' : S.Sorted (fun a b => a ≤ b) := hS.imp (fun h => Nat.le_of_lt h)
  have h1 : (insert_ix S pos).Sorted (fun a b => a ≤ b) := List.sorted_insertionSort _ _
  have hperm : (insert_ix S pos).Perm (pos :: S) :=
    (List.perm_insertionSort _ _).trans List.perm_append_comm
  have hnd : (insert_ix S pos).Nodup :=
    hperm.nodup_iff.mpr (List.nodup_cons.mpr ⟨hpos, hS.nodup⟩)
  exact (h1.lt_of_le hnd)

theorem insert_ix_mem (S : List Nat) (pos x : Nat) :
    x ∈ insert_ix S pos ↔ x = pos ∨ x ∈ S := by
  have hperm : (insert_ix S pos).Perm (pos :: S) :=
    (List.perm_insertionSort _ _).trans List.perm_append_comm
  rw [hperm.mem_iff, List.mem_cons]


/-! ## Closed forms of the matrix-filling loops -/

@[simp] theorem SpMat.insertBack_coeff (M : SpMat) (i j : Nat) (v : ℚ) (a b : Nat) :
    (M.insertBack i j v).coeff a b = if a = i ∧ b = j then v else M.coeff a b := rfl

@[simp] theorem SpMat.insertBack_rows (M : SpMat) (i j : Nat) (v : ℚ) :
    (M.insertBack i j v).rows = M.rows := rfl

@[simp] theorem SpMat.insertBack_cols (M : SpMat) (i j : Nat) (v : ℚ) :
    (M.insertBack i j v).cols = M.cols := rfl

theorem B_entry_lower (ca : CondAnalysis) (ref : Reference) (S : List Nat) (a b : Nat)
    (ha : a < S.length) (hab : b < a) :
    B_entry ca ref S a b =
      if ldGate ca ref (S.getD b 0) (S.getD a 0) then xdot ca ref (S.getD b 0) (S.getD a 0)
      else 0 := by
  unfold B_entry
  rw [if_pos ⟨ha, by omega⟩, if_neg (by omega), if_pos hab]

theorem B_N_entry_lower (nm : Numerics) (ca : CondAnalysis) (ref : Reference) (S : List Nat)
    (a b : Nat) (ha : a < S.length) (hab : b < a) :
    B_N_entry nm ca ref S a b =
      if ldGate ca ref (S.getD b 0) (S.getD a 0) then
        xdot ca ref (S.getD b 0) (S.getD a 0) * nFactor nm ca (S.getD b 0) (S.getD a 0)
      else 0 := by
  unfold B_N_entry
  rw [if_pos ⟨ha, by omega⟩, if_neg (by omega), if_pos hab]

/-- Effect of the inner loop of `init_b` on column `i`. -/
theorem init_b_inner_loop (nm : Numerics) (ca : CondAnalysis) (ref : Reference)
    (idx : List Nat) (i : Nat) (s : BLoop) (hi : i < idx.length)
    (h0 : ∀ a, i < a → s.B.coeff a i = 0 ∧ s.B_N.coeff a i = 0) :
    let t := (List.range' (i + 1) (idx.length - (i + 1))).foldl (init_b_inner nm ca ref idx i) s
    t.D_N = s.D_N ∧ t.diagB = s.diagB ∧
    t.B.rows = s.B.rows ∧ t.B.cols = s.B.cols ∧ t.B_N.rows = s.B_N.rows ∧ t.B_N.cols = s.B_N.cols ∧
    ∀ a b,
      t.B.coeff a b = (if b = i ∧ i < a ∧ a < idx.length then B_entry ca ref idx a b
        else s.B.coeff a b) ∧
      t.B_N.coeff a b = (if b = i ∧ i < a ∧ a < idx.length then B_N_entry nm ca ref idx a b
        else s.B_N.coeff a b) := by
  intro t
  have key := foldl_range'_inv (init_b_inner nm ca ref idx i)
    (fun k st => st.D_N = s.D_N ∧ st.diagB = s.diagB ∧
      st.B.rows = s.B.rows ∧ st.B.cols = s.B.cols ∧
      st.B_N.rows = s.B_N.rows ∧ st.B_N.cols = s.B_N.cols ∧
      ∀ a b,
        st.B.coeff a b = (if b = i ∧ i < a ∧ a < k then B_entry ca ref idx a b
          else s.B.coeff a b) ∧
        st.B_N.coeff a b = (if b = i ∧ i < a ∧ a < k then B_N_entry nm ca ref idx a b
          else s.B_N.coeff a b))
    (i + 1) (idx.length - (i + 1)) s
    ⟨rfl, rfl, rfl, rfl, rfl, rfl, fun a b => by
      constructor <;> rw [if_neg (by omega)]⟩
    (by
      intro k st hk1 hk2 ⟨hD, hd, hr, hc, hr2, hc2, hco⟩
      have hkn : k < idx.length := by omega
      have hik : i < k := by omega
      have hEk := B_entry_lower ca ref idx k i hkn hik
      have hENk := B_N_entry_lower nm ca ref idx k i hkn hik
      have hst := hco k i
      rw [if_neg (by omega), if_neg (by omega), (h0 k hik).1, (h0 k hik).2] at hst
      unfold init_b_inner
      by_cases hg : ldGate ca ref (idx.getD i 0) (idx.getD k 0) = true
      · simp only [hg, if_true] at hEk hENk ⊢
        refine ⟨hD, hd, hr, hc, hr2, hc2, fun a b => ?_⟩
        simp only [SpMat.insertBack_coeff]
        rw [(hco a b).1, (hco a b).2]
        constructor
        · split_ifs <;> first | rfl | (exfalso; omega) | simp_all
        · split_ifs <;> first | rfl | (exfalso; omega) | simp_all
      · simp only [hg, Bool.false_eq_true, if_false] at hEk hENk ⊢
        refine ⟨hD, hd, hr, hc, hr2, hc2, fun a b => ?_⟩
        rw [(hco a b).1, (hco a b).2]
        constructor
        · split_ifs <;> first | rfl | (exfalso; omega) | skip
          all_goals
            have hak : a = k := by omega
            have hb : b = i := by omega
            subst hak hb
            rw [hEk]; exact (h0 _ hik).1
        · split_ifs <;> first | rfl | (exfalso; omega) | skip
          all_goals
            have hak : a = k := by omega
            have hb : b = i := by omega
            subst hak hb
            rw [hENk]; exact (h0 _ hik).2)
  have hlen : i + 1 + (idx.length - (i + 1)) = idx.length := by omega
  rw [hlen] at key
  exact key

@[simp] theorem EVec.set_coeff (v : EVec) (i : Nat) (x : ℚ) (a : Nat) :
    (v.set i x).coeff a = if a = i then x else v.coeff a := rfl

@[simp] theorem EVec.set_size (v : EVec) (i : Nat) (x : ℚ) : (v.set i x).size = v.size := rfl

theorem B_entry_diag (ca : CondAnalysis) (ref : Reference) (S : List Nat) (a : Nat)
    (ha : a < S.length) : B_entry ca ref S a a = ca.msx_b.getD (S.getD a 0) 0 := by
  unfold B_entry
  rw [if_pos ⟨ha, ha⟩, if_pos rfl]

theorem B_N_entry_diag (nm : Numerics) (ca : CondAnalysis) (ref : Reference) (S : List Nat)
    (a : Nat) (ha : a < S.length) :
    B_N_entry nm ca ref S a a = ca.msx.getD (S.getD a 0) 0 * ca.nD.getD (S.getD a 0) 0 := by
  unfold B_N_entry
  rw [if_pos ⟨ha, ha⟩, if_pos rfl]

theorem B_entry_zero (ca : CondAnalysis) (ref : Reference) (S : List Nat) (a b : Nat)
    (h : S.length ≤ a ∨ S.length ≤ b ∨ a < b) : B_entry ca ref S a b = 0 := by
  unfold B_entry
  split_ifs <;> first | rfl | (exfalso; omega)

theorem B_N_entry_zero (nm : Numerics) (ca : CondAnalysis) (ref : Reference) (S : List Nat)
    (a b : Nat) (h : S.length ≤ a ∨ S.length ≤ b ∨ a < b) : B_N_entry nm ca ref S a b = 0 := by
  unfold B_N_entry
  split_ifs <;> first | rfl | (exfalso; omega)

/-- What the loops of `init_b` leave: the entries of `B`, `B_N`, `D_N` and `diagB`
for the set `idx`. -/
theorem init_b_loops_spec (nm : Numerics) (ca : CondAnalysis) (ref : Reference)
    (idx : List Nat) :
    let s := init_b_loops nm ca ref idx
    s.B.rows = idx.length ∧ s.B.cols = idx.length ∧
    s.B_N.rows = idx.length ∧ s.B_N.cols = idx.length ∧ s.D_N.size = idx.length ∧
    (∀ a, s.D_N.coeff a = if a < idx.length then D_N_entry ca idx a else 0) ∧
    (∀ a, s.diagB a = if a < idx.length then ca.msx_b.getD (idx.getD a 0) 0 else 0) ∧
    ∀ a b, s.B.coeff a b = B_entry ca ref idx a b ∧
      s.B_N.coeff a b = B_N_entry nm ca ref idx a b := by
  intro s
  have key := foldl_range_inv (init_b_outer nm ca ref idx)
    (fun k st => st.B.rows = idx.length ∧ st.B.cols = idx.length ∧
      st.B_N.rows = idx.length ∧ st.B_N.cols = idx.length ∧ st.D_N.size = idx.length ∧
      (∀ a, st.D_N.coeff a = if a < k then D_N_entry ca idx a else 0) ∧
      (∀ a, st.diagB a = if a < k then ca.msx_b.getD (idx.getD a 0) 0 else 0) ∧
      ∀ a b, st.B.coeff a b = (if b < k then B_entry ca ref idx a b else 0) ∧
        st.B_N.coeff a b = (if b < k then B_N_entry nm ca ref idx a b else 0))
    idx.length
    { B := SpMat.resize idx.length idx.length
      B_N := SpMat.resize idx.length idx.length
      D_N := EVec.resize idx.length
      diagB := fun _ => 0
      get_ins_col := false
      get_ins_row := false }
    ⟨rfl, rfl, rfl, rfl, rfl, fun a => by simp [EVec.resize], fun a => by simp,
      fun a b => by simp [SpMat.resize]⟩
    (by
      intro k st hk ⟨hr, hc, hr2, hc2, hDs, hD, hd, hco⟩
      unfold init_b_outer
      simp only
      obtain ⟨iD, id, ir, ic, ir2, ic2, ico⟩ := init_b_inner_loop nm ca ref idx k
        { st with
          D_N := st.D_N.set k (ca.msx.getD (idx.getD k 0) 0 * ca.nD.getD (idx.getD k 0) 0)
          B := st.B.insertBack k k (ca.msx_b.getD (idx.getD k 0) 0)
          B_N := st.B_N.insertBack k k
            ((st.D_N.set k (ca.msx.getD (idx.getD k 0) 0 * ca.nD.getD (idx.getD k 0) 0)).coeff k)
          diagB := fun a => if a = k then ca.msx_b.getD (idx.getD k 0) 0 else st.diagB a }
        hk
        (by
          intro a ha
          simp only [SpMat.insertBack_coeff]
          rw [if_neg (by omega), if_neg (by omega), (hco a k).1, (hco a k).2]
          simp)
      simp only at iD id ir ic ir2 ic2 ico
      refine ⟨by rw [ir]; exact hr, by rw [ic]; exact hc, by rw [ir2]; exact hr2,
        by rw [ic2]; exact hc2, by rw [iD]; exact hDs, ?_, ?_, ?_⟩
      · intro a
        rw [iD, EVec.set_coeff, hD a]
        split_ifs <;> first | rfl | (exfalso; omega) | skip
        all_goals
          have hak : a = k := by omega
          subst hak
          rfl
      · intro a
        rw [id]
        simp only
        rw [hd a]
        split_ifs <;> first | rfl | (exfalso; omega) | skip
        all_goals
          have hak : a = k := by omega
          subst hak
          rfl
      · intro a b
        rw [(ico a b).1, (ico a b).2]
        simp only [SpMat.insertBack_coeff, EVec.set_coeff, if_true]
        rw [(hco a b).1, (hco a b).2]
        have e1 := B_entry_diag ca ref idx k hk
        have e2 := B_N_entry_diag nm ca ref idx k hk
        constructor
        · split_ifs <;> first
            | rfl
            | (exfalso; omega)
            | (have ha : a = k := by omega
               have hb : b = k := by omega
               subst ha hb
               exact e1.symm)
            | exact (B_entry_zero ca ref idx a b (by omega)).symm
        · split_ifs <;> first
            | rfl
            | (exfalso; omega)
            | (have ha : a = k := by omega
               have hb : b = k := by omega
               subst ha hb
               exact e2.symm)
            | exact (B_N_entry_zero nm ca ref idx a b (by omega)).symm)
  obtain ⟨hr, hc, hr2, hc2, hDs, hD, hd, hco⟩ := key
  refine ⟨hr, hc, hr2, hc2, hDs, hD, hd, fun a b => ⟨?_, ?_⟩⟩
  · refine (hco a b).1.trans ?_
    split_ifs with h
    · rfl
    · exact (B_entry_zero ca ref idx a b (by omega)).symm
  · refine (hco a b).2.trans ?_
    split_ifs with h
    · rfl
    · exact (B_N_entry_zero nm ca ref idx a b (by omega)).symm


theorem Z_entry_eq (ca : CondAnalysis) (ref : Reference) (S : List Nat) (a j : Nat)
    (ha : a < S.length) (hj : j < ca.to_include.length) :
    Z_entry ca ref S a j =
      if (S.getD a 0 != j && ldGate ca ref (S.getD a 0) j) = true then xdot ca ref j (S.getD a 0)
      else 0 := by
  unfold Z_entry
  rw [if_pos ⟨ha, hj⟩]
  by_cases h1 : S.getD a 0 = j <;> by_cases h2 : ldGate ca ref (S.getD a 0) j = true <;>
    simp [h1, h2]

theorem Z_N_entry_eq (nm : Numerics) (ca : CondAnalysis) (ref : Reference) (S : List Nat)
    (a j : Nat) (ha : a < S.length) (hj : j < ca.to_include.length) :
    Z_N_entry nm ca ref S a j =
      if (S.getD a 0 != j && ldGate ca ref (S.getD a 0) j) = true then
        xdot ca ref j (S.getD a 0) * nFactor nm ca (S.getD a 0) j
      else 0 := by
  unfold Z_N_entry
  rw [if_pos ⟨ha, hj⟩]
  by_cases h1 : S.getD a 0 = j <;> by_cases h2 : ldGate ca ref (S.getD a 0) j = true <;>
    simp [h1, h2]

theorem Z_entry_zero (ca : CondAnalysis) (ref : Reference) (S : List Nat) (a j : Nat)
    (h : S.length ≤ a ∨ ca.to_include.length ≤ j) : Z_entry ca ref S a j = 0 := by
  unfold Z_entry
  rw [if_neg (by omega)]

theorem Z_N_entry_zero (nm : Numerics) (ca : CondAnalysis) (ref : Reference) (S : List Nat)
    (a j : Nat) (h : S.length ≤ a ∨ ca.to_include.length ≤ j) :
    Z_N_entry nm ca ref S a j = 0 := by
  unfold Z_N_entry
  rw [if_neg (by omega)]

/-- Effect of the inner loop of `init_z` on column `j`. -/
theorem init_z_inner_loop (nm : Numerics) (ca : CondAnalysis) (ref : Reference)
    (idx : List Nat) (j : Nat) (s : ZLoop) (hj : j < ca.to_include.length)
    (h0 : ∀ a, s.Z.coeff a j = 0 ∧ s.Z_N.coeff a j = 0) :
    let t := (List.range idx.length).foldl (init_z_inner nm ca ref idx j) s
    t.Z.rows = s.Z.rows ∧ t.Z.cols = s.Z.cols ∧ t.Z_N.rows = s.Z_N.rows ∧
    t.Z_N.cols = s.Z_N.cols ∧
    ∀ a b,
      t.Z.coeff a b = (if b = j then Z_entry ca ref idx a b else s.Z.coeff a b) ∧
      t.Z_N.coeff a b = (if b = j then Z_N_entry nm ca ref idx a b else s.Z_N.coeff a b) := by
  intro t
  have key := foldl_range_inv (init_z_inner nm ca ref idx j)
    (fun k st => st.Z.rows = s.Z.rows ∧ st.Z.cols = s.Z.cols ∧ st.Z_N.rows = s.Z_N.rows ∧
      st.Z_N.cols = s.Z_N.cols ∧
      ∀ a b,
        st.Z.coeff a b = (if b = j ∧ a < k then Z_entry ca ref idx a b else s.Z.coeff a b) ∧
        st.Z_N.coeff a b = (if b = j ∧ a < k then Z_N_entry nm ca ref idx a b
          else s.Z_N.coeff a b))
    idx.length s
    ⟨rfl, rfl, rfl, rfl, fun a b => by constructor <;> rw [if_neg (by omega)]⟩
    (by
      intro k st hk ⟨hr, hc, hr2, hc2, hco⟩
      have hEk := Z_entry_eq ca ref idx k j hk hj
      have hENk := Z_N_entry_eq nm ca ref idx k j hk hj
      unfold init_z_inner
      by_cases hg : (idx.getD k 0 != j && ldGate ca ref (idx.getD k 0) j) = true
      · simp only [hg, if_true] at hEk hENk ⊢
        refine ⟨hr, hc, hr2, hc2, fun a b => ?_⟩
        simp only [SpMat.insertBack_coeff]
        rw [(hco a b).1, (hco a b).2]
        constructor
        · split_ifs <;> first | rfl | (exfalso; omega) | simp_all
        · split_ifs <;> first | rfl | (exfalso; omega) | simp_all
      · simp only [hg, Bool.false_eq_true, if_false] at hEk hENk ⊢
        refine ⟨hr, hc, hr2, hc2, fun a b => ?_⟩
        rw [(hco a b).1, (hco a b).2]
        constructor
        · split_ifs <;> first
            | rfl
            | (exfalso; omega)
            | (have hak : a = k := by omega
               have hb : b = j := by omega
               subst hak hb
               rw [hEk]; exact (h0 _).1)
        · split_ifs <;> first
            | rfl
            | (exfalso; omega)
            | (have hak : a = k := by omega
               have hb : b = j := by omega
               subst hak hb
               rw [hENk]; exact (h0 _).2))
  obtain ⟨hr, hc, hr2, hc2, hco⟩ := key
  refine ⟨hr, hc, hr2, hc2, fun a b => ⟨?_, ?_⟩⟩
  · refine (hco a b).1.trans ?_
    split_ifs <;> first
      | rfl
      | (exfalso; omega)
      | (have hb : b = j := by omega
         subst hb
         rw [Z_entry_zero ca ref idx a b (by omega)]; exact (h0 _).1)
  · refine (hco a b).2.trans ?_
    split_ifs <;> first
      | rfl
      | (exfalso; omega)
      | (have hb : b = j := by omega
         subst hb
         rw [Z_N_entry_zero nm ca ref idx a b (by omega)]; exact (h0 _).2)

/-- What `init_z` leaves: the entries of `Z` and `Z_N` for the set `idx`. -/
theorem init_z_spec (nm : Numerics) (ca : CondAnalysis) (ref : Reference) (idx : List Nat) :
    let c := init_z nm ca ref idx
    c.Z.rows = idx.length ∧ c.Z.cols = ca.to_include.length ∧
    c.Z_N.rows = idx.length ∧ c.Z_N.cols = ca.to_include.length ∧
    ∀ a b, c.Z.coeff a b = Z_entry ca ref idx a b ∧
      c.Z_N.coeff a b = Z_N_entry nm ca ref idx a b := by
  intro c
  have key := foldl_range_inv (init_z_outer nm ca ref idx)
    (fun k st => st.Z.rows = idx.length ∧ st.Z.cols = ca.to_include.length ∧
      st.Z_N.rows = idx.length ∧ st.Z_N.cols = ca.to_include.length ∧
      ∀ a b, st.Z.coeff a b = (if b < k then Z_entry ca ref idx a b else 0) ∧
        st.Z_N.coeff a b = (if b < k then Z_N_entry nm ca ref idx a b else 0))
    ca.to_include.length
    { Z := SpMat.resize idx.length ca.to_include.length
      Z_N := SpMat.resize idx.length ca.to_include.length
      get_ins_row := false }
    ⟨rfl, rfl, rfl, rfl, fun a b => by simp [SpMat.resize]⟩
    (by
      intro k st hk ⟨hr, hc, hr2, hc2, hco⟩
      unfold init_z_outer
      obtain ⟨ir, ic, ir2, ic2, ico⟩ := init_z_inner_loop nm ca ref idx k st hk
        (by
          intro a
          rw [(hco a k).1, (hco a k).2]
          simp)
      refine ⟨by rw [ir]; exact hr, by rw [ic]; exact hc, by rw [ir2]; exact hr2,
        by rw [ic2]; exact hc2, fun a b => ?_⟩
      rw [(ico a b).1, (ico a b).2, (hco a b).1, (hco a b).2]
      constructor
      · split_ifs <;> first | rfl | (exfalso; omega)
      · split_ifs <;> first | rfl | (exfalso; omega))
  obtain ⟨hr, hc, hr2, hc2, hco⟩ := key
  refine ⟨hr, hc, hr2, hc2, fun a b => ⟨?_, ?_⟩⟩
  · refine (hco a b).1.trans ?_
    split_ifs with h
    · rfl
    · exact (Z_entry_zero ca ref idx a b (by omega)).symm
  · refine (hco a b).2.trans ?_
    split_ifs with h
    · rfl
    · exact (Z_N_entry_zero nm ca ref idx a b (by omega)).symm


theorem dot_comm (x y : List ℚ) : dot x y = dot y x := by
  unfold dot
  congr 1
  induction x generalizing y with
  | nil => cases y <;> rfl
  | cons a x ih =>
    cases y with
    | nil => rfl
    | cons b y => simp [List.zipWith, mul_comm a b, ih y]

theorem xdot_comm (ca : CondAnalysis) (ref : Reference) (a b : Nat) :
    xdot ca ref a b = xdot ca ref b a := by
  unfold xdot
  rw [dot_comm]

theorem ldGate_comm (ca : CondAnalysis) (ref : Reference) (a b : Nat) :
    ldGate ca ref a b = ldGate ca ref b a := by
  unfold ldGate
  have h1 : (ref.bim_bp.getD (ca.to_include.getD a 0) 0
      - ref.bim_bp.getD (ca.to_include.getD b 0) 0).natAbs
      = (ref.bim_bp.getD (ca.to_include.getD b 0) 0
      - ref.bim_bp.getD (ca.to_include.getD a 0) 0).natAbs := by
    rw [← Int.natAbs_neg]
    congr 1
    ring
  rw [h1]
  congr 1
  rw [Bool.eq_iff_iff, beq_iff_eq, beq_iff_eq]
  exact eq_comm

theorem nFactor_comm (nm : Numerics) (ca : CondAnalysis) (a b : Nat) :
    nFactor nm ca a b = nFactor nm ca b a := by
  unfold nFactor
  rw [min_comm, mul_comm (ca.msx.getD a 0), mul_comm (ca.msx_b.getD a 0)]

/-- Below the diagonal, a zero entry of `B` has a zero entry of `B_N` beside it. -/
theorem B_N_entry_zero_of_B (nm : Numerics) (ca : CondAnalysis) (ref : Reference)
    (S : List Nat) (a b : Nat) (hab : a ≠ b) (h : B_entry ca ref S a b = 0) :
    B_N_entry nm ca ref S a b = 0 := by
  unfold B_entry at h
  unfold B_N_entry
  split_ifs at h ⊢ <;> first | rfl | (exfalso; omega) | simp_all

/-- The entry that the `B` loops of `insert_B_Z` copy from the old matrices is the
entry of the new index list. -/
theorem insert_old_entry (nm : Numerics) (ca : CondAnalysis) (ref : Reference)
    (S ix : List Nat) (pos p : Nat) (hix : InsertAt S pos ix p)
    (hold : ∀ a b, a ≠ b → ca.B.coeff a b = B_entry ca ref S a b ∧
      ca.B_N.coeff a b = B_N_entry nm ca ref S a b)
    (a b : Nat) (hb : b < a) (ha : a < ix.length) (hap : a ≠ p) (hbp : b ≠ p) :
    ca.B.coeff (a - if p ≤ a then 1 else 0) (b - if p ≤ b then 1 else 0)
        = B_entry ca ref ix a b ∧
    ca.B_N.coeff (a - if p ≤ a then 1 else 0) (b - if p ≤ b then 1 else 0)
        = B_N_entry nm ca ref ix a b := by
  have hlen := hix.len
  have hple := hix.le
  have hSa : S.getD (a - if p ≤ a then 1 else 0) 0 = ix.getD a 0 := by
    by_cases h : p ≤ a
    · rw [if_pos h]; exact (hix.above a (by omega) (by omega)).symm
    · rw [if_neg h]; exact (hix.below a (by omega)).symm
  have hSb : S.getD (b - if p ≤ b then 1 else 0) 0 = ix.getD b 0 := by
    by_cases h : p ≤ b
    · rw [if_pos h]; exact (hix.above b (by omega) (by omega)).symm
    · rw [if_neg h]; exact (hix.below b (by omega)).symm
  have hlt : (b - if p ≤ b then 1 else 0) < (a - if p ≤ a then 1 else 0) := by
    split_ifs <;> omega
  have ha' : (a - if p ≤ a then 1 else 0) < S.length := by
    split_ifs <;> omega
  obtain ⟨h1, h2⟩ := hold _ _ (Nat.ne_of_gt hlt)
  rw [h1, h2, B_entry_lower _ _ _ _ _ ha' hlt, B_N_entry_lower _ _ _ _ _ _ ha' hlt,
    B_entry_lower _ _ _ _ _ ha hb, B_N_entry_lower _ _ _ _ _ _ ha hb, hSa, hSb]
  exact ⟨rfl, rfl⟩


/-- One step of a column-filling loop that writes the entry `(k, j)`. -/
theorem column_step_write (E f g s0 : Nat → Nat → ℚ) (j k : Nat) (hjk : j < k)
    (hco : ∀ a b, f a b = if b = j ∧ j < a ∧ a < k then E a b else s0 a b)
    (hg : ∀ a b, g a b = if a = k ∧ b = j then E k j else f a b) :
    ∀ a b, g a b = if b = j ∧ j < a ∧ a < k + 1 then E a b else s0 a b := by
  intro a b
  rw [hg, hco]
  split_ifs <;> first
    | rfl
    | (exfalso; omega)
    | (have ha : a = k := by omega
       have hb : b = j := by omega
       subst ha hb
       rfl)

/-- One step of a column-filling loop that leaves the entry `(k, j)` absent. -/
theorem column_step_skip (E f s0 : Nat → Nat → ℚ) (j k : Nat) (hjk : j < k)
    (hco : ∀ a b, f a b = if b = j ∧ j < a ∧ a < k then E a b else s0 a b)
    (hz : s0 k j = 0) (hE : E k j = 0) :
    ∀ a b, f a b = if b = j ∧ j < a ∧ a < k + 1 then E a b else s0 a b := by
  intro a b
  rw [hco]
  split_ifs <;> first
    | rfl
    | (exfalso; omega)
    | (have ha : a = k := by omega
       have hb : b = j := by omega
       subst ha hb
       rw [hz, hE])

theorem insert_pos_beq (S ix : List Nat) (pos p : Nat) (hix : InsertAt S pos ix p) (k : Nat)
    (hk : k < ix.length) : (pos == ix.getD k 0) = decide (k = p) := by
  by_cases h : k = p
  · subst h
    rw [hix.at_p]
    simp
  · have hne : (pos == ix.getD k 0) = false := by
      rw [beq_eq_false_iff_ne]
      exact Ne.symm (hix.ne k hk h)
    rw [hne]
    simp [h]

/-- Effect of the inner loop of the `B` part of `insert_B_Z` on column `j`. -/
theorem insert_B_inner_loop (nm : Numerics) (ca : CondAnalysis) (ref : Reference)
    (S ix : List Nat) (pos p : Nat) (hix : InsertAt S pos ix p)
    (hold : ∀ a b, a ≠ b → ca.B.coeff a b = B_entry ca ref S a b ∧
      ca.B_N.coeff a b = B_N_entry nm ca ref S a b)
    (j : Nat) (s : BLoop) (hj : j < ix.length)
    (hcol : s.get_ins_col = decide (p ≤ j)) (hrow : s.get_ins_row = decide (p ≤ j))
    (h0 : ∀ a, j < a → s.B.coeff a j = 0 ∧ s.B_N.coeff a j = 0) :
    let t := (List.range' (j + 1) (ix.length - (j + 1))).foldl
      (insert_B_inner nm ca ref ix pos ca.B ca.B_N j) s
    t.get_ins_col = s.get_ins_col ∧ t.D_N = s.D_N ∧ t.diagB = s.diagB ∧
    t.B.rows = s.B.rows ∧ t.B.cols = s.B.cols ∧ t.B_N.rows = s.B_N.rows ∧ t.B_N.cols = s.B_N.cols ∧
    (∀ a b, t.B.coeff a b = if b = j ∧ j < a ∧ a < ix.length then B_entry ca ref ix a b
        else s.B.coeff a b) ∧
    (∀ a b, t.B_N.coeff a b = if b = j ∧ j < a ∧ a < ix.length then B_N_entry nm ca ref ix a b
        else s.B_N.coeff a b) := by
  intro t
  have key := foldl_range'_inv (insert_B_inner nm ca ref ix pos ca.B ca.B_N j)
    (fun k st => st.get_ins_col = s.get_ins_col ∧ st.get_ins_row = decide (p < k) ∧
      st.D_N = s.D_N ∧ st.diagB = s.diagB ∧
      st.B.rows = s.B.rows ∧ st.B.cols = s.B.cols ∧
      st.B_N.rows = s.B_N.rows ∧ st.B_N.cols = s.B_N.cols ∧
      (∀ a b, st.B.coeff a b = if b = j ∧ j < a ∧ a < k then B_entry ca ref ix a b
          else s.B.coeff a b) ∧
      (∀ a b, st.B_N.coeff a b = if b = j ∧ j < a ∧ a < k then B_N_entry nm ca ref ix a b
          else s.B_N.coeff a b))
    (j + 1) (ix.length - (j + 1)) s
    ⟨rfl, by rw [hrow]; simp [Nat.lt_succ_iff], rfl, rfl, rfl, rfl, rfl, rfl,
      fun a b => by rw [if_neg (by omega)], fun a b => by rw [if_neg (by omega)]⟩
    (by
      intro k st hk1 hk2 ⟨hc, hrw, hD, hd, hr, hcs, hr2, hc2, hco, hcoN⟩
      have hkn : k < ix.length := by omega
      have hjk : j < k := by omega
      have hEk := B_entry_lower ca ref ix k j hkn hjk
      have hENk := B_N_entry_lower nm ca ref ix k j hkn hjk
      have hbk := insert_pos_beq S ix pos p hix k hkn
      have hbj := insert_pos_beq S ix pos p hix j hj
      rw [ldGate_comm, xdot_comm] at hEk
      rw [ldGate_comm, xdot_comm, nFactor_comm] at hENk
      unfold insert_B_inner
      rw [hbk, hbj]
      have hrow1 : p = k ∨ p = j → true = decide (p < k + 1) := by
        intro h
        have : p < k + 1 := by omega
        simp [this]
      have hrow2 : k ≠ p → st.get_ins_row = decide (p < k + 1) := by
        intro h
        rw [hrw]
        have : p < k ↔ p < k + 1 := by omega
        simp [this]
      by_cases hpair : j = p ∨ k = p
      · -- the pair involves `pos`: the entry is recomputed
        have hcond : (decide (j = p) || decide (k = p)) = true := by simpa using hpair
        simp only [hcond, if_true]
        by_cases hkp : k = p
        · have hd1 : decide (k = p) = true := by simp [hkp]
          simp only [hd1, if_true]
          by_cases hg : ldGate ca ref (ix.getD k 0) (ix.getD j 0) = true
          · simp only [hg, if_true] at hEk hENk ⊢
            refine ⟨hc, hrow1 (Or.inl hkp.symm), hD, hd, hr, hcs, hr2, hc2, ?_, ?_⟩
            · apply column_step_write _ _ _ _ j k hjk hco
              intro a b
              rw [hEk]
              rfl
            · apply column_step_write _ _ _ _ j k hjk hcoN
              intro a b
              rw [hENk]
              rfl
          · simp only [hg, Bool.false_eq_true, if_false] at hEk hENk ⊢
            exact ⟨hc, hrow1 (Or.inl hkp.symm), hD, hd, hr, hcs, hr2, hc2,
              column_step_skip _ _ _ j k hjk hco (h0 k hjk).1 hEk,
              column_step_skip _ _ _ j k hjk hcoN (h0 k hjk).2 hENk⟩
        · have hjp : j = p := by tauto
          have hd1 : decide (k = p) = false := by simp [hkp]
          simp only [hd1, Bool.false_eq_true, if_false]
          by_cases hg : ldGate ca ref (ix.getD k 0) (ix.getD j 0) = true
          · simp only [hg, if_true] at hEk hENk ⊢
            refine ⟨hc, hrow2 hkp, hD, hd, hr, hcs, hr2, hc2, ?_, ?_⟩
            · apply column_step_write _ _ _ _ j k hjk hco
              intro a b
              rw [hEk]
              rfl
            · apply column_step_write _ _ _ _ j k hjk hcoN
              intro a b
              rw [hENk]
              rfl
          · simp only [hg, Bool.false_eq_true, if_false] at hEk hENk ⊢
            exact ⟨hc, hrow2 hkp, hD, hd, hr, hcs, hr2, hc2,
              column_step_skip _ _ _ j k hjk hco (h0 k hjk).1 hEk,
              column_step_skip _ _ _ j k hjk hcoN (h0 k hjk).2 hENk⟩
      · -- the pair does not involve `pos`: the entry is copied from the old matrix
        push_neg at hpair
        obtain ⟨hjp, hkp⟩ := hpair
        have hcond : (decide (j = p) || decide (k = p)) = false := by simp [hjp, hkp]
        have hd1 : decide (k = p) = false := by simp [hkp]
        have hd2 : decide (j = p) = false := by simp [hjp]
        simp only [hd1, hd2, Bool.or_false, Bool.false_eq_true, if_false]
        have hrk : (if st.get_ins_row = true then 1 else 0) = if p ≤ k then 1 else 0 := by
          rw [hrw]
          by_cases h : p < k
          · simp [h, Nat.le_of_lt h]
          · have : ¬ p ≤ k := by omega
            simp [h, this]
        have hcj : (if st.get_ins_col = true then 1 else 0) = if p ≤ j then 1 else 0 := by
          rw [hc, hcol]
          by_cases h : p ≤ j <;> simp [h]
        rw [hrk, hcj]
        obtain ⟨ho, hoN⟩ := insert_old_entry nm ca ref S ix pos p hix hold k j hjk hkn hkp hjp
        by_cases hz : ca.B.coeff (k - if p ≤ k then 1 else 0) (j - if p ≤ j then 1 else 0) = 0
        · rw [if_neg (not_not.mpr hz)]
          have hE0 : B_entry ca ref ix k j = 0 := by rw [← ho]; exact hz
          exact ⟨hc, hrow2 hkp, hD, hd, hr, hcs, hr2, hc2,
            column_step_skip _ _ _ j k hjk hco (h0 k hjk).1 hE0,
            column_step_skip _ _ _ j k hjk hcoN (h0 k hjk).2
              (B_N_entry_zero_of_B nm ca ref ix k j (by omega) hE0)⟩
        · rw [if_pos hz]
          refine ⟨hc, hrow2 hkp, hD, hd, hr, hcs, hr2, hc2, ?_, ?_⟩
          · apply column_step_write _ _ _ _ j k hjk hco
            intro a b
            rw [← ho]
            rfl
          · apply column_step_write _ _ _ _ j k hjk hcoN
            intro a b
            rw [← hoN]
            rfl)
  have hlen : j + 1 + (ix.length - (j + 1)) = ix.length := by omega
  rw [hlen] at key
  obtain ⟨hc, -, hD, hd, hr, hcs, hr2, hc2, hco, hcoN⟩ := key
  exact ⟨hc, hD, hd, hr, hcs, hr2, hc2, hco, hcoN⟩

/-- What the `B` loops of `insert_B_Z` leave when the old matrices hold the
off-diagonal entries of `S`: the entries of `B`, `B_N` and `diagB` for the new
index list. -/
theorem insert_B_loops_spec (nm : Numerics) (ca : CondAnalysis) (ref : Reference)
    (S ix : List Nat) (pos p : Nat) (hix : InsertAt S pos ix p)
    (hold : ∀ a b, a ≠ b → ca.B.coeff a b = B_entry ca ref S a b ∧
      ca.B_N.coeff a b = B_N_entry nm ca ref S a b) :
    let s := insert_B_loops nm ca ref ix pos
    s.B.rows = ix.length ∧ s.B.cols = ix.length ∧
    s.B_N.rows = ix.length ∧ s.B_N.cols = ix.length ∧
    (∀ a, s.diagB a = if a < ix.length then ca.msx_b.getD (ix.getD a 0) 0 else 0) ∧
    ∀ a b, s.B.coeff a b = B_entry ca ref ix a b ∧
      s.B_N.coeff a b = B_N_entry nm ca ref ix a b := by
  intro s
  have key := foldl_range_inv (insert_B_outer nm ca ref ix pos ca.B ca.B_N)
    (fun k st => st.get_ins_col = decide (p < k) ∧
      st.B.rows = ix.length ∧ st.B.cols = ix.length ∧
      st.B_N.rows = ix.length ∧ st.B_N.cols = ix.length ∧
      (∀ a, st.diagB a = if a < k then ca.msx_b.getD (ix.getD a 0) 0 else 0) ∧
      ∀ a b, st.B.coeff a b = (if b < k then B_entry ca ref ix a b else 0) ∧
        st.B_N.coeff a b = (if b < k then B_N_entry nm ca ref ix a b else 0))
    ix.length
    { B := SpMat.resize ix.length ix.length
      B_N := SpMat.resize ix.length ix.length
      D_N := ca.D_N
      diagB := fun _ => 0
      get_ins_col := false
      get_ins_row := false }
    ⟨by simp, rfl, rfl, rfl, rfl, fun a => by simp, fun a b => by simp [SpMat.resize]⟩
    (by
      intro k st hk ⟨hcol, hr, hc, hr2, hc2, hd, hco⟩
      have hbk := insert_pos_beq S ix pos p hix k hk
      unfold insert_B_outer
      simp only
      rw [hbk]
      have hcol' : (if decide (k = p) = true then true else st.get_ins_col) = decide (p ≤ k) := by
        rw [hcol]
        by_cases h : k = p
        · simp [h]
        · have : p < k ↔ p ≤ k := by omega
          simp [h, this]
      obtain ⟨ic, -, id, ir, ics, ir2, ic2, ico, icoN⟩ := insert_B_inner_loop nm ca ref S ix pos p
        hix hold k
        { B := st.B.insertBack k k (ca.msx_b.getD (ix.getD k 0) 0)
          B_N := st.B_N.insertBack k k
            (ca.msx.getD (ix.getD k 0) 0 * ca.nD.getD (ix.getD k 0) 0)
          D_N := st.D_N
          diagB := fun a => if a = k then ca.msx_b.getD (ix.getD k 0) 0 else st.diagB a
          get_ins_col := if decide (k = p) = true then true else st.get_ins_col
          get_ins_row := if decide (k = p) = true then true else st.get_ins_col }
        hk hcol' hcol'
        (by
          intro a ha
          simp only [SpMat.insertBack_coeff]
          rw [if_neg (by omega), if_neg (by omega), (hco a k).1, (hco a k).2]
          simp)
      have hstate : (let s1 : BLoop :=
            { B := st.B.insertBack k k (ca.msx_b.getD (ix.getD k 0) 0)
              B_N := st.B_N.insertBack k k
                (ca.msx.getD (ix.getD k 0) 0 * ca.nD.getD (ix.getD k 0) 0)
              D_N := st.D_N
              diagB := fun a => if a = k then ca.msx_b.getD (ix.getD k 0) 0 else st.diagB a
              get_ins_col := st.get_ins_col
              get_ins_row := st.get_ins_row }
          let s2 : BLoop := if decide (k = p) = true then { s1 with get_ins_col := true } else s1
          ({ s2 with get_ins_row := s2.get_ins_col } : BLoop))
          = { B := st.B.insertBack k k (ca.msx_b.getD (ix.getD k 0) 0)
              B_N := st.B_N.insertBack k k
                (ca.msx.getD (ix.getD k 0) 0 * ca.nD.getD (ix.getD k 0) 0)
              D_N := st.D_N
              diagB := fun a => if a = k then ca.msx_b.getD (ix.getD k 0) 0 else st.diagB a
              get_ins_col := if decide (k = p) = true then true else st.get_ins_col
              get_ins_row := if decide (k = p) = true then true else st.get_ins_col } := by
        simp only
        split_ifs <;> rfl
      simp only at hstate
      rw [hstate]
      simp only at ic id ir ics ir2 ic2 ico icoN
      refine ⟨?_, by rw [ir]; exact hr, by rw [ics]; exact hc, by rw [ir2]; exact hr2,
        by rw [ic2]; exact hc2, ?_, ?_⟩
      · rw [ic, hcol']
        have : p ≤ k ↔ p < k + 1 := by omega
        simp [this]
      · intro a
        rw [id]
        simp only
        rw [hd a]
        split_ifs <;> first
          | rfl
          | (exfalso; omega)
          | (have hak : a = k := by omega
             subst hak
             rfl)
      · intro a b
        rw [ico a b, icoN a b]
        simp only [SpMat.insertBack_coeff]
        rw [(hco a b).1, (hco a b).2]
        have e1 := B_entry_diag ca ref ix k hk
        have e2 := B_N_entry_diag nm ca ref ix k hk
        constructor
        · split_ifs <;> first
            | rfl
            | (exfalso; omega)
            | (have ha : a = k := by omega
               have hb : b = k := by omega
               subst ha hb
               exact e1.symm)
            | exact (B_entry_zero ca ref ix a b (by omega)).symm
        · split_ifs <;> first
            | rfl
            | (exfalso; omega)
            | (have ha : a = k := by omega
               have hb : b = k := by omega
               subst ha hb
               exact e2.symm)
            | exact (B_N_entry_zero nm ca ref ix a b (by omega)).symm)
  obtain ⟨-, hr, hc, hr2, hc2, hd, hco⟩ := key
  refine ⟨hr, hc, hr2, hc2, hd, fun a b => ⟨?_, ?_⟩⟩
  · refine (hco a b).1.trans ?_
    split_ifs with h
    · rfl
    · exact (B_entry_zero ca ref ix a b (by omega)).symm
  · refine (hco a b).2.trans ?_
    split_ifs with h
    · rfl
    · exact (B_N_entry_zero nm ca ref ix a b (by omega)).symm


/-- One step of a row-by-row loop over column `j` that writes the entry `(k, j)`. -/
theorem rows_step_write (E f g s0 : Nat → Nat → ℚ) (j k : Nat)
    (hco : ∀ a b, f a b = if b = j ∧ a < k then E a b else s0 a b)
    (hg : ∀ a b, g a b = if a = k ∧ b = j then E k j else f a b) :
    ∀ a b, g a b = if b = j ∧ a < k + 1 then E a b else s0 a b := by
  intro a b
  rw [hg, hco]
  split_ifs <;> first
    | rfl
    | (exfalso; omega)
    | (have ha : a = k := by omega
       have hb : b = j := by omega
       subst ha hb
       rfl)

/-- One step of a row-by-row loop over column `j` that leaves the entry `(k, j)` absent. -/
theorem rows_step_skip (E f s0 : Nat → Nat → ℚ) (j k : Nat)
    (hco : ∀ a b, f a b = if b = j ∧ a < k then E a b else s0 a b)
    (hz : s0 k j = 0) (hE : E k j = 0) :
    ∀ a b, f a b = if b = j ∧ a < k + 1 then E a b else s0 a b := by
  intro a b
  rw [hco]
  split_ifs <;> first
    | rfl
    | (exfalso; omega)
    | (have ha : a = k := by omega
       have hb : b = j := by omega
       subst ha hb
       rw [hz, hE])

/-- A zero entry of `Z` has a zero entry of `Z_N` beside it. -/
theorem Z_N_entry_zero_of_Z (nm : Numerics) (ca : CondAnalysis) (ref : Reference)
    (S : List Nat) (a b : Nat) (h : Z_entry ca ref S a b = 0) :
    Z_N_entry nm ca ref S a b = 0 := by
  unfold Z_entry at h
  unfold Z_N_entry
  split_ifs at h ⊢ <;> first | rfl | simp_all

/-- The entry that the `Z` loops of `insert_B_Z` copy from the old tables is the
entry of the new index list. -/
theorem insert_old_Z_entry (nm : Numerics) (ca : CondAnalysis) (ref : Reference)
    (S ix : List Nat) (pos p : Nat) (hix : InsertAt S pos ix p)
    (hold : ∀ a b, ca.Z.coeff a b = Z_entry ca ref S a b ∧
      ca.Z_N.coeff a b = Z_N_entry nm ca ref S a b)
    (k j : Nat) (hk : k < ix.length) (hkp : k ≠ p) :
    ca.Z.coeff (k - if p < k then 1 else 0) j = Z_entry ca ref ix k j ∧
    ca.Z_N.coeff (k - if p < k then 1 else 0) j = Z_N_entry nm ca ref ix k j := by
  have hlen := hix.len
  have hple := hix.le
  have hSk : S.getD (k - if p < k then 1 else 0) 0 = ix.getD k 0 := by
    by_cases h : p < k
    · rw [if_pos h]; exact (hix.above k h (by omega)).symm
    · rw [if_neg h]; exact (hix.below k (by omega)).symm
  have hk' : (k - if p < k then 1 else 0) < S.length := by
    split_ifs <;> omega
  rw [(hold _ _).1, (hold _ _).2]
  unfold Z_entry Z_N_entry
  simp only [hSk, hk', hk, true_and]

/-- Effect of the inner loop of the `Z` part of `insert_B_Z` on column `j`. -/
theorem insert_Z_inner_loop (nm : Numerics) (ca : CondAnalysis) (ref : Reference)
    (S ix : List Nat) (pos p : Nat) (hix : InsertAt S pos ix p)
    (hold : ∀ a b, ca.Z.coeff a b = Z_entry ca ref S a b ∧
      ca.Z_N.coeff a b = Z_N_entry nm ca ref S a b)
    (j : Nat) (s : ZLoop) (hj : j < ca.to_include.length)
    (hrow : s.get_ins_row = false)
    (h0 : ∀ a, s.Z.coeff a j = 0 ∧ s.Z_N.coeff a j = 0) :
    let t := (List.range ix.length).foldl
      (insert_Z_inner nm ca ref ix pos ca.Z ca.Z_N j) s
    t.Z.rows = s.Z.rows ∧ t.Z.cols = s.Z.cols ∧ t.Z_N.rows = s.Z_N.rows ∧
    t.Z_N.cols = s.Z_N.cols ∧
    (∀ a b, t.Z.coeff a b = if b = j then Z_entry ca ref ix a b else s.Z.coeff a b) ∧
    (∀ a b, t.Z_N.coeff a b = if b = j then Z_N_entry nm ca ref ix a b else s.Z_N.coeff a b) := by
  intro t
  have key := foldl_range_inv (insert_Z_inner nm ca ref ix pos ca.Z ca.Z_N j)
    (fun k st => st.get_ins_row = decide (p < k) ∧
      st.Z.rows = s.Z.rows ∧ st.Z.cols = s.Z.cols ∧ st.Z_N.rows = s.Z_N.rows ∧
      st.Z_N.cols = s.Z_N.cols ∧
      (∀ a b, st.Z.coeff a b = if b = j ∧ a < k then Z_entry ca ref ix a b else s.Z.coeff a b) ∧
      (∀ a b, st.Z_N.coeff a b = if b = j ∧ a < k then Z_N_entry nm ca ref ix a b
          else s.Z_N.coeff a b))
    ix.length s
    ⟨by rw [hrow]; simp, rfl, rfl, rfl, rfl,
      fun a b => by rw [if_neg (by omega)], fun a b => by rw [if_neg (by omega)]⟩
    (by
      intro k st hk ⟨hrw, hr, hc, hr2, hc2, hco, hcoN⟩
      have hEk := Z_entry_eq ca ref ix k j hk hj
      have hENk := Z_N_entry_eq nm ca ref ix k j hk hj
      have hbk := insert_pos_beq S ix pos p hix k hk
      unfold insert_Z_inner
      rw [hbk]
      by_cases hkp : k = p
      · have hd1 : decide (k = p) = true := by simp [hkp]
        have hrow' : true = decide (p < k + 1) := by
          have : p < k + 1 := by omega
          simp [this]
        simp only [hd1, if_true]
        by_cases hg : (ix.getD k 0 != j && ldGate ca ref (ix.getD k 0) j) = true
        · simp only [hg, if_true] at hEk hENk ⊢
          refine ⟨hrow', hr, hc, hr2, hc2, ?_, ?_⟩
          · apply rows_step_write _ _ _ _ j k hco
            intro a b
            rw [hEk]
            rfl
          · apply rows_step_write _ _ _ _ j k hcoN
            intro a b
            rw [hENk]
            rfl
        · simp only [hg, Bool.false_eq_true, if_false] at hEk hENk ⊢
          exact ⟨hrow', hr, hc, hr2, hc2,
            rows_step_skip _ _ _ j k hco (h0 k).1 hEk,
            rows_step_skip _ _ _ j k hcoN (h0 k).2 hENk⟩
      · have hd1 : decide (k = p) = false := by simp [hkp]
        simp only [hd1, Bool.false_eq_true, if_false]
        have hrow' : st.get_ins_row = decide (p < k + 1) := by
          rw [hrw]
          have : p < k ↔ p < k + 1 := by omega
          simp [this]
        have hrk : (if st.get_ins_row = true then 1 else 0) = if p < k then 1 else 0 := by
          rw [hrw]
          by_cases h : p < k <;> simp [h]
        rw [hrk]
        obtain ⟨ho, hoN⟩ := insert_old_Z_entry nm ca ref S ix pos p hix hold k j hk hkp
        by_cases hz : ca.Z.coeff (k - if p < k then 1 else 0) j = 0
        · rw [if_neg (not_not.mpr hz)]
          have hE0 : Z_entry ca ref ix k j = 0 := by rw [← ho]; exact hz
          exact ⟨hrow', hr, hc, hr2, hc2,
            rows_step_skip _ _ _ j k hco (h0 k).1 hE0,
            rows_step_skip _ _ _ j k hcoN (h0 k).2 (Z_N_entry_zero_of_Z nm ca ref ix k j hE0)⟩
        · rw [if_pos hz]
          refine ⟨hrow', hr, hc, hr2, hc2, ?_, ?_⟩
          · apply rows_step_write _ _ _ _ j k hco
            intro a b
            rw [← ho]
            rfl
          · apply rows_step_write _ _ _ _ j k hcoN
            intro a b
            rw [← hoN]
            rfl)
  obtain ⟨-, hr, hc, hr2, hc2, hco, hcoN⟩ := key
  refine ⟨hr, hc, hr2, hc2, fun a b => ?_, fun a b => ?_⟩
  · refine (hco a b).trans ?_
    split_ifs <;> first
      | rfl
      | (exfalso; omega)
      | (have hb : b = j := by omega
         subst hb
         rw [Z_entry_zero ca ref ix a b (by omega)]; exact (h0 _).1)
  · refine (hcoN a b).trans ?_
    split_ifs <;> first
      | rfl
      | (exfalso; omega)
      | (have hb : b = j := by omega
         subst hb
         rw [Z_N_entry_zero nm ca ref ix a b (by omega)]; exact (h0 _).2)

/-- What the `Z` loops of `insert_B_Z` leave when the old tables hold the entries
of `S`: the entries of `Z` and `Z_N` for the new index list. -/
theorem insert_Z_loops_spec (nm : Numerics) (ca : CondAnalysis) (ref : Reference)
    (S ix : List Nat) (pos p : Nat) (hix : InsertAt S pos ix p)
    (hold : ∀ a b, ca.Z.coeff a b = Z_entry ca ref S a b ∧
      ca.Z_N.coeff a b = Z_N_entry nm ca ref S a b) :
    let z := insert_Z_loops nm ca ref ix pos
    z.Z.rows = ix.length ∧ z.Z.cols = ca.to_include.length ∧
    z.Z_N.rows = ix.length ∧ z.Z_N.cols = ca.to_include.length ∧
    ∀ a b, z.Z.coeff a b = Z_entry ca ref ix a b ∧
      z.Z_N.coeff a b = Z_N_entry nm ca ref ix a b := by
  intro z
  have key := foldl_range_inv (insert_Z_outer nm ca ref ix pos ca.Z ca.Z_N)
    (fun k st => st.Z.rows = ix.length ∧ st.Z.cols = ca.to_include.length ∧
      st.Z_N.rows = ix.length ∧ st.Z_N.cols = ca.to_include.length ∧
      ∀ a b, st.Z.coeff a b = (if b < k then Z_entry ca ref ix a b else 0) ∧
        st.Z_N.coeff a b = (if b < k then Z_N_entry nm ca ref ix a b else 0))
    ca.to_include.length
    { Z := SpMat.resize ix.length ca.to_include.length
      Z_N := SpMat.resize ix.length ca.to_include.length
      get_ins_row := false }
    ⟨rfl, rfl, rfl, rfl, fun a b => by simp [SpMat.resize]⟩
    (by
      intro k st hk ⟨hr, hc, hr2, hc2, hco⟩
      unfold insert_Z_outer
      obtain ⟨ir, ic, ir2, ic2, ico, icoN⟩ := insert_Z_inner_loop nm ca ref S ix pos p hix hold k
        { st with get_ins_row := false } hk rfl
        (by
          intro a
          show st.Z.coeff a k = 0 ∧ st.Z_N.coeff a k = 0
          rw [(hco a k).1, (hco a k).2]
          simp)
      refine ⟨by rw [ir]; exact hr, by rw [ic]; exact hc, by rw [ir2]; exact hr2,
        by rw [ic2]; exact hc2, fun a b => ?_⟩
      rw [ico a b, icoN a b]
      simp only
      rw [(hco a b).1, (hco a b).2]
      constructor
      · split_ifs <;> first | rfl | (exfalso; omega)
      · split_ifs <;> first | rfl | (exfalso; omega))
  obtain ⟨hr, hc, hr2, hc2, hco⟩ := key
  refine ⟨hr, hc, hr2, hc2, fun a b => ⟨?_, ?_⟩⟩
  · refine (hco a b).1.trans ?_
    split_ifs with h
    · rfl
    · exact (Z_entry_zero ca ref ix a b (by omega)).symm
  · refine (hco a b).2.trans ?_
    split_ifs with h
    · rfl
    · exact (Z_N_entry_zero nm ca ref ix a b (by omega)).symm


/-- One step of a copying loop of `erase_B_and_Z` that writes the entry `(a0, b)`,
the image of the old row `k`. -/
theorem shift_step_write (E f g s0 : Nat → Nat → ℚ) (q lo b k a0 : Nat)
    (ha0 : a0 + (if q ≤ a0 then 1 else 0) = k) (hlo : lo ≤ a0)
    (hco : ∀ a' b', f a' b' =
      if b' = b ∧ lo ≤ a' ∧ a' + (if q ≤ a' then 1 else 0) < k then E a' b' else s0 a' b')
    (hg : ∀ a' b', g a' b' = if a' = a0 ∧ b' = b then E a0 b else f a' b') :
    ∀ a' b', g a' b' =
      if b' = b ∧ lo ≤ a' ∧ a' + (if q ≤ a' then 1 else 0) < k + 1 then E a' b'
      else s0 a' b' := by
  intro a' b'
  rw [hg, hco]
  by_cases h1 : a' = a0 ∧ b' = b
  · obtain ⟨rfl, rfl⟩ := h1
    rw [if_pos ⟨rfl, rfl⟩, if_pos ⟨rfl, hlo, by omega⟩]
  · rw [if_neg h1]
    have e : (b' = b ∧ lo ≤ a' ∧ a' + (if q ≤ a' then 1 else 0) < k)
        ↔ (b' = b ∧ lo ≤ a' ∧ a' + (if q ≤ a' then 1 else 0) < k + 1) := by
      constructor
      · rintro ⟨h2, h3, h4⟩
        exact ⟨h2, h3, by omega⟩
      · rintro ⟨h2, h3, h4⟩
        refine ⟨h2, h3, ?_⟩
        by_contra h5
        apply h1
        refine ⟨?_, h2⟩
        split_ifs at ha0 h4 h5 <;> omega
    simp only [e]

/-- One step of a copying loop of `erase_B_and_Z` that leaves the entry `(a0, b)` absent. -/
theorem shift_step_skip (E f s0 : Nat → Nat → ℚ) (q lo b k a0 : Nat)
    (ha0 : a0 + (if q ≤ a0 then 1 else 0) = k)
    (hco : ∀ a' b', f a' b' =
      if b' = b ∧ lo ≤ a' ∧ a' + (if q ≤ a' then 1 else 0) < k then E a' b' else s0 a' b')
    (hz : s0 a0 b = 0) (hE : E a0 b = 0) :
    ∀ a' b', f a' b' =
      if b' = b ∧ lo ≤ a' ∧ a' + (if q ≤ a' then 1 else 0) < k + 1 then E a' b'
      else s0 a' b' := by
  intro a' b'
  rw [hco]
  by_cases h1 : a' = a0 ∧ b' = b
  · obtain ⟨rfl, rfl⟩ := h1
    rw [if_neg (by omega)]
    split_ifs <;> first | rfl | rw [hz, hE]
  · have e : (b' = b ∧ lo ≤ a' ∧ a' + (if q ≤ a' then 1 else 0) < k)
        ↔ (b' = b ∧ lo ≤ a' ∧ a' + (if q ≤ a' then 1 else 0) < k + 1) := by
      constructor
      · rintro ⟨h2, h3, h4⟩
        exact ⟨h2, h3, by omega⟩
      · rintro ⟨h2, h3, h4⟩
        refine ⟨h2, h3, ?_⟩
        by_contra h5
        apply h1
        refine ⟨?_, h2⟩
        split_ifs at ha0 h4 h5 <;> omega
    simp only [e]

/-- The step of a copying loop of `erase_B_and_Z` at the erased row writes nothing. -/
theorem shift_step_none (E f s0 : Nat → Nat → ℚ) (q lo b : Nat)
    (hco : ∀ a' b', f a' b' =
      if b' = b ∧ lo ≤ a' ∧ a' + (if q ≤ a' then 1 else 0) < q then E a' b' else s0 a' b') :
    ∀ a' b', f a' b' =
      if b' = b ∧ lo ≤ a' ∧ a' + (if q ≤ a' then 1 else 0) < q + 1 then E a' b'
      else s0 a' b' := by
  intro a' b'
  rw [hco]
  have e : (b' = b ∧ lo ≤ a' ∧ a' + (if q ≤ a' then 1 else 0) < q)
      ↔ (b' = b ∧ lo ≤ a' ∧ a' + (if q ≤ a' then 1 else 0) < q + 1) := by
    constructor
    · rintro ⟨h2, h3, h4⟩
      exact ⟨h2, h3, by omega⟩
    · rintro ⟨h2, h3, h4⟩
      refine ⟨h2, h3, ?_⟩
      split_ifs at h4 ⊢ <;> omega
  simp only [e]


/-- Effect of the inner loop of the `B` part of `erase_B_and_Z` on the old column `j`. -/
theorem erase_B_inner_loop (idx : List Nat) (e q : Nat)
    (hbeq : ∀ k, k < idx.length → (e == idx.getD k 0) = decide (k = q))
    (Bd BNd : SpMat) (j : Nat) (hj : j < idx.length) (hjq : j ≠ q) (s : BLoop)
    (hcol : s.get_ins_col = decide (q < j)) (hrow : s.get_ins_row = decide (q < j))
    (h0 : ∀ a', (j - if q < j then 1 else 0) ≤ a' →
      s.B.coeff a' (j - if q < j then 1 else 0) = 0 ∧
      s.B_N.coeff a' (j - if q < j then 1 else 0) = 0) :
    let t := (List.range' j (idx.length - j)).foldl (erase_B_inner idx e Bd BNd j) s
    t.get_ins_col = s.get_ins_col ∧ t.D_N = s.D_N ∧
    t.B.rows = s.B.rows ∧ t.B.cols = s.B.cols ∧ t.B_N.rows = s.B_N.rows ∧ t.B_N.cols = s.B_N.cols ∧
    (∀ a' b', t.B.coeff a' b' =
      if b' = (j - if q < j then 1 else 0) ∧ (j - if q < j then 1 else 0) ≤ a' ∧
          a' + (if q ≤ a' then 1 else 0) < idx.length then
        Bd.coeff (a' + if q ≤ a' then 1 else 0) j
      else s.B.coeff a' b') ∧
    (∀ a' b', t.B_N.coeff a' b' =
      if b' = (j - if q < j then 1 else 0) ∧ (j - if q < j then 1 else 0) ≤ a' ∧
          a' + (if q ≤ a' then 1 else 0) < idx.length then
        (if Bd.coeff (a' + if q ≤ a' then 1 else 0) j ≠ 0 then
          BNd.coeff (a' + if q ≤ a' then 1 else 0) j else 0)
      else s.B_N.coeff a' b') := by
  intro t
  have key := foldl_range'_inv (erase_B_inner idx e Bd BNd j)
    (fun k st => st.get_ins_col = s.get_ins_col ∧ st.get_ins_row = decide (q < k) ∧
      st.D_N = s.D_N ∧
      st.B.rows = s.B.rows ∧ st.B.cols = s.B.cols ∧
      st.B_N.rows = s.B_N.rows ∧ st.B_N.cols = s.B_N.cols ∧
      (∀ a' b', st.B.coeff a' b' =
        if b' = (j - if q < j then 1 else 0) ∧ (j - if q < j then 1 else 0) ≤ a' ∧
            a' + (if q ≤ a' then 1 else 0) < k then
          (fun a' _ => Bd.coeff (a' + if q ≤ a' then 1 else 0) j) a' b'
        else s.B.coeff a' b') ∧
      (∀ a' b', st.B_N.coeff a' b' =
        if b' = (j - if q < j then 1 else 0) ∧ (j - if q < j then 1 else 0) ≤ a' ∧
            a' + (if q ≤ a' then 1 else 0) < k then
          (fun a' _ => if Bd.coeff (a' + if q ≤ a' then 1 else 0) j ≠ 0 then
            BNd.coeff (a' + if q ≤ a' then 1 else 0) j else 0) a' b'
        else s.B_N.coeff a' b'))
    j (idx.length - j) s
    ⟨rfl, hrow, rfl, rfl, rfl, rfl, rfl,
      fun a' b' => by
        rw [if_neg]
        rintro ⟨-, h2, h3⟩
        split_ifs at h2 h3 <;> omega,
      fun a' b' => by
        rw [if_neg]
        rintro ⟨-, h2, h3⟩
        split_ifs at h2 h3 <;> omega⟩
    (by
      intro k st hk1 hk2 ⟨hc, hrw, hD, hr, hcs, hr2, hc2, hco, hcoN⟩
      have hkn : k < idx.length := by omega
      have hbk := hbeq k hkn
      unfold erase_B_inner
      rw [hbk]
      by_cases hkq : k = q
      · have hd1 : decide (k = q) = true := by simp [hkq]
        simp only [hd1, if_true]
        have hrow' : true = decide (q < k + 1) := by
          have : q < k + 1 := by omega
          simp [this]
        subst hkq
        exact ⟨hc, hrow', hD, hr, hcs, hr2, hc2,
          shift_step_none _ _ _ k _ _ hco, shift_step_none _ _ _ k _ _ hcoN⟩
      · have hd1 : decide (k = q) = false := by simp [hkq]
        simp only [hd1, Bool.false_eq_true, if_false]
        have hrow' : st.get_ins_row = decide (q < k + 1) := by
          rw [hrw]
          have : q < k ↔ q < k + 1 := by omega
          simp [this]
        have hrk : (if st.get_ins_row = true then 1 else 0) = if q < k then 1 else 0 := by
          rw [hrw]
          by_cases h : q < k <;> simp [h]
        have hcj : (if st.get_ins_col = true then 1 else 0) = if q < j then 1 else 0 := by
          rw [hc, hcol]
          by_cases h : q < j <;> simp [h]
        have ha0 : (k - if q < k then 1 else 0)
            + (if q ≤ (k - if q < k then 1 else 0) then 1 else 0) = k := by
          split_ifs <;> omega
        have hlo : (j - if q < j then 1 else 0) ≤ (k - if q < k then 1 else 0) := by
          split_ifs <;> omega
        by_cases hz : Bd.coeff k j = 0
        · rw [if_neg (not_not.mpr hz)]
          refine ⟨hc, hrow', hD, hr, hcs, hr2, hc2, ?_, ?_⟩
          · exact shift_step_skip _ _ _ q _ _ k _ ha0 hco (h0 _ hlo).1 (by simp only [ha0]; exact hz)
          · exact shift_step_skip _ _ _ q _ _ k _ ha0 hcoN (h0 _ hlo).2
              (by simp only [ha0]; rw [if_neg (not_not.mpr hz)])
        · rw [if_pos hz, hrk, hcj]
          refine ⟨hc, hrow', hD, hr, hcs, hr2, hc2, ?_, ?_⟩
          · apply shift_step_write _ _ _ _ q _ _ k _ ha0 hlo hco
            intro a' b'
            simp only [ha0]
            rfl
          · apply shift_step_write _ _ _ _ q _ _ k _ ha0 hlo hcoN
            intro a' b'
            simp only [ha0]
            rw [if_pos hz]
            rfl)
  have hlen : j + (idx.length - j) = idx.length := by omega
  rw [hlen] at key
  obtain ⟨hc, -, hD, hr, hcs, hr2, hc2, hco, hcoN⟩ := key
  exact ⟨hc, hD, hr, hcs, hr2, hc2, hco, hcoN⟩


/-- What the `B` loops of `erase_B_and_Z` leave: row and column `q` of the old
matrices are dropped, the other stored entries are copied (an entry of `B_N`
only where the entry of `B` beside it is non-zero), and `D_N` is refilled. -/
theorem erase_B_loops_spec (ca : CondAnalysis) (idx : List Nat) (e q : Nat)
    (hq : q < idx.length)
    (hbeq : ∀ k, k < idx.length → (e == idx.getD k 0) = decide (k = q)) :
    let s := erase_B_loops ca idx e
    s.B.rows = idx.length - 1 ∧ s.B.cols = idx.length - 1 ∧
    s.B_N.rows = idx.length - 1 ∧ s.B_N.cols = idx.length - 1 ∧ s.D_N.size = idx.length - 1 ∧
    (∀ a', s.D_N.coeff a' = if a' + 1 < idx.length then
        D_N_entry ca idx (a' + if q ≤ a' then 1 else 0) else 0) ∧
    (∀ a' b', s.B.coeff a' b' = if b' ≤ a' ∧ a' + 1 < idx.length then
        ca.B.coeff (a' + if q ≤ a' then 1 else 0) (b' + if q ≤ b' then 1 else 0) else 0) ∧
    (∀ a' b', s.B_N.coeff a' b' = if b' ≤ a' ∧ a' + 1 < idx.length then
        (if ca.B.coeff (a' + if q ≤ a' then 1 else 0) (b' + if q ≤ b' then 1 else 0) ≠ 0 then
          ca.B_N.coeff (a' + if q ≤ a' then 1 else 0) (b' + if q ≤ b' then 1 else 0) else 0)
        else 0) := by
  intro s
  have key := foldl_range_inv (erase_B_outer ca idx e ca.B ca.B_N)
    (fun k st => st.get_ins_col = decide (q < k) ∧
      st.B.rows = idx.length - 1 ∧ st.B.cols = idx.length - 1 ∧
      st.B_N.rows = idx.length - 1 ∧ st.B_N.cols = idx.length - 1 ∧
      st.D_N.size = idx.length - 1 ∧
      (∀ a', st.D_N.coeff a' = if a' + (if q ≤ a' then 1 else 0) < k then
          D_N_entry ca idx (a' + if q ≤ a' then 1 else 0) else 0) ∧
      (∀ a' b', st.B.coeff a' b' =
        if b' + (if q ≤ b' then 1 else 0) < k ∧ b' ≤ a' ∧
            a' + (if q ≤ a' then 1 else 0) < idx.length then
          ca.B.coeff (a' + if q ≤ a' then 1 else 0) (b' + if q ≤ b' then 1 else 0) else 0) ∧
      (∀ a' b', st.B_N.coeff a' b' =
        if b' + (if q ≤ b' then 1 else 0) < k ∧ b' ≤ a' ∧
            a' + (if q ≤ a' then 1 else 0) < idx.length then
          (if ca.B.coeff (a' + if q ≤ a' then 1 else 0) (b' + if q ≤ b' then 1 else 0) ≠ 0 then
            ca.B_N.coeff (a' + if q ≤ a' then 1 else 0) (b' + if q ≤ b' then 1 else 0) else 0)
        else 0))
    idx.length
    { B := SpMat.resize (idx.length - 1) (idx.length - 1)
      B_N := SpMat.resize (idx.length - 1) (idx.length - 1)
      D_N := EVec.resize (idx.length - 1)
      diagB := fun _ => 0
      get_ins_col := false
      get_ins_row := false }
    ⟨by simp, rfl, rfl, rfl, rfl, rfl, fun a' => by simp [EVec.resize],
      fun a' b' => by simp [SpMat.resize], fun a' b' => by simp [SpMat.resize]⟩
    (by
      intro k st hk ⟨hcol, hr, hc, hr2, hc2, hDs, hD, hco, hcoN⟩
      have hbk := hbeq k hk
      unfold erase_B_outer
      rw [hbk]
      by_cases hkq : k = q
      · have hd1 : decide (k = q) = true := by simp [hkq]
        simp only [hd1, if_true]
        subst hkq
        refine ⟨by simp, hr, hc, hr2, hc2, hDs, fun a' => ?_, fun a' b' => ?_, fun a' b' => ?_⟩
        · rw [hD a']
          have e : a' + (if k ≤ a' then 1 else 0) < k ↔ a' + (if k ≤ a' then 1 else 0) < k + 1 := by
            split_ifs <;> omega
          simp only [e]
        · rw [hco a' b']
          have e : b' + (if k ≤ b' then 1 else 0) < k ↔ b' + (if k ≤ b' then 1 else 0) < k + 1 := by
            split_ifs <;> omega
          simp only [e]
        · rw [hcoN a' b']
          have e : b' + (if k ≤ b' then 1 else 0) < k ↔ b' + (if k ≤ b' then 1 else 0) < k + 1 := by
            split_ifs <;> omega
          simp only [e]
      · have hd1 : decide (k = q) = false := by simp [hkq]
        simp only [hd1, Bool.false_eq_true, if_false]
        have hcj : (if st.get_ins_col = true then 1 else 0) = if q < k then 1 else 0 := by
          rw [hcol]
          by_cases h : q < k <;> simp [h]
        rw [hcj]
        have hphi : ∀ b', b' + (if q ≤ b' then 1 else 0) = k ↔ b' = k - if q < k then 1 else 0 := by
          intro b'
          split_ifs <;> omega
        obtain ⟨ic, iD, ir, ics, ir2, ic2, ico, icoN⟩ := erase_B_inner_loop idx e q hbeq ca.B ca.B_N
          k hk hkq
          { st with
            D_N := st.D_N.set (k - if q < k then 1 else 0)
              (ca.msx.getD (idx.getD k 0) 0 * ca.nD.getD (idx.getD k 0) 0)
            get_ins_row := st.get_ins_col }
          hcol hcol
          (by
            intro a' ha'
            show st.B.coeff a' _ = 0 ∧ st.B_N.coeff a' _ = 0
            rw [hco, hcoN, if_neg, if_neg]
            · exact ⟨rfl, rfl⟩
            · rintro ⟨h1, -, -⟩
              have := (hphi (k - if q < k then 1 else 0)).mpr rfl
              omega
            · rintro ⟨h1, -, -⟩
              have := (hphi (k - if q < k then 1 else 0)).mpr rfl
              omega)
        simp only at ic iD ir ics ir2 ic2 ico icoN
        refine ⟨?_, by rw [ir]; exact hr, by rw [ics]; exact hc, by rw [ir2]; exact hr2,
          by rw [ic2]; exact hc2, by rw [iD]; exact hDs, fun a' => ?_, fun a' b' => ?_,
          fun a' b' => ?_⟩
        · rw [ic, hcol]
          have : q < k ↔ q < k + 1 := by omega
          simp [this]
        · rw [iD, EVec.set_coeff, hD a']
          by_cases h : a' = k - if q < k then 1 else 0
          · have h2 := (hphi a').mpr h
            rw [if_pos h, if_pos (by omega), h2]
            rfl
          · have h2 : a' + (if q ≤ a' then 1 else 0) ≠ k := fun h3 => h ((hphi a').mp h3)
            rw [if_neg h]
            have e : a' + (if q ≤ a' then 1 else 0) < k
                ↔ a' + (if q ≤ a' then 1 else 0) < k + 1 := by omega
            simp only [e]
        · rw [ico a' b', hco a' b']
          by_cases h : b' = k - if q < k then 1 else 0
          · subst h
            have hk0 : (k - if q < k then 1 else 0)
                + (if q ≤ (k - if q < k then 1 else 0) then 1 else 0) = k := (hphi _).mpr rfl
            simp only [hk0, eq_self_iff_true, true_and, Nat.lt_succ_self, lt_irrefl, false_and,
              if_false]
          · have h2 : b' + (if q ≤ b' then 1 else 0) ≠ k := fun h3 => h ((hphi b').mp h3)
            rw [if_neg (fun h4 => h h4.1)]
            have e : b' + (if q ≤ b' then 1 else 0) < k
                ↔ b' + (if q ≤ b' then 1 else 0) < k + 1 := by omega
            simp only [e]
        · rw [icoN a' b', hcoN a' b']
          by_cases h : b' = k - if q < k then 1 else 0
          · subst h
            have hk0 : (k - if q < k then 1 else 0)
                + (if q ≤ (k - if q < k then 1 else 0) then 1 else 0) = k := (hphi _).mpr rfl
            simp only [hk0, eq_self_iff_true, true_and, Nat.lt_succ_self, lt_irrefl, false_and,
              if_false]
          · have h2 : b' + (if q ≤ b' then 1 else 0) ≠ k := fun h3 => h ((hphi b').mp h3)
            rw [if_neg (fun h4 => h h4.1)]
            have e : b' + (if q ≤ b' then 1 else 0) < k
                ↔ b' + (if q ≤ b' then 1 else 0) < k + 1 := by omega
            simp only [e])
  obtain ⟨-, hr, hc, hr2, hc2, hDs, hD, hco, hcoN⟩ := key
  have hb : ∀ a', a' + (if q ≤ a' then 1 else 0) < idx.length ↔ a' + 1 < idx.length := by
    intro a'
    split_ifs <;> omega
  have hbb : ∀ a' b', (b' + (if q ≤ b' then 1 else 0) < idx.length ∧ b' ≤ a' ∧
      a' + (if q ≤ a' then 1 else 0) < idx.length) ↔ (b' ≤ a' ∧ a' + 1 < idx.length) := by
    intro a' b'
    rw [hb a', hb b']
    constructor
    · rintro ⟨-, h2, h3⟩; exact ⟨h2, h3⟩
    · rintro ⟨h2, h3⟩; exact ⟨by omega, h2, h3⟩
  refine ⟨hr, hc, hr2, hc2, hDs, fun a' => ?_, fun a' b' => ?_, fun a' b' => ?_⟩
  · refine (hD a').trans ?_
    simp only [hb a']
  · refine (hco a' b').trans ?_
    simp only [hbb a' b']
  · refine (hcoN a' b').trans ?_
    simp only [hbb a' b']


/-- Effect of the inner loop of the `Z` part of `erase_B_and_Z` on column `j`. -/
theorem erase_Z_inner_loop (idx : List Nat) (e q : Nat)
    (hbeq : ∀ k, k < idx.length → (e == idx.getD k 0) = decide (k = q))
    (Zt ZNt : SpMat) (j : Nat) (s : ZLoop) (hrow : s.get_ins_row = false)
    (h0 : ∀ a', s.Z.coeff a' j = 0 ∧ s.Z_N.coeff a' j = 0) :
    let t := (List.range idx.length).foldl (erase_Z_inner idx e Zt ZNt j) s
    t.Z.rows = s.Z.rows ∧ t.Z.cols = s.Z.cols ∧ t.Z_N.rows = s.Z_N.rows ∧
    t.Z_N.cols = s.Z_N.cols ∧
    (∀ a' b', t.Z.coeff a' b' =
      if b' = j ∧ 0 ≤ a' ∧ a' + (if q ≤ a' then 1 else 0) < idx.length then
        Zt.coeff (a' + if q ≤ a' then 1 else 0) j
      else s.Z.coeff a' b') ∧
    (∀ a' b', t.Z_N.coeff a' b' =
      if b' = j ∧ 0 ≤ a' ∧ a' + (if q ≤ a' then 1 else 0) < idx.length then
        (if Zt.coeff (a' + if q ≤ a' then 1 else 0) j ≠ 0 then
          ZNt.coeff (a' + if q ≤ a' then 1 else 0) j else 0)
      else s.Z_N.coeff a' b') := by
  intro t
  have key := foldl_range_inv (erase_Z_inner idx e Zt ZNt j)
    (fun k st => st.get_ins_row = decide (q < k) ∧
      st.Z.rows = s.Z.rows ∧ st.Z.cols = s.Z.cols ∧
      st.Z_N.rows = s.Z_N.rows ∧ st.Z_N.cols = s.Z_N.cols ∧
      (∀ a' b', st.Z.coeff a' b' =
        if b' = j ∧ 0 ≤ a' ∧ a' + (if q ≤ a' then 1 else 0) < k then
          (fun a' _ => Zt.coeff (a' + if q ≤ a' then 1 else 0) j) a' b'
        else s.Z.coeff a' b') ∧
      (∀ a' b', st.Z_N.coeff a' b' =
        if b' = j ∧ 0 ≤ a' ∧ a' + (if q ≤ a' then 1 else 0) < k then
          (fun a' _ => if Zt.coeff (a' + if q ≤ a' then 1 else 0) j ≠ 0 then
            ZNt.coeff (a' + if q ≤ a' then 1 else 0) j else 0) a' b'
        else s.Z_N.coeff a' b'))
    idx.length s
    ⟨by rw [hrow]; simp, rfl, rfl, rfl, rfl,
      fun a' b' => by
        rw [if_neg]
        rintro ⟨-, -, h3⟩
        omega,
      fun a' b' => by
        rw [if_neg]
        rintro ⟨-, -, h3⟩
        omega⟩
    (by
      intro k st hk ⟨hrw, hr, hcs, hr2, hc2, hco, hcoN⟩
      have hbk := hbeq k hk
      unfold erase_Z_inner
      rw [hbk]
      by_cases hkq : k = q
      · have hd1 : decide (k = q) = true := by simp [hkq]
        simp only [hd1, if_true]
        have hrow' : true = decide (q < k + 1) := by
          have : q < k + 1 := by omega
          simp [this]
        subst hkq
        exact ⟨hrow', hr, hcs, hr2, hc2,
          shift_step_none _ _ _ k _ _ hco, shift_step_none _ _ _ k _ _ hcoN⟩
      · have hd1 : decide (k = q) = false := by simp [hkq]
        simp only [hd1, Bool.false_eq_true, if_false]
        have hrow' : st.get_ins_row = decide (q < k + 1) := by
          rw [hrw]
          have : q < k ↔ q < k + 1 := by omega
          simp [this]
        have hrk : (if st.get_ins_row = true then 1 else 0) = if q < k then 1 else 0 := by
          rw [hrw]
          by_cases h : q < k <;> simp [h]
        have ha0 : (k - if q < k then 1 else 0)
            + (if q ≤ (k - if q < k then 1 else 0) then 1 else 0) = k := by
          split_ifs <;> omega
        by_cases hz : Zt.coeff k j = 0
        · rw [if_neg (not_not.mpr hz)]
          refine ⟨hrow', hr, hcs, hr2, hc2, ?_, ?_⟩
          · exact shift_step_skip _ _ _ q _ _ k _ ha0 hco (h0 _).1 (by simp only [ha0]; exact hz)
          · exact shift_step_skip _ _ _ q _ _ k _ ha0 hcoN (h0 _).2
              (by simp only [ha0]; rw [if_neg (not_not.mpr hz)])
        · rw [if_pos hz, hrk]
          refine ⟨hrow', hr, hcs, hr2, hc2, ?_, ?_⟩
          · apply shift_step_write _ _ _ _ q _ _ k _ ha0 (Nat.zero_le _) hco
            intro a' b'
            simp only [ha0]
            rfl
          · apply shift_step_write _ _ _ _ q _ _ k _ ha0 (Nat.zero_le _) hcoN
            intro a' b'
            simp only [ha0]
            rw [if_pos hz]
            rfl)
  obtain ⟨-, hr, hcs, hr2, hc2, hco, hcoN⟩ := key
  exact ⟨hr, hcs, hr2, hc2, hco, hcoN⟩

/-- What the `Z` loops of `erase_B_and_Z` leave: row `q` of the old tables is
dropped and the other stored entries are copied (an entry of `Z_N` only where
the entry of `Z` beside it is non-zero). -/
theorem erase_Z_loops_spec (ca : CondAnalysis) (idx : List Nat) (e q : Nat)
    (hq : q < idx.length)
    (hbeq : ∀ k, k < idx.length → (e == idx.getD k 0) = decide (k = q)) :
    let z := erase_Z_loops ca idx e
    z.Z.rows = idx.length - 1 ∧ z.Z.cols = ca.to_include.length ∧
    z.Z_N.rows = idx.length - 1 ∧ z.Z_N.cols = ca.to_include.length ∧
    (∀ a' b', z.Z.coeff a' b' = if a' + 1 < idx.length ∧ b' < ca.to_include.length then
        ca.Z.coeff (a' + if q ≤ a' then 1 else 0) b' else 0) ∧
    (∀ a' b', z.Z_N.coeff a' b' = if a' + 1 < idx.length ∧ b' < ca.to_include.length then
        (if ca.Z.coeff (a' + if q ≤ a' then 1 else 0) b' ≠ 0 then
          ca.Z_N.coeff (a' + if q ≤ a' then 1 else 0) b' else 0)
        else 0) := by
  intro z
  have hb : ∀ a', a' + (if q ≤ a' then 1 else 0) < idx.length ↔ a' + 1 < idx.length := by
    intro a'
    split_ifs <;> omega
  have key := foldl_range_inv (erase_Z_outer idx e ca.Z ca.Z_N)
    (fun k st => st.Z.rows = idx.length - 1 ∧ st.Z.cols = ca.to_include.length ∧
      st.Z_N.rows = idx.length - 1 ∧ st.Z_N.cols = ca.to_include.length ∧
      (∀ a' b', st.Z.coeff a' b' = if a' + 1 < idx.length ∧ b' < k then
          ca.Z.coeff (a' + if q ≤ a' then 1 else 0) b' else 0) ∧
      (∀ a' b', st.Z_N.coeff a' b' = if a' + 1 < idx.length ∧ b' < k then
          (if ca.Z.coeff (a' + if q ≤ a' then 1 else 0) b' ≠ 0 then
            ca.Z_N.coeff (a' + if q ≤ a' then 1 else 0) b' else 0)
          else 0))
    ca.to_include.length
    { Z := SpMat.resize (idx.length - 1) ca.to_include.length
      Z_N := SpMat.resize (idx.length - 1) ca.to_include.length
      get_ins_row := false }
    ⟨rfl, rfl, rfl, rfl, fun a' b' => by simp [SpMat.resize],
      fun a' b' => by simp [SpMat.resize]⟩
    (by
      intro k st hk ⟨hr, hc, hr2, hc2, hco, hcoN⟩
      unfold erase_Z_outer
      obtain ⟨ir, ic, ir2, ic2, ico, icoN⟩ := erase_Z_inner_loop idx e q hbeq ca.Z ca.Z_N k
        { st with get_ins_row := false } rfl
        (by
          intro a'
          show st.Z.coeff a' k = 0 ∧ st.Z_N.coeff a' k = 0
          rw [hco, hcoN]
          simp)
      refine ⟨by rw [ir]; exact hr, by rw [ic]; exact hc, by rw [ir2]; exact hr2,
        by rw [ic2]; exact hc2, fun a' b' => ?_, fun a' b' => ?_⟩
      · rw [ico a' b']
        simp only
        rw [hco a' b']
        simp only [hb a', Nat.zero_le, true_and]
        by_cases h : b' = k
        · subst h
          simp
        · have e : b' < k ↔ b' < k + 1 := by omega
          simp only [h, false_and, if_false, e]
      · rw [icoN a' b']
        simp only
        rw [hcoN a' b']
        simp only [hb a', Nat.zero_le, true_and]
        by_cases h : b' = k
        · subst h
          simp
        · have e : b' < k ↔ b' < k + 1 := by omega
          simp only [h, false_and, if_false, e])
  obtain ⟨hr, hc, hr2, hc2, hco, hcoN⟩ := key
  exact ⟨hr, hc, hr2, hc2, hco, hcoN⟩


/-! ## The state after `init`, `insert` and `erase` -/

theorem SameTables.refl (ca : CondAnalysis) : SameTables ca ca :=
  ⟨rfl, rfl, rfl, rfl, rfl, rfl, rfl, rfl⟩

theorem SameTables.trans {ca ca1 ca2 : CondAnalysis} (h1 : SameTables ca ca1)
    (h2 : SameTables ca1 ca2) : SameTables ca ca2 :=
  ⟨h2.to_include.trans h1.to_include, h2.fam_ids_inc.trans h1.fam_ids_inc, h2.mu.trans h1.mu,
    h2.msx.trans h1.msx, h2.msx_b.trans h1.msx_b, h2.nD.trans h1.nD,
    h2.a_ld_window.trans h1.a_ld_window, h2.a_collinear.trans h1.a_collinear⟩

theorem xdot_congr {ca ca1 : CondAnalysis} (h : SameTables ca ca1) (ref : Reference) :
    xdot ca1 ref = xdot ca ref := by
  funext a b
  simp only [xdot, makex_eigenVector, h.to_include, h.fam_ids_inc, h.mu]

theorem ldGate_congr {ca ca1 : CondAnalysis} (h : SameTables ca ca1) (ref : Reference) :
    ldGate ca1 ref = ldGate ca ref := by
  funext a b
  simp only [ldGate, h.to_include, h.a_ld_window]

theorem nFactor_congr {ca ca1 : CondAnalysis} (h : SameTables ca ca1) (nm : Numerics) :
    nFactor nm ca1 = nFactor nm ca := by
  funext a b
  simp only [nFactor, h.msx, h.msx_b, h.nD]

theorem B_entry_congr {ca ca1 : CondAnalysis} (h : SameTables ca ca1) (ref : Reference) :
    B_entry ca1 ref = B_entry ca ref := by
  funext S a b
  simp only [B_entry, xdot_congr h, ldGate_congr h, h.msx_b]

theorem B_N_entry_congr {ca ca1 : CondAnalysis} (h : SameTables ca ca1) (nm : Numerics)
    (ref : Reference) : B_N_entry nm ca1 ref = B_N_entry nm ca ref := by
  funext S a b
  simp only [B_N_entry, xdot_congr h, ldGate_congr h, nFactor_congr h, h.msx, h.nD]

theorem Z_entry_congr {ca ca1 : CondAnalysis} (h : SameTables ca ca1) (ref : Reference) :
    Z_entry ca1 ref = Z_entry ca ref := by
  funext S a b
  simp only [Z_entry, xdot_congr h, ldGate_congr h, h.to_include]

theorem Z_N_entry_congr {ca ca1 : CondAnalysis} (h : SameTables ca ca1) (nm : Numerics)
    (ref : Reference) : Z_N_entry nm ca1 ref = Z_N_entry nm ca ref := by
  funext S a b
  simp only [Z_N_entry, xdot_congr h, ldGate_congr h, nFactor_congr h, h.to_include]

theorem D_N_entry_congr {ca ca1 : CondAnalysis} (h : SameTables ca ca1) :
    D_N_entry ca1 = D_N_entry ca := by
  funext S a
  simp only [D_N_entry, h.msx, h.nD]

theorem init_b_tables (nm : Numerics) (ca : CondAnalysis) (ref : Reference) (idx : List Nat) :
    SameTables ca (init_b nm ca ref idx).2 := by
  unfold init_b
  simp only
  split_ifs <;> exact ⟨rfl, rfl, rfl, rfl, rfl, rfl, rfl, rfl⟩

theorem init_z_tables (nm : Numerics) (ca : CondAnalysis) (ref : Reference) (idx : List Nat) :
    SameTables ca (init_z nm ca ref idx) :=
  ⟨rfl, rfl, rfl, rfl, rfl, rfl, rfl, rfl⟩

theorem insert_B_Z_tables (nm : Numerics) (ca : CondAnalysis) (ref : Reference)
    (idx : List Nat) (pos : Nat) : SameTables ca (insert_B_Z nm ca ref idx pos).2 := by
  unfold insert_B_Z
  simp only
  split_ifs <;> exact ⟨rfl, rfl, rfl, rfl, rfl, rfl, rfl, rfl⟩

theorem erase_B_and_Z_tables (nm : Numerics) (ca : CondAnalysis) (idx : List Nat) (e : Nat) :
    SameTables ca (erase_B_and_Z nm ca idx e) := by
  unfold erase_B_and_Z
  simp only
  split_ifs <;> exact ⟨rfl, rfl, rfl, rfl, rfl, rfl, rfl, rfl⟩

/-- The matrices left by `init_b` (whatever it returns): `B`, `B_N` and `D_N` of `idx`. -/
theorem init_b_matrices (nm : Numerics) (ca : CondAnalysis) (ref : Reference) (idx : List Nat) :
    (init_b nm ca ref idx).2.B = (init_b_loops nm ca ref idx).B ∧
    (init_b nm ca ref idx).2.B_N = (init_b_loops nm ca ref idx).B_N ∧
    (init_b nm ca ref idx).2.D_N = (init_b_loops nm ca ref idx).D_N ∧
    (init_b nm ca ref idx).2.Z = ca.Z ∧ (init_b nm ca ref idx).2.Z_N = ca.Z_N := by
  unfold init_b
  simp only
  split_ifs <;> exact ⟨rfl, rfl, rfl, rfl, rfl⟩

/-- After `init_b(S)` and `init_z(S)` the state holds the matrices of `S`. -/
theorem init_holds (nm : Numerics) (ca : CondAnalysis) (ref : Reference) (S : List Nat) :
    let ca1 := init_z nm (init_b nm ca ref S).2 ref S
    SameTables ca ca1 ∧ Holds nm ca1 ref S ∧ HoldsDiag nm ca1 ref S := by
  intro ca1
  have ht : SameTables ca ca1 := (init_b_tables nm ca ref S).trans (init_z_tables nm _ ref S)
  have htb := init_b_tables nm ca ref S
  obtain ⟨hB, hBN, hDN, -, -⟩ := init_b_matrices nm ca ref S
  obtain ⟨lr, lc, lr2, lc2, lDs, lD, -, lco⟩ := init_b_loops_spec nm ca ref S
  obtain ⟨zr, zc, zr2, zc2, zco⟩ := init_z_spec nm (init_b nm ca ref S).2 ref S
  have e1 : ca1.B = (init_b_loops nm ca ref S).B := hB
  have e2 : ca1.B_N = (init_b_loops nm ca ref S).B_N := hBN
  have e3 : ca1.D_N = (init_b_loops nm ca ref S).D_N := hDN
  refine ⟨ht, ⟨?_, ?_, ?_, ?_, zr, ?_, zr2, ?_, ?_, ?_, ?_, ?_⟩, ?_⟩
  · rw [e1]; exact lr
  · rw [e1]; exact lc
  · rw [e2]; exact lr2
  · rw [e2]; exact lc2
  · exact zc
  · exact zc2
  · rw [e3]; exact lDs
  · intro a
    rw [e3, lD a, D_N_entry_congr ht]
  · intro a b _
    rw [e1, e2, B_entry_congr ht, B_N_entry_congr ht]
    exact lco a b
  · intro a b
    rw [Z_entry_congr (init_z_tables nm _ ref S), Z_N_entry_congr (init_z_tables nm _ ref S)]
    exact zco a b
  · intro a
    rw [e1, e2, B_entry_congr ht, B_N_entry_congr ht]
    exact lco a a


/-- The loop `for (j = 0; j < ix.size(); j++) D_N[j] = msx[ix[j]] * nD[ix[j]]`. -/
theorem D_N_fill_spec (ca : CondAnalysis) (ix : List Nat) :
    let v := (List.range ix.length).foldl
      (fun (v : EVec) j => v.set j (ca.msx.getD (ix.getD j 0) 0 * ca.nD.getD (ix.getD j 0) 0))
      (EVec.resize ix.length)
    v.size = ix.length ∧ ∀ a, v.coeff a = if a < ix.length then D_N_entry ca ix a else 0 := by
  intro v
  exact foldl_range_inv
    (fun (v : EVec) j => v.set j (ca.msx.getD (ix.getD j 0) 0 * ca.nD.getD (ix.getD j 0) 0))
    (fun k v => v.size = ix.length ∧ ∀ a, v.coeff a = if a < k then D_N_entry ca ix a else 0)
    ix.length (EVec.resize ix.length)
    ⟨rfl, fun a => by simp [EVec.resize]⟩
    (by
      intro k v hk ⟨hs, hco⟩
      refine ⟨hs, fun a => ?_⟩
      rw [EVec.set_coeff, hco a]
      split_ifs <;> first
        | rfl
        | (exfalso; omega)
        | (have ha : a = k := by omega
           subst ha
           rfl))

/-- The flag returned by `insert_B_Z` is the negation of its rejection test. -/
theorem insert_B_Z_fst (nm : Numerics) (ca : CondAnalysis) (ref : Reference) (idx : List Nat)
    (pos : Nat) :
    (insert_B_Z nm ca ref idx pos).1 =
      !insert_rejects nm ca
        (nm.ldlt_vectorD (insert_B_loops nm ca ref (insert_ix idx pos) pos).B.toDense)
        (insert_B_loops nm ca ref (insert_ix idx pos) pos).diagB
        (nm.ldlt_solve (insert_B_loops nm ca ref (insert_ix idx pos) pos).B.toDense)
        (insert_ix idx pos).length := by
  unfold insert_B_Z
  simp only
  split_ifs with h1 h2
  · simp [h1]
  · simp [h1]
  · simp [h1]

/-- The state left by a rejected `insert_B_Z`. -/
theorem insert_B_Z_reject (nm : Numerics) (ca : CondAnalysis) (ref : Reference)
    (idx : List Nat) (pos : Nat) (h : (insert_B_Z nm ca ref idx pos).1 = false) :
    (insert_B_Z nm ca ref idx pos).2 =
      { ca with
        jma_snpnum_collinear := ca.jma_snpnum_collinear + 1
        B_i := nm.ldlt_solve (insert_B_loops nm ca ref (insert_ix idx pos) pos).B.toDense } := by
  have h1 := insert_B_Z_fst nm ca ref idx pos
  rw [h] at h1
  have h2 : insert_rejects nm ca
      (nm.ldlt_vectorD (insert_B_loops nm ca ref (insert_ix idx pos) pos).B.toDense)
      (insert_B_loops nm ca ref (insert_ix idx pos) pos).diagB
      (nm.ldlt_solve (insert_B_loops nm ca ref (insert_ix idx pos) pos).B.toDense)
      (insert_ix idx pos).length = true := by
    simpa using h1.symm
  unfold insert_B_Z
  simp only [h2, if_true]

/-- The state left by a successful `insert_B_Z` when `Z_N` has columns. -/
theorem insert_B_Z_accept (nm : Numerics) (ca : CondAnalysis) (ref : Reference)
    (idx : List Nat) (pos : Nat) (h : (insert_B_Z nm ca ref idx pos).1 = true)
    (hz : 1 ≤ ca.Z_N.cols) :
    (insert_B_Z nm ca ref idx pos).2 =
      { ca with
        B := (insert_B_loops nm ca ref (insert_ix idx pos) pos).B
        B_N := (insert_B_loops nm ca ref (insert_ix idx pos) pos).B_N
        B_i := nm.ldlt_solve (insert_B_loops nm ca ref (insert_ix idx pos) pos).B.toDense
        B_N_i := nm.ldlt_solve (insert_B_loops nm ca ref (insert_ix idx pos) pos).B_N.toDense
        D_N := (List.range (insert_ix idx pos).length).foldl
          (fun (v : EVec) j => v.set j (ca.msx.getD ((insert_ix idx pos).getD j 0) 0
            * ca.nD.getD ((insert_ix idx pos).getD j 0) 0))
          (EVec.resize (insert_ix idx pos).length)
        Z := (insert_Z_loops nm ca ref (insert_ix idx pos) pos).Z
        Z_N := (insert_Z_loops nm ca ref (insert_ix idx pos) pos).Z_N } := by
  have h1 := insert_B_Z_fst nm ca ref idx pos
  rw [h] at h1
  have h2 : insert_rejects nm ca
      (nm.ldlt_vectorD (insert_B_loops nm ca ref (insert_ix idx pos) pos).B.toDense)
      (insert_B_loops nm ca ref (insert_ix idx pos) pos).diagB
      (nm.ldlt_solve (insert_B_loops nm ca ref (insert_ix idx pos) pos).B.toDense)
      (insert_ix idx pos).length = false := by
    simpa using h1.symm
  unfold insert_B_Z
  simp only [h2, Bool.false_eq_true, if_false]
  rw [if_neg (by omega)]

/-- A successful `insert_B_Z` on a state holding the matrices of `S` leaves a
state holding the matrices of the new index list. -/
theorem insert_holds (nm : Numerics) (ca : CondAnalysis) (ref : Reference) (S : List Nat)
    (pos p : Nat) (hix : InsertAt S pos (insert_ix S pos) p) (hH : Holds nm ca ref S)
    (hm : 1 ≤ ca.to_include.length) (hok : (insert_B_Z nm ca ref S pos).1 = true) :
    Holds nm (insert_B_Z nm ca ref S pos).2 ref (insert_ix S pos) ∧
    HoldsDiag nm (insert_B_Z nm ca ref S pos).2 ref (insert_ix S pos) := by
  have ht := insert_B_Z_tables nm ca ref S pos
  have hst := insert_B_Z_accept nm ca ref S pos hok (by rw [hH.Z_N_cols]; exact hm)
  obtain ⟨lr, lc, lr2, lc2, -, lco⟩ := insert_B_loops_spec nm ca ref S _ pos p hix hH.B_off
  obtain ⟨zr, zc, zr2, zc2, zco⟩ := insert_Z_loops_spec nm ca ref S _ pos p hix hH.Z
  obtain ⟨ds, dco⟩ := D_N_fill_spec ca (insert_ix S pos)
  rw [hst] at ht ⊢
  refine ⟨⟨lr, lc, lr2, lc2, zr, zc, zr2, zc2, ds, ?_, ?_, ?_⟩, ?_⟩
  · intro a
    rw [D_N_entry_congr ht]
    exact dco a
  · intro a b _
    rw [B_entry_congr ht, B_N_entry_congr ht]
    exact lco a b
  · intro a b
    rw [Z_entry_congr ht, Z_N_entry_congr ht]
    exact zco a b
  · intro a
    rw [B_entry_congr ht, B_N_entry_congr ht]
    exact lco a a


/-- Position `a` of `S` is position `a + 1` of `ix` from the insertion point on, and
position `a` before it. -/
theorem InsertAt.getD_shift {S ix : List Nat} {pos p : Nat} (hix : InsertAt S pos ix p)
    (a : Nat) (ha : a < S.length) :
    ix.getD (a + if p ≤ a then 1 else 0) 0 = S.getD a 0 := by
  by_cases h : p ≤ a
  · rw [if_pos h]
    have := hix.above (a + 1) (by omega) (by omega)
    simpa using this
  · rw [if_neg h]
    exact hix.below a (by omega)

theorem B_entry_shift (nm : Numerics) (ca : CondAnalysis) (ref : Reference)
    {S ix : List Nat} {pos p : Nat} (hix : InsertAt S pos ix p) (a b : Nat) (hb : b < a)
    (ha : a < S.length) :
    B_entry ca ref ix (a + if p ≤ a then 1 else 0) (b + if p ≤ b then 1 else 0)
      = B_entry ca ref S a b ∧
    B_N_entry nm ca ref ix (a + if p ≤ a then 1 else 0) (b + if p ≤ b then 1 else 0)
      = B_N_entry nm ca ref S a b := by
  have hlen := hix.len
  have h1 : (b + if p ≤ b then 1 else 0) < (a + if p ≤ a then 1 else 0) := by
    split_ifs <;> omega
  have h2 : (a + if p ≤ a then 1 else 0) < ix.length := by
    split_ifs <;> omega
  rw [B_entry_lower _ _ _ _ _ h2 h1, B_N_entry_lower _ _ _ _ _ _ h2 h1,
    B_entry_lower _ _ _ _ _ ha hb, B_N_entry_lower _ _ _ _ _ _ ha hb,
    hix.getD_shift a ha, hix.getD_shift b (by omega)]
  exact ⟨rfl, rfl⟩

theorem Z_entry_shift (nm : Numerics) (ca : CondAnalysis) (ref : Reference)
    {S ix : List Nat} {pos p : Nat} (hix : InsertAt S pos ix p) (a j : Nat)
    (ha : a < S.length) :
    Z_entry ca ref ix (a + if p ≤ a then 1 else 0) j = Z_entry ca ref S a j ∧
    Z_N_entry nm ca ref ix (a + if p ≤ a then 1 else 0) j = Z_N_entry nm ca ref S a j := by
  have hlen := hix.len
  have h2 : (a + if p ≤ a then 1 else 0) < ix.length := by
    split_ifs <;> omega
  unfold Z_entry Z_N_entry
  simp only [hix.getD_shift a ha, h2, ha, true_and, and_self]

/-- The state left by `erase_B_and_Z` when `Z_N` has columns. -/
theorem erase_B_and_Z_state (nm : Numerics) (ca : CondAnalysis) (idx : List Nat) (e : Nat)
    (hz : 1 ≤ ca.Z_N.cols) :
    erase_B_and_Z nm ca idx e =
      { ca with
        B := (erase_B_loops ca idx e).B
        B_N := (erase_B_loops ca idx e).B_N
        D_N := (erase_B_loops ca idx e).D_N
        B_i := nm.ldlt_solve (erase_B_loops ca idx e).B.toDense
        B_N_i := nm.ldlt_solve (erase_B_loops ca idx e).B_N.toDense
        Z := (erase_Z_loops ca idx e).Z
        Z_N := (erase_Z_loops ca idx e).Z_N } := by
  unfold erase_B_and_Z
  simp only
  rw [if_neg (by omega)]

/-- `erase_B_and_Z` on a state holding the matrices of `idx` leaves a state
holding the matrices of the list without the erased SNP. -/
theorem erase_holds (nm : Numerics) (ca : CondAnalysis) (ref : Reference) (S idx : List Nat)
    (e q : Nat) (hix : InsertAt S e idx q) (hH : Holds nm ca ref idx)
    (hm : 1 ≤ ca.to_include.length) :
    Holds nm (erase_B_and_Z nm ca idx e) ref S := by
  have ht := erase_B_and_Z_tables nm ca idx e
  have hst := erase_B_and_Z_state nm ca idx e (by rw [hH.Z_N_cols]; exact hm)
  have hlen := hix.len
  have hq : q < idx.length := by have := hix.le; omega
  have hbeq := fun k hk => insert_pos_beq S idx e q hix k hk
  obtain ⟨lr, lc, lr2, lc2, lDs, lD, lco, lcoN⟩ := erase_B_loops_spec ca idx e q hq hbeq
  obtain ⟨zr, zc, zr2, zc2, zco, zcoN⟩ := erase_Z_loops_spec ca idx e q hq hbeq
  have hn : idx.length - 1 = S.length := by omega
  rw [hst] at ht ⊢
  refine ⟨by rw [← hn]; exact lr, by rw [← hn]; exact lc, by rw [← hn]; exact lr2,
    by rw [← hn]; exact lc2, by rw [← hn]; exact zr, zc, by rw [← hn]; exact zr2, zc2,
    by rw [← hn]; exact lDs, ?_, ?_, ?_⟩
  · intro a
    rw [D_N_entry_congr ht]
    refine (lD a).trans ?_
    by_cases ha : a < S.length
    · rw [if_pos (by omega), if_pos ha]
      unfold D_N_entry
      rw [hix.getD_shift a ha]
    · rw [if_neg (by omega), if_neg ha]
  · intro a b hab
    rw [B_entry_congr ht, B_N_entry_congr ht]
    refine ⟨(lco a b).trans ?_, (lcoN a b).trans ?_⟩
    · by_cases h : b ≤ a ∧ a + 1 < idx.length
      · have hne : (a + if q ≤ a then 1 else 0) ≠ (b + if q ≤ b then 1 else 0) := by
          split_ifs <;> omega
        rw [if_pos h, (hH.B_off _ _ hne).1]
        exact (B_entry_shift nm ca ref hix a b (by omega) (by omega)).1
      · rw [if_neg h]
        exact (B_entry_zero ca ref S a b (by omega)).symm
    · by_cases h : b ≤ a ∧ a + 1 < idx.length
      · have hne : (a + if q ≤ a then 1 else 0) ≠ (b + if q ≤ b then 1 else 0) := by
          split_ifs <;> omega
        obtain ⟨s1, s2⟩ := B_entry_shift nm ca ref hix a b (by omega) (by omega)
        rw [if_pos h, (hH.B_off _ _ hne).1, (hH.B_off _ _ hne).2, s1, s2]
        by_cases h0 : B_entry ca ref S a b = 0
        · rw [if_neg (not_not.mpr h0)]
          exact (B_N_entry_zero_of_B nm ca ref S a b hab h0).symm
        · rw [if_pos h0]
      · rw [if_neg h]
        exact (B_N_entry_zero nm ca ref S a b (by omega)).symm
  · intro a b
    rw [Z_entry_congr ht, Z_N_entry_congr ht]
    refine ⟨(zco a b).trans ?_, (zcoN a b).trans ?_⟩
    · by_cases h : a + 1 < idx.length ∧ b < ca.to_include.length
      · rw [if_pos h, (hH.Z _ _).1]
        exact (Z_entry_shift nm ca ref hix a b (by omega)).1
      · rw [if_neg h]
        exact (Z_entry_zero ca ref S a b (by omega)).symm
    · by_cases h : a + 1 < idx.length ∧ b < ca.to_include.length
      · obtain ⟨s1, s2⟩ := Z_entry_shift nm ca ref hix a b (by omega)
        rw [if_pos h, (hH.Z _ _).1, (hH.Z _ _).2, s1, s2]
        by_cases h0 : Z_entry ca ref S a b = 0
        · rw [if_neg (not_not.mpr h0)]
          exact (Z_N_entry_zero_of_Z nm ca ref S a b h0).symm
        · rw [if_pos h0]
      · rw [if_neg h]
        exact (Z_N_entry_zero nm ca ref S a b (by omega)).symm

/-- `erase_B_and_Z` keeps the diagonals when no remaining SNP has a zero `msx_b`. -/
theorem erase_holds_diag (nm : Numerics) (ca : CondAnalysis) (ref : Reference)
    (S idx : List Nat) (e q : Nat) (hix : InsertAt S e idx q) (hH : Holds nm ca ref idx)
    (hD : HoldsDiag nm ca ref idx) (hm : 1 ≤ ca.to_include.length)
    (hpoly : ∀ k, k < S.length → ca.msx_b.getD (S.getD k 0) 0 ≠ 0) :
    HoldsDiag nm (erase_B_and_Z nm ca idx e) ref S := by
  have ht := erase_B_and_Z_tables nm ca idx e
  have hst := erase_B_and_Z_state nm ca idx e (by rw [hH.Z_N_cols]; exact hm)
  have hlen := hix.len
  have hq : q < idx.length := by have := hix.le; omega
  have hbeq := fun k hk => insert_pos_beq S idx e q hix k hk
  obtain ⟨-, -, -, -, -, -, lco, lcoN⟩ := erase_B_loops_spec ca idx e q hq hbeq
  rw [hst] at ht ⊢
  intro a
  rw [B_entry_congr ht, B_N_entry_congr ht]
  by_cases ha : a < S.length
  · have h2 : (a + if q ≤ a then 1 else 0) < idx.length := by
      split_ifs <;> omega
    have hB : ca.B.coeff (a + if q ≤ a then 1 else 0) (a + if q ≤ a then 1 else 0)
        = ca.msx_b.getD (S.getD a 0) 0 := by
      rw [(hD _).1, B_entry_diag _ _ _ _ h2, hix.getD_shift a ha]
    have hBN : ca.B_N.coeff (a + if q ≤ a then 1 else 0) (a + if q ≤ a then 1 else 0)
        = ca.msx.getD (S.getD a 0) 0 * ca.nD.getD (S.getD a 0) 0 := by
      rw [(hD _).2, B_N_entry_diag _ _ _ _ _ h2, hix.getD_shift a ha]
    refine ⟨(lco a a).trans ?_, (lcoN a a).trans ?_⟩
    · rw [if_pos ⟨le_refl _, by omega⟩, hB, B_entry_diag _ _ _ _ ha]
    · rw [if_pos ⟨le_refl _, by omega⟩, hB, hBN, if_pos (hpoly a ha), B_N_entry_diag _ _ _ _ _ ha]
  · refine ⟨(lco a a).trans ?_, (lcoN a a).trans ?_⟩
    · rw [if_neg (by omega)]
      exact (B_entry_zero ca ref S a a (by omega)).symm
    · rw [if_neg (by omega)]
      exact (B_N_entry_zero nm ca ref S a a (by omega)).symm


theorem eraseIdx_insertAt (S : List Nat) (k : Nat) (hS : S.Sorted (· < ·)) (hk : k < S.length) :
    InsertAt (S.eraseIdx k) (S.getD k 0) S k := by
  have hnd : S.Nodup := hS.nodup
  have hlen : (S.eraseIdx k).length = S.length - 1 := by
    rw [List.length_eraseIdx, if_pos hk]
  refine ⟨by omega, by omega, rfl, ?_, ?_, ?_⟩
  · intro i hi
    rw [List.getD_eq_getElem?_getD, List.getD_eq_getElem?_getD, List.getElem?_eraseIdx, if_pos hi]
  · intro i h1 h2
    rw [List.getD_eq_getElem?_getD, List.getD_eq_getElem?_getD, List.getElem?_eraseIdx,
      if_neg (by omega)]
    congr 2
    omega
  · intro i hi hne h
    rw [List.getD_eq_getElem _ _ hi, List.getD_eq_getElem _ _ hk] at h
    exact hne ((List.Nodup.getElem_inj_iff hnd).mp h)

theorem eraseIdx_sorted (S : List Nat) (k : Nat) (hS : S.Sorted (· < ·)) :
    (S.eraseIdx k).Sorted (· < ·) :=
  List.Pairwise.sublist (List.eraseIdx_sublist S k) hS

/-- Every reachable state holds the matrices of its selected set. -/
theorem reach_holds (nm : Numerics) (ref : Reference) (ca0 : CondAnalysis) (S : List Nat)
    (ca : CondAnalysis) (h : Reach nm ref ca0 S ca) :
    S.Sorted (· < ·) ∧ (∀ s ∈ S, s < ca0.to_include.length) ∧ SameTables ca0 ca ∧
      Holds nm ca ref S := by
  induction h with
  | init S hS hb =>
    obtain ⟨ht, hH, -⟩ := init_holds nm ca0 ref S
    exact ⟨hS, hb, ht, hH⟩
  | insert S ca pos _ hpos hm hok ih =>
    obtain ⟨hS, hb, ht, hH⟩ := ih
    obtain ⟨p, hix⟩ := insert_ix_at S pos hS hpos
    have hm1 : 1 ≤ ca.to_include.length := by rw [ht.to_include]; omega
    refine ⟨insert_ix_sorted S pos hS hpos, ?_, ht.trans (insert_B_Z_tables nm ca ref S pos),
      (insert_holds nm ca ref S pos p hix hH hm1 hok).1⟩
    intro s hs
    rcases (insert_ix_mem S pos s).mp hs with h | h
    · rw [h]; exact hm
    · exact hb s h
  | erase S ca k _ hk ih =>
    obtain ⟨hS, hb, ht, hH⟩ := ih
    have hm1 : 1 ≤ ca.to_include.length := by
      rw [ht.to_include]
      have := hb _ (getD_mem_of_lt S k hk)
      omega
    refine ⟨eraseIdx_sorted S k hS, ?_, ht.trans (erase_B_and_Z_tables nm ca S _),
      erase_holds nm ca ref _ S _ k (eraseIdx_insertAt S k hS hk) hH hm1⟩
    intro s hs
    exact hb s ((List.eraseIdx_sublist S k).subset hs)


theorem outsideWindow_iff (ca : CondAnalysis) (ref : Reference) (a b : Nat) :
    outsideWindow ca ref a b ↔ ldGate ca ref a b = false := by
  unfold outsideWindow ldGate
  rw [Bool.and_eq_false_iff, beq_eq_false_iff_ne, decide_eq_false_iff_not, not_lt]

theorem foldl_min_le (l : List ℚ) (x : ℚ) :
    l.foldl min x ≤ x ∧ ∀ y ∈ l, l.foldl min x ≤ y := by
  induction l generalizing x with
  | nil => exact ⟨le_refl _, fun y hy => by simp at hy⟩
  | cons a l ih =>
    simp only [List.foldl_cons]
    obtain ⟨h1, h2⟩ := ih (min x a)
    refine ⟨h1.trans (min_le_left _ _), fun y hy => ?_⟩
    rcases List.mem_cons.mp hy with h | h
    · rw [h]; exact h1.trans (min_le_right _ _)
    · exact h2 y h

theorem le_foldl_max (l : List ℚ) (x : ℚ) :
    x ≤ l.foldl max x ∧ ∀ y ∈ l, y ≤ l.foldl max x := by
  induction l generalizing x with
  | nil => exact ⟨le_refl _, fun y hy => by simp at hy⟩
  | cons a l ih =>
    simp only [List.foldl_cons]
    obtain ⟨h1, h2⟩ := ih (max x a)
    refine ⟨(le_max_left _ _).trans h1, fun y hy => ?_⟩
    rcases List.mem_cons.mp hy with h | h
    · rw [h]; exact (le_max_right _ _).trans h1
    · exact h2 y h

theorem minCoeff_le (l : List ℚ) (y : ℚ) (hy : y ∈ l) : minCoeff l ≤ y := by
  cases l with
  | nil => simp at hy
  | cons x xs =>
    unfold minCoeff
    rcases List.mem_cons.mp hy with h | h
    · rw [h]; exact (foldl_min_le xs x).1
    · exact (foldl_min_le xs x).2 y h

theorem le_maxCoeff (l : List ℚ) (y : ℚ) (hy : y ∈ l) : y ≤ maxCoeff l := by
  cases l with
  | nil => simp at hy
  | cons x xs =>
    unfold maxCoeff
    rcases List.mem_cons.mp hy with h | h
    · rw [h]; exact (le_foldl_max xs x).1
    · exact (le_foldl_max xs x).2 y h

theorem table_coeff (n : Nat) (f : Nat → Nat → ℚ) (a b : Nat) (ha : a < n) (hb : b < n) :
    Dense.coeff ((List.range n).map fun i => (List.range n).map fun j => f i j) a b = f a b := by
  unfold Dense.coeff
  rw [getD_map_of_lt _ _ _ _ 0 (by simpa using ha), getD_range_of_lt _ _ _ ha,
    getD_map_of_lt _ _ _ _ 0 (by simpa using hb), getD_range_of_lt _ _ _ hb]

theorem toDense_eq_table (A : SpMat) (n : Nat) (f : Nat → Nat → ℚ) (hr : A.rows = n)
    (hc : A.cols = n) (h : ∀ i j, A.coeff i j = f i j) :
    A.toDense = (List.range n).map fun i => (List.range n).map fun j => f i j := by
  unfold SpMat.toDense
  rw [hr, hc]
  congr 1
  funext i
  congr 1
  funext j
  exact h i j

theorem insert_B_Z_counter (nm : Numerics) (ca : CondAnalysis) (ref : Reference)
    (idx : List Nat) (pos : Nat) :
    ((insert_B_Z nm ca ref idx pos).1 = false →
      (insert_B_Z nm ca ref idx pos).2.jma_snpnum_collinear = ca.jma_snpnum_collinear + 1) ∧
    ((insert_B_Z nm ca ref idx pos).1 = true →
      (insert_B_Z nm ca ref idx pos).2.jma_snpnum_collinear = ca.jma_snpnum_collinear) := by
  unfold insert_B_Z
  simp only
  split_ifs <;> simp

/-- A selected SNP with the genotype vector of `pos` makes the new `B` fail the
test of its pivots, when these are the pivots of an exact factorisation. -/
theorem duplicate_rejected (nm : Numerics) (ca : CondAnalysis) (ref : Reference)
    (S ix : List Nat) (pos p k : Nat) (hix : InsertAt S pos ix p) (hk : k < S.length)
    (hx : makex_eigenVector ca ref pos = makex_eigenVector ca ref (S.getD k 0))
    (hg : ldGate ca ref (S.getD k 0) pos = true)
    (hmp : ca.msx_b.getD pos 0 = xdot ca ref pos pos)
    (hms : ca.msx_b.getD (S.getD k 0) 0 = xdot ca ref (S.getD k 0) (S.getD k 0))
    (hv : 0 < ca.msx_b.getD pos 0) (D : List ℚ)
    (hpd : (∀ d ∈ D, 0 < d) → ∀ a b, b < a → a < ix.length →
      B_entry ca ref ix a b ^ 2 < B_entry ca ref ix a a * B_entry ca ref ix b b)
    (hnsd : (∀ d ∈ D, d ≤ 0) → ∀ a, a < ix.length → B_entry ca ref ix a a ≤ 0) :
    minCoeff D < 0 ∨ condGuard nm (maxCoeff D) (minCoeff D) = true := by
  have hlen := hix.len
  have hple := hix.le
  have hpn : p < ix.length := by omega
  -- the position of the duplicate in `ix`
  have hk2 : (k + if p ≤ k then 1 else 0) < ix.length := by split_ifs <;> omega
  have hkp : (k + if p ≤ k then 1 else 0) ≠ p := by split_ifs <;> omega
  have hsk := hix.getD_shift k hk
  have hss : xdot ca ref (S.getD k 0) (S.getD k 0) = ca.msx_b.getD pos 0 := by
    rw [hmp]; unfold xdot; rw [hx]
  have hps : xdot ca ref pos (S.getD k 0) = ca.msx_b.getD pos 0 := by
    rw [hmp]; unfold xdot; rw [hx]
  have hsp : xdot ca ref (S.getD k 0) pos = ca.msx_b.getD pos 0 := by
    rw [xdot_comm]; exact hps
  have hdp : B_entry ca ref ix p p = ca.msx_b.getD pos 0 := by
    rw [B_entry_diag _ _ _ _ hpn, hix.at_p]
  have hdk : B_entry ca ref ix (k + if p ≤ k then 1 else 0) (k + if p ≤ k then 1 else 0)
      = ca.msx_b.getD pos 0 := by
    rw [B_entry_diag _ _ _ _ hk2, hsk, hms, hss]
  have hnotpos : ¬ (∀ d ∈ D, 0 < d) := by
    intro hall
    rcases Nat.lt_or_gt_of_ne hkp with h | h
    · have := hpd hall p _ h hpn
      rw [B_entry_lower _ _ _ _ _ hpn h, hsk, hix.at_p, hg, if_pos rfl, hsp, hdp, hdk] at this
      nlinarith
    · have := hpd hall _ p h hk2
      rw [B_entry_lower _ _ _ _ _ hk2 h, hsk, hix.at_p, ldGate_comm, hg, if_pos rfl, hps, hdp,
        hdk] at this
      nlinarith
  have hnotneg : ¬ (∀ d ∈ D, d ≤ 0) := by
    intro hall
    have := hnsd hall p hpn
    rw [hdp] at this
    linarith
  push_neg at hnotpos hnotneg
  obtain ⟨d1, hd1, hd1'⟩ := hnotpos
  obtain ⟨d2, hd2, hd2'⟩ := hnotneg
  have hmin : minCoeff D ≤ 0 := (minCoeff_le D d1 hd1).trans hd1'
  have hmax : 0 < maxCoeff D := lt_of_lt_of_le hd2' (le_maxCoeff D d2 hd2)
  rcases lt_or_eq_of_le hmin with h | h
  · exact Or.inl h
  · right
    unfold condGuard
    rw [if_pos h]
    exact decide_eq_true hmax

/-! ## The two loops of the harmoniser -/

theorem mem_of_lookup {l : List (String × Nat)} {k : String} {v : Nat}
    (h : l.lookup k = some v) : (k, v) ∈ l := by
  induction l with
  | nil => cases h
  | cons p t ih =>
    obtain ⟨a, b⟩ := p
    rw [List.lookup_cons] at h
    by_cases hk : k = a
    · subst hk
      simp only [beq_self_eq_true, Option.some.injEq] at h
      subst h
      exact List.mem_cons_self _ _
    · rw [beq_eq_false_iff_ne.2 hk] at h
      exact List.mem_cons_of_mem _ (ih h)

/-- In a well-formed reference `snp_map` sends a name to a position that bears it. -/
theorem RefWF.lookup {ref : Reference} (hwf : RefWF ref) (name : String) (r : Nat)
    (h : ref.snp_map.lookup name = some r) :
    r < ref.bim_snp_name.length ∧ ref.bim_snp_name.getD r "" = name :=
  hwf.snp_map (name, r) (mem_of_lookup h)

theorem getD_inj_of_nodup {l : List String} (h : l.Nodup) {i j : Nat} (hi : i < l.length)
    (hj : j < l.length) (e : l.getD i "" = l.getD j "") : i = j := by
  rw [List.getD_eq_getElem _ _ hi, List.getD_eq_getElem _ _ hj] at e
  exact (h.getElem_inj_iff).1 e

/-- One pass of the first loop: a phenotype SNP that is no candidate is skipped, a
candidate is appended to the four containers. -/
theorem match_loop1_step (pheno : Phenotype) (ref : Reference) (s : MatchLoop1) (i : Nat) :
    ((¬ ∃ r, candidate pheno ref i r) ∧ match_loop1 pheno ref s i = s) ∨
    (∃ r, candidate pheno ref i r ∧ match_loop1 pheno ref s i =
      { pheno_idx := s.pheno_idx ++ [i]
        id_map := map_insert s.id_map (pheno.snp_name.getD i "") i
        snps := s.snps ++ [pheno.snp_name.getD i ""]
        idx := s.idx ++ [r] }) := by
  unfold match_loop1 candidate
  cases hl : ref.snp_map.lookup (pheno.snp_name.getD i "") with
  | none => left; simp
  | some r =>
    by_cases h1 : pheno.allele1.getD i "" = ref.bim_allele1.getD r ""
    · right
      refine ⟨r, ⟨rfl, Or.inl h1⟩, ?_⟩
      simp only [bne_eq_false_iff_eq.2 h1, Bool.false_and, Bool.false_eq_true, if_false]
    · by_cases h2 : pheno.allele1.getD i "" = ref.bim_allele2.getD r ""
      · right
        refine ⟨r, ⟨rfl, Or.inr h2⟩, ?_⟩
        simp only [bne_eq_false_iff_eq.2 h2, Bool.and_false, Bool.false_eq_true, if_false]
      · left
        refine ⟨?_, ?_⟩
        swap
        · simp only [bne_iff_ne.2 h1, bne_iff_ne.2 h2, Bool.and_self, if_true]
        rintro ⟨r', hr', ha⟩
        cases hr'
        exact ha.elim h1 h2

/-- After the first loop `snps` holds the names of the candidates and `id_map` sends
the name of a candidate to its position in the phenotype. -/
theorem match_loop1_spec (pheno : Phenotype) (ref : Reference) (hnd : pheno.snp_name.Nodup) :
    let l1 := (List.range pheno.snp_name.length).foldl (match_loop1 pheno ref)
      { pheno_idx := [], id_map := [], snps := [], idx := [] }
    (∀ s, s ∈ l1.snps ↔ ∃ i, i < pheno.snp_name.length ∧ (∃ r, candidate pheno ref i r) ∧
      pheno.snp_name.getD i "" = s) ∧
    (∀ name v, l1.id_map.lookup name = some v ↔
      (v < pheno.snp_name.length ∧ (∃ r, candidate pheno ref v r) ∧
        pheno.snp_name.getD v "" = name)) := by
  intro l1
  refine foldl_range_inv (match_loop1 pheno ref)
    (fun k st => (∀ s, s ∈ st.snps ↔ ∃ i, i < k ∧ (∃ r, candidate pheno ref i r) ∧
        pheno.snp_name.getD i "" = s) ∧
      (∀ name v, st.id_map.lookup name = some v ↔
        (v < k ∧ (∃ r, candidate pheno ref v r) ∧ pheno.snp_name.getD v "" = name)))
    pheno.snp_name.length _ ⟨by simp, by simp⟩ ?_
  rintro k st hk ⟨hs, hm⟩
  rcases match_loop1_step pheno ref st k with ⟨hn, he⟩ | ⟨r, hc, he⟩
  · rw [he]
    constructor
    · intro s
      rw [hs]
      constructor
      · rintro ⟨i, hi, h⟩; exact ⟨i, by omega, h⟩
      · rintro ⟨i, hi, hci, h⟩
        rcases Nat.lt_succ_iff_lt_or_eq.1 hi with hlt | rfl
        · exact ⟨i, hlt, hci, h⟩
        · exact (hn hci).elim
    · intro name v
      rw [hm]
      constructor
      · rintro ⟨hi, h⟩; exact ⟨by omega, h⟩
      · rintro ⟨hi, hci, h⟩
        rcases Nat.lt_succ_iff_lt_or_eq.1 hi with hlt | rfl
        · exact ⟨hlt, hci, h⟩
        · exact (hn hci).elim
  · rw [he]
    constructor
    · intro s
      simp only [List.mem_append, List.mem_singleton, hs]
      constructor
      · rintro (⟨i, hi, h⟩ | rfl)
        · exact ⟨i, by omega, h⟩
        · exact ⟨k, by omega, ⟨r, hc⟩, rfl⟩
      · rintro ⟨i, hi, hci, h⟩
        rcases Nat.lt_succ_iff_lt_or_eq.1 hi with hlt | rfl
        · exact Or.inl ⟨i, hlt, hci, h⟩
        · exact Or.inr h.symm
    · have hnone : st.id_map.lookup (pheno.snp_name.getD k "") = none := by
        cases hl : st.id_map.lookup (pheno.snp_name.getD k "") with
        | none => rfl
        | some v =>
          have := (hm _ v).1 hl
          have hvk := getD_inj_of_nodup hnd (by omega) hk this.2.2
          omega
      intro name v
      simp only [map_insert, hnone, Option.isSome_none, Bool.false_eq_true, if_false,
        List.lookup_append]
      by_cases hname : name = pheno.snp_name.getD k ""
      · subst hname
        rw [hnone]
        simp only [Option.none_or, List.lookup_cons, beq_self_eq_true, Option.some.injEq]
        constructor
        · rintro rfl; exact ⟨by omega, ⟨r, hc⟩, rfl⟩
        · rintro ⟨hv, _, h⟩
          exact (getD_inj_of_nodup hnd (by omega) hk h).symm
      · have hb : (name == pheno.snp_name.getD k "") = false := beq_eq_false_iff_ne.2 hname
        simp only [List.lookup_cons, hb, List.lookup_nil, Option.or_none, hm]
        constructor
        · rintro ⟨hi, h⟩; exact ⟨by omega, h⟩
        · rintro ⟨hi, hci, h⟩
          rcases Nat.lt_succ_iff_lt_or_eq.1 hi with hlt | rfl
          · exact ⟨hlt, hci, h⟩
          · exact (hname h.symm).elim

/-- Loop invariant rule for a loop over the elements of a vector. -/
theorem foldl_list_inv {σ α : Type} (f : σ → α → σ) (P : List α → σ → Prop) (l : List α)
    (init : σ) (h0 : P [] init)
    (hstep : ∀ pre x rest st, pre ++ x :: rest = l → P pre st → P (pre ++ [x]) (f st x)) :
    P l (l.foldl f init) := by
  have key : ∀ (l' pre : List α) (st : σ), pre ++ l' = l → P pre st → P l (l'.foldl f st) := by
    intro l'
    induction l' with
    | nil => intro pre st h hP; simp at h; subst h; exact hP
    | cons x rest ih =>
      intro pre st h hP
      simp only [List.foldl_cons]
      exact ih (pre ++ [x]) (f st x) (by simpa using h) (hstep pre x rest st h hP)
  exact key l [] init rfl h0

theorem getD_set_self {α : Type} (l : List α) (i : Nat) (a d : α) (h : i < l.length) :
    (l.set i a).getD i d = a := by
  rw [List.getD_eq_getElem _ _ (by simpa using h)]
  simp

theorem getD_set_ne {α : Type} (l : List α) (i j : Nat) (a d : α) (h : i ≠ j) :
    (l.set i a).getD j d = l.getD j d := by
  simp [List.getD_eq_getElem?_getD, List.getElem?_set, h]

/-- One pass of the second loop at the reference SNP `r`. -/
theorem match_loop2_step (ca : CondAnalysis) (pheno : Phenotype) (ref : Reference)
    (id_map : List (String × Nat)) (s : MatchLoop2) (r : Nat) (hr : r < s.mu.length)
    (hmu : ref.mu ≠ []) :
    (id_map.lookup (ref.bim_snp_name.getD r "") = none ∧
      match_loop2 ca pheno ref id_map s r = s) ∨
    (∃ k, id_map.lookup (ref.bim_snp_name.getD r "") = some k ∧
      (match_loop2 ca pheno ref id_map s r).ref_A = s.ref_A.set r (pheno.allele1.getD k "") ∧
      (match_loop2 ca pheno ref id_map s r).mu = s.mu.set r (flipped_mu pheno ref k r) ∧
      ((freq_ok ca pheno ref k r ∧
          (match_loop2 ca pheno ref id_map s r).snps = s.snps ++ [ref.bim_snp_name.getD r ""] ∧
          (match_loop2 ca pheno ref id_map s r).idx = s.idx ++ [k] ∧
          (match_loop2 ca pheno ref id_map s r).unmatched = s.unmatched) ∨
        (¬ freq_ok ca pheno ref k r ∧
          (match_loop2 ca pheno ref id_map s r).snps = s.snps ∧
          (match_loop2 ca pheno ref id_map s r).idx = s.idx ∧
          (match_loop2 ca pheno ref id_map s r).unmatched = s.unmatched + 1))) := by
  unfold match_loop2
  cases hl : id_map.lookup (ref.bim_snp_name.getD r "") with
  | none => left; exact ⟨rfl, rfl⟩
  | some k =>
    right
    refine ⟨k, rfl, ?_⟩
    have hne : (!ref.mu.isEmpty) = true := by
      cases hm : ref.mu with
      | nil => exact (hmu hm).elim
      | cons a t => rfl
    have hmu2 : (if (!ref.mu.isEmpty && pheno.allele1.getD k "" == ref.bim_allele2.getD r "") = true
        then s.mu.set r (2 - ref.mu.getD r 0) else s.mu.set r (ref.mu.getD r 0)) =
        s.mu.set r (flipped_mu pheno ref k r) := by
      unfold flipped_mu
      rw [hne, Bool.true_and]
      by_cases ha : pheno.allele1.getD k "" = ref.bim_allele2.getD r ""
      · rw [if_pos (beq_iff_eq.2 ha), if_pos ha]
      · rw [if_neg (fun h => ha (beq_iff_eq.1 h)), if_neg ha]
    simp only [hmu2, getD_set_self _ _ _ _ hr]
    by_cases hf : freq_ok ca pheno ref k r
    · have hf' := hf
      unfold freq_ok at hf'
      rw [if_pos hf']
      exact ⟨rfl, rfl, Or.inl ⟨hf, rfl, rfl, rfl⟩⟩
    · have hf' := hf
      unfold freq_ok at hf'
      rw [if_neg hf']
      exact ⟨rfl, rfl, Or.inr ⟨hf, rfl, rfl, rfl⟩⟩

/-- The state after the second loop over a duplicate-free list `T` of reference
positions. -/
theorem match_loop2_spec (ca : CondAnalysis) (pheno : Phenotype) (ref : Reference)
    (id_map : List (String × Nat)) (T : List Nat) (hT : T.Nodup)
    (hlt : ∀ r ∈ T, r < ref.mu.length ∧ r < ref.ref_A.length) :
    Loop2Inv ca pheno ref id_map T (T.foldl (match_loop2 ca pheno ref id_map)
      { ref_A := ref.ref_A, mu := ref.mu, snps := [], idx := [], unmatched := 0 }) := by
  refine foldl_list_inv (match_loop2 ca pheno ref id_map) (Loop2Inv ca pheno ref id_map) T _
    ⟨rfl, rfl, by simp, fun r _ => ⟨rfl, rfl⟩, by simp, by simp, by simp⟩ ?_
  intro pre x rest st hsplit hI
  have hxT : x ∈ T := by rw [← hsplit]; simp
  have hxpre : x ∉ pre := by
    have h := hT
    rw [← hsplit] at h
    have h2 := (List.nodup_append.1 h).2.2
    intro hx
    exact h2 hx (List.mem_cons_self x rest)
  have hxmu : x < st.mu.length := by rw [hI.mu_len]; exact (hlt x hxT).1
  have hxA : x < st.ref_A.length := by rw [hI.ref_A_len]; exact (hlt x hxT).2
  have hmu : ref.mu ≠ [] := by
    intro h
    have := (hlt x hxT).1
    rw [h] at this
    exact Nat.not_lt_zero _ this
  rcases match_loop2_step ca pheno ref id_map st x hxmu hmu with
    ⟨hn, he⟩ | ⟨k, hk, hA, hm, hcase⟩
  · rw [he]
    have hc : counted ca pheno ref id_map x = false := by unfold counted; rw [hn]
    refine ⟨hI.mu_len, hI.ref_A_len, ?_, ?_, ?_, ?_, ?_⟩
    · intro r hr k hk
      rcases List.mem_append.1 hr with h | h
      · exact hI.done r h k hk
      · rw [List.mem_singleton.1 h, hn] at hk; cases hk
    · intro r hr
      exact hI.rest r (fun h => hr (List.mem_append_left _ h))
    · intro k
      rw [hI.idx]
      constructor
      · rintro ⟨r, hr, h⟩; exact ⟨r, List.mem_append_left _ hr, h⟩
      · rintro ⟨r, hr, h1, h2⟩
        rcases List.mem_append.1 hr with h | h
        · exact ⟨r, h, h1, h2⟩
        · rw [List.mem_singleton.1 h, hn] at h1; cases h1
    · intro s
      rw [hI.snps]
      constructor
      · rintro ⟨r, hr, h⟩; exact ⟨r, List.mem_append_left _ hr, h⟩
      · rintro ⟨r, hr, k, h1, h2⟩
        rcases List.mem_append.1 hr with h | h
        · exact ⟨r, h, k, h1, h2⟩
        · rw [List.mem_singleton.1 h, hn] at h1; cases h1
    · rw [hI.unmatched, List.filter_append]
      simp [hc]
  · have hdone : ∀ r ∈ pre ++ [x], ∀ k', id_map.lookup (ref.bim_snp_name.getD r "") = some k' →
        (st.mu.set x (flipped_mu pheno ref k x)).getD r 0 = flipped_mu pheno ref k' r ∧
        (st.ref_A.set x (pheno.allele1.getD k "")).getD r "" = pheno.allele1.getD k' "" := by
      intro r hr k' hk'
      rcases List.mem_append.1 hr with h | h
      · have hne : x ≠ r := fun e => hxpre (e ▸ h)
        rw [getD_set_ne _ _ _ _ _ hne, getD_set_ne _ _ _ _ _ hne]
        exact hI.done r h k' hk'
      · have hrx : r = x := List.mem_singleton.1 h
        subst hrx
        rw [hk] at hk'
        cases hk'
        exact ⟨getD_set_self _ _ _ _ hxmu, getD_set_self _ _ _ _ hxA⟩
    have hrest : ∀ r, r ∉ pre ++ [x] →
        (st.mu.set x (flipped_mu pheno ref k x)).getD r 0 = ref.mu.getD r 0 ∧
        (st.ref_A.set x (pheno.allele1.getD k "")).getD r "" = ref.ref_A.getD r "" := by
      intro r hr
      have hne : x ≠ r := fun e => hr (by simp [e])
      rw [getD_set_ne _ _ _ _ _ hne, getD_set_ne _ _ _ _ _ hne]
      exact hI.rest r (fun h => hr (List.mem_append_left _ h))
    rcases hcase with ⟨hf, hs, hi, hu⟩ | ⟨hf, hs, hi, hu⟩
    · have hc : counted ca pheno ref id_map x = false := by
        unfold counted; rw [hk]
        unfold freq_ok at hf
        exact decide_eq_false (not_le.2 hf)
      refine ⟨by rw [hm, List.length_set]; exact hI.mu_len,
        by rw [hA, List.length_set]; exact hI.ref_A_len,
        by rw [hm, hA]; exact hdone, by rw [hm, hA]; exact hrest, ?_, ?_, ?_⟩
      · intro k'
        rw [hi, List.mem_append, hI.idx, List.mem_singleton]
        constructor
        · rintro (⟨r, hr, h⟩ | rfl)
          · exact ⟨r, List.mem_append_left _ hr, h⟩
          · exact ⟨x, by simp, hk, hf⟩
        · rintro ⟨r, hr, h1, h2⟩
          rcases List.mem_append.1 hr with h | h
          · exact Or.inl ⟨r, h, h1, h2⟩
          · rw [List.mem_singleton.1 h, hk] at h1
            cases h1
            exact Or.inr rfl
      · intro s
        rw [hs, List.mem_append, hI.snps, List.mem_singleton]
        constructor
        · rintro (⟨r, hr, h⟩ | rfl)
          · exact ⟨r, List.mem_append_left _ hr, h⟩
          · exact ⟨x, by simp, k, hk, hf, rfl⟩
        · rintro ⟨r, hr, k', h1, h2, h3⟩
          rcases List.mem_append.1 hr with h | h
          · exact Or.inl ⟨r, h, k', h1, h2, h3⟩
          · rw [List.mem_singleton.1 h] at h3
            exact Or.inr h3.symm
      · rw [hu, hI.unmatched, List.filter_append]
        simp [hc]
    · have hc : counted ca pheno ref id_map x = true := by
        unfold counted; rw [hk]
        unfold freq_ok at hf
        exact decide_eq_true (not_lt.1 hf)
      refine ⟨by rw [hm, List.length_set]; exact hI.mu_len,
        by rw [hA, List.length_set]; exact hI.ref_A_len,
        by rw [hm, hA]; exact hdone, by rw [hm, hA]; exact hrest, ?_, ?_, ?_⟩
      · intro k'
        rw [hi, hI.idx]
        constructor
        · rintro ⟨r, hr, h⟩; exact ⟨r, List.mem_append_left _ hr, h⟩
        · rintro ⟨r, hr, h1, h2⟩
          rcases List.mem_append.1 hr with h | h
          · exact ⟨r, h, h1, h2⟩
          · have hrx : r = x := List.mem_singleton.1 h
            subst hrx
            rw [hk] at h1
            cases h1
            exact (hf h2).elim
      · intro s
        rw [hs, hI.snps]
        constructor
        · rintro ⟨r, hr, h⟩; exact ⟨r, List.mem_append_left _ hr, h⟩
        · rintro ⟨r, hr, k', h1, h2, h3⟩
          rcases List.mem_append.1 hr with h | h
          · exact ⟨r, h, k', h1, h2, h3⟩
          · have hrx : r = x := List.mem_singleton.1 h
            subst hrx
            rw [hk] at h1
            cases h1
            exact (hf h2).elim
      · rw [hu, hI.unmatched, List.filter_append]
        simp [hc]

theorem mem_update_inclusion (ref : Reference) (idx : List Nat) (snps : List String) (r : Nat) :
    r ∈ (update_inclusion ref idx snps).to_include ↔
      r < ref.bim_snp_name.length ∧ ∃ s ∈ snps, ref.snp_map.lookup s = some r := by
  unfold update_inclusion
  simp only [List.mem_filter, List.mem_range, List.any_eq_true, beq_iff_eq]

theorem candidate_unique {pheno : Phenotype} {ref : Reference} {i r r' : Nat}
    (h : candidate pheno ref i r) (h' : candidate pheno ref i r') : r = r' := by
  have := h.1.symm.trans h'.1
  exact Option.some.inj this

/-- Two phenotype SNPs matched to the same reference SNP are the same SNP. -/
theorem candidate_inj {pheno : Phenotype} {ref : Reference} (hnd : pheno.snp_name.Nodup)
    (hwf : RefWF ref) {i j r : Nat} (hi : i < pheno.snp_name.length)
    (hj : j < pheno.snp_name.length) (h : candidate pheno ref i r)
    (h' : candidate pheno ref j r) : i = j :=
  getD_inj_of_nodup hnd hi hj
    (((hwf.lookup _ _ h.1).2).symm.trans (hwf.lookup _ _ h'.1).2)

/-- The inclusion set after the first `update_inclusion`: the reference SNPs to
which a candidate is matched. -/
theorem mem_first_inclusion (pheno : Phenotype) (ref : Reference) (hwf : RefWF ref)
    (snps : List String)
    (hs : ∀ s, s ∈ snps ↔ ∃ i, i < pheno.snp_name.length ∧ (∃ r, candidate pheno ref i r) ∧
      pheno.snp_name.getD i "" = s) (idx : List Nat) (r : Nat) :
    r ∈ (update_inclusion (includes_clear ref) idx snps).to_include ↔
      ∃ i, i < pheno.snp_name.length ∧ candidate pheno ref i r := by
  rw [mem_update_inclusion]
  constructor
  · rintro ⟨_, s, hsm, hl⟩
    obtain ⟨i, hi, ⟨r', hc⟩, hname⟩ := (hs s).1 hsm
    subst hname
    have : r' = r := Option.some.inj (hc.1.symm.trans hl)
    subst this
    exact ⟨i, hi, hc⟩
  · rintro ⟨i, hi, hc⟩
    exact ⟨(hwf.lookup _ _ hc.1).1, _, (hs _).2 ⟨i, hi, ⟨r, hc⟩, rfl⟩, hc.1⟩

/-- The map `id_map` finds, for the reference SNP of a candidate, the position of
the candidate in the phenotype. -/
theorem id_map_at (pheno : Phenotype) (ref : Reference) (hwf : RefWF ref)
    (id_map : List (String × Nat))
    (hm : ∀ name v, id_map.lookup name = some v ↔
      (v < pheno.snp_name.length ∧ (∃ r, candidate pheno ref v r) ∧
        pheno.snp_name.getD v "" = name))
    {i r : Nat} (hi : i < pheno.snp_name.length) (hc : candidate pheno ref i r) :
    id_map.lookup (ref.bim_snp_name.getD r "") = some i :=
  (hm _ _).2 ⟨hi, ⟨r, hc⟩, ((hwf.lookup _ _ hc.1).2).symm⟩

theorem match_alleles_stages (ca : CondAnalysis) (pheno : Phenotype) (ref : Reference) :
    match_alleles ca pheno ref =
      { ca := { ca with
          to_include := (update_inclusion
            { first_inclusion pheno ref with ref_A := (second_loop ca pheno ref).ref_A }
            (second_loop ca pheno ref).idx (second_loop ca pheno ref).snps).to_include
          fam_ids_inc := (first_inclusion pheno ref).fam_ids_inc
          mu := (second_loop ca pheno ref).mu }
        ref := update_inclusion
          { first_inclusion pheno ref with ref_A := (second_loop ca pheno ref).ref_A }
          (second_loop ca pheno ref).idx (second_loop ca pheno ref).snps
        idx := (second_loop ca pheno ref).idx
        snps := (second_loop ca pheno ref).snps
        unmatched := (second_loop ca pheno ref).unmatched } := rfl

theorem first_loop_spec (pheno : Phenotype) (ref : Reference) (hnd : pheno.snp_name.Nodup) :
    (∀ s, s ∈ (first_loop pheno ref).snps ↔ ∃ i, i < pheno.snp_name.length ∧
      (∃ r, candidate pheno ref i r) ∧ pheno.snp_name.getD i "" = s) ∧
    (∀ name v, (first_loop pheno ref).id_map.lookup name = some v ↔
      (v < pheno.snp_name.length ∧ (∃ r, candidate pheno ref v r) ∧
        pheno.snp_name.getD v "" = name)) :=
  match_loop1_spec pheno (includes_clear ref) hnd

theorem mem_first_inclusion_iff (pheno : Phenotype) (ref : Reference)
    (hnd : pheno.snp_name.Nodup) (hwf : RefWF ref) (r : Nat) :
    r ∈ (first_inclusion pheno ref).to_include ↔
      ∃ i, i < pheno.snp_name.length ∧ candidate pheno ref i r :=
  mem_first_inclusion pheno ref hwf _ (first_loop_spec pheno ref hnd).1 _ r

theorem second_loop_spec (ca : CondAnalysis) (pheno : Phenotype) (ref : Reference)
    (hnd : pheno.snp_name.Nodup) (hwf : RefWF ref) :
    Loop2Inv ca pheno (first_inclusion pheno ref) (first_loop pheno ref).id_map
      (first_inclusion pheno ref).to_include (second_loop ca pheno ref) := by
  refine match_loop2_spec ca pheno (first_inclusion pheno ref) _ _ ?_ ?_
  · exact (List.nodup_range _).filter _
  · intro r hr
    obtain ⟨i, _, hc⟩ := (mem_first_inclusion_iff pheno ref hnd hwf r).1 hr
    have hlt := (hwf.lookup _ _ hc.1).1
    exact ⟨by change r < ref.mu.length; rw [hwf.mu_len]; exact hlt,
      by change r < ref.ref_A.length; rw [hwf.ref_A_len]; exact hlt⟩

theorem freq_rejected_iff (ca : CondAnalysis) (pheno : Phenotype) (ref : Reference) (i : Nat) :
    freq_rejected ca pheno ref i = true ↔
      ∃ r, candidate pheno ref i r ∧ ¬ freq_ok ca pheno ref i r := by
  unfold freq_rejected candidate freq_ok
  cases hl : ref.snp_map.lookup (pheno.snp_name.getD i "") with
  | none => simp
  | some r =>
    simp only [Bool.and_eq_true, Bool.or_eq_true, beq_iff_eq, decide_eq_true_eq, not_lt,
      Option.some.injEq]
    constructor
    · rintro ⟨ha, hf⟩; exact ⟨r, ⟨rfl, ha⟩, hf⟩
    · rintro ⟨r', ⟨rfl, ha⟩, hf⟩; exact ⟨ha, hf⟩

theorem counted_iff (ca : CondAnalysis) (pheno : Phenotype) (ref : Reference)
    (id_map : List (String × Nat)) (r : Nat) :
    counted ca pheno ref id_map r = true ↔
      ∃ k, id_map.lookup (ref.bim_snp_name.getD r "") = some k ∧ ¬ freq_ok ca pheno ref k r := by
  unfold counted freq_ok
  cases hl : id_map.lookup (ref.bim_snp_name.getD r "") with
  | none => simp
  | some k => simp

/-- The counter of the second loop is the number of candidates failing the
frequency test. -/
theorem second_loop_unmatched (ca : CondAnalysis) (pheno : Phenotype) (ref : Reference)
    (hnd : pheno.snp_name.Nodup) (hwf : RefWF ref) :
    (second_loop ca pheno ref).unmatched =
      ((List.range pheno.snp_name.length).filter (freq_rejected ca pheno ref)).length := by
  have hm := (first_loop_spec pheno ref hnd).2
  rw [(second_loop_spec ca pheno ref hnd hwf).unmatched]
  have hU : ((List.range pheno.snp_name.length).filter (freq_rejected ca pheno ref)).Nodup :=
    (List.nodup_range _).filter _
  have hV : ((first_inclusion pheno ref).to_include.filter
      (counted ca pheno (first_inclusion pheno ref) (first_loop pheno ref).id_map)).Nodup :=
    ((List.nodup_range _).filter _).filter _
  have hmap : (((List.range pheno.snp_name.length).filter (freq_rejected ca pheno ref)).map
      fun i => (ref.snp_map.lookup (pheno.snp_name.getD i "")).getD 0).Nodup := by
    refine List.Nodup.map_on ?_ hU
    intro x hx y hy hxy
    rw [List.mem_filter, List.mem_range] at hx hy
    obtain ⟨rx, hcx, _⟩ := (freq_rejected_iff ca pheno ref x).1 hx.2
    obtain ⟨ry, hcy, _⟩ := (freq_rejected_iff ca pheno ref y).1 hy.2
    rw [hcx.1, hcy.1] at hxy
    simp only [Option.getD_some] at hxy
    subst hxy
    exact candidate_inj hnd hwf hx.1 hy.1 hcx hcy
  have hperm := (List.perm_ext_iff_of_nodup hmap hV).2 (by
    intro r
    rw [List.mem_map, List.mem_filter, mem_first_inclusion_iff pheno ref hnd hwf, counted_iff]
    constructor
    · rintro ⟨i, hi, hr⟩
      rw [List.mem_filter, List.mem_range] at hi
      obtain ⟨r', hc, hf⟩ := (freq_rejected_iff ca pheno ref i).1 hi.2
      rw [hc.1] at hr
      simp only [Option.getD_some] at hr
      subst hr
      exact ⟨⟨i, hi.1, hc⟩, i, id_map_at pheno ref hwf _ hm hi.1 hc, hf⟩
    · rintro ⟨⟨i, hi, hc⟩, k, hk, hf⟩
      have hki : some k = some i := hk.symm.trans (id_map_at pheno ref hwf _ hm hi hc)
      cases hki
      refine ⟨i, ?_, by rw [hc.1]; rfl⟩
      rw [List.mem_filter, List.mem_range]
      exact ⟨hi, (freq_rejected_iff ca pheno ref i).2 ⟨r, hc, hf⟩⟩)
  rw [← hperm.length_eq, List.length_map]

/-- The harmoniser, on a phenotype without repeated names and a well-formed
reference. -/
theorem match_alleles_harmonised (ca : CondAnalysis) (pheno : Phenotype) (ref : Reference)
    (hnd : pheno.snp_name.Nodup) (hwf : RefWF ref) :
    Harmonised ca pheno ref (match_alleles ca pheno ref) := by
  have hm := (first_loop_spec pheno ref hnd).2
  have hT := mem_first_inclusion_iff pheno ref hnd hwf
  have hI := second_loop_spec ca pheno ref hnd hwf
  have hidx : ∀ i, i ∈ (second_loop ca pheno ref).idx ↔ i < pheno.snp_name.length ∧
      ∃ r, candidate pheno ref i r ∧ freq_ok ca pheno ref i r := by
    intro i
    rw [hI.idx]
    constructor
    · rintro ⟨r, hr, hk, hf⟩
      obtain ⟨i', hi', hc⟩ := (hT r).1 hr
      have hki : some i = some i' := hk.symm.trans (id_map_at pheno ref hwf _ hm hi' hc)
      cases hki
      exact ⟨hi', r, hc, hf⟩
    · rintro ⟨hi, r, hc, hf⟩
      exact ⟨r, (hT r).2 ⟨i, hi, hc⟩, id_map_at pheno ref hwf _ hm hi hc, hf⟩
  have hsnps : ∀ s, s ∈ (second_loop ca pheno ref).snps ↔ ∃ i, i < pheno.snp_name.length ∧
      (∃ r, candidate pheno ref i r ∧ freq_ok ca pheno ref i r) ∧
        pheno.snp_name.getD i "" = s := by
    intro s
    rw [hI.snps]
    constructor
    · rintro ⟨r, hr, k, hk, hf, hname⟩
      obtain ⟨i', hi', hc⟩ := (hT r).1 hr
      have hki : some k = some i' := hk.symm.trans (id_map_at pheno ref hwf _ hm hi' hc)
      cases hki
      exact ⟨k, hi', ⟨r, hc, hf⟩, ((hwf.lookup _ _ hc.1).2).symm.trans hname⟩
    · rintro ⟨i, hi, ⟨r, hc, hf⟩, hname⟩
      exact ⟨r, (hT r).2 ⟨i, hi, hc⟩, i, id_map_at pheno ref hwf _ hm hi hc, hf,
        ((hwf.lookup _ _ hc.1).2).trans hname⟩
  rw [match_alleles_stages]
  refine ⟨hidx, hsnps, ?_, rfl, ?_, ?_, second_loop_unmatched ca pheno ref hnd hwf⟩
  · intro r
    rw [mem_update_inclusion]
    constructor
    · rintro ⟨_, s, hs, hl⟩
      obtain ⟨i, hi, ⟨r', hc, hf⟩, hname⟩ := (hsnps s).1 hs
      subst hname
      have : r' = r := Option.some.inj (hc.1.symm.trans hl)
      subst this
      exact ⟨i, hi, hc, hf⟩
    · rintro ⟨i, hi, hc, hf⟩
      exact ⟨(hwf.lookup _ _ hc.1).1, _, (hsnps _).2 ⟨i, hi, ⟨r, hc, hf⟩, rfl⟩, hc.1⟩
  · intro i r hi hc
    exact (hI.done r ((hT r).2 ⟨i, hi, hc⟩) i (id_map_at pheno ref hwf _ hm hi hc)).1
  · intro i r hi hc
    exact (hI.done r ((hT r).2 ⟨i, hi, hc⟩) i (id_map_at pheno ref hwf _ hm hi hc)).2

/-- A returned result carries the containers of the harmonisation. -/
theorem match_gwas_phenotype_ok (nm : Numerics) (ca : CondAnalysis) (pheno : Phenotype)
    (ref : Reference) (res : MatchResult) (h : match_gwas_phenotype nm ca pheno ref = .ok res) :
    res.idx = (match_alleles ca pheno ref).idx ∧ res.snps = (match_alleles ca pheno ref).snps ∧
    res.unmatched = (match_alleles ca pheno ref).unmatched ∧
    res.ref = (match_alleles ca pheno ref).ref ∧
    res.ca.to_include = (match_alleles ca pheno ref).ca.to_include ∧
    res.ca.mu = (match_alleles ca pheno ref).ca.mu ∧
    res.ca.to_include ≠ [] := by
  unfold match_gwas_phenotype at h
  by_cases he : (match_alleles ca pheno ref).ca.to_include.isEmpty = true
  · simp only [he, if_true] at h
    cases h
  · simp only [he, Bool.false_eq_true, if_false, Except.ok.injEq] at h
    subst h
    refine ⟨rfl, rfl, rfl, rfl, rfl, rfl, ?_⟩
    intro hnil
    apply he
    change (match_alleles ca pheno ref).ca.to_include = [] at hnil
    rw [hnil]
    rfl

/-- The harmoniser returns as soon as one SNP is included. -/
theorem match_gwas_phenotype_returns (nm : Numerics) (ca : CondAnalysis) (pheno : Phenotype)
    (ref : Reference) (r : Nat) (h : r ∈ (match_alleles ca pheno ref).ca.to_include) :
    ∃ res, match_gwas_phenotype nm ca pheno ref = .ok res := by
  unfold match_gwas_phenotype
  have he : ¬ (match_alleles ca pheno ref).ca.to_include.isEmpty = true := by
    intro he
    rw [List.isEmpty_iff] at he
    rw [he] at h
    cases h
  simp only [he, Bool.false_eq_true, if_false]
  exact ⟨_, rfl⟩

/-! ## The map of matched positions -/

/-- An entry of the map pairs a position of the first list with the first
position of its name in the second list. -/
theorem mem_mdata_snp_map (s1 s2 : List String) (p : Nat × Nat) :
    p ∈ mdata_snp_map s1 s2 ↔
      p.1 < s1.length ∧ p.2 = s2.indexOf (s1.getD p.1 "") ∧ p.2 < s2.length := by
  unfold mdata_snp_map
  rw [List.mem_filterMap]
  constructor
  · rintro ⟨i, hi, h⟩
    rw [List.mem_range] at hi
    by_cases hlt : s2.indexOf (s1.getD i "") < s2.length
    · rw [if_pos hlt] at h
      cases h
      exact ⟨hi, rfl, hlt⟩
    · rw [if_neg hlt] at h
      cases h
  · rintro ⟨h1, h2, h3⟩
    refine ⟨p.1, List.mem_range.2 h1, ?_⟩
    rw [h2] at h3
    rw [if_pos h3, ← h2]

theorem mdata_snp_map_sorted (s1 s2 : List String) :
    ((mdata_snp_map s1 s2).map Prod.fst).Pairwise (fun a b => a < b) := by
  rw [List.pairwise_map]
  unfold mdata_snp_map
  refine List.Pairwise.filterMap _ ?_ (List.pairwise_lt_range s1.length)
  intro a a' haa b hb b' hb'
  by_cases h : s2.indexOf (s1.getD a "") < s2.length
  · by_cases h' : s2.indexOf (s1.getD a' "") < s2.length
    · simp only [if_pos h, if_pos h', Option.mem_def, Option.some.injEq] at hb hb'
      subst hb hb'
      exact haa
    · simp only [if_neg h', Option.mem_def] at hb'
      cases hb'
  · simp only [if_neg h, Option.mem_def] at hb
    cases hb

theorem getD_mem_of_lt_length {α : Type} (l : List α) (k : Nat) (d : α) (h : k < l.length) :
    l.getD k d ∈ l := by
  rw [List.getD_eq_getElem _ _ h]
  exact List.getElem_mem _

theorem getD_map_default {α β : Type} (f : α → β) (l : List α) (k : Nat) (d : α) (e : β)
    (h : k < l.length) : (l.map f).getD k e = f (l.getD k d) := by
  rw [List.getD_eq_getElem _ _ (by simpa using h), List.getD_eq_getElem _ _ h]
  simp

/-! ## The harmoniser on a swapped phenotype -/

theorem candidate_swap {pheno : Phenotype} {ref : Reference} (hp : PairsAgree pheno ref)
    {i r : Nat} (hi : i < pheno.snp_name.length) :
    candidate (swap_alleles pheno) ref i r ↔ candidate pheno ref i r := by
  unfold candidate
  constructor
  · rintro ⟨hl, ha⟩
    refine ⟨hl, ?_⟩
    rcases hp i hi r hl with ⟨hs, _⟩ | ⟨_, _, h3, h4⟩
    · rcases hs with ⟨h, _⟩ | ⟨h, _⟩
      · exact Or.inl h
      · exact Or.inr h
    · rcases ha with ha | ha
      · exact (h3 ha).elim
      · exact (h4 ha).elim
  · rintro ⟨hl, ha⟩
    refine ⟨hl, ?_⟩
    rcases hp i hi r hl with ⟨hs, _⟩ | ⟨h1, h2, _, _⟩
    · rcases hs with ⟨_, h⟩ | ⟨_, h⟩
      · exact Or.inr h
      · exact Or.inl h
    · rcases ha with ha | ha
      · exact (h1 ha).elim
      · exact (h2 ha).elim

theorem flipped_mu_swap {pheno : Phenotype} {ref : Reference} (hp : PairsAgree pheno ref)
    {i r : Nat} (hi : i < pheno.snp_name.length) (hc : candidate pheno ref i r) :
    flipped_mu (swap_alleles pheno) ref i r = 2 - flipped_mu pheno ref i r := by
  unfold flipped_mu
  change (if pheno.allele2.getD i "" = ref.bim_allele2.getD r "" then _ else _) = _
  rcases hp i hi r hc.1 with ⟨hs, hne⟩ | ⟨h1, h2, _, _⟩
  · rcases hs with ⟨ha, hb⟩ | ⟨ha, hb⟩
    · have hn : ¬ pheno.allele1.getD i "" = ref.bim_allele2.getD r "" := by
        rw [ha]; exact hne
      rw [if_pos hb, if_neg hn]
    · have hn : ¬ pheno.allele2.getD i "" = ref.bim_allele2.getD r "" := by
        rw [hb]; exact hne
      rw [if_neg hn, if_pos ha]
      ring
  · rcases hc.2 with h | h
    · exact (h1 h).elim
    · exact (h2 h).elim

theorem freq_ok_swap {ca : CondAnalysis} {pheno : Phenotype} {ref : Reference}
    (hp : PairsAgree pheno ref) (hf : pheno.snp_name.length ≤ pheno.freq.length)
    {i r : Nat} (hi : i < pheno.snp_name.length) (hc : candidate pheno ref i r) :
    freq_ok ca (swap_alleles pheno) ref i r ↔ freq_ok ca pheno ref i r := by
  unfold freq_ok
  rw [flipped_mu_swap hp hi hc]
  have hfr : (swap_alleles pheno).freq.getD i 0 = 1 - pheno.freq.getD i 0 := by
    change (pheno.freq.map fun f => 1 - f).getD i 0 = _
    exact getD_map_default _ _ i 0 0 (by omega)
  rw [hfr]
  have : (2 - flipped_mu pheno ref i r) / 2 - (1 - pheno.freq.getD i 0)
      = -(flipped_mu pheno ref i r / 2 - pheno.freq.getD i 0) := by ring
  rw [this, abs_neg]

theorem match_loop1_swap {pheno : Phenotype} {ref : Reference} (hp : PairsAgree pheno ref)
    (s : MatchLoop1) {i : Nat} (hi : i < pheno.snp_name.length) :
    match_loop1 (swap_alleles pheno) ref s i = match_loop1 pheno ref s i := by
  rcases match_loop1_step pheno ref s i with ⟨hn, he⟩ | ⟨r, hc, he⟩
  · rcases match_loop1_step (swap_alleles pheno) ref s i with ⟨_, he'⟩ | ⟨r', hc', _⟩
    · rw [he, he']
    · exact (hn ⟨r', (candidate_swap hp hi).1 hc'⟩).elim
  · rcases match_loop1_step (swap_alleles pheno) ref s i with ⟨hn', _⟩ | ⟨r', hc', he'⟩
    · exact (hn' ⟨r, (candidate_swap hp hi).2 hc⟩).elim
    · have : r' = r := candidate_unique ((candidate_swap hp hi).1 hc') hc
      subst this
      rw [he, he']
      rfl

theorem first_loop_swap {pheno : Phenotype} {ref : Reference} (hp : PairsAgree pheno ref) :
    first_loop (swap_alleles pheno) ref = first_loop pheno ref := by
  unfold first_loop
  refine List.foldl_ext _ _ _ ?_
  intro s i hi
  exact match_loop1_swap hp s (List.mem_range.1 hi)

theorem first_inclusion_swap {pheno : Phenotype} {ref : Reference} (hp : PairsAgree pheno ref) :
    first_inclusion (swap_alleles pheno) ref = first_inclusion pheno ref := by
  unfold first_inclusion
  rw [first_loop_swap hp]

/-- Two loops over the same vector whose bodies keep a relation between their
states keep it to the end. -/
theorem foldl_list_rel {σ τ α : Type} (f : σ → α → σ) (g : τ → α → τ) (R : σ → τ → Prop)
    (l : List α) (a : σ) (b : τ) (h0 : R a b)
    (hstep : ∀ x ∈ l, ∀ s t, R s t → R (f s x) (g t x)) :
    R (l.foldl f a) (l.foldl g b) := by
  induction l generalizing a b with
  | nil => exact h0
  | cons x xs ih =>
    simp only [List.foldl_cons]
    exact ih _ _ (hstep x (List.mem_cons_self _ _) a b h0)
      (fun y hy s t h => hstep y (List.mem_cons_of_mem _ hy) s t h)

/-- The second loop on the swapped phenotype keeps and counts the same SNPs. -/
theorem second_loop_swap (ca : CondAnalysis) (pheno : Phenotype) (ref : Reference)
    (hnd : pheno.snp_name.Nodup) (hwf : RefWF ref) (hp : PairsAgree pheno ref)
    (hf : pheno.snp_name.length ≤ pheno.freq.length) :
    (second_loop ca (swap_alleles pheno) ref).snps = (second_loop ca pheno ref).snps ∧
    (second_loop ca (swap_alleles pheno) ref).idx = (second_loop ca pheno ref).idx ∧
    (second_loop ca (swap_alleles pheno) ref).unmatched
      = (second_loop ca pheno ref).unmatched := by
  have hm := (first_loop_spec pheno ref hnd).2
  have hT := mem_first_inclusion_iff pheno ref hnd hwf
  unfold second_loop
  rw [first_inclusion_swap hp, first_loop_swap hp]
  have key := foldl_list_rel
    (match_loop2 ca pheno (first_inclusion pheno ref) (first_loop pheno ref).id_map)
    (match_loop2 ca (swap_alleles pheno) (first_inclusion pheno ref) (first_loop pheno ref).id_map)
    (fun st st' => st'.snps = st.snps ∧ st'.idx = st.idx ∧ st'.unmatched = st.unmatched ∧
      st.mu.length = ref.mu.length ∧ st'.mu.length = ref.mu.length)
    (first_inclusion pheno ref).to_include
    { ref_A := (first_inclusion pheno ref).ref_A, mu := (first_inclusion pheno ref).mu
      snps := [], idx := [], unmatched := 0 }
    { ref_A := (first_inclusion pheno ref).ref_A, mu := (first_inclusion pheno ref).mu
      snps := [], idx := [], unmatched := 0 }
    ⟨rfl, rfl, rfl, rfl, rfl⟩ ?_
  · exact ⟨key.1, key.2.1, key.2.2.1⟩
  · intro r hr st st' hR
    obtain ⟨hs, hi, hu, hl, hl'⟩ := hR
    obtain ⟨i, hin, hc⟩ := (hT r).1 hr
    have hk : List.lookup ((first_inclusion pheno ref).bim_snp_name.getD r "")
        (first_loop pheno ref).id_map = some i := id_map_at pheno ref hwf _ hm hin hc
    have hrlt : r < ref.mu.length := by
      rw [hwf.mu_len]; exact (hwf.lookup _ _ hc.1).1
    have hmu : (first_inclusion pheno ref).mu ≠ [] := by
      intro h
      have h' : ref.mu = [] := h
      rw [h'] at hrlt
      exact Nat.not_lt_zero _ hrlt
    have hfo : freq_ok ca (swap_alleles pheno) (first_inclusion pheno ref) i r
        ↔ freq_ok ca pheno (first_inclusion pheno ref) i r :=
      @freq_ok_swap ca pheno ref hp hf i r hin hc
    rcases match_loop2_step ca pheno (first_inclusion pheno ref) (first_loop pheno ref).id_map
        st r (by rw [hl]; exact hrlt) hmu with ⟨hn, _⟩ | ⟨k, hk1, _, hm1, hcase⟩
    · rw [hk] at hn; cases hn
    rcases match_loop2_step ca (swap_alleles pheno) (first_inclusion pheno ref)
        (first_loop pheno ref).id_map st' r (by rw [hl']; exact hrlt) hmu with
      ⟨hn, _⟩ | ⟨k', hk2, _, hm2, hcase'⟩
    · rw [hk] at hn; cases hn
    have e1 : k = i := Option.some.inj (hk1.symm.trans hk)
    have e2 : k' = i := Option.some.inj (hk2.symm.trans hk)
    subst e1 e2
    have hlen1 : (match_loop2 ca pheno (first_inclusion pheno ref)
        (first_loop pheno ref).id_map st r).mu.length = ref.mu.length := by
      rw [hm1, List.length_set]; exact hl
    have hlen2 : (match_loop2 ca (swap_alleles pheno) (first_inclusion pheno ref)
        (first_loop pheno ref).id_map st' r).mu.length = ref.mu.length := by
      rw [hm2, List.length_set]; exact hl'
    rcases hcase with ⟨hf1, a1, a2, a3⟩ | ⟨hf1, a1, a2, a3⟩
    · rcases hcase' with ⟨hf2, b1, b2, b3⟩ | ⟨hf2, b1, b2, b3⟩
      · exact ⟨by rw [a1, b1, hs], by rw [a2, b2, hi], by rw [a3, b3, hu], hlen1, hlen2⟩
      · exact (hf2 (hfo.2 hf1)).elim
    · rcases hcase' with ⟨hf2, b1, b2, b3⟩ | ⟨hf2, b1, b2, b3⟩
      · exact (hf1 (hfo.1 hf2)).elim
      · exact ⟨by rw [a1, b1, hs], by rw [a2, b2, hi], by rw [a3, b3, hu], hlen1, hlen2⟩

/-- The harmonised vectors of a returned result, in terms of the kept positions. -/
theorem match_gwas_phenotype_ja (nm : Numerics) (ca : CondAnalysis) (pheno : Phenotype)
    (ref : Reference) (res : MatchResult) (h : match_gwas_phenotype nm ca pheno ref = .ok res) :
    res.ca.ja_snp_name = (List.range res.ca.to_include.length).map
      (fun i => pheno.snp_name.getD (res.idx.getD i 0) "") ∧
    res.ca.ja_freq = (List.range res.ca.to_include.length).map
      (fun i => pheno.freq.getD (res.idx.getD i 0) 0) ∧
    res.ca.ja_beta = (List.range res.ca.to_include.length).map
      (fun i => pheno.beta.getD (res.idx.getD i 0) 0) ∧
    res.ca.ja_beta_se = (List.range res.ca.to_include.length).map
      (fun i => pheno.se.getD (res.idx.getD i 0) 0) ∧
    res.ca.ja_N_outcome = (List.range res.ca.to_include.length).map
      (fun i => pheno.n.getD (res.idx.getD i 0) 0) ∧
    res.ca.ja_chisq = (List.range res.ca.to_include.length).map
      (fun i => (res.ca.ja_beta.getD i 0 / res.ca.ja_beta_se.getD i 0)
        * (res.ca.ja_beta.getD i 0 / res.ca.ja_beta_se.getD i 0)) ∧
    res.ca.ja_pval = res.ca.ja_chisq.map (fun c => nm.pchisq c 1) := by
  unfold match_gwas_phenotype at h
  by_cases he : (match_alleles ca pheno ref).ca.to_include.isEmpty = true
  · simp only [he, if_true] at h
    cases h
  · simp only [he, Bool.false_eq_true, if_false, Except.ok.injEq] at h
    subst h
    exact ⟨rfl, rfl, rfl, rfl, rfl, rfl, rfl⟩

theorem getD_map_neg (l : List ℚ) (k : Nat) :
    (l.map fun b => -b).getD k 0 = -(l.getD k 0) := by
  have h := @List.getD_map _ _ l (0 : ℚ) k (fun b => -b)
  simpa using h

/-- The containers of the harmonisation of the swapped phenotype. -/
theorem match_alleles_swap (ca : CondAnalysis) (pheno : Phenotype) (ref : Reference)
    (hnd : pheno.snp_name.Nodup) (hwf : RefWF ref) (hp : PairsAgree pheno ref)
    (hf : pheno.snp_name.length ≤ pheno.freq.length) :
    (match_alleles ca (swap_alleles pheno) ref).idx = (match_alleles ca pheno ref).idx ∧
    (match_alleles ca (swap_alleles pheno) ref).snps = (match_alleles ca pheno ref).snps ∧
    (match_alleles ca (swap_alleles pheno) ref).unmatched
      = (match_alleles ca pheno ref).unmatched ∧
    (match_alleles ca (swap_alleles pheno) ref).ca.to_include
      = (match_alleles ca pheno ref).ca.to_include := by
  obtain ⟨h1, h2, h3⟩ := second_loop_swap ca pheno ref hnd hwf hp hf
  rw [match_alleles_stages, match_alleles_stages]
  refine ⟨h2, h1, h3, ?_⟩
  simp only [update_inclusion]
  rw [h1, first_inclusion_swap hp]

/-! ## The order of the kept SNPs -/

theorem kept_at_eq_some (ca : CondAnalysis) (pheno : Phenotype) (ref : Reference)
    (id_map : List (String × Nat)) (r k : Nat) :
    kept_at ca pheno ref id_map r = some k ↔
      id_map.lookup (ref.bim_snp_name.getD r "") = some k ∧ freq_ok ca pheno ref k r := by
  unfold kept_at freq_ok
  cases hl : id_map.lookup (ref.bim_snp_name.getD r "") with
  | none => simp
  | some k' =>
    by_cases hf : ca.a_freq_threshold ≤ |flipped_mu pheno ref k' r / 2 - pheno.freq.getD k' 0|
    · simp only [if_pos hf, Option.some.injEq]
      constructor
      · intro h; cases h
      · rintro ⟨rfl, h⟩
        exact absurd hf (not_le.2 h)
    · simp only [if_neg hf, Option.some.injEq]
      constructor
      · rintro rfl; exact ⟨rfl, not_le.1 hf⟩
      · rintro ⟨h, _⟩; exact h

theorem kept_at_eq_none (ca : CondAnalysis) (pheno : Phenotype) (ref : Reference)
    (id_map : List (String × Nat)) (r : Nat)
    (h : ∀ k, id_map.lookup (ref.bim_snp_name.getD r "") = some k → ¬ freq_ok ca pheno ref k r) :
    kept_at ca pheno ref id_map r = none := by
  cases hk : kept_at ca pheno ref id_map r with
  | none => rfl
  | some k =>
    obtain ⟨h1, h2⟩ := (kept_at_eq_some ca pheno ref id_map r k).1 hk
    exact (h k h1 h2).elim

theorem filterMap_eq_map_filter {α β : Type} (f : α → Option β) (d : β) (l : List α) :
    l.filterMap f = (l.filter fun a => (f a).isSome).map fun a => (f a).getD d := by
  induction l with
  | nil => rfl
  | cons a t ih =>
    cases h : f a with
    | none => simp [List.filterMap_cons, List.filter_cons, h, ih]
    | some b => simp [List.filterMap_cons, List.filter_cons, h, ih]

/-- The vectors `idx` and `snps` after the second loop, in the order of the visit. -/
theorem match_loop2_lists (ca : CondAnalysis) (pheno : Phenotype) (ref : Reference)
    (id_map : List (String × Nat)) (T : List Nat)
    (hlt : ∀ r ∈ T, r < ref.mu.length) :
    (T.foldl (match_loop2 ca pheno ref id_map)
      { ref_A := ref.ref_A, mu := ref.mu, snps := [], idx := [], unmatched := 0 }).idx
      = T.filterMap (kept_at ca pheno ref id_map) := by
  have key := foldl_list_inv (match_loop2 ca pheno ref id_map)
    (fun pre st => st.idx = pre.filterMap (kept_at ca pheno ref id_map) ∧
      st.mu.length = ref.mu.length) T
    { ref_A := ref.ref_A, mu := ref.mu, snps := [], idx := [], unmatched := 0 }
    ⟨rfl, rfl⟩ ?_
  · exact key.1
  · intro pre x rest st hsplit hI
    obtain ⟨hidx, hlen⟩ := hI
    have hxT : x ∈ T := by rw [← hsplit]; simp
    have hx := hlt x hxT
    have hmu : ref.mu ≠ [] := by
      intro h
      rw [h] at hx
      exact Nat.not_lt_zero _ hx
    rw [List.filterMap_append]
    rcases match_loop2_step ca pheno ref id_map st x (by rw [hlen]; exact hx) hmu with
      ⟨hn, he⟩ | ⟨k, hk, _, hm, hcase⟩
    · have hnone : kept_at ca pheno ref id_map x = none :=
        kept_at_eq_none _ _ _ _ _ (fun k hk => by rw [hn] at hk; cases hk)
      rw [he]
      simp only [List.filterMap_cons, hnone, List.filterMap_nil, List.append_nil]
      exact ⟨hidx, hlen⟩
    · rcases hcase with ⟨hf, _, hi, _⟩ | ⟨hf, _, hi, _⟩
      · have hsome : kept_at ca pheno ref id_map x = some k :=
          (kept_at_eq_some _ _ _ _ _ _).2 ⟨hk, hf⟩
        simp only [List.filterMap_cons, hsome, List.filterMap_nil]
        exact ⟨by rw [hi, hidx], by rw [hm, List.length_set]; exact hlen⟩
      · have hnone : kept_at ca pheno ref id_map x = none :=
          kept_at_eq_none _ _ _ _ _ (fun k' hk' => by
            rw [hk] at hk'
            cases hk'
            exact hf)
        simp only [List.filterMap_cons, hnone, List.filterMap_nil, List.append_nil]
        exact ⟨by rw [hi, hidx], by rw [hm, List.length_set]; exact hlen⟩

/-- After the first loop `idx` holds the reference positions of the candidates. -/
theorem first_loop_idx (pheno : Phenotype) (ref : Reference) (r : Nat) :
    r ∈ (first_loop pheno ref).idx ↔
      ∃ i, i < pheno.snp_name.length ∧ candidate pheno ref i r := by
  unfold first_loop
  have key := foldl_range_inv (match_loop1 pheno (includes_clear ref))
    (fun k st => ∀ r, r ∈ st.idx ↔ ∃ i, i < k ∧ candidate pheno ref i r)
    pheno.snp_name.length { pheno_idx := [], id_map := [], snps := [], idx := [] }
    (by simp) ?_
  · exact key r
  · intro k st _ hI r
    rcases match_loop1_step pheno (includes_clear ref) st k with ⟨hn, he⟩ | ⟨r', hc, he⟩
    · rw [he, hI]
      constructor
      · rintro ⟨i, hi, h⟩; exact ⟨i, by omega, h⟩
      · rintro ⟨i, hi, h⟩
        rcases Nat.lt_succ_iff_lt_or_eq.1 hi with hlt | rfl
        · exact ⟨i, hlt, h⟩
        · exact (hn ⟨r, h⟩).elim
    · rw [he]
      simp only [List.mem_append, List.mem_singleton, hI]
      constructor
      · rintro (⟨i, hi, h⟩ | rfl)
        · exact ⟨i, by omega, h⟩
        · exact ⟨k, by omega, hc⟩
      · rintro ⟨i, hi, h⟩
        rcases Nat.lt_succ_iff_lt_or_eq.1 hi with hlt | rfl
        · exact Or.inl ⟨i, hlt, h⟩
        · exact Or.inr (candidate_unique h hc)

theorem filter_eq_of_mem_iff {α : Type} (p q : α → Bool) (l : List α)
    (h : ∀ x ∈ l, (x ∈ l.filter p ↔ x ∈ l.filter q)) : l.filter p = l.filter q := by
  refine List.filter_congr ?_
  intro x hx
  have := h x hx
  simp only [List.mem_filter, hx, true_and] at this
  exact Bool.eq_iff_iff.2 this

/-- The final inclusion list: the reference SNPs of the first inclusion list that
the second loop keeps, in the same order. -/
theorem final_inclusion_eq (ca : CondAnalysis) (pheno : Phenotype) (ref : Reference)
    (hnd : pheno.snp_name.Nodup) (hwf : RefWF ref) :
    (match_alleles ca pheno ref).ca.to_include =
      (first_inclusion pheno ref).to_include.filter fun r =>
        (kept_at ca pheno (first_inclusion pheno ref) (first_loop pheno ref).id_map r).isSome := by
  have hm := (first_loop_spec pheno ref hnd).2
  have hT := mem_first_inclusion_iff pheno ref hnd hwf
  have H := match_alleles_harmonised ca pheno ref hnd hwf
  have e1 : (match_alleles ca pheno ref).ca.to_include =
      (List.range ref.bim_snp_name.length).filter fun r =>
        (second_loop ca pheno ref).snps.any fun name => ref.snp_map.lookup name == some r := rfl
  have e2 : (first_inclusion pheno ref).to_include =
      (List.range ref.bim_snp_name.length).filter fun r =>
        (first_loop pheno ref).snps.any fun name => ref.snp_map.lookup name == some r := rfl
  have e3 : (first_inclusion pheno ref).to_include.filter (fun r =>
        (kept_at ca pheno (first_inclusion pheno ref) (first_loop pheno ref).id_map r).isSome) =
      (List.range ref.bim_snp_name.length).filter fun r =>
        (kept_at ca pheno (first_inclusion pheno ref) (first_loop pheno ref).id_map r).isSome
          && (first_loop pheno ref).snps.any fun name => ref.snp_map.lookup name == some r := by
    rw [e2, List.filter_filter]
  rw [e3, e1]
  refine filter_eq_of_mem_iff _ _ _ ?_
  intro r _
  rw [← e1, ← e3, H.to_include, List.mem_filter, hT]
  constructor
  · rintro ⟨i, hi, hc, hf⟩
    refine ⟨⟨i, hi, hc⟩, ?_⟩
    have hk : kept_at ca pheno (first_inclusion pheno ref) (first_loop pheno ref).id_map r
        = some i :=
      (kept_at_eq_some _ _ _ _ _ _).2 ⟨id_map_at pheno ref hwf _ hm hi hc, hf⟩
    rw [hk]
    rfl
  · rintro ⟨⟨i, hi, hc⟩, hq⟩
    cases hk : kept_at ca pheno (first_inclusion pheno ref) (first_loop pheno ref).id_map r with
    | none => rw [hk] at hq; cases hq
    | some k =>
      obtain ⟨h1, h2⟩ := (kept_at_eq_some _ _ _ _ _ _).1 hk
      have hki : some k = some i := h1.symm.trans (id_map_at pheno ref hwf _ hm hi hc)
      cases hki
      exact ⟨i, hi, hc, h2⟩

/-- The kept phenotype positions run parallel to the final inclusion list. -/
theorem kept_alignment (ca : CondAnalysis) (pheno : Phenotype) (ref : Reference)
    (hnd : pheno.snp_name.Nodup) (hwf : RefWF ref) :
    (match_alleles ca pheno ref).idx = (match_alleles ca pheno ref).ca.to_include.map fun r =>
      (kept_at ca pheno (first_inclusion pheno ref) (first_loop pheno ref).id_map r).getD 0 := by
  rw [final_inclusion_eq ca pheno ref hnd hwf, ← filterMap_eq_map_filter]
  have hT := mem_first_inclusion_iff pheno ref hnd hwf
  refine match_loop2_lists ca pheno (first_inclusion pheno ref) (first_loop pheno ref).id_map
    (first_inclusion pheno ref).to_include ?_
  intro r hr
  obtain ⟨i, _, hc⟩ := (hT r).1 hr
  change r < ref.mu.length
  rw [hwf.mu_len]
  exact (hwf.lookup _ _ hc.1).1

/-- Row `t` of the harmonised state: the kept phenotype position `idx[t]` is the
candidate matched to `to_include[t]`, and it passes the frequency test. -/
theorem kept_row (ca : CondAnalysis) (pheno : Phenotype) (ref : Reference)
    (hnd : pheno.snp_name.Nodup) (hwf : RefWF ref) (t : Nat)
    (ht : t < (match_alleles ca pheno ref).ca.to_include.length) :
    (match_alleles ca pheno ref).idx.getD t 0 < pheno.snp_name.length ∧
    candidate pheno ref ((match_alleles ca pheno ref).idx.getD t 0)
      ((match_alleles ca pheno ref).ca.to_include.getD t 0) ∧
    freq_ok ca pheno ref ((match_alleles ca pheno ref).idx.getD t 0)
      ((match_alleles ca pheno ref).ca.to_include.getD t 0) := by
  have hm := (first_loop_spec pheno ref hnd).2
  have H := match_alleles_harmonised ca pheno ref hnd hwf
  have hmem := getD_mem_of_lt_length (match_alleles ca pheno ref).ca.to_include t 0 ht
  obtain ⟨i, hi, hc, hf⟩ := (H.to_include _).1 hmem
  have hk : kept_at ca pheno (first_inclusion pheno ref) (first_loop pheno ref).id_map
      ((match_alleles ca pheno ref).ca.to_include.getD t 0) = some i :=
    (kept_at_eq_some _ _ _ _ _ _).2 ⟨id_map_at pheno ref hwf _ hm hi hc, hf⟩
  have e : (match_alleles ca pheno ref).idx.getD t 0 = i := by
    rw [kept_alignment ca pheno ref hnd hwf, getD_map_default _ _ t 0 0 ht, hk]
    rfl
  rw [e]
  exact ⟨hi, hc, hf⟩

theorem survives_iff (ca : CondAnalysis) (pheno : Phenotype) (ref : Reference) (i : Nat) :
    survives ca pheno ref i = true ↔ ∃ r, candidate pheno ref i r ∧ freq_ok ca pheno ref i r := by
  unfold survives candidate freq_ok
  cases hl : ref.snp_map.lookup (pheno.snp_name.getD i "") with
  | none => simp
  | some r =>
    simp only [Bool.and_eq_true, Bool.or_eq_true, beq_iff_eq, decide_eq_true_eq,
      Option.some.injEq]
    constructor
    · rintro ⟨ha, hf⟩; exact ⟨r, ⟨rfl, ha⟩, hf⟩
    · rintro ⟨r', ⟨rfl, ha⟩, hf⟩; exact ⟨ha, hf⟩

/-- As many SNPs are kept as pass the frequency filter. -/
theorem kept_count (ca : CondAnalysis) (pheno : Phenotype) (ref : Reference)
    (hnd : pheno.snp_name.Nodup) (hwf : RefWF ref) :
    (match_alleles ca pheno ref).ca.to_include.length =
      ((List.range pheno.snp_name.length).filter (survives ca pheno ref)).length := by
  have hm := (first_loop_spec pheno ref hnd).2
  have H := match_alleles_harmonised ca pheno ref hnd hwf
  have hF : (match_alleles ca pheno ref).ca.to_include.Nodup := (List.nodup_range _).filter _
  have hidx : (match_alleles ca pheno ref).idx.Nodup := by
    rw [kept_alignment ca pheno ref hnd hwf]
    refine List.Nodup.map_on ?_ hF
    intro x hx y hy hxy
    obtain ⟨i, hi, hc, hf⟩ := (H.to_include x).1 hx
    obtain ⟨j, hj, hcj, hfj⟩ := (H.to_include y).1 hy
    have hkx : kept_at ca pheno (first_inclusion pheno ref) (first_loop pheno ref).id_map x
        = some i := (kept_at_eq_some _ _ _ _ _ _).2 ⟨id_map_at pheno ref hwf _ hm hi hc, hf⟩
    have hky : kept_at ca pheno (first_inclusion pheno ref) (first_loop pheno ref).id_map y
        = some j := (kept_at_eq_some _ _ _ _ _ _).2 ⟨id_map_at pheno ref hwf _ hm hj hcj, hfj⟩
    rw [hkx, hky] at hxy
    simp only [Option.getD_some] at hxy
    subst hxy
    exact candidate_unique hc hcj
  have hlen : (match_alleles ca pheno ref).ca.to_include.length
      = (match_alleles ca pheno ref).idx.length := by
    rw [kept_alignment ca pheno ref hnd hwf, List.length_map]
  rw [hlen]
  refine ((List.perm_ext_iff_of_nodup hidx ((List.nodup_range _).filter _)).2 ?_).length_eq
  intro i
  rw [H.idx, List.mem_filter, List.mem_range, survives_iff]

/-! ## What the matrix routines leave alone -/

theorem init_b_scalars (nm : Numerics) (ca : CondAnalysis) (ref : Reference) (idx : List Nat) :
    scalars (init_b nm ca ref idx).2 = scalars ca ∧
    (init_b nm ca ref idx).2.jma_snpnum_backward = ca.jma_snpnum_backward := by
  unfold init_b
  simp only
  split_ifs <;> exact ⟨rfl, rfl⟩

theorem init_z_scalars (nm : Numerics) (ca : CondAnalysis) (ref : Reference) (idx : List Nat) :
    scalars (init_z nm ca ref idx) = scalars ca ∧
    (init_z nm ca ref idx).jma_snpnum_backward = ca.jma_snpnum_backward :=
  ⟨rfl, rfl⟩

theorem insert_B_Z_scalars (nm : Numerics) (ca : CondAnalysis) (ref : Reference)
    (idx : List Nat) (pos : Nat) :
    scalars (insert_B_Z nm ca ref idx pos).2 = scalars ca ∧
    (insert_B_Z nm ca ref idx pos).2.jma_snpnum_backward = ca.jma_snpnum_backward := by
  unfold insert_B_Z
  simp only
  split_ifs <;> exact ⟨rfl, rfl⟩

theorem erase_B_and_Z_scalars (nm : Numerics) (ca : CondAnalysis) (idx : List Nat) (e : Nat) :
    scalars (erase_B_and_Z nm ca idx e) = scalars ca ∧
    (erase_B_and_Z nm ca idx e).jma_snpnum_backward = ca.jma_snpnum_backward := by
  unfold erase_B_and_Z
  simp only
  split_ifs <;> exact ⟨rfl, rfl⟩

theorem ensure_b_scalars (nm : Numerics) (ca ca1 : CondAnalysis) (ref : Reference)
    (idx : List Nat) (msg : String) (h : ensure_b nm ca ref idx msg = .ok ca1) :
    scalars ca1 = scalars ca ∧ ca1.jma_snpnum_backward = ca.jma_snpnum_backward := by
  unfold ensure_b at h
  by_cases hc : ca.B_N.cols < 1
  · rw [if_pos hc] at h
    have hf := init_b_scalars nm ca ref idx
    rcases hi : init_b nm ca ref idx with ⟨b, ca2⟩
    rw [hi] at h hf
    cases b
    · cases h
    · simp only [Except.ok.injEq] at h
      subst h
      exact hf
  · rw [if_neg hc] at h
    simp only [Except.ok.injEq] at h
    subst h
    exact ⟨rfl, rfl⟩

theorem massoc_conditional_scalars (nm : Numerics) (ca ca1 : CondAnalysis) (ref : Reference)
    (S R : List Nat) (out : Assoc) (h : massoc_conditional nm ca ref S R = .ok (ca1, out)) :
    scalars ca1 = scalars ca ∧ ca1.jma_snpnum_backward = ca.jma_snpnum_backward ∧
    out.b.length = R.length ∧ out.se.length = R.length ∧ out.p.length = R.length := by
  unfold massoc_conditional at h
  cases he : ensure_b nm ca ref S
      "Conditional Error: There is a collinearity problem with the SNPs given." with
  | error e => rw [he] at h; cases h
  | ok ca2 =>
    rw [he] at h
    have h2 := ensure_b_scalars nm ca ca2 ref S _ he
    simp only [Except.ok.injEq, Prod.mk.injEq] at h
    obtain ⟨h3, h4⟩ := h
    subst h3 h4
    refine ⟨?_, ?_, by simp, by simp, by simp⟩
    · split_ifs
      · exact (init_z_scalars nm ca2 ref S).1.trans h2.1
      · exact h2.1
    · split_ifs
      · exact (init_z_scalars nm ca2 ref S).2.trans h2.2
      · exact h2.2

theorem massoc_joint_scalars (nm : Numerics) (ca ca1 : CondAnalysis) (ref : Reference)
    (S : List Nat) (out : Assoc) (h : massoc_joint nm ca ref S = .ok (ca1, out)) :
    scalars ca1 = scalars ca ∧ ca1.jma_snpnum_backward = ca.jma_snpnum_backward ∧
    out.p.length = S.length := by
  unfold massoc_joint at h
  cases he : ensure_b nm ca ref S
      "massoc_joint: There is a collinearity problem with the given list of SNPs." with
  | error e => rw [he] at h; cases h
  | ok ca2 =>
    rw [he] at h
    have h2 := ensure_b_scalars nm ca ca2 ref S _ he
    simp only [Except.ok.injEq, Prod.mk.injEq] at h
    obtain ⟨h3, h4⟩ := h
    subst h3 h4
    exact ⟨h2.1, h2.2, by simp⟩

/-! ## Positions of the largest and the smallest entry -/

theorem max_element_lt (v : List ℚ) (h : v ≠ []) : max_element v < v.length := by
  unfold max_element
  have hpos : 0 < v.length := List.length_pos.2 h
  exact foldl_range_inv (fun best i => if v.getD best 0 < v.getD i 0 then i else best)
    (fun _ best => best < v.length) v.length 0 hpos
    (fun k st hk hst => by
      dsimp only
      split_ifs
      · exact hk
      · exact hst)

theorem min_element_lt (v : List ℚ) (h : v ≠ []) : min_element v < v.length := by
  unfold min_element
  have hpos : 0 < v.length := List.length_pos.2 h
  exact foldl_range_inv (fun best i => if v.getD i 0 < v.getD best 0 then i else best)
    (fun _ best => best < v.length) v.length 0 hpos
    (fun k st hk hst => by
      dsimp only
      split_ifs
      · exact hk
      · exact hst)

/-! ## The selector, step by step -/

theorem perm_cons_eraseIdx (R : List Nat) (m : Nat) (h : m < R.length) :
    R.Perm (R.getD m 0 :: R.eraseIdx m) := by
  induction R generalizing m with
  | nil => cases h
  | cons a t ih =>
    cases m with
    | zero => exact List.Perm.refl _
    | succ m =>
      have h' : m < t.length := by simpa using h
      have := ih m h'
      simp only [List.getD_cons_succ, List.eraseIdx_cons_succ]
      exact (List.Perm.cons a this).trans (List.Perm.swap _ _ _)

theorem length_eraseIdx_of_lt {α : Type} (l : List α) (m : Nat) (h : m < l.length) :
    (l.eraseIdx m).length = l.length - 1 := by
  rw [List.length_eraseIdx, if_pos h]

theorem insert_ix_perm (S : List Nat) (x : Nat) : (insert_ix S x).Perm (S ++ [x]) :=
  List.perm_insertionSort _ _

/-- What one call of the loop of `select_entry` does to the selector state. -/
theorem select_entry_loop_spec (nm : Numerics) (ref : Reference) :
    ∀ (fuel : Nat) (s : Selection) (pC : List ℚ) (b : Bool) (s1 : Selection),
      pC.length = fuel → s.remain.length = fuel →
      select_entry_loop nm ref fuel s pC = .ok (b, s1) →
      scalars s1.ca = scalars s.ca ∧
      s1.ca.jma_snpnum_backward = s.ca.jma_snpnum_backward ∧
      (s1.selected ++ s1.remain).Subperm (s.selected ++ s.remain) ∧
      (b = true → s1.selected.length = s.selected.length + 1 ∧
        s1.remain.length < s.remain.length) ∧
      (b = false → s1.selected = s.selected ∧ s1.remain.length ≤ s.remain.length) := by
  intro fuel
  induction fuel with
  | zero =>
    intro s pC b s1 _ _ h
    simp only [select_entry_loop] at h
    cases h
  | succ fuel ih =>
    intro s pC b s1 hp hr h
    have hne : pC ≠ [] := by
      intro e; rw [e] at hp; cases hp
    have hm : min_element pC < s.remain.length := by
      rw [hr, ← hp]; exact min_element_lt pC hne
    simp only [select_entry_loop] at h
    by_cases hcut : s.ca.a_p_cutoff ≤ pC.getD (min_element pC) 0
    · rw [if_pos hcut] at h
      simp only [Except.ok.injEq, Prod.mk.injEq] at h
      obtain ⟨hb, hs⟩ := h
      subst hb hs
      exact ⟨rfl, rfl, List.Subperm.refl _, (fun h => by cases h), fun _ => ⟨rfl, le_refl _⟩⟩
    · rw [if_neg hcut] at h
      have hsc := insert_B_Z_scalars nm s.ca ref s.selected (s.remain.getD (min_element pC) 0)
      rcases hi : insert_B_Z nm s.ca ref s.selected (s.remain.getD (min_element pC) 0) with
        ⟨ok, ca1⟩
      rw [hi] at h hsc
      cases ok
      · simp only at h
        have hlen1 : (pC.eraseIdx (min_element pC)).length = fuel := by
          rw [length_eraseIdx_of_lt _ _ (by rw [hp, ← hr]; exact hm), hp]; rfl
        have hlen2 : (s.remain.eraseIdx (min_element pC)).length = fuel := by
          rw [length_eraseIdx_of_lt _ _ hm, hr]; rfl
        obtain ⟨a1, a2, a3, a4, a5⟩ := ih _ _ b s1 hlen1 hlen2 h
        have hsub : (s.selected ++ s.remain.eraseIdx (min_element pC)).Subperm
            (s.selected ++ s.remain) :=
          (List.Sublist.append_left (List.eraseIdx_sublist _ _) _).subperm
        refine ⟨a1.trans hsc.1, a2.trans hsc.2, a3.trans hsub, fun hb => ?_, fun hb => ?_⟩
        · obtain ⟨c1, c2⟩ := a4 hb
          exact ⟨c1, by simp only at c2; rw [hlen2] at c2; omega⟩
        · obtain ⟨c1, c2⟩ := a5 hb
          exact ⟨c1, by simp only at c2; rw [hlen2] at c2; omega⟩
      · simp only [Except.ok.injEq, Prod.mk.injEq] at h
        obtain ⟨hb, hs⟩ := h
        subst hb hs
        have hperm : (insert_ix s.selected (s.remain.getD (min_element pC) 0)
            ++ s.remain.eraseIdx (min_element pC)).Perm (s.selected ++ s.remain) := by
          refine ((insert_ix_perm _ _).append_right _).trans ?_
          rw [List.append_assoc]
          exact List.Perm.append_left _ (perm_cons_eraseIdx _ _ hm).symm
        refine ⟨hsc.1, hsc.2, hperm.subperm, fun _ => ⟨?_, ?_⟩, fun h => by cases h⟩
        · have := (insert_ix_perm s.selected (s.remain.getD (min_element pC) 0)).length_eq
          simpa using this
        · simp only
          rw [length_eraseIdx_of_lt _ _ hm]
          omega

/-- What `select_entry` does to the selector state. -/
theorem select_entry_spec (nm : Numerics) (ref : Reference) (s s1 : Selection) (b : Bool)
    (h : select_entry nm ref s = .ok (b, s1)) :
    scalars s1.ca = scalars s.ca ∧
    s1.ca.jma_snpnum_backward = s.ca.jma_snpnum_backward ∧
    (s1.selected ++ s1.remain).Subperm (s.selected ++ s.remain) ∧
    (b = true → s1.selected.length = s.selected.length + 1 ∧
      s1.remain.length < s.remain.length) ∧
    (b = false → s1.selected = s.selected ∧ s1.remain.length ≤ s.remain.length) := by
  unfold select_entry at h
  cases hc : massoc_conditional nm s.ca ref s.selected s.remain with
  | error e => rw [hc] at h; cases h
  | ok r =>
    obtain ⟨ca1, out⟩ := r
    rw [hc] at h
    simp only at h
    obtain ⟨c1, c2, _, _, c5⟩ := massoc_conditional_scalars nm s.ca ca1 ref _ _ out hc
    obtain ⟨a1, a2, a3, a4, a5⟩ :=
      select_entry_loop_spec nm ref out.p.length { s with ca := ca1, out := out } out.p b s1
        rfl c5.symm h
    exact ⟨a1.trans c1, a2.trans c2, a3, a4, a5⟩

/-- What the loop of `selected_stay` does to the selector state: every SNP it
erases is counted in `jma_snpnum_backward`. -/
theorem selected_stay_loop_spec (nm : Numerics) (ref : Reference) :
    ∀ (fuel : Nat) (s s1 : Selection), s.selected.length = fuel →
      selected_stay_loop nm ref fuel s = .ok s1 →
      scalars s1.ca = scalars s.ca ∧ s1.remain = s.remain ∧
      s1.selected.Sublist s.selected ∧
      s1.selected.length + s1.ca.jma_snpnum_backward
        = s.selected.length + s.ca.jma_snpnum_backward := by
  intro fuel
  induction fuel with
  | zero =>
    intro s s1 _ h
    simp only [selected_stay_loop, Except.ok.injEq] at h
    subst h
    exact ⟨rfl, rfl, List.Sublist.refl _, rfl⟩
  | succ fuel ih =>
    intro s s1 hl h
    simp only [selected_stay_loop] at h
    cases hj : massoc_joint nm s.ca ref s.selected with
    | error e => rw [hj] at h; cases h
    | ok r =>
      obtain ⟨ca1, out⟩ := r
      rw [hj] at h
      simp only at h
      obtain ⟨c1, c2, c3⟩ := massoc_joint_scalars nm s.ca ca1 ref _ out hj
      have hne : out.p ≠ [] := by
        intro e; rw [e, hl] at c3; cases c3
      have hm : max_element out.p < s.selected.length := by
        rw [← c3]; exact max_element_lt _ hne
      by_cases hcut : ca1.a_p_cutoff < out.p.getD (max_element out.p) 0
      · rw [if_pos hcut] at h
        have hlen : (s.selected.eraseIdx (max_element out.p)).length = fuel := by
          rw [length_eraseIdx_of_lt _ _ hm, hl]; rfl
        obtain ⟨a1, a2, a3, a4⟩ := ih _ s1 hlen h
        have e := erase_B_and_Z_scalars nm
          { ca1 with jma_snpnum_backward := ca1.jma_snpnum_backward + 1 } s.selected
          (s.selected.getD (max_element out.p) 0)
        refine ⟨a1.trans (e.1.trans c1), a2, a3.trans (List.eraseIdx_sublist _ _), ?_⟩
        simp only at a4
        rw [a4, e.2, hlen]
        simp only
        rw [c2, hl]
        omega
      · rw [if_neg hcut] at h
        simp only [Except.ok.injEq] at h
        subst h
        exact ⟨c1, rfl, List.Sublist.refl _, by simp only; rw [c2]⟩

/-- What `selected_stay` does to the selector state. -/
theorem selected_stay_spec (nm : Numerics) (ref : Reference) (s s1 : Selection)
    (h : selected_stay nm ref s = .ok s1) :
    scalars s1.ca = scalars s.ca ∧ s1.remain = s.remain ∧
    s1.selected.Sublist s.selected ∧
    s1.selected.length + s1.ca.jma_snpnum_backward
      = s.selected.length + s.ca.jma_snpnum_backward := by
  unfold selected_stay at h
  cases he : ensure_b nm s.ca ref s.selected
      "Stepwise Selection Error: There is a collinearity problem with the given list of SNPs." with
  | error e => rw [he] at h; cases h
  | ok ca1 =>
    rw [he] at h
    simp only at h
    obtain ⟨c1, c2⟩ := ensure_b_scalars nm s.ca ca1 ref _ _ he
    obtain ⟨a1, a2, a3, a4⟩ := selected_stay_loop_spec nm ref _ { s with ca := ca1 } s1 rfl h
    exact ⟨a1.trans c1, a2, a3, by simp only at a4; rw [a4, c2]⟩

/-- What the loop of `stepwise_select` does to the selector state. -/
theorem stepwise_loop_spec (nm : Numerics) (ref : Reference) :
    ∀ (fuel : Nat) (s s1 : Selection), stepwise_loop nm ref fuel s = .ok s1 →
      scalars s1.ca = scalars s.ca ∧
      (s1.selected ++ s1.remain).Subperm (s.selected ++ s.remain) ∧
      s.selected.length + s.ca.jma_snpnum_backward
        ≤ s1.selected.length + s1.ca.jma_snpnum_backward := by
  intro fuel
  induction fuel with
  | zero =>
    intro s s1 h
    simp only [stepwise_loop, Except.ok.injEq] at h
    subst h
    exact ⟨rfl, List.Subperm.refl _, le_refl _⟩
  | succ fuel ih =>
    intro s s1 h
    simp only [stepwise_loop] at h
    by_cases hr : s.remain.isEmpty = true
    · rw [if_pos hr] at h
      simp only [Except.ok.injEq] at h
      subst h
      exact ⟨rfl, List.Subperm.refl _, le_refl _⟩
    · rw [if_neg hr] at h
      cases hse : select_entry nm ref s with
      | error e => rw [hse] at h; cases h
      | ok r =>
        obtain ⟨b, s'⟩ := r
        rw [hse] at h
        obtain ⟨a1, a2, a3, a4, a5⟩ := select_entry_spec nm ref s s' b hse
        cases b
        · simp only [Except.ok.injEq] at h
          subst h
          exact ⟨a1, a3, by rw [(a5 rfl).1, a2]⟩
        · simp only at h
          cases hst : selected_stay nm ref s' with
          | error e => rw [hst] at h; cases h
          | ok s2 =>
            rw [hst] at h
            simp only at h
            obtain ⟨b1, b2, b3, b4⟩ := selected_stay_spec nm ref s' s2 hst
            have hsub : (s2.selected ++ s2.remain).Subperm (s.selected ++ s.remain) := by
              rw [b2]
              exact ((List.Sublist.append_right b3 _).subperm).trans a3
            have hcount : s.selected.length + s.ca.jma_snpnum_backward
                ≤ s2.selected.length + s2.ca.jma_snpnum_backward := by
              rw [b4, (a4 rfl).1, a2]
              omega
            by_cases htop : s2.ca.a_top_snp ≤ (s2.selected.length : ℚ)
            · rw [if_pos htop] at h
              simp only [Except.ok.injEq] at h
              subst h
              exact ⟨b1.trans a1, hsub, hcount⟩
            · rw [if_neg htop] at h
              obtain ⟨c1, c2, c3⟩ := ih s2 s1 h
              exact ⟨c1.trans (b1.trans a1), c2.trans hsub, le_trans hcount c3⟩

/-- The loop of `stepwise_select` needs no more fuel than the size of `remain`:
with more, it gives the same result. -/
theorem stepwise_loop_fuel (nm : Numerics) (ref : Reference) (k : Nat) :
    ∀ (fuel : Nat) (s : Selection), s.remain.length ≤ fuel →
      stepwise_loop nm ref (fuel + k) s = stepwise_loop nm ref fuel s := by
  intro fuel
  induction fuel with
  | zero =>
    intro s hs
    have he : s.remain.isEmpty = true := by
      rw [List.isEmpty_iff]
      exact List.length_eq_zero.1 (Nat.le_zero.1 hs)
    cases k with
    | zero => rfl
    | succ k =>
      rw [Nat.zero_add]
      simp only [stepwise_loop, he, if_true]
  | succ fuel ih =>
    intro s hs
    rw [Nat.add_right_comm]
    simp only [stepwise_loop]
    by_cases hr : s.remain.isEmpty = true
    · rw [if_pos hr, if_pos hr]
    · rw [if_neg hr, if_neg hr]
      cases hse : select_entry nm ref s with
      | error e => rfl
      | ok r =>
        obtain ⟨b, s'⟩ := r
        obtain ⟨_, _, _, a4, _⟩ := select_entry_spec nm ref s s' b hse
        cases b
        · rfl
        · simp only
          cases hst : selected_stay nm ref s' with
          | error e => rfl
          | ok s2 =>
            simp only
            obtain ⟨_, b2, _, _⟩ := selected_stay_spec nm ref s' s2 hst
            by_cases htop : s2.ca.a_top_snp ≤ (s2.selected.length : ℚ)
            · rw [if_pos htop, if_pos htop]
            · rw [if_neg htop, if_neg htop]
              exact ih s2 (by rw [b2]; have := (a4 rfl).2; omega)

/-- What `stepwise_select`, started with empty vectors, does to the selector
state: the early exit leaves it as it is; otherwise `selected` and `remain` are
drawn, without repetition, from the top SNP `m` and the other positions, and every
SNP missing from `selected` below one was erased by backward elimination. -/
theorem stepwise_select_spec (nm : Numerics) (ref : Reference) (s s1 : Selection)
    (hs : s.selected = []) (hr : s.remain = []) (h : stepwise_select nm ref s = .ok s1) :
    scalars s1.ca = scalars s.ca ∧
    ((s.ca.a_p_cutoff ≤ s.ca.ja_pval.getD (max_element s.ca.ja_chisq) 0 ∧ s1 = s) ∨
      (s.ca.ja_pval.getD (max_element s.ca.ja_chisq) 0 < s.ca.a_p_cutoff ∧
        (s1.selected ++ s1.remain).Subperm
          (max_element s.ca.ja_chisq ::
            (List.range s.ca.to_include.length).filter fun i =>
              i != max_element s.ca.ja_chisq) ∧
        1 + s.ca.jma_snpnum_backward ≤ s1.selected.length + s1.ca.jma_snpnum_backward)) := by
  unfold stepwise_select at h
  simp only at h
  by_cases hcut : s.ca.a_p_cutoff ≤ s.ca.ja_pval.getD (max_element s.ca.ja_chisq) 0
  · rw [if_pos hcut] at h
    simp only [Except.ok.injEq] at h
    subst h
    exact ⟨rfl, Or.inl ⟨hcut, rfl⟩⟩
  · rw [if_neg hcut] at h
    rw [hs, hr] at h
    simp only [List.nil_append] at h
    cases hl : stepwise_loop nm ref
        ((List.range s.ca.to_include.length).filter fun i =>
          i != max_element s.ca.ja_chisq).length
        { s with
          selected := [max_element s.ca.ja_chisq]
          remain := (List.range s.ca.to_include.length).filter fun i =>
            i != max_element s.ca.ja_chisq } with
    | error e => rw [hl] at h; cases h
    | ok s2 =>
      rw [hl] at h
      simp only at h
      obtain ⟨a1, a2, a3⟩ := stepwise_loop_spec nm ref _ _ s2 hl
      simp only [List.singleton_append, List.length_singleton] at a2 a3
      by_cases hlax : 1 / 1000 < s2.ca.a_p_cutoff
      · rw [if_pos hlax] at h
        obtain ⟨b1, b2, b3, b4⟩ := selected_stay_spec nm ref s2 s1 h
        refine ⟨b1.trans a1, Or.inr ⟨not_le.1 hcut, ?_, by rw [b4]; exact a3⟩⟩
        rw [b2]
        exact ((List.Sublist.append_right b3 _).subperm).trans a2
      · rw [if_neg hlax] at h
        simp only [Except.ok.injEq] at h
        subst h
        exact ⟨a1, Or.inr ⟨not_le.1 hcut, a2, a3⟩⟩

/-- Once `stepwise_select` has returned, `find_independent_snps` raises the
empty-selection error exactly when the selected set is empty. -/
theorem find_independent_snps_empty (nm : Numerics) (ca : CondAnalysis) (pw : Pairwise)
    (ref : Reference) (s1 : Selection)
    (h : stepwise_select nm ref
      (selection0 (if ca.a_top_snp ≤ 0 then { ca with a_top_snp := 10 ^ 10 } else ca))
        = .ok s1) :
    find_independent_snps nm ca pw ref = .error
        "Conditional Error: No SNPs have been selected by the step-wise selection algorithm."
      ↔ s1.selected = [] := by
  unfold find_independent_snps
  unfold selection0 at h
  simp only [h]
  by_cases he : s1.selected.isEmpty = true
  · rw [if_pos he]
    exact ⟨fun _ => List.isEmpty_iff.1 he, fun _ => rfl⟩
  · rw [if_neg he]
    constructor
    · intro h2
      split_ifs at h2
      have := Except.error.inj h2
      exact absurd this (by decide)
    · intro h2
      rw [h2] at he
      exact absurd rfl he

/-! ## The pairwise pass -/

theorem subperm_nodup {l₁ l₂ : List Nat} (h : l₁.Subperm l₂) (hn : l₂.Nodup) : l₁.Nodup := by
  obtain ⟨l, hp, hs⟩ := h
  exact hp.nodup_iff.1 (List.Nodup.sublist hs hn)

theorem foldl_preserves {σ α : Type} (f : σ → α → σ) (P : σ → Prop)
    (hstep : ∀ s x, P s → P (f s x)) (l : List α) (init : σ) (h0 : P init) :
    P (l.foldl f init) := by
  induction l generalizing init with
  | nil => exact h0
  | cons x xs ih => exact ih _ (hstep _ _ h0)

/-- States with the same `scalars` have the same options, harmonised vectors,
moment tables and variances. -/
theorem scalars_fields {a b : CondAnalysis} (h : scalars a = scalars b) :
    a.to_include = b.to_include ∧ a.fam_ids_inc = b.fam_ids_inc ∧ a.ja_beta = b.ja_beta ∧
    a.ja_beta_se = b.ja_beta_se ∧ a.ja_freq = b.ja_freq ∧ a.ja_pval = b.ja_pval ∧
    a.ja_chisq = b.ja_chisq ∧ a.nD = b.nD ∧
    a.jma_Vp = b.jma_Vp ∧ a.jma_Ve = b.jma_Ve ∧ a.a_p_cutoff = b.a_p_cutoff ∧
    a.a_top_snp = b.a_top_snp := by
  have h1 := congrArg CondAnalysis.to_include h
  have h2 := congrArg CondAnalysis.fam_ids_inc h
  have h3 := congrArg CondAnalysis.ja_beta h
  have h4 := congrArg CondAnalysis.ja_beta_se h
  have h5 := congrArg CondAnalysis.ja_freq h
  have h6 := congrArg CondAnalysis.ja_pval h
  have h7 := congrArg CondAnalysis.ja_chisq h
  have h8 := congrArg CondAnalysis.nD h
  have h9 := congrArg CondAnalysis.jma_Vp h
  have h10 := congrArg CondAnalysis.jma_Ve h
  have h11 := congrArg CondAnalysis.a_p_cutoff h
  have h12 := congrArg CondAnalysis.a_top_snp h
  exact ⟨h1, h2, h3, h4, h5, h6, h7, h8, h9, h10, h11, h12⟩

/-- `erase_B_and_Z` leaves `B_N` with one column less than `idx` has entries. -/
theorem erase_B_and_Z_cols (nm : Numerics) (ca : CondAnalysis) (idx : List Nat) (e : Nat) :
    (erase_B_and_Z nm ca idx e).B_N.cols = idx.length - 1 := by
  have hloops : (erase_B_loops ca idx e).B_N.cols = idx.length - 1 := by
    unfold erase_B_loops
    refine foldl_preserves _ (fun s : BLoop => s.B_N.cols = idx.length - 1) ?_ _ _ rfl
    intro s j hs
    unfold erase_B_outer
    by_cases he : (e == idx.getD j 0) = true
    · rw [if_pos he]
      exact hs
    · rw [if_neg he]
      refine foldl_preserves _ (fun s : BLoop => s.B_N.cols = idx.length - 1) ?_ _ _ hs
      intro s i hs
      unfold erase_B_inner
      split_ifs <;> exact hs
  unfold erase_B_and_Z
  simp only
  split_ifs <;> exact hloops

theorem pw_exclude_scalars (nm : Numerics) (ca : CondAnalysis) (pw : Pairwise) (pos : Int) :
    scalars (pw_exclude nm ca pw pos).1 = scalars ca := by
  unfold pw_exclude
  simp only
  split_ifs
  · exact (erase_B_and_Z_scalars nm _ _ _).1
  · rfl

/-- The six vectors written by a pass of `pw_conditional` that returns: the
marginal records of `selected` followed by those of `remain`. -/
theorem pw_conditional_out (nm : Numerics) (ca : CondAnalysis) (pw : Pairwise)
    (ref : Reference) (pos : Int) (ca2 : CondAnalysis) (pw2 : Pairwise)
    (h : pw_conditional nm ca pw ref pos = .ok (ca2, pw2)) :
    scalars ca2 = scalars ca ∧
    pw2.snps_cond = ((pw_exclude nm ca pw pos).2.1 ++ (pw_exclude nm ca pw pos).2.2).map
      (fun j => ref.bim_snp_name.getD (ca.to_include.getD j 0) "") ∧
    pw2.b_cond = ((pw_exclude nm ca pw pos).2.1 ++ (pw_exclude nm ca pw pos).2.2).map
      (fun j => ca.ja_beta.getD j 0) ∧
    pw2.se_cond = ((pw_exclude nm ca pw pos).2.1 ++ (pw_exclude nm ca pw pos).2.2).map
      (fun j => ca.ja_beta_se.getD j 0) ∧
    pw2.maf_cond = ((pw_exclude nm ca pw pos).2.1 ++ (pw_exclude nm ca pw pos).2.2).map
      (fun j => ca.ja_freq.getD j 0) ∧
    pw2.p_cond = ((pw_exclude nm ca pw pos).2.1 ++ (pw_exclude nm ca pw pos).2.2).map
      (fun j => ca.ja_pval.getD j 0) ∧
    pw2.n_cond = ((pw_exclude nm ca pw pos).2.1 ++ (pw_exclude nm ca pw pos).2.2).map
      (fun j => ca.nD.getD j 0) ∧
    pw2.cond_passed = decide (0 < (pw_exclude nm ca pw pos).2.2.length) := by
  unfold pw_conditional at h
  simp only at h
  cases hc : massoc_conditional nm (pw_exclude nm ca pw pos).1 ref
      (pw_exclude nm ca pw pos).2.1 (pw_exclude nm ca pw pos).2.2 with
  | error e => rw [hc] at h; cases h
  | ok r =>
    obtain ⟨ca3, out⟩ := r
    rw [hc] at h
    simp only [Except.ok.injEq, Prod.mk.injEq] at h
    obtain ⟨h1, h2⟩ := h
    obtain ⟨c1, _, c3, _, _⟩ := massoc_conditional_scalars nm _ ca3 ref _ _ out hc
    have hsc : scalars ca3 = scalars ca := c1.trans (pw_exclude_scalars nm ca pw pos)
    obtain ⟨t1, _, t2, t3, t4, t5, _, t6, _⟩ := scalars_fields hsc
    subst h1 h2
    refine ⟨hsc, ?_, ?_, ?_, ?_, ?_, ?_, ?_⟩ <;> simp only [t1, t2, t3, t4, t5, t6, c3]

/-- The vectors and the state of a pass that takes out the SNP at `pos`. -/
theorem pw_exclude_nat (nm : Numerics) (ca : CondAnalysis) (pw : Pairwise) (pos : Nat) :
    (pw_exclude nm ca pw (pos : Int)).2.1 = pw.ind_snps.eraseIdx pos ∧
    (pw_exclude nm ca pw (pos : Int)).2.2 = pw.remain_snps ++ [pw.ind_snps.getD pos 0] ∧
    (pw_exclude nm ca pw (pos : Int)).1.B_N.cols = pw.ind_snps.length - 1 := by
  have ht : (pos : Int).toNat = pos := Int.toNat_ofNat pos
  unfold pw_exclude
  simp only
  rw [if_pos (Int.natCast_nonneg pos), ht]
  exact ⟨rfl, rfl, erase_B_and_Z_cols nm _ _ _⟩

/-- The state left by `find_independent_snps`: it has the tables of the state it
started from, and `ind_snps` and `remain_snps` hold positions of harmonised SNPs
without repetition. -/
theorem find_independent_snps_spec (nm : Numerics) (ca : CondAnalysis) (pw : Pairwise)
    (ref : Reference) (ca1 : CondAnalysis) (pw1 : Pairwise)
    (h : find_independent_snps nm ca pw ref = .ok (ca1, pw1)) :
    ca1.to_include = ca.to_include ∧ ca1.jma_Vp = ca.jma_Vp ∧ ca1.jma_Ve = ca.jma_Ve ∧
    pw1.ind_snps ≠ [] ∧
    (max_element ca.ja_chisq < ca.to_include.length →
      (pw1.ind_snps ++ pw1.remain_snps).Nodup ∧
      (∀ j ∈ pw1.ind_snps ++ pw1.remain_snps, j < ca1.to_include.length)) := by
  unfold find_independent_snps at h
  simp only at h
  cases hs : stepwise_select nm ref
      { ca := if ca.a_top_snp ≤ 0 then { ca with a_top_snp := 10 ^ 10 } else ca
        selected := [], remain := [], out := { b := [], se := [], p := [] } } with
  | error e => rw [hs] at h; cases h
  | ok s =>
    rw [hs] at h
    simp only at h
    by_cases he : s.selected.isEmpty = true
    · rw [if_pos he] at h; cases h
    · rw [if_neg he] at h
      by_cases hf : s.ca.fam_ids_inc.length ≤ s.selected.length
      · rw [if_pos hf] at h; cases h
      · rw [if_neg hf] at h
        simp only [Except.ok.injEq, Prod.mk.injEq] at h
        obtain ⟨h1, h2⟩ := h
        subst h1 h2
        obtain ⟨hsc, hcase⟩ := stepwise_select_spec nm ref _ s rfl rfl hs
        have hsc0 : scalars (if ca.a_top_snp ≤ 0 then { ca with a_top_snp := 10 ^ 10 } else ca)
            = { scalars ca with a_top_snp :=
                (if ca.a_top_snp ≤ 0 then { ca with a_top_snp := 10 ^ 10 } else ca).a_top_snp } := by
          split_ifs <;> rfl
        have hsc' := hsc.trans hsc0
        have t1 : s.ca.to_include = ca.to_include := by
          have := congrArg CondAnalysis.to_include hsc'
          exact this
        have t2 : s.ca.jma_Vp = ca.jma_Vp := by
          have := congrArg CondAnalysis.jma_Vp hsc'
          exact this
        have t3 : s.ca.jma_Ve = ca.jma_Ve := by
          have := congrArg CondAnalysis.jma_Ve hsc'
          exact this
        have hne : s.selected ≠ [] := fun e => he (by rw [e]; rfl)
        refine ⟨t1, t2, t3, hne, fun hm => ?_⟩
        rcases hcase with ⟨_, hs1⟩ | ⟨_, hsub, _⟩
        · rw [hs1] at hne
          exact absurd rfl hne
        · have c1 : (if ca.a_top_snp ≤ 0 then { ca with a_top_snp := 10 ^ 10 } else ca).ja_chisq
              = ca.ja_chisq := by split_ifs <;> rfl
          have c2 : (if ca.a_top_snp ≤ 0 then { ca with a_top_snp := 10 ^ 10 } else ca).to_include
              = ca.to_include := by split_ifs <;> rfl
          simp only [c1, c2] at hsub
          have hnd : (max_element ca.ja_chisq ::
              (List.range ca.to_include.length).filter fun i =>
                i != max_element ca.ja_chisq).Nodup := by
            rw [List.nodup_cons]
            refine ⟨?_, (List.nodup_range _).filter _⟩
            intro hmem
            have := (List.mem_filter.1 hmem).2
            simp at this
          refine ⟨subperm_nodup hsub hnd, ?_⟩
          intro j hj
          have hj' := hsub.subset hj
          rw [t1]
          rcases List.mem_cons.1 hj' with e | e
          · rw [e]; exact hm
          · exact List.mem_range.1 (List.mem_filter.1 e).1

/-! ## The residual variance through the analysis -/

theorem init_conditional_Ve (nm : Numerics) (ca : CondAnalysis) (pheno : Phenotype)
    (ref : Reference) (res : MatchResult) (h : init_conditional nm ca pheno ref = .ok res) :
    res.ca.jma_Ve = pheno.variance ∧ res.ca.jma_Vp = pheno.variance := by
  unfold init_conditional at h
  cases hm : match_gwas_phenotype nm ca pheno ref with
  | error e => rw [hm] at h; cases h
  | ok r =>
    rw [hm] at h
    simp only [Except.ok.injEq] at h
    subst h
    exact ⟨rfl, rfl⟩

theorem stepwise_select_Ve (nm : Numerics) (ref : Reference) (ca : CondAnalysis)
    (s1 : Selection) (h : stepwise_select nm ref (selection0 ca) = .ok s1) :
    s1.ca.jma_Ve = ca.jma_Ve ∧ s1.ca.jma_Vp = ca.jma_Vp := by
  obtain ⟨hsc, _⟩ := stepwise_select_spec nm ref (selection0 ca) s1 rfl rfl h
  have hf := scalars_fields hsc
  exact ⟨hf.2.2.2.2.2.2.2.2.2.1, hf.2.2.2.2.2.2.2.2.1⟩

theorem pw_conditional_Ve (nm : Numerics) (ca : CondAnalysis) (pw : Pairwise)
    (ref : Reference) (pos : Int) (ca2 : CondAnalysis) (pw2 : Pairwise)
    (h : pw_conditional nm ca pw ref pos = .ok (ca2, pw2)) :
    ca2.jma_Ve = ca.jma_Ve ∧ ca2.jma_Vp = ca.jma_Vp := by
  obtain ⟨hsc, _⟩ := pw_conditional_out nm ca pw ref pos ca2 pw2 h
  have hf := scalars_fields hsc
  exact ⟨hf.2.2.2.2.2.2.2.2.2.1, hf.2.2.2.2.2.2.2.2.1⟩

/-! ## The main loop of the selector, pass by pass -/

/-- The loop of `select_entry` only takes SNPs out of `remain`. -/
theorem select_entry_loop_remain (nm : Numerics) (ref : Reference) :
    ∀ (fuel : Nat) (s : Selection) (pC : List ℚ) (b : Bool) (s1 : Selection),
      select_entry_loop nm ref fuel s pC = .ok (b, s1) → s1.remain.Sublist s.remain := by
  intro fuel
  induction fuel with
  | zero =>
    intro s pC b s1 h
    simp only [select_entry_loop] at h
    cases h
  | succ fuel ih =>
    intro s pC b s1 h
    simp only [select_entry_loop] at h
    by_cases hcut : s.ca.a_p_cutoff ≤ pC.getD (min_element pC) 0
    · rw [if_pos hcut] at h
      simp only [Except.ok.injEq, Prod.mk.injEq] at h
      obtain ⟨_, hs⟩ := h
      subst hs
      exact List.Sublist.refl _
    · rw [if_neg hcut] at h
      rcases hi : insert_B_Z nm s.ca ref s.selected (s.remain.getD (min_element pC) 0) with
        ⟨ok, ca1⟩
      rw [hi] at h
      cases ok
      · simp only at h
        exact (ih _ _ b s1 h).trans (List.eraseIdx_sublist _ _)
      · simp only [Except.ok.injEq, Prod.mk.injEq] at h
        obtain ⟨_, hs⟩ := h
        subst hs
        exact List.eraseIdx_sublist _ _

/-- `select_entry` only takes SNPs out of `remain`. -/
theorem select_entry_remain (nm : Numerics) (ref : Reference) (s s1 : Selection) (b : Bool)
    (h : select_entry nm ref s = .ok (b, s1)) : s1.remain.Sublist s.remain := by
  unfold select_entry at h
  cases hc : massoc_conditional nm s.ca ref s.selected s.remain with
  | error e => rw [hc] at h; cases h
  | ok r =>
    obtain ⟨ca1, out⟩ := r
    rw [hc] at h
    simp only at h
    exact select_entry_loop_remain nm ref _ { s with ca := ca1, out := out } _ b s1 h

/-- A pass of the main loop after which the loop goes round again has made
`remain` shorter, and no pass adds to `remain`. -/
theorem stepwise_pass_remain (nm : Numerics) (ref : Reference) (s u : Selection) (b : Bool)
    (h : stepwise_pass nm ref s = .ok (b, u)) :
    u.remain.Sublist s.remain ∧ (b = true → u.remain.length < s.remain.length) := by
  unfold stepwise_pass at h
  cases hse : select_entry nm ref s with
  | error e => rw [hse] at h; cases h
  | ok r =>
    obtain ⟨b1, s'⟩ := r
    rw [hse] at h
    have hsub := select_entry_remain nm ref s s' b1 hse
    obtain ⟨_, _, _, a4, _⟩ := select_entry_spec nm ref s s' b1 hse
    cases b1
    · simp only [Except.ok.injEq, Prod.mk.injEq] at h
      obtain ⟨hb, hu⟩ := h
      subst hb hu
      exact ⟨hsub, fun h => by cases h⟩
    · simp only at h
      cases hst : selected_stay nm ref s' with
      | error e => rw [hst] at h; cases h
      | ok s2 =>
        rw [hst] at h
        simp only at h
        obtain ⟨_, b2, _, _⟩ := selected_stay_spec nm ref s' s2 hst
        have hu : u = s2 := by
          split_ifs at h
          · simp only [Except.ok.injEq, Prod.mk.injEq] at h
            exact h.2.symm
          · simp only [Except.ok.injEq, Prod.mk.injEq] at h
            exact h.2.symm
        subst hu
        rw [b2]
        exact ⟨hsub, fun _ => (a4 rfl).2⟩

theorem stepwise_loop_succ (nm : Numerics) (ref : Reference) (fuel : Nat) (s : Selection) :
    stepwise_loop nm ref (fuel + 1) s =
      if s.remain.isEmpty then .ok s
      else
        match stepwise_pass nm ref s with
        | .error e => .error e
        | .ok (false, u) => .ok u
        | .ok (true, u) => stepwise_loop nm ref fuel u := by
  simp only [stepwise_loop, stepwise_pass]
  by_cases hr : s.remain.isEmpty = true
  · rw [if_pos hr, if_pos hr]
  · rw [if_neg hr, if_neg hr]
    cases hse : select_entry nm ref s with
    | error e => rfl
    | ok r =>
      obtain ⟨b, s'⟩ := r
      cases b
      · rfl
      · simp only
        cases hst : selected_stay nm ref s' with
        | error e => rfl
        | ok s2 =>
          simp only
          by_cases htop : s2.ca.a_top_snp ≤ (s2.selected.length : ℚ)
          · rw [if_pos htop, if_pos htop]
          · rw [if_neg htop, if_neg htop]

/-- The main loop ends after at most `|remain|` passes, with the result the
bounded loop computes. -/
theorem stepwise_loop_runs (nm : Numerics) (ref : Reference) :
    ∀ (fuel : Nat) (s : Selection), s.remain.length ≤ fuel →
      ∃ k r, k ≤ s.remain.length ∧ StepwiseRuns nm ref k s r ∧
        stepwise_loop nm ref fuel s = r := by
  intro fuel
  induction fuel with
  | zero =>
    intro s hs
    have he : s.remain = [] := List.length_eq_zero.1 (Nat.le_zero.1 hs)
    exact ⟨0, .ok s, Nat.zero_le _, StepwiseRuns.empty s he, rfl⟩
  | succ fuel ih =>
    intro s hs
    rw [stepwise_loop_succ]
    by_cases hr : s.remain.isEmpty = true
    · rw [if_pos hr]
      exact ⟨0, .ok s, Nat.zero_le _, StepwiseRuns.empty s (List.isEmpty_iff.1 hr), rfl⟩
    · rw [if_neg hr]
      have hne : s.remain ≠ [] := fun e => hr (List.isEmpty_iff.2 e)
      have hpos : 0 < s.remain.length := List.length_pos.2 hne
      cases hp : stepwise_pass nm ref s with
      | error e => exact ⟨1, .error e, hpos, StepwiseRuns.fail s e hne hp, rfl⟩
      | ok r =>
        obtain ⟨b, u⟩ := r
        cases b
        · exact ⟨1, .ok u, hpos, StepwiseRuns.stop s u hne hp, rfl⟩
        · have hlt := (stepwise_pass_remain nm ref s u true hp).2 rfl
          obtain ⟨k, r, hk, hrun, heq⟩ := ih u (by omega)
          exact ⟨k + 1, r, by omega, StepwiseRuns.next s u k r hne hp hrun, heq⟩

theorem length_filter_ne_range (n m : Nat) (h : m < n) :
    ((List.range n).filter fun i => i != m).length = n - 1 := by
  have h1 : ((List.range n).filter fun i => i != m) = (List.range n).erase m := by
    rw [List.Nodup.erase_eq_filter (List.nodup_range n) m]
  rw [h1, List.length_erase_of_mem (List.mem_range.2 h), List.length_range]

/-! ## Lazy initialisation keeps the scalar tables -/

theorem init_b_frame (nm : Numerics) (ca : CondAnalysis) (ref : Reference) (idx : List Nat) :
    (init_b nm ca ref idx).2.jma_Vp = ca.jma_Vp ∧ (init_b nm ca ref idx).2.jma_Ve = ca.jma_Ve ∧
    (init_b nm ca ref idx).2.Z = ca.Z ∧ (init_b nm ca ref idx).2.Z_N = ca.Z_N := by
  unfold init_b
  simp only
  split_ifs <;> exact ⟨rfl, rfl, rfl, rfl⟩

theorem ensure_b_ok (nm : Numerics) (ca : CondAnalysis) (ref : Reference) (idx : List Nat)
    (msg : String) (hB : 1 ≤ ca.B_N.cols ∨ (init_b nm ca ref idx).1 = true) :
    ∃ ca1, ensure_b nm ca ref idx msg = .ok ca1 ∧ ca1.jma_Vp = ca.jma_Vp ∧
      ca1.jma_Ve = ca.jma_Ve ∧ (1 ≤ ca.B_N.cols → ca1 = ca) := by
  unfold ensure_b
  by_cases h : ca.B_N.cols < 1
  · have h1 : (init_b nm ca ref idx).1 = true := by
      rcases hB with hB | hB
      · omega
      · exact hB
    have hf := init_b_frame nm ca ref idx
    rw [if_pos h]
    rcases hi : init_b nm ca ref idx with ⟨b, ca1⟩
    rw [hi] at h1 hf
    simp only at h1
    subst h1
    exact ⟨ca1, rfl, hf.1, hf.2.1, fun h2 => by omega⟩
  · rw [if_neg h]
    exact ⟨ca, rfl, rfl, rfl, fun _ => rfl⟩

/-! ## C1: conditional estimates -/

/-- The collinearity test of `massoc_conditional` fails when the statistic
reaches the threshold, or when `msx_b[j]` is zero and the numerator is not
negative (NaN or `+inf` on doubles). -/
theorem collinPass_eq_false (stat d c : ℚ) :
    collinPass stat d c = false ↔ (d ≠ 0 ∧ c ≤ stat / d) ∨ (d = 0 ∧ 0 ≤ stat) := by
  unfold collinPass
  by_cases hd : d = 0
  · simp [hd]
  · simp [hd]

theorem massoc_conditional_raw_guard (nm : Numerics) (ca : CondAnalysis) (S : List Nat) (j : Nat)
    (hg : nm.isFloatEqual (ca.msx.getD j 0 * ca.nD.getD j 0) 0 = true ∨
      collinPass ((List.range S.length).map fun k => ca.Z.coeff k j *
        ((List.range S.length).map fun l => ca.Z.coeff l j * ca.B_i.coeff l k).sum).sum
          (ca.msx_b.getD j 0) ca.a_collinear = false) :
    massoc_conditional_raw nm ca S j = (0, 0) := by
  unfold massoc_conditional_raw
  simp only [rowTimes]
  by_cases hf : nm.isFloatEqual (ca.msx.getD j 0 * ca.nD.getD j 0) 0 = true
  · simp only [hf, Bool.not_true, Bool.false_eq_true, if_false]
  · have hc := hg.resolve_left hf
    rw [hc]
    simp

theorem massoc_conditional_raw_pass (nm : Numerics) (ca : CondAnalysis) (S : List Nat) (j : Nat)
    (hg : ¬ (nm.isFloatEqual (ca.msx.getD j 0 * ca.nD.getD j 0) 0 = true ∨
      collinPass ((List.range S.length).map fun k => ca.Z.coeff k j *
        ((List.range S.length).map fun l => ca.Z.coeff l j * ca.B_i.coeff l k).sum).sum
          (ca.msx_b.getD j 0) ca.a_collinear = false)) :
    massoc_conditional_raw nm ca S j =
      (ca.ja_beta.getD j 0
        - ((List.range S.length).map fun k =>
            ((List.range S.length).map fun l => ca.Z_N.coeff l j * ca.B_N_i.coeff l k).sum
              * ca.D_N.coeff k * ca.ja_beta.getD (S.getD k 0) 0).sum
          / (ca.msx.getD j 0 * ca.nD.getD j 0),
       1 / (ca.msx.getD j 0 * ca.nD.getD j 0)) := by
  push_neg at hg
  obtain ⟨hf, hc⟩ := hg
  have hc' : collinPass ((List.range S.length).map fun k => ca.Z.coeff k j *
      ((List.range S.length).map fun l => ca.Z.coeff l j * ca.B_i.coeff l k).sum).sum
        (ca.msx_b.getD j 0) ca.a_collinear = true := by simpa using hc
  unfold massoc_conditional_raw
  simp only [rowTimes, selected_beta]
  rw [if_pos (by simpa using hf), if_pos hc']

theorem massoc_conditional_entry_spec (nm : Numerics) (ca : CondAnalysis) (S : List Nat)
    (j : Nat) (hfe : nm.isFloatEqual 0 0 = true) (hVp : 0 ≤ ca.jma_Vp) :
    let B2 := ca.msx.getD j 0 * ca.nD.getD j 0
    let Z_Bi := fun l => ((List.range S.length).map fun k =>
      ca.Z_N.coeff k j * ca.B_N_i.coeff k l).sum
    let Z_Bi_tmp := fun l => ((List.range S.length).map fun k =>
      ca.Z.coeff k j * ca.B_i.coeff k l).sum
    let stat := ((List.range S.length).map fun k => ca.Z.coeff k j * Z_Bi_tmp k).sum
    let d := ca.msx_b.getD j 0
    let out := massoc_conditional_entry nm ca S j
    ((nm.isFloatEqual B2 0 = true ∨ (d ≠ 0 ∧ ca.a_collinear ≤ stat / d) ∨ (d = 0 ∧ 0 ≤ stat)) →
      out.1 = 0 ∧ out.2.1 = 0 ∧ out.2.2 = 2) ∧
    (¬(nm.isFloatEqual B2 0 = true ∨ (d ≠ 0 ∧ ca.a_collinear ≤ stat / d) ∨ (d = 0 ∧ 0 ≤ stat)) →
      B2 ≠ 0 ∧
      out.1 = ca.ja_beta.getD j 0
        - ((List.range S.length).map fun k =>
            Z_Bi k * ca.D_N.coeff k * ca.ja_beta.getD (S.getD k 0) 0).sum / B2 ∧
      (1 / 10 ^ 10 * ca.jma_Vp < ca.jma_Ve / B2 →
        out.2.1 = nm.sqrt (ca.jma_Ve / B2) ∧
        out.2.2 = nm.pchisq ((out.1 / out.2.1) ^ 2) 1) ∧
      (ca.jma_Ve / B2 ≤ 1 / 10 ^ 10 * ca.jma_Vp →
        out.2.1 = ca.jma_Ve / B2 ∧ out.2.2 = 2)) := by
  intro B2 Z_Bi Z_Bi_tmp stat d out
  have h0 : ¬ (1 / 10 ^ 10 * ca.jma_Vp < 0) := by
    have : (0 : ℚ) ≤ 1 / 10 ^ 10 * ca.jma_Vp := by positivity
    linarith
  have hiff := collinPass_eq_false stat d ca.a_collinear
  constructor
  · intro hg
    have hg : nm.isFloatEqual B2 0 = true ∨ collinPass stat d ca.a_collinear = false :=
      hg.imp id hiff.2
    have hr := massoc_conditional_raw_guard nm ca S j hg
    simp only [out, massoc_conditional_entry, hr, zero_mul, if_neg h0, and_self]
  · intro hg
    have hg : ¬(nm.isFloatEqual B2 0 = true ∨ collinPass stat d ca.a_collinear = false) :=
      fun h => hg (h.imp id hiff.1)
    have hB2 : B2 ≠ 0 := fun h => hg (Or.inl (by rw [h]; exact hfe))
    have hr := massoc_conditional_raw_pass nm ca S j hg
    simp only [out, massoc_conditional_entry, hr, one_div_mul_eq_div]
    refine ⟨hB2, by split_ifs <;> rfl, ?_, ?_⟩
    · intro ht
      simp only [if_pos ht, pow_two, and_self]
    · intro ht
      simp only [if_neg (not_lt.mpr ht), and_self]

theorem massoc_conditional_eq (nm : Numerics) (ca : CondAnalysis) (ref : Reference)
    (S R : List Nat) (hb : 1 ≤ ca.B_N.cols) (hz : 1 ≤ ca.Z_N.cols) :
    massoc_conditional nm ca ref S R = .ok (ca,
      { b := (R.map (massoc_conditional_entry nm ca S)).map fun t => t.1
        se := (R.map (massoc_conditional_entry nm ca S)).map fun t => t.2.1
        p := (R.map (massoc_conditional_entry nm ca S)).map fun t => t.2.2 }) := by
  unfold massoc_conditional ensure_b
  rw [if_neg (by omega)]
  simp only
  rw [if_neg (by omega)]

theorem massoc_conditional_ok (nm : Numerics) (ca : CondAnalysis) (ref : Reference)
    (S R : List Nat) (hB : 1 ≤ ca.B_N.cols ∨ (init_b nm ca ref S).1 = true) :
    ∃ ca2, massoc_conditional nm ca ref S R = .ok (ca2,
      { b := (R.map (massoc_conditional_entry nm ca2 S)).map fun t => t.1
        se := (R.map (massoc_conditional_entry nm ca2 S)).map fun t => t.2.1
        p := (R.map (massoc_conditional_entry nm ca2 S)).map fun t => t.2.2 }) ∧
      ca2.jma_Vp = ca.jma_Vp ∧ (1 ≤ ca.B_N.cols → 1 ≤ ca.Z_N.cols → ca2 = ca) := by
  obtain ⟨ca1, h1, hVp1, _, hsame⟩ := ensure_b_ok nm ca ref S
    "Conditional Error: There is a collinearity problem with the SNPs given." hB
  unfold massoc_conditional
  rw [h1]
  simp only
  refine ⟨_, rfl, ?_, ?_⟩
  · split_ifs
    · simpa [init_z] using hVp1
    · exact hVp1
  · intro hb hz
    have h2 := hsame hb
    subst h2
    rw [if_neg (by omega)]

/-- C1 (as stated, refuted): on the worked instance, conditioning on `rs1`, the
remaining SNP `rs3` passes both guards (`B2` is not float-equal to 0 and the
collinearity statistic is below the threshold), yet the square of the stored
`bC_se` differs from `Ve / B2`: here `Ve / B2 = -2` is not above `1e-10 * Vp`,
so no square root is taken and `bC_se = Ve / B2` is stored. -/
theorem massoc_conditional_se_counterexample :
    ∃ ca1 out, massoc_conditional exactNumerics (exInit [0]) exRef [0] [1, 2, 3] = .ok (ca1, out) ∧
      exactNumerics.isFloatEqual (ca1.msx.getD 2 0 * ca1.nD.getD 2 0) 0 = false ∧
      ((List.range 1).map fun k => ca1.Z.coeff k 2 *
          ((List.range 1).map fun l => ca1.Z.coeff l 2 * ca1.B_i.coeff l k).sum).sum
        / ca1.msx_b.getD 2 0 < ca1.a_collinear ∧
      out.se.getD 1 0 = -2 ∧
      out.se.getD 1 0 ^ 2 ≠ ca1.jma_Ve / (ca1.msx.getD 2 0 * ca1.nD.getD 2 0) := by
  refine ⟨_, _, massoc_conditional_eq _ _ _ _ _ (by decide!) (by decide!), ?_, ?_, ?_, ?_⟩ <;> decide!

/-- C1 (amended): when `isFloatEqual(0, 0)` holds, the matrices are available
(already built, or `init_b` succeeds) and `Vp ≥ 0`, `massoc_conditional(S, R)`
returns three vectors of length `|R|`, and for every remaining SNP `j = R[i]`,
with `stat = Z[:,j] · Z_Bi_tmp`: if `B2 = msx[j] * nD[j]` is float-equal to 0, or
`msx_b[j] ≠ 0` and `stat / msx_b[j]` reaches `collinear`, or `msx_b[j] = 0` and
`stat ≥ 0` (the quotient is then NaN or `+inf` and the test `< collinear` is
false), then `bC[i] = 0`, `bC_se[i] = 0`, `pC[i] = 2`; otherwise `B2` is not zero,
`bC[i] = ja_beta[j] - (Z_Bi ⊙ D_N) · b / B2`, and when `Ve / B2 > 1e-10 * Vp`
`bC_se[i] = sqrt(Ve / B2)` with `pC[i]` the chi-square(1) survival value of
`(bC[i] / bC_se[i])²`, while when `Ve / B2 ≤ 1e-10 * Vp` no square root is taken:
`bC_se[i] = Ve / B2` and `pC[i] = 2`. -/
theorem massoc_conditional_spec (nm : Numerics) (ca : CondAnalysis) (ref : Reference)
    (S R : List Nat) (hfe : nm.isFloatEqual 0 0 = true)
    (hB : 1 ≤ ca.B_N.cols ∨ (init_b nm ca ref S).1 = true) (hVp : 0 ≤ ca.jma_Vp) :
    ∃ ca1 out, massoc_conditional nm ca ref S R = .ok (ca1, out) ∧
      (1 ≤ ca.B_N.cols → 1 ≤ ca.Z_N.cols → ca1 = ca) ∧
      out.b.length = R.length ∧ out.se.length = R.length ∧ out.p.length = R.length ∧
      ∀ i, i < R.length →
        let j := R.getD i 0
        let B2 := ca1.msx.getD j 0 * ca1.nD.getD j 0
        let Z_Bi := fun l => ((List.range S.length).map fun k =>
          ca1.Z_N.coeff k j * ca1.B_N_i.coeff k l).sum
        let Z_Bi_tmp := fun l => ((List.range S.length).map fun k =>
          ca1.Z.coeff k j * ca1.B_i.coeff k l).sum
        let stat := ((List.range S.length).map fun k => ca1.Z.coeff k j * Z_Bi_tmp k).sum
        let d := ca1.msx_b.getD j 0
        ((nm.isFloatEqual B2 0 = true ∨ (d ≠ 0 ∧ ca1.a_collinear ≤ stat / d) ∨
            (d = 0 ∧ 0 ≤ stat)) →
          out.b.getD i 0 = 0 ∧ out.se.getD i 0 = 0 ∧ out.p.getD i 0 = 2) ∧
        (¬(nm.isFloatEqual B2 0 = true ∨ (d ≠ 0 ∧ ca1.a_collinear ≤ stat / d) ∨
            (d = 0 ∧ 0 ≤ stat)) →
          B2 ≠ 0 ∧
          out.b.getD i 0 = ca1.ja_beta.getD j 0
            - ((List.range S.length).map fun k =>
                Z_Bi k * ca1.D_N.coeff k * ca1.ja_beta.getD (S.getD k 0) 0).sum / B2 ∧
          (1 / 10 ^ 10 * ca1.jma_Vp < ca1.jma_Ve / B2 →
            out.se.getD i 0 = nm.sqrt (ca1.jma_Ve / B2) ∧
            out.p.getD i 0 = nm.pchisq ((out.b.getD i 0 / out.se.getD i 0) ^ 2) 1) ∧
          (ca1.jma_Ve / B2 ≤ 1 / 10 ^ 10 * ca1.jma_Vp →
            out.se.getD i 0 = ca1.jma_Ve / B2 ∧ out.p.getD i 0 = 2)) := by
  obtain ⟨ca2, h, hVp2, hsame⟩ := massoc_conditional_ok nm ca ref S R hB
  refine ⟨ca2, _, h, hsame, by simp, by simp, by simp, ?_⟩
  intro i hi
  have hlen : i < (R.map (massoc_conditional_entry nm ca2 S)).length := by simpa using hi
  simp only [getD_map_of_lt _ _ _ _ ((0 : ℚ), (0 : ℚ), (0 : ℚ)) hlen,
    getD_map_of_lt _ R i _ 0 hi]
  exact massoc_conditional_entry_spec nm ca2 S (R.getD i 0) hfe (by rw [hVp2]; exact hVp)

/-- Instance of `massoc_conditional_spec` on the worked data set, conditioning on `rs1`. -/
theorem massoc_conditional_spec_witness :
    (exactNumerics.isFloatEqual 0 0 = true ∧ 1 ≤ (exInit [0]).B_N.cols ∧
      0 ≤ (exInit [0]).jma_Vp) ∧
    ∃ ca1 out, massoc_conditional exactNumerics (exInit [0]) exRef [0] [1, 2, 3] = .ok (ca1, out) ∧
      out.b.length = 3 ∧ out.se.length = 3 ∧ out.p.length = 3 :=
  ⟨⟨by decide!, by decide!, by decide!⟩, by
    obtain ⟨ca1, out, h, _, hb, hs, hp, _⟩ :=
      massoc_conditional_spec exactNumerics (exInit [0]) exRef [0] [1, 2, 3]
        (by decide!) (Or.inl (by decide!)) (by decide!)
    exact ⟨ca1, out, h, hb, hs, hp⟩⟩

/-! ## C2: joint estimates -/

theorem massoc_joint_ok (nm : Numerics) (ca : CondAnalysis) (ref : Reference)
    (S : List Nat) (hB : 1 ≤ ca.B_N.cols ∨ (init_b nm ca ref S).1 = true) :
    ∃ ca1, massoc_joint nm ca ref S = .ok (ca1,
      { b := ((List.range S.length).map (massoc_joint_entry nm ca1 S)).map fun t => t.1
        se := ((List.range S.length).map (massoc_joint_entry nm ca1 S)).map fun t => t.2.1
        p := ((List.range S.length).map (massoc_joint_entry nm ca1 S)).map fun t => t.2.2 }) ∧
      (1 ≤ ca.B_N.cols → ca1 = ca) := by
  obtain ⟨ca1, h1, _, _, hsame⟩ := ensure_b_ok nm ca ref S
    "massoc_joint: There is a collinearity problem with the given list of SNPs." hB
  unfold massoc_joint
  rw [h1]
  exact ⟨ca1, rfl, hsame⟩

/-- C2: when the matrices are available (already built, or `init_b` succeeds),
`massoc_joint(S)` returns three vectors of length `|S|`; with
`v[k] = B_N_i[k,k] * Ve`, for every `k` with `v[k] > 1e-30` the result has
`bJ[k] = (B_N_i * diag(D_N) * b)[k]` for `b[l] = ja_beta[S[l]]`,
`bJ_se[k] = sqrt(v[k])` and `pJ[k]` the chi-square(1) survival value of
`(bJ[k] / bJ_se[k])²`; for every `k` with `v[k] ≤ 1e-30`, `bJ[k] = 0`,
`bJ_se[k] = 0` and `pJ[k] = 1`. -/
theorem massoc_joint_spec (nm : Numerics) (ca : CondAnalysis) (ref : Reference)
    (S : List Nat) (hB : 1 ≤ ca.B_N.cols ∨ (init_b nm ca ref S).1 = true) :
    ∃ ca1 out, massoc_joint nm ca ref S = .ok (ca1, out) ∧
      (1 ≤ ca.B_N.cols → ca1 = ca) ∧
      out.b.length = S.length ∧ out.se.length = S.length ∧ out.p.length = S.length ∧
      ∀ k, k < S.length →
        let v := ca1.B_N_i.coeff k k * ca1.jma_Ve
        (1 / 10 ^ 30 < v →
          out.b.getD k 0 = ((List.range S.length).map fun l =>
            ca1.B_N_i.coeff k l * ca1.D_N.coeff l * ca1.ja_beta.getD (S.getD l 0) 0).sum ∧
          out.se.getD k 0 = nm.sqrt v ∧
          out.p.getD k 0 = nm.pchisq ((out.b.getD k 0 / out.se.getD k 0) ^ 2) 1) ∧
        (v ≤ 1 / 10 ^ 30 →
          out.b.getD k 0 = 0 ∧ out.se.getD k 0 = 0 ∧ out.p.getD k 0 = 1) := by
  obtain ⟨ca1, h, hsame⟩ := massoc_joint_ok nm ca ref S hB
  refine ⟨ca1, _, h, hsame, by simp, by simp, by simp, ?_⟩
  intro k hk
  have hlen : k < ((List.range S.length).map (massoc_joint_entry nm ca1 S)).length := by
    simpa using hk
  simp only [getD_map_of_lt _ _ _ _ ((0 : ℚ), (0 : ℚ), (0 : ℚ)) hlen,
    getD_map_of_lt _ (List.range S.length) k _ 0 (by simpa using hk),
    getD_range_of_lt _ _ _ hk]
  unfold massoc_joint_entry
  simp only [jointEffect, selected_beta]
  constructor
  · intro hv
    simp only [if_pos hv, pow_two, and_self]
  · intro hv
    simp only [if_neg (not_lt.mpr hv), and_self]

/-- Instance of `massoc_joint_spec` on the worked data set with `rs1` and `rs2` selected. -/
theorem massoc_joint_spec_witness :
    1 ≤ (exInit [0, 1]).B_N.cols ∧
    ∃ ca1 out, massoc_joint exactNumerics (exInit [0, 1]) exRef [0, 1] = .ok (ca1, out) ∧
      out.b.length = 2 ∧ out.se.length = 2 ∧ out.p.length = 2 :=
  ⟨by decide!, by
    obtain ⟨ca1, out, h, _, hb, hs, hp, _⟩ :=
      massoc_joint_spec exactNumerics (exInit [0, 1]) exRef [0, 1] (Or.inl (by decide!))
    exact ⟨ca1, out, h, hb, hs, hp⟩⟩

/-! ## C3: a rejected insert -/

/-- C3 (failing input): on the worked data set with `rs1` selected, inserting `rs4`
(whose genotypes are those of `rs1`) is rejected, the counter goes up by one, `B`
and `B_N` are the matrices of before the call, yet `B_i`, which was the `1 × 1`
inverse `[[2]]`, now is a `2 × 2` matrix: the solve of the rejected matrix. -/
theorem rejected_insert_overwrites_B_i :
    (insert_B_Z exactNumerics (exInit [0]) exRef [0] 3).1 = false ∧
    (insert_B_Z exactNumerics (exInit [0]) exRef [0] 3).2.jma_snpnum_collinear
      = (exInit [0]).jma_snpnum_collinear + 1 ∧
    (insert_B_Z exactNumerics (exInit [0]) exRef [0] 3).2.B.toDense = (exInit [0]).B.toDense ∧
    (exInit [0]).B_i = [[2]] ∧
    (insert_B_Z exactNumerics (exInit [0]) exRef [0] 3).2.B_i.length = 2 ∧
    (insert_B_Z exactNumerics (exInit [0]) exRef [0] 3).2.B_i ≠ (exInit [0]).B_i := by
  refine ⟨?_, ?_, ?_, ?_, ?_, ?_⟩ <;> decide!

/-! ## C4: when an insert is rejected -/

/-- C4: `insert_B_Z(S, pos)` on a state holding the matrices of a strictly ascending
`S`, for `pos` not in `S`.  With `D` the pivots and `B_i` the inverse that the
factorisation returns for the new `B` over `S' = sort(S + {pos})`, the call returns
false if and only if `min(D) < 0`, or `sqrt(max(D) / min(D)) > 30` (a zero `min(D)`
with a positive `max(D)` counting as infinite), or
`max_j (1 - 1 / (diagB[j] * B_i[j,j])) > collinear`.  It adds exactly 1 to
`jma_snpnum_collinear` when it returns false and leaves the counter alone when it
returns true.  In particular, when a selected SNP inside the LD window of `pos` has
the centered genotype vector of `pos`, that vector is not zero (`msx_b[pos] > 0`
with `msx_b` as computed from the genotypes), and `D` are the pivots of an exact
factorisation (all pivots positive only for a positive definite matrix, all pivots
non-positive only for a matrix without positive diagonal entry), the call returns
false. -/
theorem insert_B_Z_rejection (nm : Numerics) (ca : CondAnalysis) (ref : Reference)
    (S : List Nat) (pos : Nat) (hS : S.Sorted (fun a b => a < b)) (hpos : pos ∉ S)
    (hH : Holds nm ca ref S) :
    let ix := insert_ix S pos
    let Bnew : Dense := (List.range ix.length).map fun i =>
      (List.range ix.length).map fun j => B_entry ca ref ix i j
    let D := nm.ldlt_vectorD Bnew
    let B_i := nm.ldlt_solve Bnew
    ((insert_B_Z nm ca ref S pos).1 = false ↔
      (minCoeff D < 0 ∨ condGuard nm (maxCoeff D) (minCoeff D) = true ∨
        ca.a_collinear < maxCoeff ((List.range ix.length).map fun j =>
          1 - 1 / (ca.msx_b.getD (ix.getD j 0) 0 * B_i.coeff j j)))) ∧
    ((insert_B_Z nm ca ref S pos).1 = false →
      (insert_B_Z nm ca ref S pos).2.jma_snpnum_collinear = ca.jma_snpnum_collinear + 1) ∧
    ((insert_B_Z nm ca ref S pos).1 = true →
      (insert_B_Z nm ca ref S pos).2.jma_snpnum_collinear = ca.jma_snpnum_collinear) ∧
    (∀ k, k < S.length →
      makex_eigenVector ca ref pos = makex_eigenVector ca ref (S.getD k 0) →
      ldGate ca ref (S.getD k 0) pos = true →
      ca.msx_b.getD pos 0 = xdot ca ref pos pos →
      ca.msx_b.getD (S.getD k 0) 0 = xdot ca ref (S.getD k 0) (S.getD k 0) →
      0 < ca.msx_b.getD pos 0 →
      ((∀ d ∈ D, 0 < d) → ∀ a b, b < a → a < ix.length →
        Bnew.coeff a b ^ 2 < Bnew.coeff a a * Bnew.coeff b b) →
      ((∀ d ∈ D, d ≤ 0) → ∀ a, a < ix.length → Bnew.coeff a a ≤ 0) →
      (insert_B_Z nm ca ref S pos).1 = false) := by
  intro ix Bnew D B_i
  obtain ⟨p, hix⟩ := insert_ix_at S pos hS hpos
  obtain ⟨lr, lc, -, -, ld, lco⟩ := insert_B_loops_spec nm ca ref S _ pos p hix hH.B_off
  have hdense : (insert_B_loops nm ca ref ix pos).B.toDense = Bnew :=
    toDense_eq_table _ _ _ lr lc (fun i j => (lco i j).1)
  have hcv : collinVec (insert_B_loops nm ca ref ix pos).diagB B_i ix.length
      = (List.range ix.length).map fun j =>
          1 - 1 / (ca.msx_b.getD (ix.getD j 0) 0 * B_i.coeff j j) := by
    unfold collinVec
    apply List.map_congr_left
    intro a ha
    rw [ld a, if_pos (List.mem_range.mp ha)]
  have hiff : (insert_B_Z nm ca ref S pos).1 = false ↔
      (minCoeff D < 0 ∨ condGuard nm (maxCoeff D) (minCoeff D) = true ∨
        ca.a_collinear < maxCoeff ((List.range ix.length).map fun j =>
          1 - 1 / (ca.msx_b.getD (ix.getD j 0) 0 * B_i.coeff j j))) := by
    rw [insert_B_Z_fst]
    show (!insert_rejects nm ca (nm.ldlt_vectorD (insert_B_loops nm ca ref ix pos).B.toDense)
      (insert_B_loops nm ca ref ix pos).diagB
      (nm.ldlt_solve (insert_B_loops nm ca ref ix pos).B.toDense) ix.length) = false ↔ _
    rw [hdense]
    unfold insert_rejects
    rw [hcv]
    simp only [Bool.not_eq_false', Bool.or_eq_true, decide_eq_true_eq, or_assoc, D]
  refine ⟨hiff, (insert_B_Z_counter nm ca ref S pos).1, (insert_B_Z_counter nm ca ref S pos).2, ?_⟩
  intro k hk hx hg hmp hms hv hpd hnsd
  rw [hiff]
  have hlt : ∀ a b, a < ix.length → b < ix.length → Bnew.coeff a b = B_entry ca ref ix a b :=
    fun a b ha hb => table_coeff ix.length _ a b ha hb
  rcases duplicate_rejected nm ca ref S ix pos p k hix hk hx hg hmp hms hv D
      (fun hall a b hb ha => by
        have := hpd hall a b hb ha
        rwa [hlt a b ha (by omega), hlt a a ha ha, hlt b b (by omega) (by omega)] at this)
      (fun hall a ha => by
        have := hnsd hall a ha
        rwa [hlt a a ha ha] at this) with h | h
  · exact Or.inl h
  · exact Or.inr (Or.inl h)

/-- Instance of `insert_B_Z_rejection` on the worked data set: `rs4`, which has the
genotypes of the selected `rs1`, is rejected. -/
theorem insert_B_Z_rejection_witness :
    (List.Sorted (fun a b => a < b) [0] ∧ 3 ∉ [0] ∧ Holds exactNumerics (exInit [0]) exRef [0] ∧
      makex_eigenVector (exInit [0]) exRef 3 = makex_eigenVector (exInit [0]) exRef 0 ∧
      ldGate (exInit [0]) exRef 0 3 = true ∧ 0 < (exInit [0]).msx_b.getD 3 0) ∧
    (insert_B_Z exactNumerics (exInit [0]) exRef [0] 3).1 = false :=
  have hH : Holds exactNumerics (exInit [0]) exRef [0] := (init_holds exactNumerics exCa exRef [0]).2.1
  have h0 : (0 : ℚ) ∈ exactNumerics.ldlt_vectorD
      ((List.range (insert_ix [0] 3).length).map fun i =>
        (List.range (insert_ix [0] 3).length).map fun j =>
          B_entry (exInit [0]) exRef (insert_ix [0] 3) i j) := by decide!
  have h1 : (1 / 2 : ℚ) ∈ exactNumerics.ldlt_vectorD
      ((List.range (insert_ix [0] 3).length).map fun i =>
        (List.range (insert_ix [0] 3).length).map fun j =>
          B_entry (exInit [0]) exRef (insert_ix [0] 3) i j) := by decide!
  ⟨⟨by decide, by decide, hH, by decide!, by decide!, by decide!⟩,
    (insert_B_Z_rejection exactNumerics (exInit [0]) exRef [0] 3 (by decide) (by decide) hH).2.2.2
      0 (by decide) (by decide!) (by decide!) (by decide!) (by decide!) (by decide!)
      (fun hall => absurd (hall 0 h0) (lt_irrefl 0))
      (fun hall => absurd (hall (1 / 2) h1) (by norm_num))⟩

/-! ## C5: incremental insert against rebuilding -/

/-- C7: LD-window sparsity is an invariant of the moment tables.  In every state
reached by `init_b(S)`/`init_z(S)` followed by successful `insert_B_Z` and
`erase_B_and_Z` calls, for every pair of selected positions `k ≠ l` whose SNPs are
on different chromosomes or at least `ld_window` base pairs apart,
`B[l,k] = 0` and `B_N[l,k] = 0`; and for every selected position `k` and harmonised
SNP `j` that is the SNP `S[k]` itself or outside the window of `S[k]`,
`Z[k,j] = 0` and `Z_N[k,j] = 0`. -/
theorem ld_window_sparsity (nm : Numerics) (ref : Reference) (ca0 : CondAnalysis)
    (S : List Nat) (ca : CondAnalysis) (h : Reach nm ref ca0 S ca) :
    (∀ k l, k < S.length → l < S.length → k ≠ l →
      outsideWindow ca0 ref (S.getD k 0) (S.getD l 0) →
      ca.B.coeff l k = 0 ∧ ca.B_N.coeff l k = 0) ∧
    (∀ k j, k < S.length → j < ca0.to_include.length →
      (S.getD k 0 = j ∨ outsideWindow ca0 ref (S.getD k 0) j) →
      ca.Z.coeff k j = 0 ∧ ca.Z_N.coeff k j = 0) := by
  obtain ⟨-, -, ht, hH⟩ := reach_holds nm ref ca0 S ca h
  constructor
  · intro k l hk hl hkl hout
    have hg : ldGate ca ref (S.getD k 0) (S.getD l 0) = false := by
      rw [ldGate_congr ht]
      exact (outsideWindow_iff ca0 ref _ _).mp hout
    obtain ⟨h1, h2⟩ := hH.B_off l k (Ne.symm hkl)
    rw [h1, h2]
    by_cases hlt : k < l
    · rw [B_entry_lower _ _ _ _ _ hl hlt, B_N_entry_lower _ _ _ _ _ _ hl hlt, hg]
      exact ⟨rfl, rfl⟩
    · exact ⟨B_entry_zero ca ref S l k (by omega), B_N_entry_zero nm ca ref S l k (by omega)⟩
  · intro k j hk hj hout
    obtain ⟨h1, h2⟩ := hH.Z k j
    rw [h1, h2]
    unfold Z_entry Z_N_entry
    have hc : ¬ (S.getD k 0 ≠ j ∧ ldGate ca ref (S.getD k 0) j = true) := by
      rintro ⟨hne, hg⟩
      rcases hout with h | h
      · exact hne h
      · have := (outsideWindow_iff ca0 ref _ _).mp h
        rw [ldGate_congr ht] at hg
        rw [this] at hg
        exact Bool.false_ne_true hg
    rw [if_neg hc, if_neg hc]
    simp

/-- Instance of `ld_window_sparsity`: `rs3`, 50 Mb away, inserted after `rs1`. -/
theorem ld_window_sparsity_witness :
    Reach exactNumerics exRef exCa (insert_ix [0] 2)
      (insert_B_Z exactNumerics (exInit [0]) exRef [0] 2).2 ∧
    outsideWindow exCa exRef 0 2 ∧
    (insert_B_Z exactNumerics (exInit [0]) exRef [0] 2).2.B.coeff 1 0 = 0 :=
  have hr : Reach exactNumerics exRef exCa (insert_ix [0] 2)
      (insert_B_Z exactNumerics (exInit [0]) exRef [0] 2).2 :=
    Reach.insert [0] (exInit [0]) 2
      (Reach.init [0] (by decide) (by intro s hs; rw [List.mem_singleton] at hs; subst hs; decide!))
      (by decide) (by decide!) (by decide!)
  have ho : outsideWindow exCa exRef 0 2 := Or.inr (by decide!)
  ⟨hr, ho, ((ld_window_sparsity exactNumerics exRef exCa _ _ hr).1 0 1 (by decide!) (by decide!)
    (by decide) ho).1⟩

/-! ## C8: storage of `B` and `B_N` -/

/-- C8 (as stated, refuted): on the worked data set, after a successful
`init_b` on `rs1` and `rs2`, the stored `B` has `B[1,0] = 1/2` and `B[0,1] = 0`,
and the stored `B_N` differs across the diagonal as well. -/
theorem stored_B_symmetric_counterexample :
    (init_b exactNumerics exCa exRef [0, 1]).1 = true ∧
    (init_b exactNumerics exCa exRef [0, 1]).2.B.coeff 1 0 = 1 / 2 ∧
    (init_b exactNumerics exCa exRef [0, 1]).2.B.coeff 0 1 = 0 ∧
    (init_b exactNumerics exCa exRef [0, 1]).2.B.coeff 0 1
      ≠ (init_b exactNumerics exCa exRef [0, 1]).2.B.coeff 1 0 ∧
    (init_b exactNumerics exCa exRef [0, 1]).2.B_N.coeff 0 1
      ≠ (init_b exactNumerics exCa exRef [0, 1]).2.B_N.coeff 1 0 := by
  refine ⟨?_, ?_, ?_, ?_, ?_⟩ <;> decide!

/-- C8 (amended): `B` and `B_N` are stored as lower triangles.  In every state
reached by `init_b(S)`/`init_z(S)` followed by successful `insert_B_Z` and
`erase_B_and_Z` calls, for positions `k < l` of the selected set the entries above
the diagonal are absent, `B[k,l] = 0` and `B_N[k,l] = 0`, while below the diagonal
`B[l,k] = x_k · x_l / m` and `B_N[l,k] = B[l,k] * min(nD) * sqrt(..)` when the pair
is within the LD window, and `0` otherwise. -/
theorem stored_lower_triangle (nm : Numerics) (ref : Reference) (ca0 : CondAnalysis)
    (S : List Nat) (ca : CondAnalysis) (h : Reach nm ref ca0 S ca) :
    ∀ k l, k < l → l < S.length →
      ca.B.coeff k l = 0 ∧ ca.B_N.coeff k l = 0 ∧
      ca.B.coeff l k =
        (if ldGate ca0 ref (S.getD k 0) (S.getD l 0) then xdot ca0 ref (S.getD k 0) (S.getD l 0)
          else 0) ∧
      ca.B_N.coeff l k =
        (if ldGate ca0 ref (S.getD k 0) (S.getD l 0) then
          xdot ca0 ref (S.getD k 0) (S.getD l 0) * nFactor nm ca0 (S.getD k 0) (S.getD l 0)
          else 0) := by
  obtain ⟨-, -, ht, hH⟩ := reach_holds nm ref ca0 S ca h
  intro k l hkl hl
  obtain ⟨h1, h2⟩ := hH.B_off k l (by omega)
  obtain ⟨h3, h4⟩ := hH.B_off l k (by omega)
  rw [h1, h2, h3, h4, B_entry_lower _ _ _ _ _ hl hkl, B_N_entry_lower _ _ _ _ _ _ hl hkl,
    ldGate_congr ht, xdot_congr ht, nFactor_congr ht]
  exact ⟨B_entry_zero ca ref S k l (by omega), B_N_entry_zero nm ca ref S k l (by omega),
    rfl, rfl⟩

/-- Instance of `stored_lower_triangle`: `rs2` inserted after `rs1`. -/
theorem stored_lower_triangle_witness :
    Reach exactNumerics exRef exCa (insert_ix [0] 1)
      (insert_B_Z exactNumerics (exInit [0]) exRef [0] 1).2 ∧
    (insert_B_Z exactNumerics (exInit [0]) exRef [0] 1).2.B.coeff 0 1 = 0 :=
  have hr : Reach exactNumerics exRef exCa (insert_ix [0] 1)
      (insert_B_Z exactNumerics (exInit [0]) exRef [0] 1).2 :=
    Reach.insert [0] (exInit [0]) 1
      (Reach.init [0] (by decide) (by intro s hs; rw [List.mem_singleton] at hs; subst hs; decide!))
      (by decide) (by decide!) (by decide!)
  ⟨hr, (stored_lower_triangle exactNumerics exRef exCa _ _ hr 0 1 (by decide) (by decide!)).1⟩

/-! ## C9: which SNPs the harmoniser keeps -/

/-- C9: for a phenotype without repeated names and a well-formed reference,
`match_gwas_phenotype` returns as soon as some phenotype SNP passes the three
tests, and in the returned state: the phenotype SNP `i` is kept (its position is
in `idx`, its reference position in `to_include`) if and only if its name is found
in the reference at some `r`, its A1 is the reference A1 or A2 at `r`, and
`|mu' / 2 - freq| < freq_threshold` with `mu' = 2 - mu` when A1 is the reference
A2 and `mu' = mu` otherwise; `unmatched` is the number of candidates with
`|mu' / 2 - freq| ≥ freq_threshold`, none of which is kept; and every entry
`to_include[t]` belongs to a kept SNP `i` with `mu[to_include[t]] = mu'` and
`ref_A[to_include[t]]` the phenotype A1. -/
theorem match_gwas_phenotype_keeps (nm : Numerics) (ca : CondAnalysis) (pheno : Phenotype)
    (ref : Reference) (hnd : pheno.snp_name.Nodup) (hwf : RefWF ref) :
    ((∃ i r, i < pheno.snp_name.length ∧ candidate pheno ref i r ∧ freq_ok ca pheno ref i r) →
      ∃ res, match_gwas_phenotype nm ca pheno ref = .ok res) ∧
    ∀ res, match_gwas_phenotype nm ca pheno ref = .ok res →
      (∀ i, i < pheno.snp_name.length →
        (i ∈ res.idx ↔ ∃ r, candidate pheno ref i r ∧ freq_ok ca pheno ref i r)) ∧
      (∀ i r, i < pheno.snp_name.length → candidate pheno ref i r →
        (r ∈ res.ca.to_include ↔ freq_ok ca pheno ref i r)) ∧
      res.unmatched =
        ((List.range pheno.snp_name.length).filter (freq_rejected ca pheno ref)).length ∧
      (∀ t, t < res.ca.to_include.length → ∃ i, i < pheno.snp_name.length ∧ i ∈ res.idx ∧
        candidate pheno ref i (res.ca.to_include.getD t 0) ∧
        res.ca.mu.getD (res.ca.to_include.getD t 0) 0
          = flipped_mu pheno ref i (res.ca.to_include.getD t 0) ∧
        res.ref.ref_A.getD (res.ca.to_include.getD t 0) "" = pheno.allele1.getD i "") := by
  have H := match_alleles_harmonised ca pheno ref hnd hwf
  constructor
  · rintro ⟨i, r, hi, hc, hf⟩
    exact match_gwas_phenotype_returns nm ca pheno ref r ((H.to_include r).2 ⟨i, hi, hc, hf⟩)
  · intro res hres
    obtain ⟨hidx, _, hun, href, hinc, hmu, _⟩ := match_gwas_phenotype_ok nm ca pheno ref res hres
    rw [hidx, hun, href, hinc, hmu]
    refine ⟨?_, ?_, H.unmatched, ?_⟩
    · intro i hi
      rw [H.idx]
      exact ⟨fun h => h.2, fun h => ⟨hi, h⟩⟩
    · intro i r hi hc
      rw [H.to_include]
      constructor
      · rintro ⟨j, hj, hcj, hf⟩
        have := candidate_inj hnd hwf hi hj hc hcj
        subst this
        exact hf
      · intro hf
        exact ⟨i, hi, hc, hf⟩
    · intro t ht
      have hmem : (match_alleles ca pheno ref).ca.to_include.getD t 0
          ∈ (match_alleles ca pheno ref).ca.to_include := by
        rw [List.getD_eq_getElem _ _ ht]
        exact List.getElem_mem _
      obtain ⟨i, hi, hc, hf⟩ := (H.to_include _).1 hmem
      exact ⟨i, hi, (H.idx i).2 ⟨hi, _, hc, hf⟩, hc, H.mu i _ hi hc, H.ref_A i _ hi hc⟩

/-- Instance of `match_gwas_phenotype_keeps` on five summary statistics: `rs1` and
`rs2` are kept, `rs2` with the flipped mean dosage `2 - 5/4`; `rs3` fails the
frequency test and is counted. -/
theorem match_gwas_phenotype_keeps_witness :
    exPheno2.snp_name.Nodup ∧ RefWF exRef ∧
    ∃ res, match_gwas_phenotype exactNumerics exCa0 exPheno2 exRef = .ok res ∧
      (1 ∈ res.idx ↔ ∃ r, candidate exPheno2 exRef 1 r ∧ freq_ok exCa0 exPheno2 exRef 1 r) ∧
      (2 ∈ res.idx ↔ ∃ r, candidate exPheno2 exRef 2 r ∧ freq_ok exCa0 exPheno2 exRef 2 r) ∧
      res.idx = [0, 1] ∧ res.unmatched = 1 ∧ res.ca.mu.getD 1 0 = 3 / 4 :=
  have hnd : exPheno2.snp_name.Nodup := by decide
  have hwf : RefWF exRef := ⟨by decide, rfl, rfl⟩
  have h := match_gwas_phenotype_keeps exactNumerics exCa0 exPheno2 exRef hnd hwf
  ⟨hnd, hwf, by
    obtain ⟨res, hres⟩ := h.1 ⟨0, 0, by decide, ⟨by decide, Or.inl (by decide)⟩,
      by unfold freq_ok flipped_mu; decide!⟩
    obtain ⟨hidx, _, hun, _, _, hmu, _⟩ :=
      match_gwas_phenotype_ok exactNumerics exCa0 exPheno2 exRef res hres
    refine ⟨res, hres, (h.2 res hres).1 1 (by decide), (h.2 res hres).1 2 (by decide), ?_, ?_, ?_⟩
    · rw [hidx]; decide!
    · rw [hun]; decide!
    · rw [hmu]; decide!⟩

/-! ## C10: the alleles of an included SNP -/

/-- C10 (as stated, refuted): in the five-SNP instance `rs2` is reported with the
alleles `T`/`G`, the reference has `C`/`T`; `match_gwas_phenotype` returns and
includes `rs2` (phenotype position 1, reference position 1) although its A2 is
neither reference allele. -/
theorem included_allele_pair_counterexample :
    ∃ res, match_gwas_phenotype exactNumerics exCa0 exPheno2 exRef = .ok res ∧
      1 ∈ res.idx ∧ 1 ∈ res.ca.to_include ∧
      exRef.snp_map.lookup (exPheno2.snp_name.getD 1 "") = some 1 ∧
      exPheno2.allele2.getD 1 "" ≠ exRef.bim_allele1.getD 1 "" ∧
      exPheno2.allele2.getD 1 "" ≠ exRef.bim_allele2.getD 1 "" ∧
      ¬ same_allele_pair exPheno2 exRef 1 1 := by
  obtain ⟨res, hres⟩ := match_gwas_phenotype_returns exactNumerics exCa0 exPheno2 exRef 1
    (by decide!)
  obtain ⟨hidx, _, _, _, hinc, _, _⟩ :=
    match_gwas_phenotype_ok exactNumerics exCa0 exPheno2 exRef res hres
  refine ⟨res, hres, by rw [hidx]; decide!, by rw [hinc]; decide!, by decide, by decide,
    by decide, ?_⟩
  unfold same_allele_pair
  decide

/-- C10 (amended): for a phenotype without repeated names and a well-formed
reference, every SNP that `match_gwas_phenotype` includes has its name in the
reference and its A1 equal to the reference A1 or A2, and every entry of
`to_include` belongs to such a SNP; the column `allele2` of the phenotype is not
read: with any other column the call gives the same result. -/
theorem included_allele1_of_reference (nm : Numerics) (ca : CondAnalysis) (pheno : Phenotype)
    (ref : Reference) (hnd : pheno.snp_name.Nodup) (hwf : RefWF ref) :
    (∀ res, match_gwas_phenotype nm ca pheno ref = .ok res →
      (∀ i, i < pheno.snp_name.length → i ∈ res.idx →
        ∃ r, ref.snp_map.lookup (pheno.snp_name.getD i "") = some r ∧ r ∈ res.ca.to_include ∧
          (pheno.allele1.getD i "" = ref.bim_allele1.getD r "" ∨
            pheno.allele1.getD i "" = ref.bim_allele2.getD r "")) ∧
      (∀ r, r ∈ res.ca.to_include → ∃ i, i < pheno.snp_name.length ∧ i ∈ res.idx ∧
        ref.snp_map.lookup (pheno.snp_name.getD i "") = some r ∧
          (pheno.allele1.getD i "" = ref.bim_allele1.getD r "" ∨
            pheno.allele1.getD i "" = ref.bim_allele2.getD r ""))) ∧
    (∀ a2, match_gwas_phenotype nm ca { pheno with allele2 := a2 } ref
      = match_gwas_phenotype nm ca pheno ref) := by
  have H := match_alleles_harmonised ca pheno ref hnd hwf
  refine ⟨?_, fun a2 => rfl⟩
  intro res hres
  obtain ⟨hidx, _, _, _, hinc, _, _⟩ := match_gwas_phenotype_ok nm ca pheno ref res hres
  rw [hidx, hinc]
  constructor
  · intro i hi hmem
    obtain ⟨_, r, hc, hf⟩ := (H.idx i).1 hmem
    exact ⟨r, hc.1, (H.to_include r).2 ⟨i, hi, hc, hf⟩, hc.2⟩
  · intro r hmem
    obtain ⟨i, hi, hc, hf⟩ := (H.to_include r).1 hmem
    exact ⟨i, hi, (H.idx i).2 ⟨hi, r, hc, hf⟩, hc.1, hc.2⟩

/-- Instance of `included_allele1_of_reference` on the five-SNP instance: the kept
`rs2` has the reference allele `T` as A1, and replacing the column `allele2` by
the reference's own second alleles changes nothing. -/
theorem included_allele1_of_reference_witness :
    exPheno2.snp_name.Nodup ∧ RefWF exRef ∧
    (∃ res, match_gwas_phenotype exactNumerics exCa0 exPheno2 exRef = .ok res ∧
      ∃ r, exRef.snp_map.lookup (exPheno2.snp_name.getD 1 "") = some r ∧ r ∈ res.ca.to_include ∧
        (exPheno2.allele1.getD 1 "" = exRef.bim_allele1.getD r "" ∨
          exPheno2.allele1.getD 1 "" = exRef.bim_allele2.getD r "")) ∧
    match_gwas_phenotype exactNumerics exCa0
        { exPheno2 with allele2 := ["G", "C", "A", "G", "G"] } exRef
      = match_gwas_phenotype exactNumerics exCa0 exPheno2 exRef :=
  have hnd : exPheno2.snp_name.Nodup := by decide
  have hwf : RefWF exRef := ⟨by decide, rfl, rfl⟩
  have h := included_allele1_of_reference exactNumerics exCa0 exPheno2 exRef hnd hwf
  ⟨hnd, hwf, by
    obtain ⟨res, hres⟩ := match_gwas_phenotype_returns exactNumerics exCa0 exPheno2 exRef 1
      (by decide!)
    obtain ⟨hidx, _, _, _, _, _, _⟩ :=
      match_gwas_phenotype_ok exactNumerics exCa0 exPheno2 exRef res hres
    exact ⟨res, hres, (h.1 res hres).1 1 (by decide) (by rw [hidx]; decide!)⟩,
    h.2 _⟩

/-! ## C13: the genotype encoding -/

/-- C13 (as stated, refuted): in the worked data set individual 1 carries the bits
`(0, 1)` at `rs2`; `makex_eigenVector` gives it the centred dosage `1 - 5/4`, not
the `0` of a missing genotype. -/
theorem makex_missing_counterexample :
    (exRef.bed_snp_1.getD 1 []).getD 1 false = false ∧
    (exRef.bed_snp_2.getD 1 []).getD 1 false = true ∧
    (makex_eigenVector exCa exRef 1).getD 1 0 = -1 / 4 ∧
    dosage_entry (false, true) false true true (5 / 4) = 0 ∧
    (makex_eigenVector exCa exRef 1).getD 1 0
      ≠ dosage_entry (false, true) false true true (5 / 4) := by
  refine ⟨by decide, by decide, by decide!, by decide!, by decide!⟩

/-- C13 (amended): `makex_eigenVector(j)` has one entry per included individual
`k`; with `(b1, b2)` the bits read at the reference SNP `j' = to_include[j]`, the
genotype is treated as missing exactly when `(b1, b2) = (1, 0)`, giving the
centred entry `0`; for every other bit pair the entry is `d - mu[j']` with
`d = b1 + b2` if `refA1 == ref_A[j']` and `d = 2 - (b1 + b2)` otherwise. -/
theorem makex_eigenVector_encoding (ca : CondAnalysis) (ref : Reference) (j : Nat) :
    makex_eigenVector ca ref j = ca.fam_ids_inc.map fun k =>
      dosage_entry (true, false)
        ((ref.bed_snp_1.getD (ca.to_include.getD j 0) []).getD k false)
        ((ref.bed_snp_2.getD (ca.to_include.getD j 0) []).getD k false)
        (ref.bim_allele1.getD (ca.to_include.getD j 0) ""
          == ref.ref_A.getD (ca.to_include.getD j 0) "")
        (ca.mu.getD (ca.to_include.getD j 0) 0) := by
  unfold makex_eigenVector dosage_entry
  refine List.map_congr_left ?_
  intro k _
  dsimp only
  generalize (ref.bed_snp_1.getD (ca.to_include.getD j 0) []).getD k false = b1
  generalize (ref.bed_snp_2.getD (ca.to_include.getD j 0) []).getD k false = b2
  generalize (ref.bim_allele1.getD (ca.to_include.getD j 0) ""
    == ref.ref_A.getD (ca.to_include.getD j 0) "") = same
  cases b1 <;> cases b2 <;> cases same <;> simp

/-! ## C19: the residual variance -/

/-- C19: `massoc_calcu_Ve(S, bJ, b)` with `bJ` of the size `n` of `S` and `nu` the
median of `nD` over `S`: it fails with the degrees-of-freedom error if and only if
`nu - n < 1`; otherwise, with
`Ve = ((nu - 1) * Vp - sum_k D_N[k] * bJ[k] * b[k]) / (nu - n)`, it fails with the
residual error if and only if `Ve ≤ 0`, and returns `Ve` when `0 < Ve`. -/
theorem massoc_calcu_Ve_spec (nm : Numerics) (ca : CondAnalysis) (selected : List Nat)
    (bJ b : List ℚ) (hlen : bJ.length = selected.length) :
    let n := selected.length
    let nu := nm.v_calc_median (selected.map fun s => ca.nD.getD s 0)
    let Ve := ((nu - 1) * ca.jma_Vp
      - ((List.range n).map fun k => ca.D_N.coeff k * bJ.getD k 0 * b.getD k 0).sum) / (nu - n)
    (massoc_calcu_Ve nm ca selected bJ b = .error
        "DoF Error: Model is over-fitting due to lack of degree of freedom. Provide a more stringent P-value cutoff."
      ↔ nu - n < 1) ∧
    (¬ nu - n < 1 →
      (massoc_calcu_Ve nm ca selected bJ b = .error
          "Residual Error: Residual variance is out of bounds meaning the model is over-fitting. Provide a more stringent P-value cutoff."
        ↔ Ve ≤ 0) ∧
      (0 < Ve → massoc_calcu_Ve nm ca selected bJ b = .ok Ve)) := by
  intro n nu Ve
  have hnD : ((List.range selected.length).map fun k => ca.nD.getD (selected.getD k 0) 0)
      = selected.map fun s => ca.nD.getD s 0 := by
    apply List.ext_getElem
    · simp
    · intro i h1 h2
      simp only [List.length_map, List.length_range] at h1
      simp [List.getElem?_eq_getElem h1]
  have key : massoc_calcu_Ve nm ca selected bJ b =
      if nu - (n : ℚ) < 1 then .error
        "DoF Error: Model is over-fitting due to lack of degree of freedom. Provide a more stringent P-value cutoff."
      else if Ve ≤ 0 then .error
        "Residual Error: Residual variance is out of bounds meaning the model is over-fitting. Provide a more stringent P-value cutoff."
      else .ok Ve := by
    unfold massoc_calcu_Ve
    simp only [hlen, hnD]
  rw [key]
  refine ⟨?_, fun h1 => ⟨?_, fun h3 => ?_⟩⟩
  · by_cases h1 : nu - (n : ℚ) < 1
    · rw [if_pos h1]
      exact ⟨fun _ => h1, fun _ => rfl⟩
    · by_cases h2 : Ve ≤ 0
      · simp only [if_neg h1, if_pos h2, h1, iff_false]
        intro h
        have := Except.error.inj h
        exact absurd this (by decide)
      · simp only [if_neg h1, if_neg h2, h1, iff_false]
        intro h
        cases h
  · by_cases h2 : Ve ≤ 0
    · rw [if_neg h1, if_pos h2]
      exact ⟨fun _ => h2, fun _ => rfl⟩
    · simp only [if_neg h1, if_neg h2, h2, iff_false]
      intro h
      cases h
  · rw [if_neg h1, if_neg (not_le.2 h3)]

/-- Instance of `massoc_calcu_Ve_spec`: for `rs1` alone in the worked data set,
`nu = 701`, `D_N[0] = 701 / 2`, and `bJ = b = 1/2` give `Ve = 4899 / 5600`. -/
theorem massoc_calcu_Ve_spec_witness :
    ([1 / 2] : List ℚ).length = [0].length ∧
    massoc_calcu_Ve exactNumerics (exInit [0]) [0] [1 / 2] [1 / 2] = .ok (4899 / 5600) :=
  ⟨rfl, by
    have h := (massoc_calcu_Ve_spec exactNumerics (exInit [0]) [0] [1 / 2] [1 / 2] rfl).2
      (by decide!)
    rw [h.2 (by decide!)]
    exact congrArg Except.ok (by decide!)⟩

/-! ## C18: the paired data set -/

/-- C18: when both analyses are ready, `mdata(ca1, ca2)` fills twelve vectors of
one length; `snps1[k] = snps2[k]` for every row; a name occurs in `snps1` if and
only if it occurs in `ca1.snps_cond` and in `ca2.snps_cond`; the rows are in
ascending order of their position in `ca1.snps_cond`; and row `k`, for the
position `i` in `ca1` and the matched position `j` in `ca2` (the first
occurrence of the name there), carries `(b, se, p, maf, n)` of `ca1` at `i` on
side 1 and of `ca2` at `j` on side 2. -/
theorem mdata_intersection (ready1 ready2 : Bool) (ca1 ca2 : Pairwise)
    (h1 : ready1 = true) (h2 : ready2 = true) :
    let d := mdata ready1 ready2 ca1 ca2
    (d.betas1.length = d.snps1.length ∧ d.ses1.length = d.snps1.length ∧
      d.pvals1.length = d.snps1.length ∧ d.mafs1.length = d.snps1.length ∧
      d.ns1.length = d.snps1.length ∧ d.snps2.length = d.snps1.length ∧
      d.betas2.length = d.snps1.length ∧ d.ses2.length = d.snps1.length ∧
      d.pvals2.length = d.snps1.length ∧ d.mafs2.length = d.snps1.length ∧
      d.ns2.length = d.snps1.length ∧ d.snp_map.length = d.snps1.length) ∧
    (∀ k, k < d.snps1.length → d.snps1.getD k "" = d.snps2.getD k "") ∧
    (∀ name, name ∈ d.snps1 ↔ name ∈ ca1.snps_cond ∧ name ∈ ca2.snps_cond) ∧
    (d.snp_map.map Prod.fst).Pairwise (fun a b => a < b) ∧
    (∀ k, k < d.snps1.length →
      (d.snp_map.getD k (0, 0)).1 < ca1.snps_cond.length ∧
      (d.snp_map.getD k (0, 0)).2 < ca2.snps_cond.length ∧
      d.snps1.getD k "" = ca1.snps_cond.getD (d.snp_map.getD k (0, 0)).1 "" ∧
      (d.snp_map.getD k (0, 0)).2 = ca2.snps_cond.indexOf (d.snps1.getD k "") ∧
      d.betas1.getD k 0 = ca1.b_cond.getD (d.snp_map.getD k (0, 0)).1 0 ∧
      d.ses1.getD k 0 = ca1.se_cond.getD (d.snp_map.getD k (0, 0)).1 0 ∧
      d.pvals1.getD k 0 = ca1.p_cond.getD (d.snp_map.getD k (0, 0)).1 0 ∧
      d.mafs1.getD k 0 = ca1.maf_cond.getD (d.snp_map.getD k (0, 0)).1 0 ∧
      d.ns1.getD k 0 = ca1.n_cond.getD (d.snp_map.getD k (0, 0)).1 0 ∧
      d.betas2.getD k 0 = ca2.b_cond.getD (d.snp_map.getD k (0, 0)).2 0 ∧
      d.ses2.getD k 0 = ca2.se_cond.getD (d.snp_map.getD k (0, 0)).2 0 ∧
      d.pvals2.getD k 0 = ca2.p_cond.getD (d.snp_map.getD k (0, 0)).2 0 ∧
      d.mafs2.getD k 0 = ca2.maf_cond.getD (d.snp_map.getD k (0, 0)).2 0 ∧
      d.ns2.getD k 0 = ca2.n_cond.getD (d.snp_map.getD k (0, 0)).2 0) := by
  subst h1 h2
  have hd : mdata true true ca1 ca2 =
      { snp_map := mdata_snp_map ca1.snps_cond ca2.snps_cond
        snps1 := (mdata_snp_map ca1.snps_cond ca2.snps_cond).map fun p => ca1.snps_cond.getD p.1 ""
        betas1 := (mdata_snp_map ca1.snps_cond ca2.snps_cond).map fun p => ca1.b_cond.getD p.1 0
        ses1 := (mdata_snp_map ca1.snps_cond ca2.snps_cond).map fun p => ca1.se_cond.getD p.1 0
        pvals1 := (mdata_snp_map ca1.snps_cond ca2.snps_cond).map fun p => ca1.p_cond.getD p.1 0
        mafs1 := (mdata_snp_map ca1.snps_cond ca2.snps_cond).map fun p => ca1.maf_cond.getD p.1 0
        ns1 := (mdata_snp_map ca1.snps_cond ca2.snps_cond).map fun p => ca1.n_cond.getD p.1 0
        snps2 := (mdata_snp_map ca1.snps_cond ca2.snps_cond).map fun p => ca2.snps_cond.getD p.2 ""
        betas2 := (mdata_snp_map ca1.snps_cond ca2.snps_cond).map fun p => ca2.b_cond.getD p.2 0
        ses2 := (mdata_snp_map ca1.snps_cond ca2.snps_cond).map fun p => ca2.se_cond.getD p.2 0
        pvals2 := (mdata_snp_map ca1.snps_cond ca2.snps_cond).map fun p => ca2.p_cond.getD p.2 0
        mafs2 := (mdata_snp_map ca1.snps_cond ca2.snps_cond).map fun p => ca2.maf_cond.getD p.2 0
        ns2 := (mdata_snp_map ca1.snps_cond ca2.snps_cond).map fun p => ca2.n_cond.getD p.2 0 } := rfl
  intro d
  have hd' : d = _ := hd
  rw [hd']
  simp only [List.length_map]
  have hmem := mem_mdata_snp_map ca1.snps_cond ca2.snps_cond
  have hat : ∀ k, k < (mdata_snp_map ca1.snps_cond ca2.snps_cond).length →
      (mdata_snp_map ca1.snps_cond ca2.snps_cond).getD k (0, 0)
        ∈ mdata_snp_map ca1.snps_cond ca2.snps_cond :=
    fun k hk => getD_mem_of_lt_length _ k _ hk
  refine ⟨by simp only [and_self], ?_, ?_,
    mdata_snp_map_sorted _ _, ?_⟩
  · intro k hk
    obtain ⟨h1, h2, h3⟩ := (hmem _).1 (hat k hk)
    rw [getD_map_default _ _ k (0, 0) "" hk, getD_map_default _ _ k (0, 0) "" hk]
    have h3' := h3
    rw [h2] at h3'
    rw [h2, List.getD_eq_getElem _ _ h3', List.getElem_indexOf h3']
  · intro name
    rw [List.mem_map]
    constructor
    · rintro ⟨p, hp, rfl⟩
      obtain ⟨h1, h2, h3⟩ := (hmem p).1 hp
      refine ⟨getD_mem_of_lt_length _ _ _ h1, ?_⟩
      rw [h2] at h3
      exact List.indexOf_lt_length.1 h3
    · rintro ⟨hn1, hn2⟩
      obtain ⟨i, hi, rfl⟩ := List.mem_iff_getElem.1 hn1
      refine ⟨(i, ca2.snps_cond.indexOf (ca1.snps_cond.getD i "")), (hmem _).2 ⟨hi, rfl, ?_⟩, ?_⟩
      · rw [List.getD_eq_getElem _ _ hi]
        exact List.indexOf_lt_length.2 hn2
      · exact List.getD_eq_getElem _ _ hi
  · intro k hk
    obtain ⟨h1, h2, h3⟩ := (hmem _).1 (hat k hk)
    refine ⟨h1, h3, getD_map_default _ _ k (0, 0) "" hk, ?_,
      getD_map_default _ _ k (0, 0) 0 hk, getD_map_default _ _ k (0, 0) 0 hk,
      getD_map_default _ _ k (0, 0) 0 hk, getD_map_default _ _ k (0, 0) 0 hk,
      getD_map_default _ _ k (0, 0) 0 hk, getD_map_default _ _ k (0, 0) 0 hk,
      getD_map_default _ _ k (0, 0) 0 hk, getD_map_default _ _ k (0, 0) 0 hk,
      getD_map_default _ _ k (0, 0) 0 hk, getD_map_default _ _ k (0, 0) 0 hk⟩
    rw [getD_map_default _ _ k (0, 0) "" hk]
    exact h2

/-- Instance of `mdata_intersection`: `rs2` and `rs3` are common to the two passes;
the rows follow the order of the first pass and take the second side from
positions 0 and 2 of the second pass. -/
theorem mdata_intersection_witness :
    (mdata true true
      (pairwiseOf ["rs1", "rs2", "rs3"] [1, 2, 3] [4, 5, 6] [7, 8, 9] [10, 11, 12] [13, 14, 15])
      (pairwiseOf ["rs2", "rs4", "rs3"] [21, 22, 23] [24, 25, 26] [27, 28, 29] [30, 31, 32]
        [33, 34, 35])).snps1 = ["rs2", "rs3"] ∧
    (∀ name, name ∈ (mdata true true
      (pairwiseOf ["rs1", "rs2", "rs3"] [1, 2, 3] [4, 5, 6] [7, 8, 9] [10, 11, 12] [13, 14, 15])
      (pairwiseOf ["rs2", "rs4", "rs3"] [21, 22, 23] [24, 25, 26] [27, 28, 29] [30, 31, 32]
        [33, 34, 35])).snps1 ↔ name ∈ ["rs1", "rs2", "rs3"] ∧ name ∈ ["rs2", "rs4", "rs3"]) ∧
    (mdata true true
      (pairwiseOf ["rs1", "rs2", "rs3"] [1, 2, 3] [4, 5, 6] [7, 8, 9] [10, 11, 12] [13, 14, 15])
      (pairwiseOf ["rs2", "rs4", "rs3"] [21, 22, 23] [24, 25, 26] [27, 28, 29] [30, 31, 32]
        [33, 34, 35])).betas2 = [21, 23] :=
  ⟨by decide, (mdata_intersection true true
      (pairwiseOf ["rs1", "rs2", "rs3"] [1, 2, 3] [4, 5, 6] [7, 8, 9] [10, 11, 12] [13, 14, 15])
      (pairwiseOf ["rs2", "rs4", "rs3"] [21, 22, 23] [24, 25, 26] [27, 28, 29] [30, 31, 32]
        [33, 34, 35]) rfl rfl).2.2.1, by decide!⟩

/-! ## C11: harmonising a swapped phenotype -/

/-- C11 (as stated, refuted): in the five-SNP instance the harmoniser includes the
reference SNPs 0 and 1 (`rs1`, `rs2`); after every phenotype SNP is swapped it
includes 0 and 3 (`rs1`, `rs4`): `rs2`, reported as `T`/`G` against the reference
`C`/`T`, is lost, and `rs4`, reported as `T`/`G` against `A`/`G`, is gained. -/
theorem swap_changes_inclusion_counterexample :
    ∃ res res', match_gwas_phenotype exactNumerics exCa0 exPheno2 exRef = .ok res ∧
      match_gwas_phenotype exactNumerics exCa0 (swap_alleles exPheno2) exRef = .ok res' ∧
      res.ca.to_include = [0, 1] ∧ res'.ca.to_include = [0, 3] ∧
      res'.ca.to_include ≠ res.ca.to_include := by
  obtain ⟨res, hres⟩ := match_gwas_phenotype_returns exactNumerics exCa0 exPheno2 exRef 0
    (by decide!)
  obtain ⟨res', hres'⟩ := match_gwas_phenotype_returns exactNumerics exCa0
    (swap_alleles exPheno2) exRef 0 (by decide!)
  obtain ⟨_, _, _, _, hinc, _, _⟩ :=
    match_gwas_phenotype_ok exactNumerics exCa0 exPheno2 exRef res hres
  obtain ⟨_, _, _, _, hinc', _, _⟩ :=
    match_gwas_phenotype_ok exactNumerics exCa0 (swap_alleles exPheno2) exRef res' hres'
  have e1 : res.ca.to_include = [0, 1] := by rw [hinc]; decide!
  have e2 : res'.ca.to_include = [0, 3] := by rw [hinc']; decide!
  refine ⟨res, res', hres, hres', e1, e2, ?_⟩
  rw [e1, e2]
  decide

/-- C11 (amended): for a phenotype without repeated names, with a frequency for
every SNP, and a well-formed reference, such that every phenotype SNP found in
the reference has the two distinct reference alleles as its allele pair (or
neither of its alleles among them): replacing every phenotype SNP by its swapped
form, `match_gwas_phenotype` returns if and only if it returned before, with the
same `to_include` and the same kept phenotype positions and names, `ja_beta`
negated entry by entry, and for each included SNP the working mean dosage equal
to `2 - mu` of the one obtained before. -/
theorem swap_invariance (nm : Numerics) (ca : CondAnalysis) (pheno : Phenotype)
    (ref : Reference) (hnd : pheno.snp_name.Nodup) (hwf : RefWF ref)
    (hp : PairsAgree pheno ref) (hf : pheno.snp_name.length ≤ pheno.freq.length) :
    ((∃ res, match_gwas_phenotype nm ca pheno ref = .ok res) ↔
      ∃ res', match_gwas_phenotype nm ca (swap_alleles pheno) ref = .ok res') ∧
    ∀ res res', match_gwas_phenotype nm ca pheno ref = .ok res →
      match_gwas_phenotype nm ca (swap_alleles pheno) ref = .ok res' →
      res'.ca.to_include = res.ca.to_include ∧ res'.idx = res.idx ∧
      res'.ca.ja_snp_name = res.ca.ja_snp_name ∧
      res'.ca.ja_beta = res.ca.ja_beta.map (fun b => -b) ∧
      (∀ r ∈ res.ca.to_include, res'.ca.mu.getD r 0 = 2 - res.ca.mu.getD r 0) := by
  obtain ⟨sidx, _, _, sinc⟩ := match_alleles_swap ca pheno ref hnd hwf hp hf
  have H := match_alleles_harmonised ca pheno ref hnd hwf
  have H' := match_alleles_harmonised ca (swap_alleles pheno) ref hnd hwf
  constructor
  · constructor
    · rintro ⟨res, hres⟩
      obtain ⟨_, _, _, _, hinc, _, hne⟩ := match_gwas_phenotype_ok nm ca pheno ref res hres
      obtain ⟨r, hr⟩ := List.exists_mem_of_ne_nil _ hne
      rw [hinc, ← sinc] at hr
      exact match_gwas_phenotype_returns nm ca (swap_alleles pheno) ref r hr
    · rintro ⟨res, hres⟩
      obtain ⟨_, _, _, _, hinc, _, hne⟩ :=
        match_gwas_phenotype_ok nm ca (swap_alleles pheno) ref res hres
      obtain ⟨r, hr⟩ := List.exists_mem_of_ne_nil _ hne
      rw [hinc, sinc] at hr
      exact match_gwas_phenotype_returns nm ca pheno ref r hr
  · intro res res' hres hres'
    obtain ⟨hidx, _, _, _, hinc, hmu, _⟩ := match_gwas_phenotype_ok nm ca pheno ref res hres
    obtain ⟨hidx', _, _, _, hinc', hmu', _⟩ :=
      match_gwas_phenotype_ok nm ca (swap_alleles pheno) ref res' hres'
    obtain ⟨jn, _, jb, _⟩ := match_gwas_phenotype_ja nm ca pheno ref res hres
    obtain ⟨jn', _, jb', _⟩ := match_gwas_phenotype_ja nm ca (swap_alleles pheno) ref res' hres'
    have einc : res'.ca.to_include = res.ca.to_include := by rw [hinc', hinc, sinc]
    have eidx : res'.idx = res.idx := by rw [hidx', hidx, sidx]
    refine ⟨einc, eidx, ?_, ?_, ?_⟩
    · rw [jn', jn, einc, eidx]
      rfl
    · rw [jb', jb, einc, eidx, List.map_map]
      refine List.map_congr_left ?_
      intro i _
      exact getD_map_neg _ _
    · intro r hr
      rw [hinc] at hr
      obtain ⟨i, hi, hc, _⟩ := (H.to_include r).1 hr
      rw [hmu', hmu, H'.mu i r hi ((candidate_swap hp hi).2 hc), H.mu i r hi hc]
      exact flipped_mu_swap hp hi hc

/-- Instance of `swap_invariance` on the four-SNP data set: all four SNPs stay
included, `ja_beta` changes sign and every working mean dosage is flipped. -/
theorem swap_invariance_witness :
    exPheno.snp_name.Nodup ∧ RefWF exRef ∧ PairsAgree exPheno exRef ∧
    exPheno.snp_name.length ≤ exPheno.freq.length ∧
    ∃ res res', match_gwas_phenotype exactNumerics exCa0 exPheno exRef = .ok res ∧
      match_gwas_phenotype exactNumerics exCa0 (swap_alleles exPheno) exRef = .ok res' ∧
      res'.ca.to_include = res.ca.to_include ∧
      res'.ca.ja_beta = res.ca.ja_beta.map (fun b => -b) ∧
      res.ca.mu.getD 1 0 = 5 / 4 ∧ res'.ca.mu.getD 1 0 = 2 - res.ca.mu.getD 1 0 :=
  have hnd : exPheno.snp_name.Nodup := by decide
  have hwf : RefWF exRef := ⟨by decide, rfl, rfl⟩
  have hp : PairsAgree exPheno exRef := by unfold PairsAgree same_allele_pair; decide
  have hf : exPheno.snp_name.length ≤ exPheno.freq.length := by decide
  have h := swap_invariance exactNumerics exCa0 exPheno exRef hnd hwf hp hf
  ⟨hnd, hwf, hp, hf, by
    obtain ⟨res, hres⟩ := match_gwas_phenotype_returns exactNumerics exCa0 exPheno exRef 0
      (by decide!)
    obtain ⟨res', hres'⟩ := h.1.1 ⟨res, hres⟩
    obtain ⟨e1, _, _, e4, e5⟩ := h.2 res res' hres hres'
    obtain ⟨_, _, _, _, hinc, hmu, _⟩ :=
      match_gwas_phenotype_ok exactNumerics exCa0 exPheno exRef res hres
    have hm1 : res.ca.mu.getD 1 0 = 5 / 4 := by rw [hmu]; decide!
    exact ⟨res, res', hres, hres', e1, e4, hm1, e5 1 (by rw [hinc]; decide!)⟩⟩

/-! ## C12: the harmonised vectors follow the inclusion list -/

/-- C12: for a phenotype without repeated names and a well-formed reference, in
the state returned by `match_gwas_phenotype`: `n = |to_include|` is the number
of phenotype SNPs that pass the frequency filter, the seven `ja_*` vectors have
`n` entries, and for every `t < n` the position `idx[t]` is a position of the
phenotype whose name is `bim_snp_name[to_include[t]]`, the entries
`ja_snp_name[t]`, `ja_freq[t]`, `ja_beta[t]`, `ja_beta_se[t]`, `ja_N_outcome[t]`
are the phenotype record at that position, `ja_chisq[t] = (beta / se)^2` and
`ja_pval[t] = pchisq(ja_chisq[t], 1)`, whatever the column `pval` of the file
holds.  The index list given to the first `update_inclusion` holds reference
positions, the one given to the second holds phenotype positions. -/
theorem harmonised_vectors_aligned (nm : Numerics) (ca : CondAnalysis) (pheno : Phenotype)
    (ref : Reference) (hnd : pheno.snp_name.Nodup) (hwf : RefWF ref) :
    (∀ res, match_gwas_phenotype nm ca pheno ref = .ok res →
      res.ca.to_include.length =
        ((List.range pheno.snp_name.length).filter (survives ca pheno ref)).length ∧
      (res.idx.length = res.ca.to_include.length ∧
        res.ca.ja_snp_name.length = res.ca.to_include.length ∧
        res.ca.ja_freq.length = res.ca.to_include.length ∧
        res.ca.ja_beta.length = res.ca.to_include.length ∧
        res.ca.ja_beta_se.length = res.ca.to_include.length ∧
        res.ca.ja_N_outcome.length = res.ca.to_include.length ∧
        res.ca.ja_chisq.length = res.ca.to_include.length ∧
        res.ca.ja_pval.length = res.ca.to_include.length) ∧
      ∀ t, t < res.ca.to_include.length →
        res.idx.getD t 0 < pheno.snp_name.length ∧
        ref.snp_map.lookup (pheno.snp_name.getD (res.idx.getD t 0) "")
          = some (res.ca.to_include.getD t 0) ∧
        pheno.snp_name.getD (res.idx.getD t 0) ""
          = ref.bim_snp_name.getD (res.ca.to_include.getD t 0) "" ∧
        res.ca.ja_snp_name.getD t "" = pheno.snp_name.getD (res.idx.getD t 0) "" ∧
        res.ca.ja_freq.getD t 0 = pheno.freq.getD (res.idx.getD t 0) 0 ∧
        res.ca.ja_beta.getD t 0 = pheno.beta.getD (res.idx.getD t 0) 0 ∧
        res.ca.ja_beta_se.getD t 0 = pheno.se.getD (res.idx.getD t 0) 0 ∧
        res.ca.ja_N_outcome.getD t 0 = pheno.n.getD (res.idx.getD t 0) 0 ∧
        res.ca.ja_chisq.getD t 0
          = (pheno.beta.getD (res.idx.getD t 0) 0 / pheno.se.getD (res.idx.getD t 0) 0)
            * (pheno.beta.getD (res.idx.getD t 0) 0 / pheno.se.getD (res.idx.getD t 0) 0) ∧
        res.ca.ja_pval.getD t 0 = nm.pchisq (res.ca.ja_chisq.getD t 0) 1) ∧
    (∀ r ∈ (first_loop pheno ref).idx, r < ref.bim_snp_name.length) ∧
    (∀ pv, match_gwas_phenotype nm ca { pheno with pval := pv } ref
      = match_gwas_phenotype nm ca pheno ref) := by
  refine ⟨?_, ?_, fun pv => rfl⟩
  · intro res hres
    obtain ⟨hidx, _, _, _, hinc, _, _⟩ := match_gwas_phenotype_ok nm ca pheno ref res hres
    obtain ⟨jn, jf, jb, js, jN, jc, jp⟩ := match_gwas_phenotype_ja nm ca pheno ref res hres
    have hlen : res.idx.length = res.ca.to_include.length := by
      rw [hidx, hinc, kept_alignment ca pheno ref hnd hwf, List.length_map]
    have hcl : res.ca.ja_chisq.length = res.ca.to_include.length := by
      rw [jc, List.length_map, List.length_range]
    refine ⟨by rw [hinc]; exact kept_count ca pheno ref hnd hwf,
      ⟨hlen, by rw [jn, List.length_map, List.length_range],
        by rw [jf, List.length_map, List.length_range],
        by rw [jb, List.length_map, List.length_range],
        by rw [js, List.length_map, List.length_range],
        by rw [jN, List.length_map, List.length_range], hcl,
        by rw [jp, List.length_map, hcl]⟩, ?_⟩
    intro t ht
    have ht' : t < (match_alleles ca pheno ref).ca.to_include.length := by rw [← hinc]; exact ht
    obtain ⟨r1, r2, _⟩ := kept_row ca pheno ref hnd hwf t ht'
    rw [← hidx] at r1 r2
    rw [← hinc] at r2
    have hr : t < (List.range res.ca.to_include.length).length := by
      rw [List.length_range]; exact ht
    have gb : res.ca.ja_beta.getD t 0 = pheno.beta.getD (res.idx.getD t 0) 0 := by
      rw [jb, getD_map_default _ _ t 0 0 hr, getD_range_of_lt _ _ _ ht]
    have gs : res.ca.ja_beta_se.getD t 0 = pheno.se.getD (res.idx.getD t 0) 0 := by
      rw [js, getD_map_default _ _ t 0 0 hr, getD_range_of_lt _ _ _ ht]
    have gc : res.ca.ja_chisq.getD t 0
        = (pheno.beta.getD (res.idx.getD t 0) 0 / pheno.se.getD (res.idx.getD t 0) 0)
          * (pheno.beta.getD (res.idx.getD t 0) 0 / pheno.se.getD (res.idx.getD t 0) 0) := by
      rw [jc, getD_map_default _ _ t 0 0 hr, getD_range_of_lt _ _ _ ht, gb, gs]
    refine ⟨r1, r2.1, ((hwf.lookup _ _ r2.1).2).symm, ?_, ?_, gb, gs, ?_, gc, ?_⟩
    · rw [jn, getD_map_default _ _ t 0 "" hr, getD_range_of_lt _ _ _ ht]
    · rw [jf, getD_map_default _ _ t 0 0 hr, getD_range_of_lt _ _ _ ht]
    · rw [jN, getD_map_default _ _ t 0 0 hr, getD_range_of_lt _ _ _ ht]
    · have hp : res.ca.ja_pval.getD t 0 = nm.pchisq (res.ca.ja_chisq.getD t 0) 1 := by
        have h := congrArg (fun l => l.getD t 0) jp
        simp only at h
        rw [h, getD_map_default _ _ t 0 0 (by rw [hcl]; exact ht)]
      exact hp
  · intro r hr
    obtain ⟨i, _, hc⟩ := (first_loop_idx pheno ref r).1 hr
    exact (hwf.lookup _ _ hc.1).1

/-- Instance of `harmonised_vectors_aligned` on the five-SNP instance: two SNPs are
kept, `rs1` and `rs2`, and row 1 carries the phenotype record of `rs2` with
`chisq = 25` and the recomputed p-value (the file has `pval = 0`). -/
theorem harmonised_vectors_aligned_witness :
    exPheno2.snp_name.Nodup ∧ RefWF exRef ∧
    ∃ res, match_gwas_phenotype exactNumerics exCa0 exPheno2 exRef = .ok res ∧
      res.ca.to_include.length = 2 ∧
      exPheno2.snp_name.getD (res.idx.getD 1 0) ""
        = exRef.bim_snp_name.getD (res.ca.to_include.getD 1 0) "" ∧
      res.ca.ja_snp_name.getD 1 "" = exPheno2.snp_name.getD (res.idx.getD 1 0) "" ∧
      res.ca.ja_pval.getD 1 0 = exactNumerics.pchisq (res.ca.ja_chisq.getD 1 0) 1 ∧
      res.idx = [0, 1] ∧ exPheno2.pval.getD 1 0 = 0 :=
  have hnd : exPheno2.snp_name.Nodup := by decide
  have hwf : RefWF exRef := ⟨by decide, rfl, rfl⟩
  have h := (harmonised_vectors_aligned exactNumerics exCa0 exPheno2 exRef hnd hwf).1
  ⟨hnd, hwf, by
    obtain ⟨res, hres⟩ := match_gwas_phenotype_returns exactNumerics exCa0 exPheno2 exRef 0
      (by decide!)
    obtain ⟨hidx, _, _, _, hinc, _, _⟩ :=
      match_gwas_phenotype_ok exactNumerics exCa0 exPheno2 exRef res hres
    have hn : res.ca.to_include.length = 2 := by rw [hinc]; decide!
    obtain ⟨_, _, hrow⟩ := h res hres
    obtain ⟨_, _, a3, a4, _, _, _, _, _, a10⟩ := hrow 1 (by rw [hn]; decide)
    exact ⟨res, hres, hn, a3, a4, a10, by rw [hidx]; decide!, rfl⟩⟩

/-! ## C14: when the selector returns nothing -/

/-- C14 (as stated, refuted): on the summary statistics `exPhenoB` with
`p_cutoff = 0.01` the top SNP `rs1` has `chisq = 16`, and its `ja_pval`
(`3/379` here, `6.3e-5` as a chi-square survival value) is below `p_cutoff`.
The first `select_entry` enters no SNP and returns false, which ends the main
loop.  In the final backward pass the joint `chisq` of `rs1` alone is about
`5.2`, whose p-value exceeds `0.01` (about `0.1` here, `0.023` as a survival
value), and the pass erases `rs1`.  `stepwise_select` returns an empty selected
set with `jma_snpnum_backward = 1`, and `find_independent_snps` raises the
empty-selection error. -/
theorem stepwise_select_empty_counterexample :
    ((exCaWith exPhenoB (1 / 100) (10 ^ 10)).ja_chisq,
      max_element (exCaWith exPhenoB (1 / 100) (10 ^ 10)).ja_chisq,
      (exCaWith exPhenoB (1 / 100) (10 ^ 10)).ja_pval.getD 0 0) = ([16, 1, 0, 16], 0, 3 / 379) ∧
    (3 / 379 : ℚ) < (exCaWith exPhenoB (1 / 100) (10 ^ 10)).a_p_cutoff ∧
    ((select_entry exactNumerics exRef
        { selection0 (exCaWith exPhenoB (1 / 100) (10 ^ 10)) with
          selected := [0], remain := [1, 2, 3] }).toOption.bind fun r =>
      (massoc_joint exactNumerics r.2.ca exRef r.2.selected).toOption.map fun j =>
        (r.1, r.2.selected, (j.2.b.getD 0 0 / j.2.se.getD 0 0) ^ 2,
          decide (r.2.ca.a_p_cutoff < j.2.p.getD 0 0)))
      = some (false, [0], 360000000000 / 69230555689, true) ∧
    ((stepwise_select exactNumerics exRef
        (selection0 (exCaWith exPhenoB (1 / 100) (10 ^ 10)))).toOption.map
      fun s => (s.selected, s.remain, s.ca.jma_snpnum_backward))
        = some (([] : List Nat), [1, 2, 3], 1) ∧
    errorOf (find_independent_snps exactNumerics (exCaWith exPhenoB (1 / 100) (10 ^ 10))
        pairwise0 exRef)
      = some "Conditional Error: No SNPs have been selected by the step-wise selection algorithm." := by
  refine ⟨by decide!, by decide!, by decide!, by decide!, by decide!⟩

/-- C14 (amended): started by `find_independent_snps`, `stepwise_select` takes the
early exit, leaving `selected` and `remain` empty and the state untouched,
when the argmax-chi-square SNP `m` has `ja_pval[m] ≥ p_cutoff`, and
`find_independent_snps` then raises the empty-selection error.  When
`ja_pval[m] < p_cutoff`, every returned state satisfies
`1 ≤ |selected| + (number of SNPs erased by backward elimination)`: the returned
set is empty only if `selected_stay` erased every SNP that was selected, and
the empty-selection error is raised exactly in that case. -/
theorem stepwise_select_empty (nm : Numerics) (ca : CondAnalysis) (pw : Pairwise)
    (ref : Reference) :
    let ca0 := if ca.a_top_snp ≤ 0 then { ca with a_top_snp := 10 ^ 10 } else ca
    (ca.a_p_cutoff ≤ ca.ja_pval.getD (max_element ca.ja_chisq) 0 →
      stepwise_select nm ref (selection0 ca0) = .ok (selection0 ca0) ∧
      find_independent_snps nm ca pw ref = .error
        "Conditional Error: No SNPs have been selected by the step-wise selection algorithm.") ∧
    (ca.ja_pval.getD (max_element ca.ja_chisq) 0 < ca.a_p_cutoff →
      ∀ s1, stepwise_select nm ref (selection0 ca0) = .ok s1 →
        1 + ca.jma_snpnum_backward ≤ s1.selected.length + s1.ca.jma_snpnum_backward ∧
        (s1.selected = [] → ca.jma_snpnum_backward < s1.ca.jma_snpnum_backward) ∧
        (find_independent_snps nm ca pw ref = .error
            "Conditional Error: No SNPs have been selected by the step-wise selection algorithm."
          ↔ s1.selected = [])) := by
  intro ca0
  have e1 : ca0.a_p_cutoff = ca.a_p_cutoff := by
    show (if ca.a_top_snp ≤ 0 then { ca with a_top_snp := 10 ^ 10 } else ca).a_p_cutoff = _
    split_ifs <;> rfl
  have e2 : ca0.ja_pval = ca.ja_pval := by
    show (if ca.a_top_snp ≤ 0 then { ca with a_top_snp := 10 ^ 10 } else ca).ja_pval = _
    split_ifs <;> rfl
  have e3 : ca0.ja_chisq = ca.ja_chisq := by
    show (if ca.a_top_snp ≤ 0 then { ca with a_top_snp := 10 ^ 10 } else ca).ja_chisq = _
    split_ifs <;> rfl
  have e4 : ca0.jma_snpnum_backward = ca.jma_snpnum_backward := by
    show (if ca.a_top_snp ≤ 0 then { ca with a_top_snp := 10 ^ 10 } else ca).jma_snpnum_backward
      = _
    split_ifs <;> rfl
  constructor
  · intro hcut
    have hst : stepwise_select nm ref (selection0 ca0) = .ok (selection0 ca0) := by
      unfold stepwise_select
      simp only
      have : (selection0 ca0).ca.a_p_cutoff
          ≤ (selection0 ca0).ca.ja_pval.getD (max_element (selection0 ca0).ca.ja_chisq) 0 := by
        show ca0.a_p_cutoff ≤ ca0.ja_pval.getD (max_element ca0.ja_chisq) 0
        rw [e1, e2, e3]; exact hcut
      rw [if_pos this]
    exact ⟨hst, (find_independent_snps_empty nm ca pw ref _ hst).2 rfl⟩
  · intro hcut s1 hst
    obtain ⟨_, hcase⟩ := stepwise_select_spec nm ref (selection0 ca0) s1 rfl rfl hst
    have hcount : 1 + ca.jma_snpnum_backward ≤ s1.selected.length + s1.ca.jma_snpnum_backward := by
      rcases hcase with ⟨hge, _⟩ | ⟨_, _, hc⟩
      · have hge' : ca0.a_p_cutoff ≤ ca0.ja_pval.getD (max_element ca0.ja_chisq) 0 := hge
        rw [e1, e2, e3] at hge'
        exact absurd hcut (not_lt.2 hge')
      · have hc' : 1 + ca0.jma_snpnum_backward
            ≤ s1.selected.length + s1.ca.jma_snpnum_backward := hc
        rw [e4] at hc'
        exact hc'
    refine ⟨hcount, fun hnil => ?_, find_independent_snps_empty nm ca pw ref s1 hst⟩
    rw [hnil] at hcount
    simp only [List.length_nil] at hcount
    omega

/-- Instance of `stepwise_select_empty`.  On the weak statistics `exPhenoW` with
the default `p_cutoff = 5e-8` the top SNP (`chisq = 16`) does not clear the
cutoff and the selector takes the early exit.  On `exPhenoE` with
`p_cutoff = 0.01` the top SNP `rs2` (`chisq = 2704/25`) clears it; `rs3` and
`rs4` enter, backward elimination erases `rs2`, and two SNPs are returned with
one erasure counted. -/
theorem stepwise_select_empty_witness :
    ((exCaWith exPhenoW (5 / 10 ^ 8) (10 ^ 10)).a_p_cutoff
        ≤ (exCaWith exPhenoW (5 / 10 ^ 8) (10 ^ 10)).ja_pval.getD
          (max_element (exCaWith exPhenoW (5 / 10 ^ 8) (10 ^ 10)).ja_chisq) 0 ∧
      find_independent_snps exactNumerics (exCaWith exPhenoW (5 / 10 ^ 8) (10 ^ 10))
          pairwise0 exRef = .error
        "Conditional Error: No SNPs have been selected by the step-wise selection algorithm.") ∧
    ((exCaWith exPhenoE (1 / 100) (10 ^ 10)).ja_pval.getD
        (max_element (exCaWith exPhenoE (1 / 100) (10 ^ 10)).ja_chisq) 0
      < (exCaWith exPhenoE (1 / 100) (10 ^ 10)).a_p_cutoff ∧
      ∃ s1, stepwise_select exactNumerics exRef
          (selection0 (exCaWith exPhenoE (1 / 100) (10 ^ 10))) = .ok s1 ∧
        s1.selected = [2, 3] ∧ s1.ca.jma_snpnum_backward = 1 ∧
        1 + (exCaWith exPhenoE (1 / 100) (10 ^ 10)).jma_snpnum_backward
          ≤ s1.selected.length + s1.ca.jma_snpnum_backward) :=
  ⟨⟨by decide!, ((stepwise_select_empty exactNumerics (exCaWith exPhenoW (5 / 10 ^ 8) (10 ^ 10))
      pairwise0 exRef).1 (by decide!)).2⟩,
    by decide!, by
      have h : ((stepwise_select exactNumerics exRef
          (selection0 (exCaWith exPhenoE (1 / 100) (10 ^ 10)))).toOption.map
        fun s => (s.selected, s.ca.jma_snpnum_backward)) = some ([2, 3], 1) := by decide!
      cases hs : stepwise_select exactNumerics exRef
          (selection0 (exCaWith exPhenoE (1 / 100) (10 ^ 10))) with
      | error e =>
        rw [hs] at h
        cases h
      | ok s1 =>
        rw [hs] at h
        simp only [Except.toOption, Option.map_some', Option.some.injEq, Prod.mk.injEq] at h
        have hs' : stepwise_select exactNumerics exRef (selection0
            (if (exCaWith exPhenoE (1 / 100) (10 ^ 10)).a_top_snp ≤ 0 then
              { exCaWith exPhenoE (1 / 100) (10 ^ 10) with a_top_snp := 10 ^ 10 }
             else exCaWith exPhenoE (1 / 100) (10 ^ 10))) = .ok s1 := by
          rw [if_neg (by decide!)]
          exact hs
        exact ⟨s1, rfl, h.1, h.2,
          ((stepwise_select_empty exactNumerics (exCaWith exPhenoE (1 / 100) (10 ^ 10))
            pairwise0 exRef).2 (by decide!) s1 hs').1⟩⟩

/-! ## C15: the bound `top_snp` -/

/-- C15 (failing input): with `top_snp = 1` and `p_cutoff = 1e-4` on the strong
summary statistics, `stepwise_select` returns two selected SNPs, `rs1` and `rs3`:
the top SNP is selected first, and the test `selected.size() >= a_top_snp` is
only reached after `select_entry` has added a second one.
`find_independent_snps` records `num_ind_snps = 2`. -/
theorem top_snp_one_selects_two :
    (exCaWith exPhenoS (1 / 10000) 1).a_top_snp = 1 ∧
    ((stepwise_select exactNumerics exRef
        (selection0 (exCaWith exPhenoS (1 / 10000) 1))).toOption.map
      fun s => (s.selected, s.remain, s.ca.jma_snpnum_backward, s.ca.jma_snpnum_collinear))
        = some ([0, 2], [1, 3], 0, 0) ∧
    ((find_independent_snps exactNumerics (exCaWith exPhenoS (1 / 10000) 1)
        pairwise0 exRef).toOption.map
      fun r => (r.2.ind_snps, r.2.num_ind_snps)) = some ([0, 2], 2) := by
  refine ⟨by decide!, by decide!, by decide!⟩

/-! ## A pairwise pass returns -/

/-- A pass that takes out one of at least two independent SNPs returns. -/
theorem pw_conditional_returns (nm : Numerics) (ca : CondAnalysis) (pw : Pairwise)
    (ref : Reference) (pos : Nat) (h2 : 2 ≤ pw.ind_snps.length) :
    ∃ r, pw_conditional nm ca pw ref (pos : Int) = .ok r := by
  obtain ⟨_, _, hc⟩ := pw_exclude_nat nm ca pw pos
  obtain ⟨ca2, hok, _⟩ := massoc_conditional_ok nm (pw_exclude nm ca pw (pos : Int)).1 ref
    (pw_exclude nm ca pw (pos : Int)).2.1 (pw_exclude nm ca pw (pos : Int)).2.2
    (Or.inl (by rw [hc]; omega))
  unfold pw_conditional
  simp only
  rw [hok]
  exact ⟨_, rfl⟩

/-! ## C16: what a pairwise pass emits -/

/-- C16 (failing input): in the state left by `find_independent_snps` on the
summary statistics `exPhenoL` with `p_cutoff = 0.01` (`ind_snps = [2, 3]`,
`remain_snps = [1]`), the pass `pw_conditional(0)` lists `rs4`, `rs2`, `rs3`.
For the remaining SNP `rs2` its call of `massoc_conditional` computes
`bC = 385257807/1562500000` and `bC_se = 31599/250000`, but the entries emitted
are the marginal `ja_beta = 1/4`, `ja_beta_se = 1/8` and `ja_pval = 3/19`. -/
theorem pw_conditional_emits_marginal :
    (exIndep.toOption.map fun r => (r.2.ind_snps, r.2.remain_snps, r.1.ja_beta.getD 1 0,
        r.1.ja_beta_se.getD 1 0, r.1.ja_pval.getD 1 0))
      = some ([2, 3], [1], 1 / 4, 1 / 8, 3 / 19) ∧
    ((exPass 0).toOption.map fun r => (r.2.snps_cond, r.2.b_cond, r.2.se_cond,
        r.2.p_cond.getD 1 0))
      = some (["rs4", "rs2", "rs3"], [39 / 10000, 1 / 4, 197 / 50000],
          [1 / 1000, 1 / 8, 1 / 1000], 3 / 19) ∧
    ((exPassCond 0).toOption.map fun r => (r.2.b, r.2.se, decide (r.2.p.getD 0 0 = 3 / 19)))
      = some ([385257807 / 1562500000, 197 / 50000], [31599 / 250000, 1 / 1000], false) := by
  refine ⟨by decide!, by decide!, by decide!⟩

/-! ## C17: the shape of the pairwise output -/

/-- C17 (as stated, refuted): on the summary statistics `exPhenoD` and the
reference `exRefD`, default options, there are `n = 4` harmonised SNPs.  The
selector takes `rs1` (`chisq = 2500`) and enters `rs2`; the next candidate `rs3`
is rejected for collinearity by `insert_B_Z` and erased from `remain`
(`jma_snpnum_collinear = 1`); `rs4` (`chisq = 1`) does not meet the cutoff.
`find_independent_snps` leaves `ind_snps = [0, 1]` and `remain_snps = [3]`, with
`rs3` in neither, and the pass `pw_conditional(0)` returns six vectors of three
entries, not four: `rs3` does not appear. -/
theorem pairwise_output_counterexample :
    (exCaD.to_include, exCaD.ja_chisq, exCaD.a_p_cutoff)
      = ([0, 1, 2, 3], [2500, 1600, 625, 1], 5 / 10 ^ 8) ∧
    (exIndepD.toOption.map fun r => (r.1.to_include.length, r.1.ja_snp_name, r.2.ind_snps,
        r.2.remain_snps, r.1.jma_snpnum_collinear, r.1.jma_snpnum_backward))
      = some (4, ["rs1", "rs2", "rs3", "rs4"], [0, 1], [3], 1, 0) ∧
    ((exPassD 0).toOption.map fun r => (r.2.snps_cond, r.2.cond_passed))
      = some (["rs2", "rs4", "rs1"], true) ∧
    ((exPassD 0).toOption.map fun r => [r.2.snps_cond.length, r.2.b_cond.length,
        r.2.se_cond.length, r.2.maf_cond.length, r.2.p_cond.length, r.2.n_cond.length])
      = some [3, 3, 3, 3, 3, 3] := by
  refine ⟨by decide!, by decide!, by decide!, by decide!⟩

/-- C17 (amended): in a state left by `find_independent_snps` (started where the
argmax-chi-square position is a harmonised SNP), with `S = ind_snps`,
`R = remain_snps` and `0 ≤ pos < |S|`: `S` and `R` hold positions of harmonised
SNPs without repetition, so `|S| + |R| ≤ n`; a pass `pw_conditional(pos)` over at
least two independent SNPs returns; and a pass that returns writes six parallel
vectors of `|S| + |R|` entries, the records of the `|S| - 1` still-selected SNPs
followed by those of `R` and then of the dropped SNP `S[pos]`, a rearrangement
of `S ++ R`; `cond_passed` is true, the conditional step having produced
`|R| + 1` values. -/
theorem pairwise_output_shape (nm : Numerics) (ca : CondAnalysis) (pw : Pairwise)
    (ref : Reference) (ca1 : CondAnalysis) (pw1 : Pairwise)
    (hfi : find_independent_snps nm ca pw ref = .ok (ca1, pw1))
    (hm : max_element ca.ja_chisq < ca.to_include.length)
    (pos : Nat) (hpos : pos < pw1.ind_snps.length) :
    (pw1.ind_snps ++ pw1.remain_snps).Nodup ∧
    (∀ j ∈ pw1.ind_snps ++ pw1.remain_snps, j < ca1.to_include.length) ∧
    pw1.ind_snps.length + pw1.remain_snps.length ≤ ca1.to_include.length ∧
    (pw1.ind_snps.eraseIdx pos ++ (pw1.remain_snps ++ [pw1.ind_snps.getD pos 0])).Perm
      (pw1.ind_snps ++ pw1.remain_snps) ∧
    (2 ≤ pw1.ind_snps.length → ∃ r, pw_conditional nm ca1 pw1 ref (pos : Int) = .ok r) ∧
    ∀ ca2 pw2, pw_conditional nm ca1 pw1 ref (pos : Int) = .ok (ca2, pw2) →
      pw2.snps_cond
        = (pw1.ind_snps.eraseIdx pos ++ (pw1.remain_snps ++ [pw1.ind_snps.getD pos 0])).map
          (fun j => ref.bim_snp_name.getD (ca1.to_include.getD j 0) "") ∧
      pw2.b_cond
        = (pw1.ind_snps.eraseIdx pos ++ (pw1.remain_snps ++ [pw1.ind_snps.getD pos 0])).map
          (fun j => ca1.ja_beta.getD j 0) ∧
      pw2.se_cond
        = (pw1.ind_snps.eraseIdx pos ++ (pw1.remain_snps ++ [pw1.ind_snps.getD pos 0])).map
          (fun j => ca1.ja_beta_se.getD j 0) ∧
      pw2.maf_cond
        = (pw1.ind_snps.eraseIdx pos ++ (pw1.remain_snps ++ [pw1.ind_snps.getD pos 0])).map
          (fun j => ca1.ja_freq.getD j 0) ∧
      pw2.p_cond
        = (pw1.ind_snps.eraseIdx pos ++ (pw1.remain_snps ++ [pw1.ind_snps.getD pos 0])).map
          (fun j => ca1.ja_pval.getD j 0) ∧
      pw2.n_cond
        = (pw1.ind_snps.eraseIdx pos ++ (pw1.remain_snps ++ [pw1.ind_snps.getD pos 0])).map
          (fun j => ca1.nD.getD j 0) ∧
      pw2.snps_cond.length = pw1.ind_snps.length + pw1.remain_snps.length ∧
      pw2.cond_passed = true := by
  obtain ⟨hnd, hlt⟩ := (find_independent_snps_spec nm ca pw ref ca1 pw1 hfi).2.2.2.2 hm
  obtain ⟨e1, e2, _⟩ := pw_exclude_nat nm ca1 pw1 pos
  have hlen : pw1.ind_snps.length + pw1.remain_snps.length ≤ ca1.to_include.length := by
    have hsub : (pw1.ind_snps ++ pw1.remain_snps).Subperm (List.range ca1.to_include.length) :=
      List.Nodup.subperm hnd (fun j hj => List.mem_range.2 (hlt j hj))
    have := hsub.length_le
    simpa using this
  have hperm : (pw1.ind_snps.eraseIdx pos
      ++ (pw1.remain_snps ++ [pw1.ind_snps.getD pos 0])).Perm
      (pw1.ind_snps ++ pw1.remain_snps) := by
    have h1 := perm_cons_eraseIdx pw1.ind_snps pos hpos
    have h2 : (pw1.ind_snps ++ pw1.remain_snps).Perm
        (pw1.ind_snps.getD pos 0 :: (pw1.ind_snps.eraseIdx pos ++ pw1.remain_snps)) :=
      List.Perm.append_right _ h1
    refine List.Perm.trans ?_ h2.symm
    rw [← List.append_assoc]
    exact List.perm_append_singleton _ _
  refine ⟨hnd, hlt, hlen, hperm, fun h2 => pw_conditional_returns nm ca1 pw1 ref pos h2, ?_⟩
  intro ca2 pw2 hp
  obtain ⟨_, o1, o2, o3, o4, o5, o6, o7⟩ := pw_conditional_out nm ca1 pw1 ref _ ca2 pw2 hp
  rw [e1, e2] at o1 o2 o3 o4 o5 o6
  rw [e2] at o7
  refine ⟨o1, o2, o3, o4, o5, o6, ?_, ?_⟩
  · rw [o1, List.length_map, hperm.length_eq, List.length_append]
  · rw [o7]
    simp

/-- Instance of `pairwise_output_shape` in the state left by
`find_independent_snps` on `exPhenoD` and `exRefD` (`ind_snps = [0, 1]`,
`remain_snps = [3]`), for `pos = 1`: the pass lists `rs1`, `rs4` and the dropped
`rs2`. -/
theorem pairwise_output_shape_witness :
    max_element exCaD.ja_chisq < exCaD.to_include.length ∧
    ∃ ca1 pw1, find_independent_snps exactNumerics exCaD pairwise0 exRefD = .ok (ca1, pw1) ∧
      pw1.ind_snps = [0, 1] ∧ pw1.remain_snps = [3] ∧ (1 : Nat) < pw1.ind_snps.length ∧
      ∃ ca2 pw2, pw_conditional exactNumerics ca1 pw1 exRefD ((1 : Nat) : Int) = .ok (ca2, pw2) ∧
        pw2.snps_cond = ["rs1", "rs4", "rs2"] ∧
        pw2.snps_cond.length = pw1.ind_snps.length + pw1.remain_snps.length ∧
        pw2.cond_passed = true :=
  ⟨by decide!, by
    have h : (exIndepD.toOption.map fun r => (r.2.ind_snps, r.2.remain_snps,
        r.1.to_include, r.1.ja_snp_name.length)) = some ([0, 1], [3], [0, 1, 2, 3], 4) := by
      decide!
    unfold exIndepD at h
    cases hs : find_independent_snps exactNumerics exCaD pairwise0 exRefD with
    | error e =>
      rw [hs] at h
      cases h
    | ok r =>
      obtain ⟨ca1, pw1⟩ := r
      rw [hs] at h
      simp only [Except.toOption, Option.map_some', Option.some.injEq, Prod.mk.injEq] at h
      obtain ⟨hind, hrem, hinc, _⟩ := h
      have hpos : (1 : Nat) < pw1.ind_snps.length := by rw [hind]; decide
      have hsh := pairwise_output_shape exactNumerics exCaD pairwise0 exRefD ca1 pw1 hs
        (by decide!) 1 hpos
      obtain ⟨r2, hr2⟩ := hsh.2.2.2.2.1 (by rw [hind]; decide)
      obtain ⟨ca2, pw2⟩ := r2
      obtain ⟨a1, _, _, _, _, _, a7, a8⟩ := hsh.2.2.2.2.2 ca2 pw2 hr2
      refine ⟨ca1, pw1, rfl, hind, hrem, hpos, ca2, pw2, hr2, ?_, a7, a8⟩
      rw [a1, hind, hrem, hinc]
      decide⟩

/-! ## C20: the residual variance `Ve` -/

/-- C20 (as stated, refuted): with the weak summary statistics and
`p_cutoff = 0.02 > 1e-3`, `stepwise_select` runs its backward phase and returns
`rs1` selected; the state it leaves has `jma_Ve = jma_Vp = 1`, whereas the `Ve`
update from the current joint effects, `massoc_calcu_Ve`, gives `783 / 896`. -/
theorem Ve_not_updated_counterexample :
    ((1 : ℚ) / 1000 < (exCaWith exPhenoW (1 / 50) (10 ^ 10)).a_p_cutoff) ∧
    ((stepwise_select exactNumerics exRef
        (selection0 (exCaWith exPhenoW (1 / 50) (10 ^ 10)))).toOption.map
      fun s => (s.selected, s.ca.jma_Ve, s.ca.jma_Vp,
        (massoc_calcu_Ve exactNumerics s.ca s.selected s.out.b
          (s.selected.map fun j => s.ca.ja_beta.getD j 0)).toOption))
      = some ([0], 1, 1, some (783 / 896)) := by
  refine ⟨by decide!, by decide!⟩

/-- C20 (amended): `Ve` starts equal to `Vp`, the variance reported by the
phenotype, and stays equal to it: the states returned by `stepwise_select`, by
`find_independent_snps` and by every pass `pw_conditional(pos)` have
`jma_Ve = jma_Vp = variance`, so `massoc_joint` and `massoc_conditional` always
use `Vp` as residual variance; the update `massoc_calcu_Ve` is not applied. -/
theorem Ve_stays_Vp (nm : Numerics) (ca : CondAnalysis) (pheno : Phenotype) (ref : Reference)
    (res : MatchResult) (h : init_conditional nm ca pheno ref = .ok res) :
    res.ca.jma_Ve = pheno.variance ∧ res.ca.jma_Vp = pheno.variance ∧
    (∀ s1, stepwise_select nm res.ref (selection0 res.ca) = .ok s1 →
      s1.ca.jma_Ve = pheno.variance ∧ s1.ca.jma_Vp = pheno.variance) ∧
    (∀ pw ca1 pw1, find_independent_snps nm res.ca pw res.ref = .ok (ca1, pw1) →
      ca1.jma_Ve = pheno.variance ∧ ca1.jma_Vp = pheno.variance ∧
      ∀ pos ca2 pw2, pw_conditional nm ca1 pw1 res.ref pos = .ok (ca2, pw2) →
        ca2.jma_Ve = pheno.variance ∧ ca2.jma_Vp = pheno.variance) := by
  obtain ⟨h1, h2⟩ := init_conditional_Ve nm ca pheno ref res h
  refine ⟨h1, h2, ?_, ?_⟩
  · intro s1 hs
    obtain ⟨a1, a2⟩ := stepwise_select_Ve nm res.ref res.ca s1 hs
    exact ⟨a1.trans h1, a2.trans h2⟩
  · intro pw ca1 pw1 hf
    obtain ⟨_, b2, b3, _⟩ := find_independent_snps_spec nm res.ca pw res.ref ca1 pw1 hf
    refine ⟨b3.trans h1, b2.trans h2, ?_⟩
    intro pos ca2 pw2 hp
    obtain ⟨c1, c2⟩ := pw_conditional_Ve nm ca1 pw1 res.ref pos ca2 pw2 hp
    exact ⟨c1.trans (b3.trans h1), c2.trans (b2.trans h2)⟩

/-- Instance of `Ve_stays_Vp` on the weak summary statistics with
`p_cutoff = 0.02`: `init_conditional` returns with `Ve = Vp = 1`, and the state
returned by `stepwise_select`, with `rs1` selected, still has `Ve = 1`. -/
theorem Ve_stays_Vp_witness :
    ∃ res, init_conditional exactNumerics
        { exCa0 with a_p_cutoff := 1 / 50, a_top_snp := 10 ^ 10 } exPhenoW exRef = .ok res ∧
      res.ca.jma_Ve = 1 ∧
      ∃ s1, stepwise_select exactNumerics res.ref (selection0 res.ca) = .ok s1 ∧
        s1.ca.jma_Ve = exPhenoW.variance := by
  cases hi : init_conditional exactNumerics
      { exCa0 with a_p_cutoff := 1 / 50, a_top_snp := 10 ^ 10 } exPhenoW exRef with
  | error e =>
    have h : ((init_conditional exactNumerics
        { exCa0 with a_p_cutoff := 1 / 50, a_top_snp := 10 ^ 10 } exPhenoW exRef).toOption.map
      fun r => r.ca.jma_Ve) = some 1 := by decide!
    rw [hi] at h
    cases h
  | ok res =>
    have hV := Ve_stays_Vp exactNumerics { exCa0 with a_p_cutoff := 1 / 50, a_top_snp := 10 ^ 10 }
      exPhenoW exRef res hi
    cases hs : stepwise_select exactNumerics res.ref (selection0 res.ca) with
    | error e =>
      have h : ((init_conditional exactNumerics
          { exCa0 with a_p_cutoff := 1 / 50, a_top_snp := 10 ^ 10 } exPhenoW exRef).toOption.bind
        fun r => (stepwise_select exactNumerics r.ref (selection0 r.ca)).toOption.map
          fun s => s.selected) = some [0] := by decide!
      rw [hi] at h
      simp only [Except.toOption, Option.bind] at h
      rw [hs] at h
      cases h
    | ok s1 =>
      exact ⟨res, rfl, hV.1, s1, hs, (hV.2.2.1 s1 hs).1⟩

/-! ## C21: two analyses on one reference -/

/-- C21 (failing input): `exPheno` and `exPhenoT` share `rs2` with different
effect alleles (`C` and `T`).  After the first harmonisation the analysis has
`to_include = [0, 1, 2, 3]`, working mean `mu[1] = 5/4`, the reference has
`ref_A[1] = C`, and `makex_eigenVector(1)` is the centred vector
`[-5/4, -1/4, 3/4, 3/4]`.  Harmonising the second phenotype writes
`ref_A[1] = T` into the shared reference; the first analysis, whose own tables
are untouched, then gets `[3/4, -1/4, -5/4, -5/4]` for the same SNP, a vector
that is no longer centred (its entries sum to `-2`). -/
theorem shared_reference_changes_genotypes :
    (exFirst.toOption.map fun a => (a.ca.to_include, a.ca.mu, a.ref.ref_A,
        makex_eigenVector a.ca a.ref 1))
      = some ([0, 1, 2, 3], [1, 5 / 4, 1, 1], ["A", "C", "G", "A"],
          [-5 / 4, -1 / 4, 3 / 4, 3 / 4]) ∧
    (exSecond.toOption.map fun b => (b.ref.ref_A, b.ref.bim_allele1, b.ca.mu))
      = some (["A", "T", "G", "A"], ["A", "C", "G", "A"], [1, 3 / 4, 1, 1]) ∧
    ((exFirstAfter 1).toOption.map fun x => (x, x.sum))
      = some ([3 / 4, -1 / 4, -5 / 4, -5 / 4], -2) ∧
    (exFirstAfter 0).toOption = some [-1, 0, 1, 0] := by
  refine ⟨by decide!, by decide!, by decide!, by decide!⟩

/-! ## C24: `select_entry` with no candidate left -/

/-- C24 (failing input): on `exPhenoC` and `exRefC` with the default options,
`stepwise_select` selects `rs1`, its first pass enters `rs2` and keeps both, and
it calls `select_entry` again with `selected = [0, 1]`, `remain = [2]`.  The one remaining SNP has a conditional
p-value below `p_cutoff`, and `insert_B_Z` rejects it for collinearity; the
loop erases it from `pC_temp` and `remain` and goes round again with both
vectors empty, where the source reads `pC_temp[0]`.  The call does not return
`false`. -/
theorem select_entry_runs_out :
    (exCaC.to_include.length, exCaC.a_p_cutoff, exCaC.a_collinear) = (3, 5 / 10 ^ 8, 9 / 10) ∧
    ((massoc_conditional exactNumerics exCaC exRefC [0, 1] [2]).toOption.map fun r =>
        (r.2.p.length, decide (r.2.p.getD (min_element r.2.p) 0 < r.1.a_p_cutoff),
          (insert_B_Z exactNumerics r.1 exRefC [0, 1] 2).1))
      = some (1, true, false) ∧
    errorOf (select_entry exactNumerics exRefC
        { selection0 exCaC with selected := [0, 1], remain := [2] })
      = some "select_entry: pC_temp is empty" ∧
    (((select_entry exactNumerics exRefC
        { selection0 exCaC with selected := [0], remain := [1, 2] }).toOption.bind fun r =>
        (selected_stay exactNumerics exRefC r.2).toOption.map fun s =>
          (r.1, s.selected, s.remain))
      = some (true, [0, 1], [2])) ∧
    errorOf (stepwise_select exactNumerics exRefC (selection0 exCaC))
      = some "select_entry: pC_temp is empty" := by
  refine ⟨by decide!, by decide!, by decide!, by decide!, by decide!⟩

/-! ## Backward elimination, pass by pass -/

theorem max_element_ge (v : List ℚ) :
    ∀ i, i < v.length → v.getD i 0 ≤ v.getD (max_element v) 0 := by
  unfold max_element
  exact foldl_range_inv (fun best i => if v.getD best 0 < v.getD i 0 then i else best)
    (fun k best => ∀ i, i < k → v.getD i 0 ≤ v.getD best 0) v.length 0
    (fun i hi => absurd hi (Nat.not_lt_zero i))
    (fun k st _ hst i hi => by
      dsimp only
      rcases Nat.lt_succ_iff_lt_or_eq.1 hi with h | h
      · split_ifs with hlt
        · exact le_trans (hst i h) (le_of_lt hlt)
        · exact hst i h
      · subst h
        split_ifs with hlt
        · exact le_refl _
        · exact not_lt.1 hlt)

theorem min_element_le (v : List ℚ) :
    ∀ i, i < v.length → v.getD (min_element v) 0 ≤ v.getD i 0 := by
  unfold min_element
  exact foldl_range_inv (fun best i => if v.getD i 0 < v.getD best 0 then i else best)
    (fun k best => ∀ i, i < k → v.getD best 0 ≤ v.getD i 0) v.length 0
    (fun i hi => absurd hi (Nat.not_lt_zero i))
    (fun k st _ hst i hi => by
      dsimp only
      rcases Nat.lt_succ_iff_lt_or_eq.1 hi with h | h
      · split_ifs with hlt
        · exact le_trans (le_of_lt hlt) (hst i h)
        · exact hst i h
      · subst h
        split_ifs with hlt
        · exact le_refl _
        · exact not_lt.1 hlt)

theorem init_b_B_N_cols (nm : Numerics) (ca : CondAnalysis) (ref : Reference) (idx : List Nat) :
    (init_b nm ca ref idx).2.B_N.cols = idx.length := by
  rw [(init_b_matrices nm ca ref idx).2.1]
  exact (init_b_loops_spec nm ca ref idx).2.2.2.1

/-- A lazy initialisation that succeeds leaves a built `B_N`. -/
theorem ensure_b_cols (nm : Numerics) (ca ca1 : CondAnalysis) (ref : Reference)
    (idx : List Nat) (msg : String) (h : ensure_b nm ca ref idx msg = .ok ca1)
    (hne : idx ≠ []) : 1 ≤ ca1.B_N.cols := by
  unfold ensure_b at h
  by_cases hc : ca.B_N.cols < 1
  · rw [if_pos hc] at h
    have hcols := init_b_B_N_cols nm ca ref idx
    rcases hi : init_b nm ca ref idx with ⟨b, ca2⟩
    rw [hi] at h hcols
    cases b
    · cases h
    · simp only [Except.ok.injEq] at h
      subst h
      simp only at hcols
      rw [hcols]
      exact List.length_pos.2 hne
  · rw [if_neg hc] at h
    simp only [Except.ok.injEq] at h
    subst h
    omega

/-- A lazy initialisation fails only with its own message, on matrices not yet
built, when `init_b` reports collinearity. -/
theorem ensure_b_error (nm : Numerics) (ca : CondAnalysis) (ref : Reference)
    (idx : List Nat) (msg e : String) (h : ensure_b nm ca ref idx msg = .error e) :
    e = msg ∧ ca.B_N.cols < 1 ∧ (init_b nm ca ref idx).1 = false := by
  unfold ensure_b at h
  by_cases hc : ca.B_N.cols < 1
  · rw [if_pos hc] at h
    rcases hi : init_b nm ca ref idx with ⟨b, ca2⟩
    rw [hi] at h
    cases b
    · simp only [Except.error.injEq] at h
      exact ⟨h.symm, hc, rfl⟩
    · cases h
  · rw [if_neg hc] at h
    cases h

/-- On built matrices `massoc_joint` returns and leaves the state as it is. -/
theorem massoc_joint_built (nm : Numerics) (ca : CondAnalysis) (ref : Reference)
    (S : List Nat) (hB : 1 ≤ ca.B_N.cols) :
    ∃ out, massoc_joint nm ca ref S = .ok (ca, out) ∧ out.p.length = S.length := by
  obtain ⟨ca1, h1, h2⟩ := massoc_joint_ok nm ca ref S (Or.inl hB)
  have := h2 hB
  subst this
  exact ⟨_, h1, (massoc_joint_scalars nm _ _ ref S _ h1).2.2⟩

theorem selected_stay_loop_succ (nm : Numerics) (ref : Reference) (fuel : Nat)
    (s : Selection) :
    selected_stay_loop nm ref (fuel + 1) s =
      match selected_stay_pass nm ref s with
      | .error e => .error e
      | .ok (true, u) => selected_stay_loop nm ref fuel u
      | .ok (false, u) => .ok u := by
  simp only [selected_stay_loop, selected_stay_pass]
  cases hj : massoc_joint nm s.ca ref s.selected with
  | error e => rfl
  | ok r =>
    obtain ⟨ca1, out⟩ := r
    simp only
    by_cases hcut : ca1.a_p_cutoff < out.p.getD (max_element out.p) 0
    · rw [if_pos hcut, if_pos hcut]
    · rw [if_neg hcut, if_neg hcut]

/-- What a pass of the loop of `selected_stay` does on built matrices. -/
theorem selected_stay_pass_built (nm : Numerics) (ref : Reference) (s : Selection)
    (hB : 1 ≤ s.ca.B_N.cols) :
    ∃ out, massoc_joint nm s.ca ref s.selected = .ok (s.ca, out) ∧
      out.p.length = s.selected.length ∧
      selected_stay_pass nm ref s =
        if s.ca.a_p_cutoff < out.p.getD (max_element out.p) 0 then
          .ok (true,
            { s with
              ca := erase_B_and_Z nm
                { s.ca with jma_snpnum_backward := s.ca.jma_snpnum_backward + 1 }
                s.selected (s.selected.getD (max_element out.p) 0)
              selected := s.selected.eraseIdx (max_element out.p)
              out := out })
        else .ok (false, { s with out := out }) := by
  obtain ⟨out, h1, h2⟩ := massoc_joint_built nm s.ca ref s.selected hB
  refine ⟨out, h1, h2, ?_⟩
  simp only [selected_stay_pass, h1]

theorem erase_Z_loops_Z_N_cols (ca : CondAnalysis) (idx : List Nat) (e : Nat) :
    (erase_Z_loops ca idx e).Z_N.cols = ca.to_include.length := by
  unfold erase_Z_loops
  refine foldl_preserves _ (fun s : ZLoop => s.Z_N.cols = ca.to_include.length) ?_ _ _ rfl
  intro s j hs
  unfold erase_Z_outer
  refine foldl_preserves _ (fun s : ZLoop => s.Z_N.cols = ca.to_include.length) ?_ _ _ hs
  intro s i hs
  unfold erase_Z_inner
  split_ifs <;> exact hs

/-- A lazy initialisation leaves `Z_N` as it is. -/
theorem ensure_b_Z_N (nm : Numerics) (ca ca1 : CondAnalysis) (ref : Reference)
    (idx : List Nat) (msg : String) (h : ensure_b nm ca ref idx msg = .ok ca1) :
    ca1.Z_N = ca.Z_N := by
  unfold ensure_b at h
  by_cases hc : ca.B_N.cols < 1
  · rw [if_pos hc] at h
    have hf := (init_b_frame nm ca ref idx).2.2.2
    rcases hi : init_b nm ca ref idx with ⟨b, ca2⟩
    rw [hi] at h hf
    cases b
    · cases h
    · simp only [Except.ok.injEq] at h
      subst h
      exact hf
  · rw [if_neg hc] at h
    simp only [Except.ok.injEq] at h
    subst h
    rfl

/-- The loop of `selected_stay` on built matrices: it ends after erasing `k`
SNPs, at an empty selection or at one whose joint p-values are all within the
cutoff.  With `Z_N` built every erasure recomputes the inverses `B_i`, `B_N_i`
from the shrunk matrices. -/
theorem selected_stay_loop_runs (nm : Numerics) (ref : Reference) :
    ∀ (fuel : Nat) (s : Selection), s.selected.length = fuel →
      (s.selected ≠ [] → 1 ≤ s.ca.B_N.cols) →
      ∃ k s1, StayRuns nm ref k s (.ok s1) ∧
        selected_stay_loop nm ref fuel s = .ok s1 ∧
        (s1.selected = [] ∨
          (massoc_joint nm s1.ca ref s1.selected = .ok (s1.ca, s1.out) ∧
            s1.out.p.length = s1.selected.length ∧
            ∀ i, i < s1.selected.length → s1.out.p.getD i 0 ≤ s1.ca.a_p_cutoff)) ∧
        s1.selected.Sublist s.selected ∧
        s1.selected.length + k = s.selected.length ∧
        s1.ca.jma_snpnum_backward = s.ca.jma_snpnum_backward + k ∧
        s1.remain = s.remain ∧
        (k = 0 → s1.ca = s.ca) ∧
        (1 ≤ s.ca.Z_N.cols → 1 ≤ s.ca.to_include.length → 0 < k →
          s1.ca.B_i = nm.ldlt_solve s1.ca.B.toDense ∧
          s1.ca.B_N_i = nm.ldlt_solve s1.ca.B_N.toDense) := by
  intro fuel
  induction fuel with
  | zero =>
    intro s hl _
    have he : s.selected = [] := List.length_eq_zero.1 hl
    exact ⟨0, s, StayRuns.empty s he, rfl, Or.inl he, List.Sublist.refl _, rfl, rfl, rfl,
      fun _ => rfl, fun _ _ h => absurd h (lt_irrefl 0)⟩
  | succ fuel ih =>
    intro s hl hB
    have hne : s.selected ≠ [] := by
      intro e; rw [e] at hl; cases hl
    obtain ⟨out, hj, hlen, hp⟩ := selected_stay_pass_built nm ref s (hB hne)
    rw [selected_stay_loop_succ]
    by_cases hcut : s.ca.a_p_cutoff < out.p.getD (max_element out.p) 0
    · rw [if_pos hcut] at hp
      have hm : max_element out.p < s.selected.length := by
        rw [← hlen]
        exact max_element_lt _ (by intro e; rw [e, hl] at hlen; cases hlen)
      have hlen1 : (s.selected.eraseIdx (max_element out.p)).length = fuel := by
        rw [length_eraseIdx_of_lt _ _ hm, hl]; rfl
      obtain ⟨k, s1, r1, r2, r3, r4, r5, r6, r7, r8, r9⟩ := ih
        { s with
          ca := erase_B_and_Z nm
            { s.ca with jma_snpnum_backward := s.ca.jma_snpnum_backward + 1 }
            s.selected (s.selected.getD (max_element out.p) 0)
          selected := s.selected.eraseIdx (max_element out.p)
          out := out } hlen1
        (fun hne1 => by
          simp only
          rw [erase_B_and_Z_cols]
          have : 0 < (s.selected.eraseIdx (max_element out.p)).length :=
            List.length_pos.2 hne1
          rw [hlen1] at this
          omega)
      refine ⟨k + 1, s1, StayRuns.erase s _ k _ hne hp r1, ?_, r3,
        r4.trans (List.eraseIdx_sublist _ _), ?_, ?_, r7, fun h => absurd h (Nat.succ_ne_zero k),
        ?_⟩
      · rw [hp]
        exact r2
      · simp only at r5
        rw [hlen1] at r5
        omega
      · rw [r6]
        simp only
        rw [(erase_B_and_Z_scalars nm _ _ _).2]
        simp only
        omega
      · intro hz hn _
        have hst := erase_B_and_Z_state nm
          { s.ca with jma_snpnum_backward := s.ca.jma_snpnum_backward + 1 }
          s.selected (s.selected.getD (max_element out.p) 0) hz
        rcases Nat.eq_zero_or_pos k with hk | hk
        · have := r8 hk
          simp only at this
          rw [this, hst]
          exact ⟨rfl, rfl⟩
        · refine r9 ?_ ?_ hk
          · simp only
            rw [hst]
            simp only
            rw [erase_Z_loops_Z_N_cols]
            exact hn
          · simp only
            rw [(erase_B_and_Z_tables nm _ _ _).to_include]
            exact hn
    · rw [if_neg hcut] at hp
      refine ⟨0, { s with out := out }, StayRuns.stop s _ hne hp, ?_, Or.inr ⟨hj, hlen, ?_⟩,
        List.Sublist.refl _, rfl, rfl, rfl, fun _ => rfl, fun _ _ h => absurd h (lt_irrefl 0)⟩
      · rw [hp]
      · intro i hi
        have := max_element_ge out.p i (by rw [hlen]; exact hi)
        exact le_trans this (not_lt.1 hcut)

/-! ## C23: the main loop ends -/

/-- C23: `stepwise_select`, called with empty vectors on `n` harmonised SNPs,
either takes its early exit or runs its main loop from `selected = [m]` and the
other `n - 1` positions in `remain`.  No call adds to `remain`: `select_entry`
leaves a sublist of it, shorter when it returns `true`, and `selected_stay`
leaves it as it is; so every pass after which the loop goes round again has
made `remain` shorter, and the loop ends after at most `n - 1` passes of its
body, with a result or with the error of one of its calls. -/
theorem stepwise_select_terminates (nm : Numerics) (ref : Reference) (s : Selection)
    (hs : s.selected = []) (hr : s.remain = [])
    (hlen : s.ca.ja_chisq.length = s.ca.to_include.length) :
    (∀ t b u, select_entry nm ref t = .ok (b, u) →
      u.remain.Sublist t.remain ∧ (b = true → u.remain.length < t.remain.length)) ∧
    (∀ t u, selected_stay nm ref t = .ok u → u.remain = t.remain) ∧
    (∀ t u, stepwise_pass nm ref t = .ok (true, u) →
      u.remain.Sublist t.remain ∧ u.remain.length < t.remain.length) ∧
    ((s.ca.a_p_cutoff ≤ s.ca.ja_pval.getD (max_element s.ca.ja_chisq) 0 ∧
        stepwise_select nm ref s = .ok s) ∨
      (s.ca.ja_pval.getD (max_element s.ca.ja_chisq) 0 < s.ca.a_p_cutoff ∧
        ∃ k r, k ≤ s.ca.to_include.length - 1 ∧
          StepwiseRuns nm ref k
            { s with
              selected := [max_element s.ca.ja_chisq]
              remain := (List.range s.ca.to_include.length).filter fun i =>
                i != max_element s.ca.ja_chisq } r ∧
          stepwise_select nm ref s =
            match r with
            | .error e => .error e
            | .ok s2 => if 1 / 1000 < s2.ca.a_p_cutoff then selected_stay nm ref s2
                else .ok s2)) := by
  refine ⟨fun t b u h => ⟨select_entry_remain nm ref t u b h,
      (select_entry_spec nm ref t u b h).2.2.2.1 |> fun a hb => (a hb).2⟩,
    fun t u h => (selected_stay_spec nm ref t u h).2.1,
    fun t u h => ⟨(stepwise_pass_remain nm ref t u true h).1,
      (stepwise_pass_remain nm ref t u true h).2 rfl⟩, ?_⟩
  by_cases hcut : s.ca.a_p_cutoff ≤ s.ca.ja_pval.getD (max_element s.ca.ja_chisq) 0
  · left
    refine ⟨hcut, ?_⟩
    unfold stepwise_select
    simp only
    rw [if_pos hcut]
  · right
    refine ⟨not_le.1 hcut, ?_⟩
    have hrem : ((List.range s.ca.to_include.length).filter fun i =>
        i != max_element s.ca.ja_chisq).length ≤ s.ca.to_include.length - 1 := by
      by_cases hn : s.ca.ja_chisq = []
      · have h0 : s.ca.to_include.length = 0 := by rw [← hlen, hn]; rfl
        rw [h0]
        simp
      · have hm := max_element_lt _ hn
        rw [hlen] at hm
        rw [length_filter_ne_range _ _ hm]
    obtain ⟨k, r, hk, hrun, heq⟩ := stepwise_loop_runs nm ref
      ((List.range s.ca.to_include.length).filter fun i =>
        i != max_element s.ca.ja_chisq).length
      { s with
        selected := [max_element s.ca.ja_chisq]
        remain := (List.range s.ca.to_include.length).filter fun i =>
          i != max_element s.ca.ja_chisq } (le_refl _)
    refine ⟨k, r, le_trans hk hrem, hrun, ?_⟩
    unfold stepwise_select
    simp only
    rw [if_neg hcut, hs, hr]
    simp only [List.nil_append]
    rw [heq]

/-- Instance of `stepwise_select_terminates` on the four harmonised SNPs of
`exPhenoL` with `p_cutoff = 0.01`: the top SNP is `rs1`, and the main loop ends
after at most three passes. -/
theorem stepwise_select_terminates_witness :
    ((exCaWith exPhenoL (1 / 100) (10 ^ 10)).to_include.length,
      max_element (exCaWith exPhenoL (1 / 100) (10 ^ 10)).ja_chisq) = (4, 0) ∧
    ∃ k r, k ≤ 3 ∧
      StepwiseRuns exactNumerics exRef k
        { selection0 (exCaWith exPhenoL (1 / 100) (10 ^ 10)) with
          selected := [0], remain := [1, 2, 3] } r ∧
      stepwise_select exactNumerics exRef (selection0 (exCaWith exPhenoL (1 / 100) (10 ^ 10))) =
        match r with
        | .error e => .error e
        | .ok s2 => if 1 / 1000 < s2.ca.a_p_cutoff then selected_stay exactNumerics exRef s2
            else .ok s2 := by
  refine ⟨by decide!, ?_⟩
  have hn : (exCaWith exPhenoL (1 / 100) (10 ^ 10)).to_include.length = 4 := by decide!
  have hm : max_element (exCaWith exPhenoL (1 / 100) (10 ^ 10)).ja_chisq = 0 := by decide!
  rcases (stepwise_select_terminates exactNumerics exRef
      (selection0 (exCaWith exPhenoL (1 / 100) (10 ^ 10))) rfl rfl (by decide!)).2.2.2 with h | h
  · exact absurd h.1 (by decide!)
  · obtain ⟨_, k, r, hk, hrun, heq⟩ := h
    simp only [selection0] at hrun hk
    rw [hn] at hk hrun
    rw [hm] at hrun
    exact ⟨k, r, hk, hrun, heq⟩

/-! ## The selector keeps its matrices in step -/

theorem holds_congr (nm : Numerics) (ref : Reference) {ca ca1 : CondAnalysis} (S : List Nat)
    (ht : SameTables ca ca1) (hB : ca1.B = ca.B) (hBN : ca1.B_N = ca.B_N)
    (hZ : ca1.Z = ca.Z) (hZN : ca1.Z_N = ca.Z_N) (hD : ca1.D_N = ca.D_N)
    (h : Holds nm ca ref S) : Holds nm ca1 ref S := by
  refine ⟨?_, ?_, ?_, ?_, ?_, ?_, ?_, ?_, ?_, ?_, ?_, ?_⟩
  · rw [hB]; exact h.B_rows
  · rw [hB]; exact h.B_cols
  · rw [hBN]; exact h.B_N_rows
  · rw [hBN]; exact h.B_N_cols
  · rw [hZ]; exact h.Z_rows
  · rw [hZ, ht.to_include]; exact h.Z_cols
  · rw [hZN]; exact h.Z_N_rows
  · rw [hZN, ht.to_include]; exact h.Z_N_cols
  · rw [hD]; exact h.D_N_size
  · intro a
    rw [hD, D_N_entry_congr ht]
    exact h.D_N a
  · intro a b hab
    rw [hB, hBN, B_entry_congr ht ref, B_N_entry_congr ht nm ref]
    exact h.B_off a b hab
  · intro a b
    rw [hZ, hZN, Z_entry_congr ht ref, Z_N_entry_congr ht nm ref]
    exact h.Z a b

theorem holds_diag_congr (nm : Numerics) (ref : Reference) {ca ca1 : CondAnalysis}
    (S : List Nat) (ht : SameTables ca ca1) (hB : ca1.B = ca.B) (hBN : ca1.B_N = ca.B_N)
    (h : HoldsDiag nm ca ref S) : HoldsDiag nm ca1 ref S := by
  intro a
  rw [hB, hBN, B_entry_congr ht ref, B_N_entry_congr ht nm ref]
  exact h a

/-- After `init_b(S)` on a state whose `Z`, `Z_N` are those of `S`, the state
holds all the matrices of `S`. -/
theorem init_b_holds (nm : Numerics) (ca : CondAnalysis) (ref : Reference) (S : List Nat)
    (h : Holds nm ca ref S) :
    Holds nm (init_b nm ca ref S).2 ref S ∧ HoldsDiag nm (init_b nm ca ref S).2 ref S := by
  have ht := init_b_tables nm ca ref S
  obtain ⟨mB, mBN, mD, mZ, mZN⟩ := init_b_matrices nm ca ref S
  obtain ⟨s1, s2, s3, s4, s5, s6, _, s8⟩ := init_b_loops_spec nm ca ref S
  refine ⟨⟨?_, ?_, ?_, ?_, ?_, ?_, ?_, ?_, ?_, ?_, ?_, ?_⟩, ?_⟩
  · rw [mB]; exact s1
  · rw [mB]; exact s2
  · rw [mBN]; exact s3
  · rw [mBN]; exact s4
  · rw [mZ]; exact h.Z_rows
  · rw [mZ, ht.to_include]; exact h.Z_cols
  · rw [mZN]; exact h.Z_N_rows
  · rw [mZN, ht.to_include]; exact h.Z_N_cols
  · rw [mD]; exact s5
  · intro a
    rw [mD, D_N_entry_congr ht]
    exact s6 a
  · intro a b _
    rw [mB, mBN, B_entry_congr ht ref, B_N_entry_congr ht nm ref]
    exact s8 a b
  · intro a b
    rw [mZ, mZN, Z_entry_congr ht ref, Z_N_entry_congr ht nm ref]
    exact h.Z a b
  · intro a
    rw [mB, mBN, B_entry_congr ht ref, B_N_entry_congr ht nm ref]
    exact s8 a a

/-- After the lazy initialisation of `massoc_conditional` the state holds the
matrices of the selected set, whether they were built before or not. -/
theorem massoc_conditional_inv (nm : Numerics) (ref : Reference) (ca ca1 : CondAnalysis)
    (S R : List Nat) (out : Assoc) (hb : ∀ j ∈ S, j < ca.to_include.length)
    (hmat : Fresh ca ∨ (Holds nm ca ref S ∧ HoldsDiag nm ca ref S))
    (h : massoc_conditional nm ca ref S R = .ok (ca1, out)) :
    Holds nm ca1 ref S ∧ HoldsDiag nm ca1 ref S ∧ SameTables ca ca1 := by
  unfold massoc_conditional at h
  cases he : ensure_b nm ca ref S
      "Conditional Error: There is a collinearity problem with the SNPs given." with
  | error e => rw [he] at h; cases h
  | ok ca2 =>
    rw [he] at h
    simp only [Except.ok.injEq, Prod.mk.injEq] at h
    obtain ⟨h1, _⟩ := h
    unfold ensure_b at he
    by_cases hc : ca.B_N.cols < 1
    · rw [if_pos hc] at he
      have hca2 : ca2 = (init_b nm ca ref S).2 := by
        rcases hi : init_b nm ca ref S with ⟨b, ca3⟩
        rw [hi] at he
        cases b
        · cases he
        · simp only [Except.ok.injEq] at he
          exact he.symm
      subst hca2
      by_cases hz : (init_b nm ca ref S).2.Z_N.cols < 1
      · rw [if_pos hz] at h1
        subst h1
        obtain ⟨a1, a2, a3⟩ := init_holds nm ca ref S
        exact ⟨a2, a3, a1⟩
      · rw [if_neg hz] at h1
        subst h1
        rcases hmat with hf | hh
        · exfalso
          apply hz
          rw [(init_b_matrices nm ca ref S).2.2.2.2, hf.2]
          exact Nat.zero_lt_one
        · obtain ⟨a1, a2⟩ := init_b_holds nm ca ref S hh.1
          exact ⟨a1, a2, init_b_tables nm ca ref S⟩
    · rw [if_neg hc] at he
      simp only [Except.ok.injEq] at he
      subst he
      rcases hmat with hf | hh
      · exfalso
        apply hc
        rw [hf.1]
        exact Nat.zero_lt_one
      · by_cases hz : ca.Z_N.cols < 1
        · exfalso
          have hn : ca.to_include.length = 0 := by
            have := hh.1.Z_N_cols
            omega
          have hS : 0 < S.length := by
            have := hh.1.B_N_cols
            omega
          have := hb _ (getD_mem_of_lt S 0 hS)
          omega
        · rw [if_neg hz] at h1
          subst h1
          exact ⟨hh.1, hh.2, SameTables.refl _⟩

/-- The loop of `select_entry` keeps the selector invariant. -/
theorem select_entry_loop_inv (nm : Numerics) (ref : Reference) :
    ∀ (fuel : Nat) (s : Selection) (pC : List ℚ) (b : Bool) (s1 : Selection),
      pC.length = fuel → s.remain.length = fuel → SelInv nm ref s →
      select_entry_loop nm ref fuel s pC = .ok (b, s1) → SelInv nm ref s1 := by
  intro fuel
  induction fuel with
  | zero =>
    intro s pC b s1 _ _ _ h
    simp only [select_entry_loop] at h
    cases h
  | succ fuel ih =>
    intro s pC b s1 hp hr hinv h
    have hne : pC ≠ [] := by
      intro e; rw [e] at hp; cases hp
    have hm : min_element pC < s.remain.length := by
      rw [hr, ← hp]; exact min_element_lt pC hne
    simp only [select_entry_loop] at h
    by_cases hcut : s.ca.a_p_cutoff ≤ pC.getD (min_element pC) 0
    · rw [if_pos hcut] at h
      simp only [Except.ok.injEq, Prod.mk.injEq] at h
      obtain ⟨_, hs⟩ := h
      subst hs
      exact hinv
    · rw [if_neg hcut] at h
      have hmem : s.remain.getD (min_element pC) 0 ∈ s.remain := getD_mem_of_lt _ _ hm
      have hnotin : s.remain.getD (min_element pC) 0 ∉ s.selected := fun hin =>
        (List.nodup_append.1 hinv.vectors.nodup).2.2 hin hmem
      have hposn : s.remain.getD (min_element pC) 0 < s.ca.to_include.length :=
        hinv.vectors.bound _ (List.mem_append_right _ hmem)
      have htab := insert_B_Z_tables nm s.ca ref s.selected (s.remain.getD (min_element pC) 0)
      rcases hi : insert_B_Z nm s.ca ref s.selected (s.remain.getD (min_element pC) 0) with
        ⟨ok, ca1⟩
      have hca : ca1 = (insert_B_Z nm s.ca ref s.selected
          (s.remain.getD (min_element pC) 0)).2 := by rw [hi]
      rw [hi] at h
      cases ok
      · simp only at h
        have hrej := insert_B_Z_reject nm s.ca ref s.selected
          (s.remain.getD (min_element pC) 0) (by rw [hi])
        rw [← hca] at hrej htab
        have hlen1 : (pC.eraseIdx (min_element pC)).length = fuel := by
          rw [length_eraseIdx_of_lt _ _ (by rw [hp, ← hr]; exact hm), hp]; rfl
        have hlen2 : (s.remain.eraseIdx (min_element pC)).length = fuel := by
          rw [length_eraseIdx_of_lt _ _ hm, hr]; rfl
        have hsub : (s.selected ++ s.remain.eraseIdx (min_element pC)).Sublist
            (s.selected ++ s.remain) :=
          List.Sublist.append_left (List.eraseIdx_sublist _ _) _
        refine ih { s with ca := ca1, remain := s.remain.eraseIdx (min_element pC) } _ b s1
          hlen1 hlen2 ⟨⟨hinv.vectors.sorted, ?_, ?_⟩, ?_, ?_⟩ h
        · exact List.Nodup.sublist hsub hinv.vectors.nodup
        · intro j hj
          simp only
          rw [htab.to_include]
          exact hinv.vectors.bound j (hsub.subset hj)
        · exact holds_congr nm ref _ htab (by rw [hrej]) (by rw [hrej]) (by rw [hrej])
            (by rw [hrej]) (by rw [hrej]) hinv.holds
        · exact holds_diag_congr nm ref _ htab (by rw [hrej]) (by rw [hrej]) hinv.diag
      · simp only [Except.ok.injEq, Prod.mk.injEq] at h
        obtain ⟨_, hs⟩ := h
        subst hs
        obtain ⟨p, hix⟩ := insert_ix_at s.selected (s.remain.getD (min_element pC) 0)
          hinv.vectors.sorted hnotin
        obtain ⟨a1, a2⟩ := insert_holds nm s.ca ref s.selected
          (s.remain.getD (min_element pC) 0) p hix hinv.holds (by omega) (by rw [hi])
        rw [← hca] at a1 a2 htab
        have hperm : (insert_ix s.selected (s.remain.getD (min_element pC) 0)
            ++ s.remain.eraseIdx (min_element pC)).Perm (s.selected ++ s.remain) := by
          refine ((insert_ix_perm _ _).append_right _).trans ?_
          rw [List.append_assoc]
          exact List.Perm.append_left _ (perm_cons_eraseIdx _ _ hm).symm
        refine ⟨⟨insert_ix_sorted _ _ hinv.vectors.sorted hnotin, ?_, ?_⟩, a1, a2⟩
        · exact hperm.nodup_iff.2 hinv.vectors.nodup
        · intro j hj
          simp only
          rw [htab.to_include]
          exact hinv.vectors.bound j (hperm.mem_iff.1 hj)

/-- `select_entry` establishes the selector invariant, from matrices not yet
built or from matrices in step with `selected`. -/
theorem select_entry_inv (nm : Numerics) (ref : Reference) (s s1 : Selection) (b : Bool)
    (hv : SelVectors s)
    (hmat : Fresh s.ca ∨ (Holds nm s.ca ref s.selected ∧ HoldsDiag nm s.ca ref s.selected))
    (h : select_entry nm ref s = .ok (b, s1)) : SelInv nm ref s1 := by
  unfold select_entry at h
  cases hc : massoc_conditional nm s.ca ref s.selected s.remain with
  | error e => rw [hc] at h; cases h
  | ok r =>
    obtain ⟨ca1, out⟩ := r
    rw [hc] at h
    simp only at h
    obtain ⟨a1, a2, a3⟩ := massoc_conditional_inv nm ref s.ca ca1 _ _ out
      (fun j hj => hv.bound j (List.mem_append_left _ hj)) hmat hc
    obtain ⟨_, _, _, _, c5⟩ := massoc_conditional_scalars nm s.ca ca1 ref _ _ out hc
    refine select_entry_loop_inv nm ref out.p.length { s with ca := ca1, out := out } out.p b s1
      rfl c5.symm ⟨⟨hv.sorted, hv.nodup, ?_⟩, a1, a2⟩ h
    intro j hj
    simp only
    rw [a3.to_include]
    exact hv.bound j hj

/-- The loop of `selected_stay` keeps the selector invariant. -/
theorem selected_stay_loop_inv (nm : Numerics) (ref : Reference) :
    ∀ (fuel : Nat) (s s1 : Selection), s.selected.length = fuel → SelInv nm ref s →
      Polymorphic s.ca → selected_stay_loop nm ref fuel s = .ok s1 → SelInv nm ref s1 := by
  intro fuel
  induction fuel with
  | zero =>
    intro s s1 _ hinv _ h
    simp only [selected_stay_loop, Except.ok.injEq] at h
    subst h
    exact hinv
  | succ fuel ih =>
    intro s s1 hl hinv hpoly h
    have hB : 1 ≤ s.ca.B_N.cols := by
      rw [hinv.holds.B_N_cols, hl]
      exact Nat.succ_le_succ (Nat.zero_le _)
    obtain ⟨out, hj, hlen, hp⟩ := selected_stay_pass_built nm ref s hB
    rw [selected_stay_loop_succ, hp] at h
    by_cases hcut : s.ca.a_p_cutoff < out.p.getD (max_element out.p) 0
    · rw [if_pos hcut] at h
      simp only at h
      have hm : max_element out.p < s.selected.length := by
        rw [← hlen]
        exact max_element_lt _ (by intro e; rw [e, hl] at hlen; cases hlen)
      have hlen1 : (s.selected.eraseIdx (max_element out.p)).length = fuel := by
        rw [length_eraseIdx_of_lt _ _ hm, hl]; rfl
      have hix := eraseIdx_insertAt s.selected (max_element out.p) hinv.vectors.sorted hm
      have hn1 : 1 ≤ s.ca.to_include.length := by
        have := hinv.vectors.bound _ (List.mem_append_left _ (getD_mem_of_lt _ _ hm))
        omega
      have ht0 : SameTables s.ca
          { s.ca with jma_snpnum_backward := s.ca.jma_snpnum_backward + 1 } :=
        ⟨rfl, rfl, rfl, rfl, rfl, rfl, rfl, rfl⟩
      have hH0 := holds_congr nm ref s.selected ht0 rfl rfl rfl rfl rfl hinv.holds
      have hD0 := holds_diag_congr nm ref s.selected ht0 rfl rfl hinv.diag
      have htab := (erase_B_and_Z_tables nm
        { s.ca with jma_snpnum_backward := s.ca.jma_snpnum_backward + 1 } s.selected
        (s.selected.getD (max_element out.p) 0))
      have hsub : (s.selected.eraseIdx (max_element out.p) ++ s.remain).Sublist
          (s.selected ++ s.remain) :=
        List.Sublist.append_right (List.eraseIdx_sublist _ _) _
      have hbound : ∀ j ∈ s.selected.eraseIdx (max_element out.p) ++ s.remain,
          j < s.ca.to_include.length := fun j hj => hinv.vectors.bound j (hsub.subset hj)
      refine ih _ s1 hlen1 ⟨⟨eraseIdx_sorted _ _ hinv.vectors.sorted, ?_, ?_⟩, ?_, ?_⟩ ?_ h
      · exact List.Nodup.sublist hsub hinv.vectors.nodup
      · intro j hj
        simp only
        rw [htab.to_include]
        exact hbound j hj
      · exact erase_holds nm _ ref _ s.selected _ _ hix hH0 hn1
      · refine erase_holds_diag nm _ ref _ s.selected _ _ hix hH0 hD0 hn1 ?_
        intro k hk
        exact hpoly _ (hbound _ (List.mem_append_left _ (getD_mem_of_lt _ _ hk)))
      · intro j hj
        simp only at hj ⊢
        rw [htab.to_include] at hj
        rw [htab.msx_b]
        exact hpoly j hj
    · rw [if_neg hcut] at h
      simp only [Except.ok.injEq] at h
      subst h
      exact ⟨⟨hinv.vectors.sorted, hinv.vectors.nodup, hinv.vectors.bound⟩, hinv.holds, hinv.diag⟩

/-- `selected_stay` keeps the selector invariant. -/
theorem selected_stay_inv (nm : Numerics) (ref : Reference) (s s1 : Selection)
    (hinv : SelInv nm ref s) (hpoly : Polymorphic s.ca)
    (h : selected_stay nm ref s = .ok s1) : SelInv nm ref s1 := by
  unfold selected_stay at h
  cases he : ensure_b nm s.ca ref s.selected
      "Stepwise Selection Error: There is a collinearity problem with the given list of SNPs." with
  | error e => rw [he] at h; cases h
  | ok ca1 =>
    rw [he] at h
    simp only at h
    have key : Holds nm ca1 ref s.selected ∧ HoldsDiag nm ca1 ref s.selected ∧
        SameTables s.ca ca1 := by
      unfold ensure_b at he
      by_cases hc : s.ca.B_N.cols < 1
      · rw [if_pos hc] at he
        have hca : ca1 = (init_b nm s.ca ref s.selected).2 := by
          rcases hi : init_b nm s.ca ref s.selected with ⟨b, ca3⟩
          rw [hi] at he
          cases b
          · cases he
          · simp only [Except.ok.injEq] at he
            exact he.symm
        subst hca
        obtain ⟨a1, a2⟩ := init_b_holds nm s.ca ref s.selected hinv.holds
        exact ⟨a1, a2, init_b_tables nm s.ca ref s.selected⟩
      · rw [if_neg hc] at he
        simp only [Except.ok.injEq] at he
        subst he
        exact ⟨hinv.holds, hinv.diag, SameTables.refl _⟩
    obtain ⟨k1, k2, k3⟩ := key
    refine selected_stay_loop_inv nm ref _ { s with ca := ca1 } s1 rfl
      ⟨⟨hinv.vectors.sorted, hinv.vectors.nodup, ?_⟩, k1, k2⟩ ?_ h
    · intro j hj
      simp only
      rw [k3.to_include]
      exact hinv.vectors.bound j hj
    · intro j hj
      simp only at hj ⊢
      rw [k3.to_include] at hj
      rw [k3.msx_b]
      exact hpoly j hj

theorem polymorphic_of_scalars {a b : CondAnalysis} (h : scalars a = scalars b)
    (hp : Polymorphic b) : Polymorphic a := by
  have h1 := congrArg CondAnalysis.to_include h
  have h2 := congrArg CondAnalysis.msx_b h
  have h1' : a.to_include = b.to_include := h1
  have h2' : a.msx_b = b.msx_b := h2
  intro j hj
  rw [h1'] at hj
  rw [h2']
  exact hp j hj

/-- The main loop keeps the selector invariant once it holds. -/
theorem stepwise_loop_inv (nm : Numerics) (ref : Reference) :
    ∀ (fuel : Nat) (s s1 : Selection), SelInv nm ref s → Polymorphic s.ca →
      stepwise_loop nm ref fuel s = .ok s1 → SelInv nm ref s1 := by
  intro fuel
  induction fuel with
  | zero =>
    intro s s1 hinv _ h
    simp only [stepwise_loop, Except.ok.injEq] at h
    subst h
    exact hinv
  | succ fuel ih =>
    intro s s1 hinv hpoly h
    simp only [stepwise_loop] at h
    by_cases hr : s.remain.isEmpty = true
    · rw [if_pos hr] at h
      simp only [Except.ok.injEq] at h
      subst h
      exact hinv
    · rw [if_neg hr] at h
      cases hse : select_entry nm ref s with
      | error e => rw [hse] at h; cases h
      | ok r =>
        obtain ⟨b, s'⟩ := r
        rw [hse] at h
        have hinv' := select_entry_inv nm ref s s' b hinv.vectors
          (Or.inr ⟨hinv.holds, hinv.diag⟩) hse
        have hpoly' := polymorphic_of_scalars (select_entry_spec nm ref s s' b hse).1 hpoly
        cases b
        · simp only [Except.ok.injEq] at h
          subst h
          exact hinv'
        · simp only at h
          cases hst : selected_stay nm ref s' with
          | error e => rw [hst] at h; cases h
          | ok s2 =>
            rw [hst] at h
            simp only at h
            have hinv2 := selected_stay_inv nm ref s' s2 hinv' hpoly' hst
            have hpoly2 := polymorphic_of_scalars (selected_stay_spec nm ref s' s2 hst).1 hpoly'
            by_cases htop : s2.ca.a_top_snp ≤ (s2.selected.length : ℚ)
            · rw [if_pos htop] at h
              simp only [Except.ok.injEq] at h
              subst h
              exact hinv2
            · rw [if_neg htop] at h
              exact ih s2 s1 hinv2 hpoly2 h

/-- The main loop, entered with matrices not yet built and a candidate in
`remain`, leaves the selector invariant. -/
theorem stepwise_loop_fresh (nm : Numerics) (ref : Reference) (fuel : Nat) (s s1 : Selection)
    (hv : SelVectors s) (hf : Fresh s.ca) (hpoly : Polymorphic s.ca)
    (hne : s.remain ≠ []) (h : stepwise_loop nm ref (fuel + 1) s = .ok s1) :
    SelInv nm ref s1 := by
  simp only [stepwise_loop] at h
  have hr : ¬ s.remain.isEmpty = true := fun e => hne (List.isEmpty_iff.1 e)
  rw [if_neg hr] at h
  cases hse : select_entry nm ref s with
  | error e => rw [hse] at h; cases h
  | ok r =>
    obtain ⟨b, s'⟩ := r
    rw [hse] at h
    have hinv' := select_entry_inv nm ref s s' b hv (Or.inl hf) hse
    have hpoly' := polymorphic_of_scalars (select_entry_spec nm ref s s' b hse).1 hpoly
    cases b
    · simp only [Except.ok.injEq] at h
      subst h
      exact hinv'
    · simp only at h
      cases hst : selected_stay nm ref s' with
      | error e => rw [hst] at h; cases h
      | ok s2 =>
        rw [hst] at h
        simp only at h
        have hinv2 := selected_stay_inv nm ref s' s2 hinv' hpoly' hst
        have hpoly2 := polymorphic_of_scalars (selected_stay_spec nm ref s' s2 hst).1 hpoly'
        by_cases htop : s2.ca.a_top_snp ≤ (s2.selected.length : ℚ)
        · rw [if_pos htop] at h
          simp only [Except.ok.injEq] at h
          subst h
          exact hinv2
        · rw [if_neg htop] at h
          exact stepwise_loop_inv nm ref fuel s2 s1 hinv2 hpoly2 h

/-! ## C22: backward elimination to a fixed point -/

/-- C22: `selected_stay(S)` is backward elimination to a fixed point.  The call
always ends: with its collinearity error exactly when the matrices are not built
and `init_b(S)` fails (`init_b` of an empty `S` counts as failing: the source
does not get past `minCoeff` of an empty vector), and otherwise by returning
after `k` erasing passes of the source loop (`StayRuns`).  Each erasing pass
takes out the SNP at the position `m` of the first largest joint p-value
`pJ[m]`, which exceeds `p_cutoff`, and adds one to `jma_snpnum_backward`.  On
return the selection is empty or every joint p-value `massoc_joint` gives for
the returned selection in the returned state is at most `p_cutoff`; the
returned selection is a sublist of the input with `k` SNPs fewer,
`jma_snpnum_backward` has grown by exactly `k`, and `remain` is untouched.
These p-values are the joint p-values of the returned set: with `Z_N` built, as
in every call `stepwise_select` makes with two or more SNPs selected, each
erasure recomputes the inverses `B_i`, `B_N_i` from the shrunk matrices, and
the selector invariant (the state holds `D_N`, `B`, `B_N`, `Z`, `Z_N` of
`selected`) passes from the input to the returned state. -/
theorem selected_stay_fixed_point (nm : Numerics) (ref : Reference) (s : Selection) :
    (∀ t u, selected_stay_pass nm ref t = .ok (true, u) →
      ∃ ca1 out, massoc_joint nm t.ca ref t.selected = .ok (ca1, out) ∧
        ca1.a_p_cutoff < out.p.getD (max_element out.p) 0 ∧
        (∀ i, i < out.p.length → out.p.getD i 0 ≤ out.p.getD (max_element out.p) 0) ∧
        u.selected = t.selected.eraseIdx (max_element out.p) ∧
        u.ca.jma_snpnum_backward = t.ca.jma_snpnum_backward + 1) ∧
    ((selected_stay nm ref s = .error
          "Stepwise Selection Error: There is a collinearity problem with the given list of SNPs." ∧
        s.ca.B_N.cols < 1 ∧ (init_b nm s.ca ref s.selected).1 = false) ∨
      ∃ ca0 k s1,
        ensure_b nm s.ca ref s.selected
          "Stepwise Selection Error: There is a collinearity problem with the given list of SNPs."
          = .ok ca0 ∧
        StayRuns nm ref k { s with ca := ca0 } (.ok s1) ∧
        selected_stay nm ref s = .ok s1 ∧
        (s1.selected = [] ∨
          (massoc_joint nm s1.ca ref s1.selected = .ok (s1.ca, s1.out) ∧
            s1.out.p.length = s1.selected.length ∧
            ∀ i, i < s1.selected.length → s1.out.p.getD i 0 ≤ s1.ca.a_p_cutoff)) ∧
        s1.selected.Sublist s.selected ∧
        s1.selected.length + k = s.selected.length ∧
        s1.ca.jma_snpnum_backward = s.ca.jma_snpnum_backward + k ∧
        s1.remain = s.remain ∧
        (1 ≤ s.ca.Z_N.cols → 1 ≤ s.ca.to_include.length → 0 < k →
          s1.ca.B_i = nm.ldlt_solve s1.ca.B.toDense ∧
          s1.ca.B_N_i = nm.ldlt_solve s1.ca.B_N.toDense) ∧
        (SelInv nm ref s → Polymorphic s.ca → SelInv nm ref s1)) := by
  constructor
  · intro t u h
    unfold selected_stay_pass at h
    cases hj : massoc_joint nm t.ca ref t.selected with
    | error e => rw [hj] at h; cases h
    | ok r =>
      obtain ⟨ca1, out⟩ := r
      rw [hj] at h
      simp only at h
      by_cases hcut : ca1.a_p_cutoff < out.p.getD (max_element out.p) 0
      · rw [if_pos hcut] at h
        simp only [Except.ok.injEq, Prod.mk.injEq, true_and] at h
        subst h
        refine ⟨ca1, out, rfl, hcut, max_element_ge out.p, rfl, ?_⟩
        simp only
        rw [(erase_B_and_Z_scalars nm _ _ _).2]
        simp only
        rw [(massoc_joint_scalars nm _ _ ref _ _ hj).2.1]
      · rw [if_neg hcut] at h
        simp only [Except.ok.injEq, Prod.mk.injEq, Bool.false_eq_true, false_and] at h
  · cases he : ensure_b nm s.ca ref s.selected
        "Stepwise Selection Error: There is a collinearity problem with the given list of SNPs." with
    | error e =>
      left
      obtain ⟨e1, e2, e3⟩ := ensure_b_error nm s.ca ref _ _ e he
      subst e1
      refine ⟨?_, e2, e3⟩
      unfold selected_stay
      rw [he]
    | ok ca0 =>
      right
      obtain ⟨k, s1, r1, r2, r3, r4, r5, r6, r7, _, r9⟩ :=
        selected_stay_loop_runs nm ref s.selected.length { s with ca := ca0 } rfl
          (fun hne => ensure_b_cols nm s.ca ca0 ref _ _ he hne)
      have hst : selected_stay nm ref s = .ok s1 := by
        unfold selected_stay
        rw [he]
        exact r2
      refine ⟨ca0, k, s1, rfl, r1, hst, r3, r4, r5, ?_, r7, ?_,
        fun hinv hpoly => selected_stay_inv nm ref s s1 hinv hpoly hst⟩
      · rw [r6]
        simp only
        rw [(ensure_b_scalars nm s.ca ca0 ref _ _ he).2]
      · intro hz hn hk
        refine r9 ?_ ?_ hk
        · simp only
          rw [ensure_b_Z_N nm s.ca ca0 ref _ _ he]
          exact hz
        · simp only
          rw [(scalars_fields (ensure_b_scalars nm s.ca ca0 ref _ _ he).1).1]
          exact hn

/-- Instance of `selected_stay_fixed_point` at `exThree`, the state of the second
`selected_stay` call of `stepwise_select` on `exPhenoE` with `p_cutoff = 0.01`
(`selected = [1, 2, 3]`, all matrices built).  One erasing pass takes out
`rs2`, whose joint p-value exceeds `0.01` once `rs3` and `rs4` are in (its
`chisq` is about `3.07`, p-value about `0.08`), and the call returns
`selected = [2, 3]` with `jma_snpnum_backward = 1`, both joint p-values within
the cutoff and the inverses recomputed. -/
theorem selected_stay_fixed_point_witness :
    (exThree.selected, exThree.remain, exThree.ca.B_N.cols, exThree.ca.Z_N.cols,
      exThree.ca.jma_snpnum_backward) = ([1, 2, 3], [0], 3, 4, 0) ∧
    ∃ ca0 s1,
      ensure_b exactNumerics exThree.ca exRef exThree.selected
        "Stepwise Selection Error: There is a collinearity problem with the given list of SNPs."
        = .ok ca0 ∧
      StayRuns exactNumerics exRef 1 { exThree with ca := ca0 } (.ok s1) ∧
      selected_stay exactNumerics exRef exThree = .ok s1 ∧
      s1.selected = [2, 3] ∧ s1.remain = [0] ∧ s1.ca.jma_snpnum_backward = 1 ∧
      (∀ i, i < 2 → s1.out.p.getD i 0 ≤ 1 / 100) ∧
      s1.ca.B_N_i = exactNumerics.ldlt_solve s1.ca.B_N.toDense := by
  refine ⟨by decide!, ?_⟩
  have hev : ((selected_stay exactNumerics exRef exThree).toOption.map fun s1 =>
      (s1.selected, s1.ca.a_p_cutoff)) = some ([2, 3], 1 / 100) := by decide!
  rcases (selected_stay_fixed_point exactNumerics exRef exThree).2 with h | h
  · exact absurd h.2.1 (by decide!)
  · obtain ⟨ca0, k, s1, h1, h2, h3, h4, h5, h6, h7, h8, h9, _⟩ := h
    rw [h3] at hev
    simp only [Except.toOption, Option.map_some', Option.some.injEq, Prod.mk.injEq] at hev
    obtain ⟨hsel, hcut⟩ := hev
    have hk : k = 1 := by
      have e1 : exThree.selected.length = 3 := by decide!
      rw [hsel, e1] at h6
      simp only [List.length_cons, List.length_nil] at h6
      omega
    subst hk
    have hb : exThree.ca.jma_snpnum_backward = 0 := by decide!
    have hr : exThree.remain = [0] := by decide!
    refine ⟨ca0, s1, h1, h2, h3, hsel, h8.trans hr, by rw [h7, hb], ?_,
      (h9 (by decide!) (by decide!) (by decide)).2⟩
    rcases h4 with h4 | h4
    · rw [hsel] at h4; cases h4
    · intro i hi
      have := h4.2.2 i (by rw [hsel]; exact hi)
      rw [hcut] at this
      exact this

/-! ## C25: the selector invariant -/

/-- C25 (as stated, refuted): for the single harmonised SNP of `exPheno1`
(`n = 1`, `p_cutoff = 0.02`) the main loop of `stepwise_select` is not entered
and the backward pass `selected_stay` is the only call.  After it
`selected = [0]`, `B` and `B_N` are `1 × 1` and `D_N` has one entry, but `Z` and
`Z_N`, which only `massoc_conditional` builds, are still `0 × 0`, not `1 × 1`. -/
theorem selector_invariant_counterexample :
    ((stepwise_select exactNumerics exRef
        (selection0 (exCaWith exPheno1 (1 / 50) (10 ^ 10)))).toOption.map fun s =>
        (s.selected, s.remain, s.ca.to_include.length,
          [s.ca.B.rows, s.ca.B.cols, s.ca.B_N.rows, s.ca.B_N.cols, s.ca.D_N.size],
          [s.ca.Z.rows, s.ca.Z.cols, s.ca.Z_N.rows, s.ca.Z_N.cols]))
      = some ([0], [], 1, [1, 1, 1, 1, 1], [0, 0, 0, 0]) := by
  decide!

/-- C25 (amended): on harmonised SNPs that all vary in the reference sample,
`select_entry`, called with vectors as in `SelVectors` and matrices either not
yet built or in step with `selected`, returns in a state satisfying the
selector invariant `SelInv`; `selected_stay` keeps `SelInv`; and
`stepwise_select`, started with empty vectors and matrices not yet built on at
least two SNPs of which the top one clears `p_cutoff`, enters its main loop with
vectors as in `SelVectors` and returns in a state satisfying `SelInv`: `selected` strictly ascending, `selected` and `remain`
without common or repeated SNP and inside `[0, n)`, `B` and `B_N` of size
`|selected| × |selected|`, `D_N` of length `|selected|`, `Z` and `Z_N` of size
`|selected| × n`, and every entry that of the SNPs of `selected` in order. -/
theorem selector_invariant (nm : Numerics) (ref : Reference) :
    (∀ s b s1, SelVectors s →
      (Fresh s.ca ∨ (Holds nm s.ca ref s.selected ∧ HoldsDiag nm s.ca ref s.selected)) →
      select_entry nm ref s = .ok (b, s1) → SelInv nm ref s1) ∧
    (∀ s s1, SelInv nm ref s → Polymorphic s.ca →
      selected_stay nm ref s = .ok s1 → SelInv nm ref s1) ∧
    (∀ s s1, s.selected = [] → s.remain = [] → Fresh s.ca → Polymorphic s.ca →
      s.ca.ja_chisq.length = s.ca.to_include.length → 2 ≤ s.ca.to_include.length →
      s.ca.ja_pval.getD (max_element s.ca.ja_chisq) 0 < s.ca.a_p_cutoff →
      stepwise_select nm ref s = .ok s1 →
      SelVectors
        { s with
          selected := [max_element s.ca.ja_chisq]
          remain := (List.range s.ca.to_include.length).filter fun i =>
            i != max_element s.ca.ja_chisq } ∧
      SelInv nm ref s1) := by
  refine ⟨fun s b s1 hv hmat h => select_entry_inv nm ref s s1 b hv hmat h,
    fun s s1 hinv hpoly h => selected_stay_inv nm ref s s1 hinv hpoly h, ?_⟩
  intro s s1 hs hr hf hpoly hlen hn hcut h
  unfold stepwise_select at h
  simp only at h
  rw [if_neg (not_le.2 hcut), hs, hr] at h
  simp only [List.nil_append] at h
  have hne0 : s.ca.ja_chisq ≠ [] := by
    intro e
    rw [e] at hlen
    simp only [List.length_nil] at hlen
    omega
  have hm : max_element s.ca.ja_chisq < s.ca.to_include.length := by
    rw [← hlen]
    exact max_element_lt _ hne0
  have hflen := length_filter_ne_range _ _ hm
  have hv : SelVectors
      { s with
        selected := [max_element s.ca.ja_chisq]
        remain := (List.range s.ca.to_include.length).filter fun i =>
          i != max_element s.ca.ja_chisq } := by
    refine ⟨List.sorted_singleton _, ?_, ?_⟩
    · simp only [List.singleton_append, List.nodup_cons, List.mem_filter, List.mem_range,
        bne_self_eq_false, Bool.false_eq_true, and_false, not_false_eq_true, true_and]
      exact List.Nodup.filter _ (List.nodup_range _)
    · intro j hj
      simp only [List.singleton_append, List.mem_cons, List.mem_filter, List.mem_range] at hj
      rcases hj with hj | hj
      · rw [hj]; exact hm
      · exact hj.1
  have hrne : ((List.range s.ca.to_include.length).filter fun i =>
      i != max_element s.ca.ja_chisq) ≠ [] := by
    intro e
    rw [e] at hflen
    simp only [List.length_nil] at hflen
    omega
  have hfuel : ((List.range s.ca.to_include.length).filter fun i =>
      i != max_element s.ca.ja_chisq).length
        = (s.ca.to_include.length - 2) + 1 := by
    rw [hflen]; omega
  rw [hfuel] at h
  cases hl : stepwise_loop nm ref (s.ca.to_include.length - 2 + 1)
      { s with
        selected := [max_element s.ca.ja_chisq]
        remain := (List.range s.ca.to_include.length).filter fun i =>
          i != max_element s.ca.ja_chisq } with
  | error e => rw [hl] at h; cases h
  | ok s2 =>
    rw [hl] at h
    simp only at h
    have hinv2 := stepwise_loop_fresh nm ref _ _ s2 hv hf hpoly hrne hl
    have hpoly2 : Polymorphic s2.ca :=
      polymorphic_of_scalars (stepwise_loop_spec nm ref _ _ s2 hl).1 hpoly
    refine ⟨hv, ?_⟩
    by_cases hlax : 1 / 1000 < s2.ca.a_p_cutoff
    · rw [if_pos hlax] at h
      exact selected_stay_inv nm ref s2 s1 hinv2 hpoly2 h
    · rw [if_neg hlax] at h
      simp only [Except.ok.injEq] at h
      subst h
      exact hinv2

/-- Instance of `selector_invariant` on the four harmonised SNPs of `exPhenoL`
with `p_cutoff = 0.01`: `stepwise_select` returns `selected = [2, 3]`,
`remain = [1]` in a state satisfying the selector invariant. -/
theorem selector_invariant_witness :
    ∃ s1, stepwise_select exactNumerics exRef
        (selection0 (exCaWith exPhenoL (1 / 100) (10 ^ 10))) = .ok s1 ∧
      s1.selected = [2, 3] ∧ s1.remain = [1] ∧ SelInv exactNumerics exRef s1 := by
  have hev : ((stepwise_select exactNumerics exRef
      (selection0 (exCaWith exPhenoL (1 / 100) (10 ^ 10)))).toOption.map fun s =>
      (s.selected, s.remain)) = some ([2, 3], [1]) := by decide!
  cases h : stepwise_select exactNumerics exRef
      (selection0 (exCaWith exPhenoL (1 / 100) (10 ^ 10))) with
  | error e =>
    rw [h] at hev
    cases hev
  | ok s1 =>
    rw [h] at hev
    simp only [Except.toOption, Option.map_some', Option.some.injEq, Prod.mk.injEq] at hev
    refine ⟨s1, rfl, hev.1, hev.2, ?_⟩
    exact ((selector_invariant exactNumerics exRef).2.2
      (selection0 (exCaWith exPhenoL (1 / 100) (10 ^ 10))) s1 rfl rfl
      ⟨by decide!, by decide!⟩ (by unfold Polymorphic; decide!) (by decide!) (by decide!)
      (by decide!) h).2

end PWCoCo
